import Mathlib

/-!
# CMU-15445 storage core: buffer pool, extendible hash table, LRU replacer

A shallow embedding of `src/project1` and theorems about it.

Conventions of the embedding
* A `shared_ptr<Bucket>` / `Page *` is an address: a natural-number index into the
  list of allocated objects (`heap` for buckets, `pages` for frames).  Pointer
  equality is equality of addresses, `nullptr` is `none`.
* `std::map<K, V>` is an association list holding each key at most once; only
  `find`, `operator[]`, `erase` and `size` are used by the code.
* `int` keys are `Int`s in the 32-bit range (`isInt32`); `size_t` values are `Nat`s.
  `std::hash<int>` is the identity, i.e. the conversion `int -> size_t`.
* The depth arithmetic `1 << depth` is written `1 <<< depth` on `Nat`; it is exact
  for depths below 31, and a directory of that depth would hold `2^31` references.
* Mutexes are not modelled: every operation runs atomically.
* A failing `assert` ends the call with `Outcome.fault`; the `while (true)` loop of
  the hash table insert runs on fuel, and the theorems show how much suffices.
* The constants of `common/config.h` are parameters (`Config`); the disk
  manager and the `Page` class, which are not among the sources, are modelled
  from the specification.
-/

namespace cmudb

/-! ## Extendible hash table (`src/project1/extendible_hash.h`, `.cpp`) -/

/-- The keys of template instance `K = int`: the 32-bit two's complement range. -/
def isInt32 (k : Int) : Prop := -2147483648 ≤ k ∧ k < 2147483648

instance (k : Int) : Decidable (isInt32 k) := by unfold isInt32; infer_instance

/-- Struct `Bucket`: a local depth and the ordered map of entries. -/
structure Bucket (V : Type) where
  localDepth : Nat
  kmap : List (Int × V)
deriving DecidableEq, Repr

/-- Class `ExtendibleHash<int, V>`.  `buckets` is the directory
`vector<shared_ptr<Bucket>>`; `heap` holds the bucket objects the
shared pointers refer to. -/
structure ExtendibleHash (V : Type) where
  globalDepth : Nat
  bucketSize : Nat
  bucketNum : Nat
  buckets : List Nat
  heap : List (Bucket V)
deriving DecidableEq, Repr

section BucketMap
variable {V : Type}

/-- Lookup `kmap.find(key)`: the value stored under `key`, if any. -/
def kmapFind : List (Int × V) → Int → Option V
  | [], _ => none
  | e :: m, key => if e.1 = key then some e.2 else kmapFind m key

/-- Assignment `kmap[key] = value`: overwrite the entry of `key` or add one. -/
def kmapSet : List (Int × V) → Int → V → List (Int × V)
  | [], key, value => [(key, value)]
  | e :: m, key, value =>
    if e.1 = key then (key, value) :: m else e :: kmapSet m key value

/-- Removal `kmap.erase(key)`. -/
def kmapErase (m : List (Int × V)) (key : Int) : List (Int × V) :=
  m.filter (fun e => decide (e.1 ≠ key))

end BucketMap

namespace ExtendibleHash
variable {V : Type}

/-- The bucket object at an address (an empty bucket for a dangling address). -/
def bucketOf (t : ExtendibleHash V) (a : Nat) : Bucket V :=
  t.heap.getD a ⟨0, []⟩

/-- Directory slot `buckets[i]`. -/
def dirAt (t : ExtendibleHash V) (i : Nat) : Nat := t.buckets.getD i 0

/-- Store a new entry map in the bucket object at address `cur` (the effect of a
write through `cur->kmap`). -/
def setKmap (t : ExtendibleHash V) (cur : Nat) (m : List (Int × V)) : ExtendibleHash V :=
  { t with heap := t.heap.set cur ⟨(bucketOf t cur).localDepth, m⟩ }

/-- Constructor `ExtendibleHash(size_t size)`. -/
def mk_sized (size : Nat) : ExtendibleHash V :=
  { globalDepth := 0, bucketSize := size, bucketNum := 1, buckets := [0], heap := [⟨0, []⟩] }

/-- Method `HashKey`: `std::hash<int>` converts the key to `size_t`. -/
def HashKey (key : Int) : Nat := (key % 18446744073709551616).toNat

/-- Method `getIdx`: `HashKey(key) & ((1 << globalDepth) - 1)`.  The source
computes the mask in 32-bit `int` and returns an `int`; the mask is taken here on
the naturals, which is the same value as long as `globalDepth` is at most 30
(from 31 on `(1 << globalDepth) - 1` overflows `int`, and at 32 the shift count
is the width of the type).  Statements about the code stay within depth 30. -/
def getIdx (t : ExtendibleHash V) (key : Int) : Nat :=
  HashKey key &&& ((1 <<< t.globalDepth) - 1)

/-- Method `GetGlobalDepth`. -/
def GetGlobalDepth (t : ExtendibleHash V) : Nat := t.globalDepth

/-- Method `GetNumBuckets`. -/
def GetNumBuckets (t : ExtendibleHash V) : Nat := t.bucketNum

/-- Method `GetLocalDepth`: `-1` for an empty bucket, else its local depth. -/
def GetLocalDepth (t : ExtendibleHash V) (bucket_id : Nat) : Int :=
  let b := bucketOf t (dirAt t bucket_id)
  if b.kmap.length = 0 then -1 else (b.localDepth : Int)

/-- Method `Find`: `some value` when it returns true (and assigns `value`),
`none` when it returns false (and leaves `value` alone). -/
def Find (t : ExtendibleHash V) (key : Int) : Option V :=
  let idx := getIdx t key
  kmapFind (bucketOf t (dirAt t idx)).kmap key

/-- Method `Remove`: the table afterwards and the returned flag. -/
def Remove (t : ExtendibleHash V) (key : Int) : ExtendibleHash V × Bool :=
  let idx := getIdx t key
  let cur := dirAt t idx
  let b := bucketOf t cur
  if (kmapFind b.kmap key).isNone then (t, false)
  else (setKmap t cur (kmapErase b.kmap key), true)

/-- The part of the body of the `while (true)` loop of `Insert` that runs when the
bucket `cur` is full and does not hold the key: bump the local depth, double
the directory if needed, allocate `newBuc`, move the entries whose hash has the
`mask` bit set, and redirect the directory slots.  `int mask = 1 << localDepth`
is taken on the naturals, which is the value of the source as long as the local
depth before the split is at most 30; the directory is a list, without the
limit that memory sets to a vector of `2^globalDepth` shared pointers. -/
def splitBucket (t : ExtendibleHash V) (cur : Nat) : ExtendibleHash V :=
  let b := bucketOf t cur
  let mask := 1 <<< b.localDepth
  let localDepth := b.localDepth + 1
  let grow := decide (localDepth > t.globalDepth)
  let buckets := if grow then t.buckets ++ t.buckets else t.buckets
  let globalDepth := if grow then t.globalDepth + 1 else t.globalDepth
  let newBuc := t.heap.length
  let moved := b.kmap.filter (fun e => decide (HashKey e.1 &&& mask ≠ 0))
  let kept := b.kmap.filter (fun e => !decide (HashKey e.1 &&& mask ≠ 0))
  let heap := t.heap.set cur ⟨localDepth, kept⟩ ++ [⟨localDepth, moved⟩]
  let buckets := buckets.mapIdx
    (fun i a => if a = cur ∧ i &&& mask ≠ 0 then newBuc else a)
  { t with globalDepth := globalDepth, bucketNum := t.bucketNum + 1,
           buckets := buckets, heap := heap }

/-- The `while (true)` loop of `Insert`, started at bucket `cur`; `none` when
`fuel` iterations did not reach the `break`. -/
def InsertLoop (key : Int) (value : V) : Nat → ExtendibleHash V → Nat → Option (ExtendibleHash V)
  | 0, _, _ => none
  | fuel + 1, t, cur =>
    let b := bucketOf t cur
    if (kmapFind b.kmap key).isSome ∨ b.kmap.length < t.bucketSize then
      some (setKmap t cur (kmapSet b.kmap key value))
    else
      let t1 := splitBucket t cur
      let idx := getIdx t1 key
      InsertLoop key value fuel t1 (dirAt t1 idx)

/-- Method `Insert`, with a bound on the number of loop iterations. -/
def Insert (fuel : Nat) (t : ExtendibleHash V) (key : Int) (value : V) :
    Option (ExtendibleHash V) :=
  let idx := getIdx t key
  InsertLoop key value fuel t (dirAt t idx)

/-- Well-formedness of a table: the directory has `2^globalDepth` slots, each
naming an allocated bucket of local depth at most the global depth; slots that
share a bucket agree on the low `localDepth` bits, and so do the hashes of the
keys stored in the bucket. -/
structure HInv (t : ExtendibleHash V) : Prop where
  len : t.buckets.length = 2 ^ t.globalDepth
  valid : ∀ i, i < t.buckets.length → dirAt t i < t.heap.length
  depth : ∀ i, i < t.buckets.length → (bucketOf t (dirAt t i)).localDepth ≤ t.globalDepth
  share : ∀ i j, i < t.buckets.length → j < t.buckets.length → dirAt t i = dirAt t j →
    i % 2 ^ (bucketOf t (dirAt t i)).localDepth = j % 2 ^ (bucketOf t (dirAt t i)).localDepth
  keys : ∀ i, i < t.buckets.length → ∀ e ∈ (bucketOf t (dirAt t i)).kmap,
    HashKey e.1 % 2 ^ (bucketOf t (dirAt t i)).localDepth
      = i % 2 ^ (bucketOf t (dirAt t i)).localDepth ∧ isInt32 e.1

/-- Tables reachable from the sized constructor by `Insert` and `Remove` calls
with `int` keys. -/
inductive HReachable (size : Nat) : ExtendibleHash V → Prop where
  | init : HReachable size (mk_sized size)
  | insert {t t1 : ExtendibleHash V} (fuel : Nat) (key : Int) (value : V) :
      HReachable size t → isInt32 key → Insert fuel t key value = some t1 → HReachable size t1
  | remove {t : ExtendibleHash V} (key : Int) :
      HReachable size t → isInt32 key → HReachable size (Remove t key).1

end ExtendibleHash

/-- The size-2 table after `Insert(6, 1)` and `Insert(10, 2)`: one full bucket of
local depth 0. -/
def table_6_10 : ExtendibleHash Nat := ⟨0, 2, 1, [0], [⟨0, [(6, 1), (10, 2)]⟩]⟩

/-! ## LRU replacer (`src/project1/lru_replacer.h`, `.cpp`) -/

/-- Class `LRUReplacer<T>`: the values of the doubly linked list between the
`head` and `tail` sentinels, in list order (`head->next` first).  The
`unordered_map` holds one node per value, so a value occurs at most once. -/
abbrev LRUReplacer (T : Type) := List T

namespace LRUReplacer
variable {T : Type} [DecidableEq T]

/-- Method `Insert`: unlink the node of `value` if there is one, then link a node
for `value` right after `head`. -/
def Insert (r : LRUReplacer T) (value : T) : LRUReplacer T :=
  value :: r.filter (fun x => decide (x ≠ value))

/-- Method `Victim`: `none` (returns false) on an empty replacer, otherwise unlink
the node before `tail` and output its value. -/
def Victim (r : LRUReplacer T) : LRUReplacer T × Option T :=
  match r.getLast? with
  | none => (r, none)
  | some last => (r.dropLast, some last)

/-- Method `Erase`: unlink the node of `value` if there is one; returns
`map.erase(value)`, i.e. whether it was a member. -/
def Erase (r : LRUReplacer T) (value : T) : LRUReplacer T × Bool :=
  (r.filter (fun x => decide (x ≠ value)), decide (value ∈ r))

/-- Method `Size`. -/
def Size (r : LRUReplacer T) : Nat := r.length

end LRUReplacer

/-! ## Buffer pool manager (`src/project1/buffer_pool_manager.cpp`) -/

/-- Constants of `common/config.h`, which is not part of the sources at hand:
they are parameters of the model. -/
structure Config where
  PAGE_SIZE : Nat
  BUCKET_SIZE : Nat
  INVALID_PAGE_ID : Int
  INVALID_LSN : Int
deriving DecidableEq, Repr

/-- Modelled from the spec: class `Page` (`page/page.h` is absent), a frame: "a
fixed-size buffer holding one page's bytes, with metadata: resident page
identifier, pin count, dirty flag".  Pin counts are mathematical integers. -/
structure Page where
  data : List Nat
  page_id : Int
  pin_count : Int
  is_dirty : Bool
deriving DecidableEq, Repr

namespace Page

/-- Modelled from the spec: `Page::ResetMemory` zeroes the buffer. -/
def ResetMemory (cfg : Config) (p : Page) : Page :=
  { p with data := List.replicate cfg.PAGE_SIZE 0 }

/-- Modelled from the spec: a freshly constructed frame. -/
def fresh (cfg : Config) : Page :=
  { data := List.replicate cfg.PAGE_SIZE 0, page_id := cfg.INVALID_PAGE_ID, pin_count := 0,
    is_dirty := false }

/-- Modelled from the spec: `Page::GetLSN`, the last-LSN of a logged page, the
little-endian 32-bit integer at byte offset 4 (`last_lsn@4`). -/
def GetLSN (p : Page) : Int :=
  let u : Nat := p.data.getD 4 0 + 256 * p.data.getD 5 0 + 65536 * p.data.getD 6 0
    + 16777216 * p.data.getD 7 0
  if u < 2147483648 then (u : Int) else (u : Int) - 4294967296

end Page

/-- A call made to the disk manager. -/
inductive DiskCall where
  | ReadPage (page_id : Int)
  | WritePage (page_id : Int) (data : List Nat) (lsn_on_disk : Option Int)
  | AllocatePage (page_id : Int)
  | DeallocatePage (page_id : Int)
deriving DecidableEq, Repr

/-- Modelled from the spec: the disk manager, an external collaborator
(`ReadPage`, `WritePage`, `AllocatePage`, `DeallocatePage`).  `pages` is the page
file (the bytes last written under each page id), `calls` the calls made so
far, oldest first. -/
structure DiskManager where
  pages : List (Int × List Nat)
  next_page_id : Int
  calls : List DiskCall
deriving DecidableEq, Repr

namespace DiskManager

/-- Modelled from the spec: `WritePage(pid, buf)` stores the bytes under `pid`.
The call record also notes the log manager's persistent LSN at that moment
(`none` without a log manager). -/
def WritePage (d : DiskManager) (page_id : Int) (data : List Nat)
    (lsn_on_disk : Option Int) :
    DiskManager :=
  { d with pages := kmapSet d.pages page_id data,
           calls := d.calls ++ [DiskCall.WritePage page_id data lsn_on_disk] }

/-- Modelled from the spec: `ReadPage(pid, &buf)` yields the bytes last written
under `pid` (a zero page when nothing was written). -/
def ReadPage (cfg : Config) (d : DiskManager) (page_id : Int) : DiskManager × List Nat :=
  ({ d with calls := d.calls ++ [DiskCall.ReadPage page_id] },
   (kmapFind d.pages page_id).getD (List.replicate cfg.PAGE_SIZE 0))

/-- Modelled from the spec: `AllocatePage() -> pid` hands out the next page id
(a 32-bit counter). -/
def AllocatePage (d : DiskManager) : DiskManager × Int :=
  ({ d with next_page_id := (d.next_page_id + 1 + 2147483648) % 4294967296 - 2147483648,
            calls := d.calls ++ [DiskCall.AllocatePage d.next_page_id] },
   d.next_page_id)

/-- Modelled from the spec: `DeallocatePage(pid)`. -/
def DeallocatePage (d : DiskManager) (page_id : Int) : DiskManager :=
  { d with calls := d.calls ++ [DiskCall.DeallocatePage page_id] }

end DiskManager

/-- Class `LogManager` (`src/project4/log_manager.h`): the data members the
buffer pool could consult. -/
structure LogManager where
  logBufferOffset : Int
  flushBufferSize : Int
  needFlush : Bool
  lastLsn : Int
  next_lsn : Int
  persistent_lsn : Int
  log_buffer : List Nat
  flush_buffer : List Nat
deriving DecidableEq, Repr

namespace LogManager

/-- Constructor `LogManager(DiskManager *)`. -/
def new (cfg : Config) : LogManager :=
  { logBufferOffset := 0, flushBufferSize := 0, needFlush := false,
    lastLsn := cfg.INVALID_LSN, next_lsn := 0, persistent_lsn := cfg.INVALID_LSN,
    log_buffer := [], flush_buffer := [] }

/-- Method `GetPersistentLSN`. -/
def GetPersistentLSN (l : LogManager) : Int := l.persistent_lsn

end LogManager

/-- How a call ends when it does not return. -/
inductive Fault where
  | assert_failed
  | null_deref
  | out_of_fuel
deriving DecidableEq, Repr

/-- Result of a call that may abort on an `assert` or run out of loop fuel. -/
inductive Outcome (α : Type) where
  | ok (a : α)
  | fault (f : Fault)
deriving DecidableEq, Repr

/-- Class `BufferPoolManager`.  A `Page *` is the index of the frame in `pages`.
The disk manager and the log manager are held by pointer in the source; the
model keeps their state here (`log_manager = none` is the null pointer). -/
structure BufferPoolManager where
  pool_size : Nat
  pages : List Page
  page_table : ExtendibleHash Nat
  replacer : LRUReplacer Nat
  free_list : List Nat
  disk_manager : DiskManager
  log_manager : Option LogManager
deriving DecidableEq, Repr

namespace BufferPoolManager

/-- Constructor: every frame is fresh and on the free list. -/
def new (cfg : Config) (pool_size : Nat) (disk_manager : DiskManager)
    (log_manager : Option LogManager) : BufferPoolManager :=
  { pool_size := pool_size,
    pages := List.replicate pool_size (Page.fresh cfg),
    page_table := ExtendibleHash.mk_sized cfg.BUCKET_SIZE,
    replacer := [],
    free_list := List.range pool_size,
    disk_manager := disk_manager,
    log_manager := log_manager }

/-- The frame a `Page *` points to (an empty frame for a dangling pointer). -/
def pageAt (s : BufferPoolManager) (tar : Nat) : Page :=
  s.pages.getD tar ⟨[], 0, 0, false⟩

/-- A write through a `Page *`. -/
def setPage (s : BufferPoolManager) (tar : Nat) (p : Page) : BufferPoolManager :=
  { s with pages := s.pages.set tar p }

/-- The persistent LSN the log manager reports, if there is a log manager. -/
def persistentLSN (s : BufferPoolManager) : Option Int :=
  s.log_manager.map LogManager.GetPersistentLSN

/-- The call `disk_manager_->WritePage(page_id, data)`. -/
def diskWrite (s : BufferPoolManager) (page_id : Int) (data : List Nat) : BufferPoolManager :=
  { s with disk_manager := s.disk_manager.WritePage page_id data (persistentLSN s) }

/-- The statement `if (tar->is_dirty_) disk_manager_->WritePage(tar->GetPageId(),
tar->data_)` of `FetchPage` and `NewPage`. -/
def writeBack (s : BufferPoolManager) (tar : Nat) : BufferPoolManager :=
  if (pageAt s tar).is_dirty then diskWrite s (pageAt s tar).page_id (pageAt s tar).data
  else s

/-- Method `GetVictimPage`. -/
def GetVictimPage (cfg : Config) (s : BufferPoolManager) :
    Outcome (BufferPoolManager × Option Nat) :=
  match s.free_list with
  | [] =>
    if LRUReplacer.Size s.replacer = 0 then Outcome.ok (s, none)
    else
      match LRUReplacer.Victim s.replacer with
      | (_, none) => Outcome.fault Fault.null_deref
      | (r, some tar) =>
        if (pageAt s tar).pin_count = 0 then Outcome.ok ({ s with replacer := r }, some tar)
        else Outcome.fault Fault.assert_failed
  | tar :: rest =>
    if (pageAt s tar).page_id = cfg.INVALID_PAGE_ID then
      if (pageAt s tar).pin_count = 0 then Outcome.ok ({ s with free_list := rest }, some tar)
      else Outcome.fault Fault.assert_failed
    else Outcome.fault Fault.assert_failed

/-- Method `FetchPage`: the pool afterwards and the returned `Page *`. -/
def FetchPage (cfg : Config) (fuel : Nat) (s : BufferPoolManager) (page_id : Int) :
    Outcome (BufferPoolManager × Option Nat) :=
  match s.page_table.Find page_id with
  | some tar =>
    let s1 := setPage s tar { pageAt s tar with pin_count := (pageAt s tar).pin_count + 1 }
    Outcome.ok ({ s1 with replacer := (LRUReplacer.Erase s1.replacer tar).1 }, some tar)
  | none =>
    match GetVictimPage cfg s with
    | Outcome.fault f => Outcome.fault f
    | Outcome.ok (s1, none) => Outcome.ok (s1, none)
    | Outcome.ok (s1, some tar) =>
      let s2 := writeBack s1 tar
      let pt := (s2.page_table.Remove (pageAt s2 tar).page_id).1
      match pt.Insert fuel page_id tar with
      | none => Outcome.fault Fault.out_of_fuel
      | some pt1 =>
        let rd := s2.disk_manager.ReadPage cfg page_id
        let s3 := { s2 with page_table := pt1, disk_manager := rd.1 }
        Outcome.ok (setPage s3 tar
          { data := rd.2, page_id := page_id, pin_count := 1, is_dirty := false }, some tar)

/-- Method `UnpinPage`. -/
def UnpinPage (s : BufferPoolManager) (page_id : Int) (is_dirty : Bool) :
    BufferPoolManager × Bool :=
  match s.page_table.Find page_id with
  | none => (s, false)
  | some tar =>
    let s1 := setPage s tar { pageAt s tar with is_dirty := is_dirty }
    if (pageAt s1 tar).pin_count ≤ 0 then (s1, false)
    else
      let s2 := setPage s1 tar { pageAt s1 tar with pin_count := (pageAt s1 tar).pin_count - 1 }
      if (pageAt s2 tar).pin_count = 0 then
        ({ s2 with replacer := LRUReplacer.Insert s2.replacer tar }, true)
      else (s2, true)

/-- Method `FlushPage`. -/
def FlushPage (cfg : Config) (s : BufferPoolManager) (page_id : Int) :
    BufferPoolManager × Bool :=
  match s.page_table.Find page_id with
  | none => (s, false)
  | some tar =>
    if (pageAt s tar).page_id = cfg.INVALID_PAGE_ID then (s, false)
    else if (pageAt s tar).is_dirty then
      let s1 := diskWrite s page_id (pageAt s tar).data
      (setPage s1 tar { pageAt s1 tar with is_dirty := false }, true)
    else (s, true)

/-- Method `DeletePage`. -/
def DeletePage (cfg : Config) (s : BufferPoolManager) (page_id : Int) :
    BufferPoolManager × Bool :=
  match s.page_table.Find page_id with
  | some tar =>
    if (pageAt s tar).pin_count > 0 then (s, false)
    else
      let s1 := { s with replacer := (LRUReplacer.Erase s.replacer tar).1,
                         page_table := (s.page_table.Remove page_id).1 }
      let s2 := setPage s1 tar (Page.ResetMemory cfg { pageAt s1 tar with is_dirty := false })
      let s3 := { s2 with free_list := s2.free_list ++ [tar] }
      ({ s3 with disk_manager := s3.disk_manager.DeallocatePage page_id }, true)
  | none => ({ s with disk_manager := s.disk_manager.DeallocatePage page_id }, true)

/-- Method `NewPage`: the pool afterwards and, unless it returns null, the
returned `Page *` with the value assigned to `page_id`. -/
def NewPage (cfg : Config) (fuel : Nat) (s : BufferPoolManager) :
    Outcome (BufferPoolManager × Option (Nat × Int)) :=
  match GetVictimPage cfg s with
  | Outcome.fault f => Outcome.fault f
  | Outcome.ok (s1, none) => Outcome.ok (s1, none)
  | Outcome.ok (s1, some tar) =>
    let al := s1.disk_manager.AllocatePage
    let page_id := al.2
    let s2 := { s1 with disk_manager := al.1 }
    let s3 := writeBack s2 tar
    let pt := (s3.page_table.Remove (pageAt s3 tar).page_id).1
    match pt.Insert fuel page_id tar with
    | none => Outcome.fault Fault.out_of_fuel
    | some pt1 =>
      let s4 := { s3 with page_table := pt1 }
      Outcome.ok (setPage s4 tar
        { data := List.replicate cfg.PAGE_SIZE 0, page_id := page_id, pin_count := 1,
          is_dirty := false }, some (tar, page_id))

/-- A caller storing bytes through `GetData()` of a frame it holds. -/
def WriteData (s : BufferPoolManager) (tar : Nat) (data : List Nat) : BufferPoolManager :=
  setPage s tar { pageAt s tar with data := data }

end BufferPoolManager

namespace BufferPoolManager

/-- The pool after a page was installed in frame `tar`: new page table, new disk
state, new frame contents. -/
def install (s : BufferPoolManager) (tar : Nat) (pt : ExtendibleHash Nat) (d : DiskManager)
    (p : Page) : BufferPoolManager :=
  { s with page_table := pt, disk_manager := d, pages := s.pages.set tar p }

/-- Well-formedness of a pool: the page table is a well-formed hash table that
maps page ids to frames carrying that id; free-list and replacer members are
distinct unpinned frames, no frame is in both, a mapped frame is not on the
free list, and every unpinned frame is in one of the two. -/
structure BInv (cfg : Config) (s : BufferPoolManager) : Prop where
  pages_len : s.pages.length = s.pool_size
  table : s.page_table.HInv
  bucket : s.page_table.bucketSize = cfg.BUCKET_SIZE
  mapped : ∀ pid tar, s.page_table.Find pid = some tar →
    tar < s.pool_size ∧ (pageAt s tar).page_id = pid ∧ tar ∉ s.free_list
  in_replacer : ∀ tar, tar ∈ s.replacer → tar < s.pool_size ∧ (pageAt s tar).pin_count = 0
  in_free : ∀ tar, tar ∈ s.free_list → tar < s.pool_size ∧ (pageAt s tar).pin_count = 0
  replacer_nodup : s.replacer.Nodup
  free_nodup : s.free_list.Nodup
  disjoint : ∀ tar, tar ∈ s.free_list → tar ∉ s.replacer
  pin_nonneg : ∀ tar, 0 ≤ (pageAt s tar).pin_count
  unpinned : ∀ tar, tar < s.pool_size → (pageAt s tar).pin_count = 0 →
    tar ∈ s.free_list ∨ tar ∈ s.replacer
  next_id : isInt32 s.disk_manager.next_page_id

/-- Pools reachable from construction by calls that return: `FetchPage`,
`NewPage`, `UnpinPage`, `FlushPage` and `DeletePage` with `int` page ids,
callers writing into frames they hold pinned, and the log manager changing
state between calls. -/
inductive Reachable (cfg : Config) : BufferPoolManager → Prop where
  | init (pool_size : Nat) (d : DiskManager) (l : Option LogManager) :
      isInt32 d.next_page_id → Reachable cfg (new cfg pool_size d l)
  | fetch {s s1 : BufferPoolManager} (fuel : Nat) (page_id : Int) (r : Option Nat) :
      Reachable cfg s → isInt32 page_id →
      FetchPage cfg fuel s page_id = Outcome.ok (s1, r) → Reachable cfg s1
  | newPage {s s1 : BufferPoolManager} (fuel : Nat) (r : Option (Nat × Int)) :
      Reachable cfg s → NewPage cfg fuel s = Outcome.ok (s1, r) → Reachable cfg s1
  | unpin {s : BufferPoolManager} (page_id : Int) (is_dirty : Bool) :
      Reachable cfg s → Reachable cfg (UnpinPage s page_id is_dirty).1
  | flush {s : BufferPoolManager} (page_id : Int) :
      Reachable cfg s → Reachable cfg (FlushPage cfg s page_id).1
  | delete {s : BufferPoolManager} (page_id : Int) :
      Reachable cfg s → Reachable cfg (DeletePage cfg s page_id).1
  | write {s : BufferPoolManager} (tar : Nat) (data : List Nat) :
      Reachable cfg s → 0 < (pageAt s tar).pin_count → Reachable cfg (WriteData s tar data)
  | log {s : BufferPoolManager} (l : Option LogManager) :
      Reachable cfg s → Reachable cfg { s with log_manager := l }

end BufferPoolManager

/-! ## Example pools -/

/-- The value of a call that returned (`d` for one that did not). -/
def Outcome.getD {α : Type} (o : Outcome α) (d : α) : α :=
  match o with
  | Outcome.ok a => a
  | Outcome.fault _ => d

namespace BufferPoolManager

/-- Constants of the examples: 8-byte pages, buckets of 50, sentinels `-1`. -/
def demoCfg : Config := ⟨8, 50, -1, -1⟩

/-- A fresh pool of one frame over an empty page file, with a log manager. -/
def demo0 : BufferPoolManager := new demoCfg 1 ⟨[], 0, []⟩ (some (LogManager.new demoCfg))

/-- After `NewPage`: page 0 sits pinned in frame 0. -/
def demo1 : BufferPoolManager := ((NewPage demoCfg 33 demo0).getD (demo0, none)).1

/-- Page bytes whose last-LSN field (offset 4) is 5. -/
def demoBytes : List Nat := [72, 105, 0, 0, 5, 0, 0, 0]

/-- A log manager that has appended records 0..5 and flushed none of them. -/
def demoLog : LogManager :=
  { LogManager.new demoCfg with logBufferOffset := 120, lastLsn := 5, next_lsn := 6 }

/-- The caller wrote `demoBytes` into page 0 and unpinned it dirty, the log
records up to LSN 5 are still in the log buffer: frame 0 is dirty and is the
only replacer member. -/
def demo2 : BufferPoolManager :=
  { (UnpinPage (WriteData demo1 0 demoBytes) 0 true).1 with log_manager := some demoLog }

/-- From `demo2`, `NewPage` evicted page 0 to make room for page 1. -/
def demo3 : BufferPoolManager := ((NewPage demoCfg 33 demo2).getD (demo2, none)).1

/-- From `demo3`, page 1 was unpinned clean. -/
def demo4 : BufferPoolManager := (UnpinPage demo3 1 false).1

/-- From `demo4`, `FetchPage(0)` brought page 0 back into frame 0. -/
def demo6 : BufferPoolManager := ((FetchPage demoCfg 33 demo4 0).getD (demo4, none)).1

/-- From `demo2`, a reader fetched page 0 again (pin count 1, still dirty). -/
def demo5 : BufferPoolManager := ((FetchPage demoCfg 33 demo2 0).getD (demo2, none)).1

end BufferPoolManager

namespace ExtendibleHash
variable {V : Type}

/-- Constructor `ExtendibleHash()`.  Its body `ExtendibleHash(64);` builds a
temporary table and discards it; the object under construction keeps a
default-constructed (empty) `buckets` vector and whatever values its
uninitialised members `globalDepth`, `bucketSize` and `bucketNum` happen to
hold, which are the three arguments here. -/
def mk_default (globalDepth bucketSize bucketNum : Nat) : ExtendibleHash V :=
  { globalDepth := globalDepth, bucketSize := bucketSize, bucketNum := bucketNum,
    buckets := [], heap := [] }

/-- Successive `Insert` calls, in list order. -/
def InsertAll (fuel : Nat) : ExtendibleHash V → List (Int × V) → Option (ExtendibleHash V)
  | t, [] => some t
  | t, (key, value) :: rest =>
    match Insert fuel t key value with
    | none => none
    | some t1 => InsertAll fuel t1 rest

end ExtendibleHash

namespace LRUReplacer
variable {T : Type} [DecidableEq T]

/-- A call made on a replacer. -/
inductive Call (T : Type) where
  | Insert (value : T)
  | Erase (value : T)
  | Victim
deriving DecidableEq, Repr

/-- The replacer after one call. -/
def step (r : LRUReplacer T) : Call T → LRUReplacer T
  | Call.Insert value => Insert r value
  | Call.Erase value => (Erase r value).1
  | Call.Victim => (Victim r).1

/-- The replacer after a sequence of calls on a new replacer, oldest call first. -/
def run (calls : List (Call T)) : LRUReplacer T := calls.foldl step []

/-- One step of the scan of `lastInsert`: the position counter and the latest
position at which `Insert(value)` was seen. -/
def scan (value : T) (acc : Nat × Option Nat) (c : Call T) : Nat × Option Nat :=
  (acc.1 + 1, if c = Call.Insert value then some acc.1 else acc.2)

/-- The position in the call sequence of the most recent `Insert(value)`, if
there is one. -/
def lastInsert (calls : List (Call T)) (value : T) : Option Nat :=
  (calls.foldl (scan value) (0, none)).2

/-- The order of the replacer list: each member was last inserted later than the
members behind it. -/
def Later (calls : List (Call T)) (a b : T) : Prop :=
  ∃ ia ib, lastInsert calls a = some ia ∧ lastInsert calls b = some ib ∧ ib < ia

/-- The calls of `LRUReplacerTest.SampleTest` up to its first `Victim`. -/
def sampleCalls : List (Call Int) :=
  [Call.Insert 1, Call.Insert 2, Call.Insert 3, Call.Insert 4, Call.Insert 5, Call.Insert 6,
   Call.Insert 1]

end LRUReplacer

/-! ## Lock manager (`src/project3A/lock_manager.h`, `.cpp`) -/

/-- Modelled from the spec: a record id (`common/rid.h` is absent): the page id
and slot of a tuple. -/
structure RID where
  page_id : Int
  slot_num : Int
deriving DecidableEq, Repr

/-- Modelled from the spec: the transaction states (`concurrency/transaction.h`
is absent); "transactions begin in the GROWING state". -/
inductive TransactionState where
  | GROWING
  | SHRINKING
  | COMMITTED
  | ABORTED
deriving DecidableEq, Repr

/-- Modelled from the spec: class `Transaction` (`concurrency/transaction.h` is
absent) as far as the lock manager uses it: id, state, and the two lock sets
(`unordered_set<RID>`, a list without repetition). -/
structure Transaction where
  txn_id : Int
  state : TransactionState
  shared_lock_set : List RID
  exclusive_lock_set : List RID
deriving DecidableEq, Repr

namespace Transaction

/-- Modelled from the spec: constructor `Transaction(txn_id)`. -/
def new (txn_id : Int) : Transaction :=
  { txn_id := txn_id, state := TransactionState.GROWING, shared_lock_set := [],
    exclusive_lock_set := [] }

end Transaction

/-- Insertion `unordered_set::insert`. -/
def setInsert (s : List RID) (rid : RID) : List RID :=
  if rid ∈ s then s else rid :: s

/-- Removal `unordered_set::erase`: the set afterwards and the number of elements
removed. -/
def setErase (s : List RID) (rid : RID) : List RID × Nat :=
  (s.filter (fun x => decide (x ≠ rid)), if rid ∈ s then 1 else 0)

/-- Enum `LockMode`. -/
inductive LockMode where
  | SHARED
  | EXCLUSIVE
  | UPGRADING
deriving DecidableEq, Repr

/-- Struct `LockManager::TxItem` (mutex and condition variable left out). -/
structure TxItem where
  tid : Int
  mode : LockMode
  granted : Bool
deriving DecidableEq, Repr

/-- Struct `LockManager::TxList`; `lockTable_[rid]` value-initialises a new
entry, so `hasUpgrading_` starts false. -/
structure TxList where
  locks : List TxItem
  hasUpgrading : Bool
deriving DecidableEq, Repr

/-- Class `LockManager`: `lockTable_` is the `unordered_map<RID, TxList>`. -/
structure LockManager where
  strict_2PL : Bool
  lockTable : List (RID × TxList)
deriving DecidableEq, Repr

/-- How a lock call ends: it returns a flag, or the calling thread is left
blocked in `TxItem::Wait` until another thread grants its request. -/
inductive LockResult where
  | returned (b : Bool)
  | waiting
deriving DecidableEq, Repr

namespace LockManager

/-- Constructor `LockManager(bool strict_2PL)`. -/
def new (strict_2PL : Bool) : LockManager := { strict_2PL := strict_2PL, lockTable := [] }

/-- Lookup in `lockTable_`. -/
def tableFind : List (RID × TxList) → RID → Option TxList
  | [], _ => none
  | e :: m, rid => if e.1 = rid then some e.2 else tableFind m rid

/-- Assignment to the entry of `rid` in `lockTable_`. -/
def tableSet : List (RID × TxList) → RID → TxList → List (RID × TxList)
  | [], rid, l => [(rid, l)]
  | e :: m, rid, l => if e.1 = rid then (rid, l) :: m else e :: tableSet m rid l

/-- Removal `lockTable_.erase(rid)`. -/
def tableErase (m : List (RID × TxList)) (rid : RID) : List (RID × TxList) :=
  m.filter (fun e => decide (e.1 ≠ rid))

/-- The entry `lockTable_[rid]` (a new, empty one when there is none). -/
def entry (lm : LockManager) (rid : RID) : TxList :=
  (tableFind lm.lockTable rid).getD ⟨[], false⟩

/-- The requests queued on `rid`. -/
def requests (lm : LockManager) (rid : RID) : List TxItem := (entry lm rid).locks

/-- Method `TxList::checkCanGrant`. -/
def checkCanGrant (l : TxList) (mode : LockMode) : Bool :=
  match l.locks.getLast? with
  | none => true
  | some last =>
    if mode = LockMode.SHARED then last.granted && decide (last.mode = LockMode.SHARED)
    else false

/-- The search `find_if(..., item.tid_ == txn->GetTransactionId())`. -/
def findTid (locks : List TxItem) (tid : Int) : Option TxItem :=
  locks.find? (fun item => decide (item.tid = tid))

/-- The removal `locks_.erase(it)` of the first request of `tid`. -/
def eraseTid : List TxItem → Int → List TxItem
  | [], _ => []
  | item :: rest, tid => if item.tid = tid then rest else item :: eraseTid rest tid

/-- The part of `TxList::insert` that runs once the request is granted (at once,
or after `Wait` returned): the rid enters the lock set named by `mode`. -/
def enterLockSet (txn : Transaction) (rid : RID) (mode : LockMode) : Transaction :=
  if mode = LockMode.SHARED then
    { txn with shared_lock_set := setInsert txn.shared_lock_set rid }
  else
    { txn with exclusive_lock_set := setInsert txn.exclusive_lock_set rid }

/-- Method `TxList::insert` up to the point where it returns or blocks: the list
afterwards, the transaction afterwards, and whether the caller is blocked. -/
def insert (l : TxList) (txn : Transaction) (rid : RID) (mode : LockMode) (granted : Bool) :
    TxList × Transaction × LockResult :=
  let upgradingMode := decide (mode = LockMode.UPGRADING)
  let mode1 := if upgradingMode && granted then LockMode.EXCLUSIVE else mode
  let l1 : TxList := { l with locks := l.locks ++ [⟨txn.txn_id, mode1, granted⟩] }
  if granted then (l1, enterLockSet txn rid mode1, LockResult.returned true)
  else ({ l1 with hasUpgrading := l1.hasUpgrading || upgradingMode }, txn, LockResult.waiting)

/-- Method `lockTemplate`. -/
def lockTemplate (lm : LockManager) (txn : Transaction) (rid : RID) (mode : LockMode) :
    Outcome (LockManager × Transaction × LockResult) :=
  if txn.state ≠ TransactionState.GROWING then
    Outcome.ok (lm, { txn with state := TransactionState.ABORTED }, LockResult.returned false)
  else
    let txList := entry lm rid
    let lm1 := { lm with lockTable := tableSet lm.lockTable rid txList }
    let finish := fun (l : TxList) (t : Transaction) =>
      let r := insert l t rid mode (checkCanGrant l mode)
      Outcome.ok ({ lm1 with lockTable := tableSet lm1.lockTable rid r.1 }, r.2.1, r.2.2)
    if mode = LockMode.UPGRADING then
      if txList.hasUpgrading then
        Outcome.ok (lm1, { txn with state := TransactionState.ABORTED },
          LockResult.returned false)
      else
        match findTid txList.locks txn.txn_id with
        | none =>
          Outcome.ok (lm1, { txn with state := TransactionState.ABORTED },
            LockResult.returned false)
        | some it =>
          if it.mode ≠ LockMode.SHARED ∨ it.granted = false then
            Outcome.ok (lm1, { txn with state := TransactionState.ABORTED },
              LockResult.returned false)
          else if (setErase txn.shared_lock_set rid).2 = 1 then
            finish { txList with locks := eraseTid txList.locks txn.txn_id }
              { txn with shared_lock_set := (setErase txn.shared_lock_set rid).1 }
          else Outcome.fault Fault.assert_failed
    else finish txList txn

/-- Method `LockShared`. -/
def LockShared (lm : LockManager) (txn : Transaction) (rid : RID) :
    Outcome (LockManager × Transaction × LockResult) :=
  lockTemplate lm txn rid LockMode.SHARED

/-- Method `LockExclusive`. -/
def LockExclusive (lm : LockManager) (txn : Transaction) (rid : RID) :
    Outcome (LockManager × Transaction × LockResult) :=
  lockTemplate lm txn rid LockMode.EXCLUSIVE

/-- Method `LockUpgrade`. -/
def LockUpgrade (lm : LockManager) (txn : Transaction) (rid : RID) :
    Outcome (LockManager × Transaction × LockResult) :=
  lockTemplate lm txn rid LockMode.UPGRADING

/-- The loop of step 3 of `Unlock` over the remaining requests, front first: the
requests afterwards and the `hasUpgrading_` flag afterwards. -/
def grantLoop : List TxItem → Bool → List TxItem × Bool
  | [], h => ([], h)
  | tx :: rest, h =>
    if tx.granted then (tx :: rest, h)
    else if tx.mode = LockMode.SHARED then
      ({ tx with granted := true } :: (grantLoop rest h).1, (grantLoop rest h).2)
    else if tx.mode = LockMode.UPGRADING then
      ({ tx with granted := true, mode := LockMode.EXCLUSIVE } :: rest, false)
    else ({ tx with granted := true } :: rest, h)

/-- Method `Unlock`. -/
def Unlock (lm : LockManager) (txn : Transaction) (rid : RID) :
    Outcome (LockManager × Transaction × Bool) :=
  if lm.strict_2PL ∧ txn.state ≠ TransactionState.COMMITTED ∧
      txn.state ≠ TransactionState.ABORTED then
    Outcome.ok (lm, { txn with state := TransactionState.ABORTED }, false)
  else
    let txn1 : Transaction :=
      if ¬ lm.strict_2PL ∧ txn.state = TransactionState.GROWING then
        { txn with state := TransactionState.SHRINKING }
      else txn
    let txList := entry lm rid
    match findTid txList.locks txn1.txn_id with
    | none => Outcome.fault Fault.assert_failed
    | some it =>
      let shared := decide (it.mode = LockMode.SHARED)
      let lockSet := if shared then txn1.shared_lock_set else txn1.exclusive_lock_set
      if (setErase lockSet rid).2 = 1 then
        let txn2 : Transaction :=
          if shared then { txn1 with shared_lock_set := (setErase lockSet rid).1 }
          else { txn1 with exclusive_lock_set := (setErase lockSet rid).1 }
        let locks := eraseTid txList.locks txn1.txn_id
        if locks = [] then
          Outcome.ok ({ lm with lockTable := tableErase lm.lockTable rid }, txn2, true)
        else
          let g := grantLoop locks txList.hasUpgrading
          Outcome.ok ({ lm with lockTable := tableSet lm.lockTable rid ⟨g.1, g.2⟩ }, txn2, true)
      else Outcome.fault Fault.assert_failed

/-- The transaction holds a lock on `rid`: its first request in the rid's list is
granted and the rid is in the lock set that matches the request's mode. -/
def Holds (lm : LockManager) (txn : Transaction) (rid : RID) : Prop :=
  ∃ it, findTid (requests lm rid) txn.txn_id = some it ∧ it.granted = true ∧
    rid ∈ (if it.mode = LockMode.SHARED then txn.shared_lock_set else txn.exclusive_lock_set)

end LockManager

namespace LockManager

/-- The lock set of a transaction that matches a request mode: the shared set for
SHARED, the exclusive set otherwise. -/
def matchingSet (txn : Transaction) (mode : LockMode) : List RID :=
  if mode = LockMode.SHARED then txn.shared_lock_set else txn.exclusive_lock_set

/-- The lock set of a transaction that does not match a request mode. -/
def otherSet (txn : Transaction) (mode : LockMode) : List RID :=
  if mode = LockMode.SHARED then txn.exclusive_lock_set else txn.shared_lock_set

/-- The lock of `txn` on `rid` is removed between `(lm, txn)` and `(lm1, txn1)`:
the first request of `txn` has left the rid's list (the other requests stay, in
order), the lists of the other rids are as before, the rid has left the lock set
matching the request and the other lock set is as before. -/
def Released (lm : LockManager) (txn : Transaction) (rid : RID) (lm1 : LockManager)
    (txn1 : Transaction) : Prop :=
  ∃ it, findTid (requests lm rid) txn.txn_id = some it ∧
    (requests lm1 rid).map TxItem.tid
      = (eraseTid (requests lm rid) txn.txn_id).map TxItem.tid ∧
    (requests lm1 rid).length + 1 = (requests lm rid).length ∧
    (∀ r, r ≠ rid → requests lm1 r = requests lm r) ∧
    rid ∉ matchingSet txn1 it.mode ∧
    (∀ r, r ≠ rid → (r ∈ matchingSet txn1 it.mode ↔ r ∈ matchingSet txn it.mode)) ∧
    otherSet txn1 it.mode = otherSet txn it.mode ∧
    txn1.txn_id = txn.txn_id

/-- A strict manager after `LockShared` by transaction 0 on rid (0, 0). -/
def strictHeld : LockManager :=
  { strict_2PL := true, lockTable := [(⟨0, 0⟩, ⟨[⟨0, LockMode.SHARED, true⟩], false⟩)] }

/-- A non-strict manager with two shared holders and a waiting writer on rid
(0, 0). -/
def looseHeld : LockManager :=
  { strict_2PL := false,
    lockTable := [(⟨0, 0⟩, ⟨[⟨0, LockMode.SHARED, true⟩, ⟨1, LockMode.SHARED, true⟩,
      ⟨2, LockMode.EXCLUSIVE, false⟩], false⟩)] }

/-- Transaction 0 holding a shared lock on rid (0, 0), in the given state. -/
def holder (st : TransactionState) : Transaction :=
  { txn_id := 0, state := st, shared_lock_set := [⟨0, 0⟩], exclusive_lock_set := [] }

end LockManager

/-! ## B+tree index (`src/project2B`, `src/project2C`)

Keys are integers compared as integers (the `GenericComparator` on a `bigint`
column).  A page's `array` is the list of its first `size_` entries, so
`GetSize()` is the length of the list.  The buffer pool and the disk together
are the store `pages` of the tree state: `FetchPage` reads it, `NewPage` takes
the next page id, `DeletePage` removes a page; pin counts and latches are left
out (one thread, and a pool that never runs out of frames).  Every call is
given a transaction, as in the tests.  `UpdateRootPageId` writes only the header
page, which no call modelled here reads, and is left out.  Loops over the height
of the tree and the recursions up the tree take a `fuel` argument. -/

/-- Conversion of an unsigned value to `int` (32 bits, two's complement). -/
def toInt32 (n : Nat) : Int :=
  if n % 2 ^ 32 < 2 ^ 31 then (n % 2 ^ 32 : Nat) else (n % 2 ^ 32 : Nat) - 2 ^ 32

/-- Parameters of the index: `common/config.h` is absent, so `PAGE_SIZE` and
`INVALID_PAGE_ID` are parameters; `leafEntrySize` is `sizeof(MappingType)` of a
leaf (key bytes plus 8 bytes of `RID`); `internalMaxSize` is the max size that
`BPlusTreeInternalPage::Init`, whose body is absent, gives a page. -/
structure TreeConfig where
  PAGE_SIZE : Nat
  INVALID_PAGE_ID : Int
  leafEntrySize : Nat
  internalMaxSize : Int
deriving DecidableEq, Repr

/-- Class `BPlusTreeLeafPage` with the header fields of `BPlusTreePage`. -/
structure LeafPage (V : Type) where
  max_size : Int
  parent_page_id : Int
  page_id : Int
  next_page_id : Int
  array : List (Int × V)
deriving DecidableEq, Repr

/-- Class `BPlusTreeInternalPage` with the header fields of `BPlusTreePage`; the
entries are key and child page id, the key of entry 0 is not used. -/
structure InternalPage where
  max_size : Int
  parent_page_id : Int
  page_id : Int
  array : List (Int × Int)
deriving DecidableEq, Repr

/-- A page of the index: `page_type_` is the constructor. -/
inductive TreePage (V : Type) where
  | leaf (p : LeafPage V)
  | internal (p : InternalPage)
deriving DecidableEq, Repr

namespace LeafPage

variable {V : Type}

/-- Method `GetSize`. -/
def GetSize (p : LeafPage V) : Int := p.array.length

/-- The max size `Init` computes:
`(PAGE_SIZE - sizeof(BPlusTreeLeafPage)) / sizeof(MappingType) - 1`, in `size_t`
arithmetic, stored in an `int`. -/
def initMaxSize (cfg : TreeConfig) : Int :=
  toInt32 ((((cfg.PAGE_SIZE + 2 ^ 64 - 28) % 2 ^ 64) / cfg.leafEntrySize + 2 ^ 64 - 1) % 2 ^ 64)

/-- Method `Init`. -/
def Init (cfg : TreeConfig) (page_id parent_id : Int) : LeafPage V :=
  { max_size := initMaxSize cfg, parent_page_id := parent_id, page_id := page_id,
    next_page_id := cfg.INVALID_PAGE_ID, array := [] }

/-- The `while (st <= ed)` loop of `KeyIndex`; `none` when the fuel runs out. -/
def KeyIndexLoop (array : List (Int × V)) (key : Int) : Nat → Int → Int → Option Int
  | 0, _, _ => none
  | fuel + 1, st, ed =>
    if st ≤ ed then
      let mid := Int.tdiv (ed - st) 2 + st
      match array.get? mid.toNat with
      | none => none
      | some e =>
        if e.1 ≥ key then KeyIndexLoop array key fuel st (mid - 1)
        else KeyIndexLoop array key fuel (mid + 1) ed
    else some (ed + 1)

/-- Method `KeyIndex`: the loop is given one round more than the page has
entries. -/
def KeyIndex (p : LeafPage V) (key : Int) : Option Int :=
  KeyIndexLoop p.array key (p.array.length + 1) 0 (p.GetSize - 1)

/-- Method `GetItem`, with its assert. -/
def GetItem (p : LeafPage V) (index : Int) : Outcome (Int × V) :=
  if 0 ≤ index ∧ index < p.GetSize then
    match p.array.get? index.toNat with
    | some e => Outcome.ok e
    | none => Outcome.fault Fault.assert_failed
  else Outcome.fault Fault.assert_failed

/-- Method `KeyAt`, with its assert. -/
def KeyAt (p : LeafPage V) (index : Int) : Outcome Int :=
  match p.GetItem index with
  | Outcome.ok e => Outcome.ok e.1
  | Outcome.fault f => Outcome.fault f

/-- Method `Insert`: the page afterwards and the size returned. -/
def Insert (p : LeafPage V) (key : Int) (value : V) : Outcome (LeafPage V × Int) :=
  match p.KeyIndex key with
  | none => Outcome.fault Fault.out_of_fuel
  | some idx =>
    if 0 ≤ idx then
      Outcome.ok
        ({ p with array := p.array.take idx.toNat ++ ((key, value) :: p.array.drop idx.toNat) },
         p.GetSize + 1)
    else Outcome.fault Fault.assert_failed

/-- Method `MoveHalfTo`: this page and the recipient afterwards. -/
def MoveHalfTo (p recipient : LeafPage V) : Outcome (LeafPage V × LeafPage V) :=
  let total := p.max_size + 1
  if p.GetSize = total then
    let copyIdx := Int.tdiv total 2
    Outcome.ok
      ({ p with next_page_id := recipient.page_id, array := p.array.take copyIdx.toNat },
       { recipient with next_page_id := p.next_page_id,
                        array := p.array.drop copyIdx.toNat })
  else Outcome.fault Fault.assert_failed

/-- Method `Lookup`: the value stored under `key`, if any. -/
def Lookup (p : LeafPage V) (key : Int) : Outcome (Option V) :=
  match p.KeyIndex key with
  | none => Outcome.fault Fault.out_of_fuel
  | some idx =>
    if idx < p.GetSize then
      match p.array.get? idx.toNat with
      | some e => if e.1 = key then Outcome.ok (some e.2) else Outcome.ok none
      | none => Outcome.ok none
    else Outcome.ok none

/-- Method `RemoveAndDeleteRecord`: the page afterwards and the size returned. -/
def RemoveAndDeleteRecord (p : LeafPage V) (key : Int) : Outcome (LeafPage V × Int) :=
  match p.KeyIndex key with
  | none => Outcome.fault Fault.out_of_fuel
  | some idx =>
    if idx ≥ p.GetSize then Outcome.ok (p, p.GetSize)
    else
      match p.KeyAt idx with
      | Outcome.fault f => Outcome.fault f
      | Outcome.ok k =>
        if key ≠ k then Outcome.ok (p, p.GetSize)
        else Outcome.ok ({ p with array := p.array.eraseIdx idx.toNat }, p.GetSize - 1)

/-- Method `MoveAllTo`: this page and the recipient afterwards. -/
def MoveAllTo (p recipient : LeafPage V) : LeafPage V × LeafPage V :=
  ({ p with array := [] },
   { recipient with next_page_id := p.next_page_id, array := recipient.array ++ p.array })

/-- Method `CopyLastFrom`, with its assert. -/
def CopyLastFrom (p : LeafPage V) (item : Int × V) : Outcome (LeafPage V) :=
  if p.GetSize + 1 ≤ p.max_size then Outcome.ok { p with array := p.array ++ [item] }
  else Outcome.fault Fault.assert_failed

end LeafPage

namespace InternalPage

/-- Method `GetSize`. -/
def GetSize (p : InternalPage) : Int := p.array.length

/-- Modelled from the spec: `Init` (body absent): an empty page with the given
ids. -/
def Init (cfg : TreeConfig) (page_id parent_id : Int) : InternalPage :=
  { max_size := cfg.internalMaxSize, parent_page_id := parent_id, page_id := page_id,
    array := [] }

/-- Modelled from the spec: `KeyAt` (body absent). -/
def KeyAt (p : InternalPage) (index : Int) : Outcome Int :=
  if 0 ≤ index ∧ index < p.GetSize then
    match p.array.get? index.toNat with
    | some e => Outcome.ok e.1
    | none => Outcome.fault Fault.assert_failed
  else Outcome.fault Fault.assert_failed

/-- Modelled from the spec: `ValueAt` (body absent). -/
def ValueAt (p : InternalPage) (index : Int) : Outcome Int :=
  if 0 ≤ index ∧ index < p.GetSize then
    match p.array.get? index.toNat with
    | some e => Outcome.ok e.2
    | none => Outcome.fault Fault.assert_failed
  else Outcome.fault Fault.assert_failed

/-- Modelled from the spec: `SetKeyAt` (body absent). -/
def SetKeyAt (p : InternalPage) (index : Int) (key : Int) : Outcome InternalPage :=
  if 0 ≤ index ∧ index < p.GetSize then
    match p.array.get? index.toNat with
    | some e => Outcome.ok { p with array := p.array.set index.toNat (key, e.2) }
    | none => Outcome.fault Fault.assert_failed
  else Outcome.fault Fault.assert_failed

/-- Modelled from the spec: `ValueIndex` (body absent): the index of the entry
whose child is `value`, the size when there is none. -/
def ValueIndex (p : InternalPage) (value : Int) : Int :=
  (p.array.findIdx (fun e => decide (e.2 = value)) : Nat)

/-- The child for `key` among the entries after the first: the last one whose
key is at most `key`, `cur` when there is none. -/
def lookupFrom : List (Int × Int) → Int → Int → Int
  | [], _, cur => cur
  | e :: rest, key, cur => if e.1 ≤ key then lookupFrom rest key e.2 else cur

/-- Modelled from the spec: `Lookup` (body absent): "pointer PAGE_ID(i) points
to a subtree in which all keys K satisfy K(i) <= K < K(i+1)", the first key
being ignored. -/
def Lookup (p : InternalPage) (key : Int) : Outcome Int :=
  match p.array with
  | [] => Outcome.fault Fault.assert_failed
  | e :: rest => Outcome.ok (lookupFrom rest key e.2)

/-- Modelled from the spec: `PopulateNewRoot` (body absent): the two children,
the key of entry 0 unused (here 0). -/
def PopulateNewRoot (p : InternalPage) (old_value : Int) (new_key : Int) (new_value : Int) :
    InternalPage :=
  { p with array := [(0, old_value), (new_key, new_value)] }

/-- Modelled from the spec: `InsertNodeAfter` (body absent): the new entry goes
right after the entry whose child is `old_value`; returns the new size. -/
def InsertNodeAfter (p : InternalPage) (old_value : Int) (new_key : Int) (new_value : Int) :
    InternalPage × Int :=
  let idx := (p.ValueIndex old_value).toNat + 1
  ({ p with array := p.array.take idx ++ (new_key, new_value) :: p.array.drop idx },
   p.GetSize + 1)

/-- Modelled from the spec: `Remove` (body absent): entry `index` is deleted. -/
def Remove (p : InternalPage) (index : Int) : Outcome InternalPage :=
  if 0 ≤ index ∧ index < p.GetSize then
    Outcome.ok { p with array := p.array.eraseIdx index.toNat }
  else Outcome.fault Fault.assert_failed

/-- Modelled from the spec: `RemoveAndReturnOnlyChild` (body absent). -/
def RemoveAndReturnOnlyChild (p : InternalPage) : Outcome (InternalPage × Int) :=
  match p.array with
  | e :: _ => Outcome.ok ({ p with array := [] }, e.2)
  | [] => Outcome.fault Fault.assert_failed

end InternalPage

namespace TreePage

variable {V : Type}

/-- Method `BPlusTreePage::IsLeafPage`. -/
def IsLeafPage : TreePage V → Bool
  | leaf _ => true
  | internal _ => false

/-- Method `BPlusTreePage::GetParentPageId`. -/
def GetParentPageId : TreePage V → Int
  | leaf p => p.parent_page_id
  | internal p => p.parent_page_id

/-- Method `BPlusTreePage::SetParentPageId`. -/
def SetParentPageId : TreePage V → Int → TreePage V
  | leaf p, id => leaf { p with parent_page_id := id }
  | internal p, id => internal { p with parent_page_id := id }

/-- Method `BPlusTreePage::GetPageId`. -/
def GetPageId : TreePage V → Int
  | leaf p => p.page_id
  | internal p => p.page_id

/-- Method `BPlusTreePage::IsRootPage`. -/
def IsRootPage (cfg : TreeConfig) (p : TreePage V) : Bool :=
  decide (p.GetParentPageId = cfg.INVALID_PAGE_ID)

/-- Method `BPlusTreePage::GetSize`. -/
def GetSize : TreePage V → Int
  | leaf p => p.GetSize
  | internal p => p.GetSize

/-- Method `BPlusTreePage::GetMaxSize`. -/
def GetMaxSize : TreePage V → Int
  | leaf p => p.max_size
  | internal p => p.max_size

/-- Method `BPlusTreePage::GetMinSize`. -/
def GetMinSize (cfg : TreeConfig) (p : TreePage V) : Int :=
  if p.IsRootPage cfg then (if p.IsLeafPage then 1 else 2)
  else Int.tdiv p.GetMaxSize 2

end TreePage
/-- Class `BPlusTree` together with the pages it reaches through the buffer
pool: `pages` maps a page id to the page, `next_page_id` is the id the next
`NewPage` hands out. -/
structure BPlusTree (V : Type) where
  root_page_id : Int
  pages : List (Int × TreePage V)
  next_page_id : Int
deriving DecidableEq, Repr

/-- Class `IndexIterator`: `leaf = none` is the null pointer, otherwise the id of
the page `leaf_` points to. -/
structure IndexIterator where
  index : Int
  leaf : Option Int
deriving DecidableEq, Repr

/-- The template parameter `N` of `Split`, `CoalesceOrRedistribute`, `Coalesce`
and `Redistribute`. -/
inductive NodeKind where
  | leaf
  | internal
deriving DecidableEq, Repr

namespace BPlusTree

variable {V : Type}

/-- Constructor `BPlusTree(name, buffer_pool_manager, comparator)` with the
default `root_page_id = INVALID_PAGE_ID`; page 0 is the header page. -/
def new (cfg : TreeConfig) : BPlusTree V :=
  { root_page_id := cfg.INVALID_PAGE_ID, pages := [], next_page_id := 1 }

/-- Method `IsEmpty`. -/
def IsEmpty (cfg : TreeConfig) (t : BPlusTree V) : Bool :=
  decide (t.root_page_id = cfg.INVALID_PAGE_ID)

/-- Lookup of a page id in the store. -/
def pageFind : List (Int × TreePage V) → Int → Option (TreePage V)
  | [], _ => none
  | e :: m, pid => if e.1 = pid then some e.2 else pageFind m pid

/-- Write of a page into the store. -/
def pageSet : List (Int × TreePage V) → Int → TreePage V → List (Int × TreePage V)
  | [], pid, p => [(pid, p)]
  | e :: m, pid, p => if e.1 = pid then (pid, p) :: m else e :: pageSet m pid p

/-- Method `FetchPage`: a page that is not in the store is a null pointer. -/
def FetchPage (t : BPlusTree V) (page_id : Int) : Outcome (TreePage V) :=
  match pageFind t.pages page_id with
  | some p => Outcome.ok p
  | none => Outcome.fault Fault.null_deref

/-- The page `page_id` cast to a leaf page; a page of the other kind is reported
as a null pointer. -/
def fetchLeaf (t : BPlusTree V) (page_id : Int) : Outcome (LeafPage V) :=
  match t.FetchPage page_id with
  | Outcome.ok (TreePage.leaf p) => Outcome.ok p
  | Outcome.ok (TreePage.internal _) => Outcome.fault Fault.null_deref
  | Outcome.fault f => Outcome.fault f

/-- The page `page_id` cast to an internal page; a page of the other kind is
reported as a null pointer. -/
def fetchInternal (t : BPlusTree V) (page_id : Int) : Outcome InternalPage :=
  match t.FetchPage page_id with
  | Outcome.ok (TreePage.internal p) => Outcome.ok p
  | Outcome.ok (TreePage.leaf _) => Outcome.fault Fault.null_deref
  | Outcome.fault f => Outcome.fault f

/-- A write through a page pointer. -/
def store (t : BPlusTree V) (p : TreePage V) : BPlusTree V :=
  { t with pages := pageSet t.pages p.GetPageId p }

/-- Buffer pool `NewPage`: the tree afterwards and the new page id. -/
def NewPage (t : BPlusTree V) : BPlusTree V × Int :=
  ({ t with next_page_id := t.next_page_id + 1 }, t.next_page_id)

/-- Buffer pool `DeletePage` for every page of the transaction's deleted page
set, as `FreePagesInTransaction` does at the end of a call. -/
def deletePages (t : BPlusTree V) (deleted : List Int) : BPlusTree V :=
  { t with pages := t.pages.filter (fun e => decide (e.1 ∉ deleted)) }

/-- The `SetParentPageId` of a page reached through the buffer pool. -/
def setParent (t : BPlusTree V) (page_id parent_id : Int) : Outcome (BPlusTree V) :=
  match t.FetchPage page_id with
  | Outcome.ok p => Outcome.ok (t.store (p.SetParentPageId parent_id))
  | Outcome.fault f => Outcome.fault f

/-- The loop that gives every child in `children` the parent `parent_id`. -/
def setParents (t : BPlusTree V) (parent_id : Int) : List Int → Outcome (BPlusTree V)
  | [] => Outcome.ok t
  | c :: rest =>
    match t.setParent c parent_id with
    | Outcome.ok t1 => setParents t1 parent_id rest
    | Outcome.fault f => Outcome.fault f

/-- The loop of `FindLeafPage` from page `cur` down to a leaf. -/
def FindLeafLoop (t : BPlusTree V) (key : Int) (leftMost : Bool) : Nat → Int → Outcome Int
  | 0, _ => Outcome.fault Fault.out_of_fuel
  | fuel + 1, cur =>
    match t.FetchPage cur with
    | Outcome.fault f => Outcome.fault f
    | Outcome.ok (TreePage.leaf _) => Outcome.ok cur
    | Outcome.ok (TreePage.internal p) =>
      match (if leftMost then p.ValueAt 0 else p.Lookup key) with
      | Outcome.fault f => Outcome.fault f
      | Outcome.ok next => FindLeafLoop t key leftMost fuel next

/-- Method `FindLeafPage`: `none` is the null pointer returned for an empty
tree. -/
def FindLeafPage (cfg : TreeConfig) (fuel : Nat) (t : BPlusTree V) (key : Int)
    (leftMost : Bool) : Outcome (Option Int) :=
  if t.IsEmpty cfg then Outcome.ok none
  else
    match FindLeafLoop t key leftMost fuel t.root_page_id with
    | Outcome.ok leaf => Outcome.ok (some leaf)
    | Outcome.fault f => Outcome.fault f

/-- The call `result.resize(1)` on a vector; `dflt` is a value-initialised
`ValueType`. -/
def resize1 (result : List V) (dflt : V) : List V :=
  match result with
  | [] => [dflt]
  | v :: _ => [v]

/-- Method `GetValue`: the flag returned and the vector `result` afterwards. -/
def GetValue (cfg : TreeConfig) (fuel : Nat) (t : BPlusTree V) (key : Int) (result : List V)
    (dflt : V) : Outcome (Bool × List V) :=
  match FindLeafPage cfg fuel t key false with
  | Outcome.fault f => Outcome.fault f
  | Outcome.ok none => Outcome.ok (false, result)
  | Outcome.ok (some tar) =>
    match t.fetchLeaf tar with
    | Outcome.fault f => Outcome.fault f
    | Outcome.ok leaf =>
      match leaf.Lookup key with
      | Outcome.fault f => Outcome.fault f
      | Outcome.ok (some v) => Outcome.ok (true, (resize1 result dflt).set 0 v)
      | Outcome.ok none => Outcome.ok (false, resize1 result dflt)

/-- Method `StartNewTree`. -/
def StartNewTree (cfg : TreeConfig) (t : BPlusTree V) (key : Int) (value : V) :
    Outcome (BPlusTree V) :=
  let (t1, newPageId) := t.NewPage
  let root : LeafPage V := LeafPage.Init cfg newPageId cfg.INVALID_PAGE_ID
  let t2 := { t1 with root_page_id := newPageId }
  match root.Insert key value with
  | Outcome.fault f => Outcome.fault f
  | Outcome.ok (root1, _) => Outcome.ok (t2.store (TreePage.leaf root1))

/-- Modelled from the spec: `BPlusTreeInternalPage::MoveHalfTo` (body absent):
the upper half of the entries, from index `(max_size + 1) / 2` on, moves to the
recipient, and every moved child gets the recipient as parent. -/
def internalMoveHalfTo (t : BPlusTree V) (p recipient : InternalPage) :
    Outcome (BPlusTree V) :=
  let total := p.max_size + 1
  if p.GetSize = total then
    let copyIdx := Int.tdiv total 2
    let t1 := t.store (TreePage.internal { p with array := p.array.take copyIdx.toNat })
    let t2 := t1.store
      (TreePage.internal { recipient with array := p.array.drop copyIdx.toNat })
    setParents t2 recipient.page_id ((p.array.drop copyIdx.toNat).map Prod.snd)
  else Outcome.fault Fault.assert_failed

/-- Method `Split`: the tree afterwards and the id of the new page. -/
def Split (cfg : TreeConfig) (t : BPlusTree V) (kind : NodeKind) (node : Int) :
    Outcome (BPlusTree V × Int) :=
  let (t1, newPageId) := t.NewPage
  match kind with
  | NodeKind.leaf =>
    match t1.fetchLeaf node with
    | Outcome.fault f => Outcome.fault f
    | Outcome.ok p =>
      match p.MoveHalfTo (LeafPage.Init cfg newPageId p.parent_page_id) with
      | Outcome.fault f => Outcome.fault f
      | Outcome.ok (p1, newNode) =>
        Outcome.ok ((t1.store (TreePage.leaf newNode)).store (TreePage.leaf p1), newPageId)
  | NodeKind.internal =>
    match t1.fetchInternal node with
    | Outcome.fault f => Outcome.fault f
    | Outcome.ok p =>
      match internalMoveHalfTo t1 p (InternalPage.Init cfg newPageId p.parent_page_id) with
      | Outcome.fault f => Outcome.fault f
      | Outcome.ok t2 => Outcome.ok (t2, newPageId)

/-- The key `KeyAt(0)` of a page of either kind. -/
def firstKey (t : BPlusTree V) (page_id : Int) : Outcome Int :=
  match t.FetchPage page_id with
  | Outcome.fault f => Outcome.fault f
  | Outcome.ok (TreePage.leaf p) => p.KeyAt 0
  | Outcome.ok (TreePage.internal p) => p.KeyAt 0

/-- Method `InsertIntoParent`; the recursion is bounded by `fuel`. -/
def InsertIntoParent (cfg : TreeConfig) :
    Nat → BPlusTree V → Int → Int → Int → Outcome (BPlusTree V)
  | 0, _, _, _, _ => Outcome.fault Fault.out_of_fuel
  | fuel + 1, t, old_node, key, new_node =>
    match t.FetchPage old_node with
    | Outcome.fault f => Outcome.fault f
    | Outcome.ok old =>
      if old.IsRootPage cfg then
        let (t1, newRootId) := t.NewPage
        let t2 := { t1 with root_page_id := newRootId }
        let newRoot := (InternalPage.Init cfg newRootId cfg.INVALID_PAGE_ID).PopulateNewRoot
          old_node key new_node
        let t3 := t2.store (TreePage.internal newRoot)
        match t3.setParent old_node newRootId with
        | Outcome.fault f => Outcome.fault f
        | Outcome.ok t4 => t4.setParent new_node newRootId
      else
        let parentId := old.GetParentPageId
        match t.fetchInternal parentId with
        | Outcome.fault f => Outcome.fault f
        | Outcome.ok parent =>
          match t.setParent new_node parentId with
          | Outcome.fault f => Outcome.fault f
          | Outcome.ok t1 =>
            let parent1 := (parent.InsertNodeAfter old_node key new_node).1
            let t2 := t1.store (TreePage.internal parent1)
            if parent1.GetSize > parent1.max_size then
              match Split cfg t2 NodeKind.internal parentId with
              | Outcome.fault f => Outcome.fault f
              | Outcome.ok (t3, newPage) =>
                match t3.firstKey newPage with
                | Outcome.fault f => Outcome.fault f
                | Outcome.ok k => InsertIntoParent cfg fuel t3 parentId k newPage
            else Outcome.ok t2

/-- Method `InsertIntoLeaf`. -/
def InsertIntoLeaf (cfg : TreeConfig) (fuel : Nat) (t : BPlusTree V) (key : Int) (value : V) :
    Outcome (BPlusTree V × Bool) :=
  match FindLeafPage cfg fuel t key false with
  | Outcome.fault f => Outcome.fault f
  | Outcome.ok none => Outcome.fault Fault.null_deref
  | Outcome.ok (some leafId) =>
    match t.fetchLeaf leafId with
    | Outcome.fault f => Outcome.fault f
    | Outcome.ok leafPage =>
      match leafPage.Lookup key with
      | Outcome.fault f => Outcome.fault f
      | Outcome.ok (some _) => Outcome.ok (t, false)
      | Outcome.ok none =>
        match leafPage.Insert key value with
        | Outcome.fault f => Outcome.fault f
        | Outcome.ok (leaf1, _) =>
          let t1 := t.store (TreePage.leaf leaf1)
          if leaf1.GetSize > leaf1.max_size then
            match Split cfg t1 NodeKind.leaf leafId with
            | Outcome.fault f => Outcome.fault f
            | Outcome.ok (t2, newLeaf) =>
              match t2.firstKey newLeaf with
              | Outcome.fault f => Outcome.fault f
              | Outcome.ok k =>
                match InsertIntoParent cfg fuel t2 leafId k newLeaf with
                | Outcome.fault f => Outcome.fault f
                | Outcome.ok t3 => Outcome.ok (t3, true)
          else Outcome.ok (t1, true)

/-- Method `Insert`: the tree afterwards and the flag returned. -/
def Insert (cfg : TreeConfig) (fuel : Nat) (t : BPlusTree V) (key : Int) (value : V) :
    Outcome (BPlusTree V × Bool) :=
  if t.IsEmpty cfg then
    match StartNewTree cfg t key value with
    | Outcome.fault f => Outcome.fault f
    | Outcome.ok t1 => Outcome.ok (t1, true)
  else InsertIntoLeaf cfg fuel t key value

/-- Method `FindLeftSibling`: the id of the sibling and whether it is the right
one. -/
def FindLeftSibling (t : BPlusTree V) (node : TreePage V) : Outcome (Int × Bool) :=
  match t.fetchInternal node.GetParentPageId with
  | Outcome.fault f => Outcome.fault f
  | Outcome.ok parent =>
    let index := parent.ValueIndex node.GetPageId
    let siblingIndex := if index = 0 then index + 1 else index - 1
    match parent.ValueAt siblingIndex with
    | Outcome.fault f => Outcome.fault f
    | Outcome.ok sibling =>
      match t.FetchPage sibling with
      | Outcome.fault f => Outcome.fault f
      | Outcome.ok _ => Outcome.ok (sibling, decide (index = 0))

/-- Method `AdjustRoot`: the tree afterwards and the flag returned. -/
def AdjustRoot (cfg : TreeConfig) (t : BPlusTree V) (old_root_node : TreePage V) :
    Outcome (BPlusTree V × Bool) :=
  match old_root_node with
  | TreePage.leaf p =>
    if p.GetSize = 0 then
      if p.parent_page_id = cfg.INVALID_PAGE_ID then
        Outcome.ok ({ t with root_page_id := cfg.INVALID_PAGE_ID }, true)
      else Outcome.fault Fault.assert_failed
    else Outcome.fault Fault.assert_failed
  | TreePage.internal p =>
    if p.GetSize = 1 then
      match p.RemoveAndReturnOnlyChild with
      | Outcome.fault f => Outcome.fault f
      | Outcome.ok (p1, newRootId) =>
        let t1 := { t.store (TreePage.internal p1) with root_page_id := newRootId }
        match t1.setParent newRootId cfg.INVALID_PAGE_ID with
        | Outcome.fault f => Outcome.fault f
        | Outcome.ok t2 => Outcome.ok (t2, true)
    else Outcome.ok (t, false)

/-- Method `BPlusTreeLeafPage::MoveFirstToEndOf` (this page is `p`): the first
entry goes to the end of the recipient and the parent key of this page becomes
its new first key (`array[0]`, which past the end still holds the old entry). -/
def leafMoveFirstToEndOf (t : BPlusTree V) (p recipient : LeafPage V) :
    Outcome (BPlusTree V) :=
  match p.GetItem 0 with
  | Outcome.fault f => Outcome.fault f
  | Outcome.ok pair =>
    let p1 : LeafPage V := { p with array := p.array.drop 1 }
    match recipient.CopyLastFrom pair with
    | Outcome.fault f => Outcome.fault f
    | Outcome.ok recipient1 =>
      let t1 := (t.store (TreePage.leaf p1)).store (TreePage.leaf recipient1)
      match t1.fetchInternal p.parent_page_id with
      | Outcome.fault f => Outcome.fault f
      | Outcome.ok parent =>
        let key := match p1.array with
          | e :: _ => e.1
          | [] => pair.1
        match parent.SetKeyAt (parent.ValueIndex p.page_id) key with
        | Outcome.fault f => Outcome.fault f
        | Outcome.ok parent1 => Outcome.ok (t1.store (TreePage.internal parent1))

/-- Methods `BPlusTreeLeafPage::MoveLastToFrontOf` and `CopyFirstFrom` (this
page is `p`): the last entry goes to the front of the recipient and entry
`parentIndex` of the recipient's parent gets its key. -/
def leafMoveLastToFrontOf (t : BPlusTree V) (p recipient : LeafPage V) (parentIndex : Int) :
    Outcome (BPlusTree V) :=
  match p.GetItem (p.GetSize - 1) with
  | Outcome.fault f => Outcome.fault f
  | Outcome.ok pair =>
    let p1 : LeafPage V := { p with array := p.array.dropLast }
    if recipient.GetSize + 1 < recipient.max_size then
      let recipient1 : LeafPage V := { recipient with array := pair :: recipient.array }
      let t1 := (t.store (TreePage.leaf p1)).store (TreePage.leaf recipient1)
      match t1.fetchInternal recipient.parent_page_id with
      | Outcome.fault f => Outcome.fault f
      | Outcome.ok parent =>
        match parent.SetKeyAt parentIndex pair.1 with
        | Outcome.fault f => Outcome.fault f
        | Outcome.ok parent1 => Outcome.ok (t1.store (TreePage.internal parent1))
    else Outcome.fault Fault.assert_failed

/-- Modelled from the spec: `BPlusTreeInternalPage::MoveAllTo` (body absent):
the separator at `index_in_parent` of the parent becomes the key of this page's
first entry, all entries are appended to the recipient, and the moved children
get the recipient as parent. -/
def internalMoveAllTo (t : BPlusTree V) (p recipient : InternalPage) (index_in_parent : Int) :
    Outcome (BPlusTree V) :=
  match t.fetchInternal p.parent_page_id with
  | Outcome.fault f => Outcome.fault f
  | Outcome.ok parent =>
    match parent.KeyAt index_in_parent with
    | Outcome.fault f => Outcome.fault f
    | Outcome.ok sep =>
      match p.SetKeyAt 0 sep with
      | Outcome.fault f => Outcome.fault f
      | Outcome.ok p1 =>
        let t1 := t.store (TreePage.internal { p with array := [] })
        let t2 := t1.store
          (TreePage.internal { recipient with array := recipient.array ++ p1.array })
        setParents t2 recipient.page_id (p1.array.map Prod.snd)

/-- Modelled from the spec: `BPlusTreeInternalPage::MoveFirstToEndOf` (body
absent; this page is `p`, the right sibling): the first child goes to the end of
the recipient under the separator the parent holds for this page, and the
parent's separator becomes the key of this page's second entry. -/
def internalMoveFirstToEndOf (t : BPlusTree V) (p recipient : InternalPage) :
    Outcome (BPlusTree V) :=
  match t.fetchInternal p.parent_page_id with
  | Outcome.fault f => Outcome.fault f
  | Outcome.ok parent =>
    let index := parent.ValueIndex p.page_id
    match parent.KeyAt index, p.ValueAt 0, p.KeyAt 1 with
    | Outcome.ok sep, Outcome.ok child, Outcome.ok key1 =>
      match parent.SetKeyAt index key1 with
      | Outcome.fault f => Outcome.fault f
      | Outcome.ok parent1 =>
        let t1 := t.store (TreePage.internal { p with array := p.array.drop 1 })
        let t2 := t1.store
          (TreePage.internal { recipient with array := recipient.array ++ [(sep, child)] })
        let t3 := t2.store (TreePage.internal parent1)
        t3.setParent child recipient.page_id
    | Outcome.fault f, _, _ => Outcome.fault f
    | _, Outcome.fault f, _ => Outcome.fault f
    | _, _, Outcome.fault f => Outcome.fault f

/-- Modelled from the spec: `BPlusTreeInternalPage::MoveLastToFrontOf` (body
absent; this page is `p`, the left sibling): the last child goes to the front of
the recipient, the old separator at `parent_index` becomes the key of the
recipient's former first entry, and the parent's separator becomes the key of
the moved entry. -/
def internalMoveLastToFrontOf (t : BPlusTree V) (p recipient : InternalPage)
    (parent_index : Int) : Outcome (BPlusTree V) :=
  match t.fetchInternal recipient.parent_page_id with
  | Outcome.fault f => Outcome.fault f
  | Outcome.ok parent =>
    match parent.KeyAt parent_index, p.KeyAt (p.GetSize - 1), p.ValueAt (p.GetSize - 1),
      recipient.SetKeyAt 0 0 with
    | Outcome.ok sep, Outcome.ok key, Outcome.ok child, Outcome.ok _ =>
      match recipient.SetKeyAt 0 sep, parent.SetKeyAt parent_index key with
      | Outcome.ok recipient1, Outcome.ok parent1 =>
        let t1 := t.store (TreePage.internal { p with array := p.array.dropLast })
        let t2 := t1.store
          (TreePage.internal { recipient1 with array := (key, child) :: recipient1.array })
        let t3 := t2.store (TreePage.internal parent1)
        t3.setParent child recipient.page_id
      | Outcome.fault f, _ => Outcome.fault f
      | _, Outcome.fault f => Outcome.fault f
    | Outcome.fault f, _, _, _ => Outcome.fault f
    | _, Outcome.fault f, _, _ => Outcome.fault f
    | _, _, Outcome.fault f, _ => Outcome.fault f
    | _, _, _, Outcome.fault f => Outcome.fault f

/-- Method `Redistribute`. -/
def Redistribute (t : BPlusTree V) (neighbor_node node : TreePage V) (index : Int) :
    Outcome (BPlusTree V) :=
  match neighbor_node, node with
  | TreePage.leaf nb, TreePage.leaf nd =>
    if index = 0 then leafMoveFirstToEndOf t nb nd else leafMoveLastToFrontOf t nb nd index
  | TreePage.internal nb, TreePage.internal nd =>
    if index = 0 then internalMoveFirstToEndOf t nb nd
    else internalMoveLastToFrontOf t nb nd index
  | _, _ => Outcome.fault Fault.null_deref

/-- The call `node->MoveAllTo(neighbor_node, index, buffer_pool_manager_)` of
`Coalesce`. -/
def moveAllTo (t : BPlusTree V) (neighbor_node node : TreePage V) (index : Int) :
    Outcome (BPlusTree V) :=
  match neighbor_node, node with
  | TreePage.leaf nb, TreePage.leaf nd =>
    let r := nd.MoveAllTo nb
    Outcome.ok ((t.store (TreePage.leaf r.1)).store (TreePage.leaf r.2))
  | TreePage.internal nb, TreePage.internal nd => internalMoveAllTo t nd nb index
  | _, _ => Outcome.fault Fault.null_deref

/-- Method `Coalesce`; `recur` is the call of `CoalesceOrRedistribute` on the
parent.  The result is the tree afterwards, the transaction's deleted page set
afterwards, and the flag returned. -/
def Coalesce (cfg : TreeConfig)
    (recur : BPlusTree V → List Int → Int → Outcome (BPlusTree V × List Int × Bool))
    (t : BPlusTree V) (deleted : List Int) (neighbor_node node : TreePage V)
    (parent : InternalPage) (index : Int) : Outcome (BPlusTree V × List Int × Bool) :=
  if node.GetSize + neighbor_node.GetSize ≤ node.GetMaxSize then
    match moveAllTo t neighbor_node node index with
    | Outcome.fault f => Outcome.fault f
    | Outcome.ok t1 =>
      match t1.fetchInternal parent.page_id with
      | Outcome.fault f => Outcome.fault f
      | Outcome.ok parent1 =>
        match parent1.Remove index with
        | Outcome.fault f => Outcome.fault f
        | Outcome.ok parent2 =>
          let t2 := t1.store (TreePage.internal parent2)
          if parent2.GetSize ≤ (TreePage.internal parent2 : TreePage V).GetMinSize cfg then
            recur t2 (node.GetPageId :: deleted) parent.page_id
          else Outcome.ok (t2, node.GetPageId :: deleted, false)
  else Outcome.fault Fault.assert_failed

/-- Method `CoalesceOrRedistribute`; the recursion through `Coalesce` is bounded
by `fuel`.  The result is the tree afterwards, the transaction's deleted page
set afterwards, and the flag returned. -/
def CoalesceOrRedistribute (cfg : TreeConfig) :
    Nat → BPlusTree V → List Int → Int → Outcome (BPlusTree V × List Int × Bool)
  | 0, _, _, _ => Outcome.fault Fault.out_of_fuel
  | fuel + 1, t, deleted, nodeId =>
    match t.FetchPage nodeId with
    | Outcome.fault f => Outcome.fault f
    | Outcome.ok node =>
      if node.IsRootPage cfg then
        match AdjustRoot cfg t node with
        | Outcome.fault f => Outcome.fault f
        | Outcome.ok (t1, delOldRoot) =>
          Outcome.ok (t1, if delOldRoot then nodeId :: deleted else deleted, delOldRoot)
      else
        match FindLeftSibling t node with
        | Outcome.fault f => Outcome.fault f
        | Outcome.ok (node2Id, isRightSib) =>
          match t.FetchPage node2Id, t.fetchInternal node.GetParentPageId with
          | Outcome.fault f, _ => Outcome.fault f
          | _, Outcome.fault f => Outcome.fault f
          | Outcome.ok node2, Outcome.ok parentPage =>
            if node.GetSize + node2.GetSize ≤ node.GetMaxSize then
              let nd := if isRightSib then node2 else node
              let nb := if isRightSib then node else node2
              let removeIndex := parentPage.ValueIndex nd.GetPageId
              match Coalesce cfg (fun t1 d1 n1 => CoalesceOrRedistribute cfg fuel t1 d1 n1)
                t deleted nb nd parentPage removeIndex with
              | Outcome.fault f => Outcome.fault f
              | Outcome.ok (t1, deleted1, _) => Outcome.ok (t1, deleted1, true)
            else
              let nodeInParentIndex := parentPage.ValueIndex node.GetPageId
              match Redistribute t node2 node nodeInParentIndex with
              | Outcome.fault f => Outcome.fault f
              | Outcome.ok t1 => Outcome.ok (t1, deleted, false)

/-- Method `Remove`. -/
def Remove (cfg : TreeConfig) (fuel : Nat) (t : BPlusTree V) (key : Int) :
    Outcome (BPlusTree V) :=
  if t.IsEmpty cfg then Outcome.ok t
  else
    match FindLeafPage cfg fuel t key false with
    | Outcome.fault f => Outcome.fault f
    | Outcome.ok none => Outcome.fault Fault.null_deref
    | Outcome.ok (some delTar) =>
      match t.fetchLeaf delTar with
      | Outcome.fault f => Outcome.fault f
      | Outcome.ok leaf =>
        match leaf.RemoveAndDeleteRecord key with
        | Outcome.fault f => Outcome.fault f
        | Outcome.ok (leaf1, curSize) =>
          let t1 := t.store (TreePage.leaf leaf1)
          if curSize < (TreePage.leaf leaf1).GetMinSize cfg then
            match CoalesceOrRedistribute cfg fuel t1 [] delTar with
            | Outcome.fault f => Outcome.fault f
            | Outcome.ok (t2, deleted, _) => Outcome.ok (t2.deletePages deleted)
          else Outcome.ok t1

/-- Method `Begin(const KeyType &key)`. -/
def Begin (cfg : TreeConfig) (fuel : Nat) (t : BPlusTree V) (key : Int) :
    Outcome IndexIterator :=
  match FindLeafPage cfg fuel t key false with
  | Outcome.fault f => Outcome.fault f
  | Outcome.ok none => Outcome.ok { index := 0, leaf := none }
  | Outcome.ok (some start_leaf) =>
    match t.fetchLeaf start_leaf with
    | Outcome.fault f => Outcome.fault f
    | Outcome.ok leaf =>
      match leaf.KeyIndex key with
      | none => Outcome.fault Fault.out_of_fuel
      | some idx => Outcome.ok { index := idx, leaf := some start_leaf }

end BPlusTree

namespace IndexIterator

variable {V : Type}

/-- Method `isEnd` (of `src/project2C/index_iterator.h`). -/
def isEnd (it : IndexIterator) : Bool := it.leaf.isNone

/-- Method `operator*`: `leaf_->GetItem(index_)`. -/
def deref (t : BPlusTree V) (it : IndexIterator) : Outcome (Int × V) :=
  match it.leaf with
  | none => Outcome.fault Fault.null_deref
  | some leafId =>
    match t.fetchLeaf leafId with
    | Outcome.fault f => Outcome.fault f
    | Outcome.ok leaf => leaf.GetItem it.index

/-- Method `operator++`. -/
def next (cfg : TreeConfig) (t : BPlusTree V) (it : IndexIterator) : Outcome IndexIterator :=
  match it.leaf with
  | none => Outcome.fault Fault.null_deref
  | some leafId =>
    match t.fetchLeaf leafId with
    | Outcome.fault f => Outcome.fault f
    | Outcome.ok leaf =>
      let index := it.index + 1
      if index ≥ leaf.GetSize then
        if leaf.next_page_id = cfg.INVALID_PAGE_ID then Outcome.ok { index := index, leaf := none }
        else
          match t.fetchLeaf leaf.next_page_id with
          | Outcome.fault f => Outcome.fault f
          | Outcome.ok _ => Outcome.ok { index := 0, leaf := some leaf.next_page_id }
      else Outcome.ok { index := index, leaf := some leafId }

/-- The loop `for (it = tree.Begin(key); it.isEnd() == false; ++it)` of the
tests with body `*it`: the entries read, or the fault of the first `*it` or `++`
that fails. -/
def scanLoop (cfg : TreeConfig) (t : BPlusTree V) :
    Nat → IndexIterator → Outcome (List (Int × V))
  | 0, _ => Outcome.fault Fault.out_of_fuel
  | fuel + 1, it =>
    if it.isEnd then Outcome.ok []
    else
      match deref t it with
      | Outcome.fault f => Outcome.fault f
      | Outcome.ok e =>
        match next cfg t it with
        | Outcome.fault f => Outcome.fault f
        | Outcome.ok it1 =>
          match scanLoop cfg t fuel it1 with
          | Outcome.fault f => Outcome.fault f
          | Outcome.ok es => Outcome.ok (e :: es)

end IndexIterator

namespace BPlusTree

variable {V : Type}

/-- Calls of `Insert` for the given entries, in order. -/
def InsertAll (cfg : TreeConfig) (fuel : Nat) (t : BPlusTree V) :
    List (Int × V) → Outcome (BPlusTree V)
  | [] => Outcome.ok t
  | kv :: rest =>
    match Insert cfg fuel t kv.1 kv.2 with
    | Outcome.ok (t1, _) => InsertAll cfg fuel t1 rest
    | Outcome.fault f => Outcome.fault f

/-- Parameters with small pages: 92 bytes with 16-byte leaf entries
(`GenericKey<8>` and `RID`) give leaves of max size 3; internal pages of max
size 3. -/
def smallCfg : TreeConfig :=
  { PAGE_SIZE := 92, INVALID_PAGE_ID := -1, leafEntrySize := 16, internalMaxSize := 3 }

/-- The tree after inserting keys 1 and 2 (value of key k: slot k of page 0, as in
the tests) into an empty tree. -/
def tree12 : BPlusTree RID :=
  { root_page_id := 1,
    pages := [(1, TreePage.leaf ⟨3, -1, 1, -1, [(1, ⟨0, 1⟩), (2, ⟨0, 2⟩)]⟩)],
    next_page_id := 2 }

/-- The tree after inserting keys 1, 2, 3, 4 into an empty tree: two leaves under
a new root. -/
def tree1234 : BPlusTree RID :=
  { root_page_id := 3,
    pages := [(1, TreePage.leaf ⟨3, 3, 1, 2, [(1, ⟨0, 1⟩), (2, ⟨0, 2⟩)]⟩),
      (2, TreePage.leaf ⟨3, 3, 2, -1, [(3, ⟨0, 3⟩), (4, ⟨0, 4⟩)]⟩),
      (3, TreePage.internal ⟨3, -1, 3, [(0, 1), (3, 2)]⟩)],
    next_page_id := 4 }

end BPlusTree

namespace LockManager

/-- The rest of a lock call whose request had to wait, run once another thread
has granted the request (`Wait` returns in `TxList::insert`): the rid enters the
lock set named by the mode the call was made with, and the call returns true. -/
def resume (txn : Transaction) (rid : RID) (mode : LockMode) : Transaction × LockResult :=
  (enterLockSet txn rid mode, LockResult.returned true)

/-- A manager in which transaction 1 holds an exclusive lock on rid (0, 0),
transaction 2 waits for a shared lock and transaction 3 for an exclusive one. -/
def writerThenWaiters : LockManager :=
  { strict_2PL := false,
    lockTable := [(⟨0, 0⟩, ⟨[⟨1, LockMode.EXCLUSIVE, true⟩, ⟨2, LockMode.SHARED, false⟩,
      ⟨3, LockMode.EXCLUSIVE, false⟩], false⟩)] }

/-- Transaction 1 holding an exclusive lock on rid (0, 0). -/
def writer : Transaction :=
  { txn_id := 1, state := TransactionState.GROWING, shared_lock_set := [],
    exclusive_lock_set := [⟨0, 0⟩] }

end LockManager
/-- Modelled from the spec: enum `WType` of `concurrency/transaction.h` (absent),
the kind of a write recorded in a transaction's write set. -/
inductive WType where
  | INSERT
  | DELETE
  | UPDATE
deriving DecidableEq, Repr

/-- Modelled from the spec: class `WriteRecord` of `concurrency/transaction.h`
(absent) as far as `Commit` reads it: the rid and the kind of the write. -/
structure WriteRecord where
  rid : RID
  wtype : WType
deriving DecidableEq, Repr

namespace TransactionManager

/-- The loop of `Commit` over the write set, last record first: a DELETE record
calls `table->ApplyDelete(item.rid_, txn)`.  `TableHeap::ApplyDelete` is not
among the sources; `applyDelete` is what it does to the lock manager and to the
transaction. -/
def commitWrites
    (applyDelete : LockManager → Transaction → RID → Outcome (LockManager × Transaction)) :
    LockManager → Transaction → List WriteRecord → Outcome (LockManager × Transaction)
  | lm, txn, [] => Outcome.ok (lm, txn)
  | lm, txn, item :: rest =>
    if item.wtype = WType.DELETE then
      match applyDelete lm txn item.rid with
      | Outcome.fault f => Outcome.fault f
      | Outcome.ok (lm1, txn1) => commitWrites applyDelete lm1 txn1 rest
    else commitWrites applyDelete lm txn rest

/-- The local `lock_set` of `Commit`: the rids of the shared lock set, then those
of the exclusive lock set, each put in with `emplace`. -/
def lockSetOf (txn : Transaction) : List RID :=
  (txn.shared_lock_set ++ txn.exclusive_lock_set).foldl setInsert []

/-- The loop `for (auto locked_rid : lock_set) lock_manager_->Unlock(txn,
locked_rid)`; the flag `Unlock` returns is dropped. -/
def releaseAll : LockManager → Transaction → List RID → Outcome (LockManager × Transaction)
  | lm, txn, [] => Outcome.ok (lm, txn)
  | lm, txn, rid :: rest =>
    match LockManager.Unlock lm txn rid with
    | Outcome.fault f => Outcome.fault f
    | Outcome.ok (lm1, txn1, _) => releaseAll lm1 txn1 rest

/-- Method `Commit` with `ENABLE_LOGGING` false (the block that writes the COMMIT
record is skipped); `write_set` is `*txn->GetWriteSet()`, oldest record first. -/
def Commit
    (applyDelete : LockManager → Transaction → RID → Outcome (LockManager × Transaction))
    (lm : LockManager) (txn : Transaction) (write_set : List WriteRecord) :
    Outcome (LockManager × Transaction) :=
  match commitWrites applyDelete lm { txn with state := TransactionState.COMMITTED }
      write_set.reverse with
  | Outcome.fault f => Outcome.fault f
  | Outcome.ok (lm1, txn1) => releaseAll lm1 txn1 (lockSetOf txn1)

end TransactionManager

namespace LockManager

/-- The requests of the transaction in the list of `rid`. -/
def mine (lm : LockManager) (txn : Transaction) (rid : RID) : List TxItem :=
  (requests lm rid).filter (fun it => decide (it.tid = txn.txn_id))

/-- Every lock request of the transaction is granted and its lock sets say so:
on each rid the transaction has no request and the rid is in neither lock set, or
it has one request, which is granted, and the rid is in the lock set that matches
the mode of the request and not in the other. -/
def AllGranted (lm : LockManager) (txn : Transaction) : Prop :=
  ∀ rid, (mine lm txn rid = [] ∧ rid ∉ txn.shared_lock_set ∧ rid ∉ txn.exclusive_lock_set) ∨
    ∃ it, mine lm txn rid = [it] ∧ it.granted = true ∧
      ((it.mode = LockMode.SHARED ∧ rid ∈ txn.shared_lock_set ∧
          rid ∉ txn.exclusive_lock_set) ∨
       (it.mode ≠ LockMode.SHARED ∧ rid ∈ txn.exclusive_lock_set ∧
          rid ∉ txn.shared_lock_set))

/-- Modelled from the spec: `TableHeap::ApplyDelete` (`table/table_heap.h` is
absent) as far as the locks go: "this also release the lock when holding the page
latch", a call of `Unlock` whose flag is dropped. -/
def heapApplyDelete (lm : LockManager) (txn : Transaction) (rid : RID) :
    Outcome (LockManager × Transaction) :=
  match Unlock lm txn rid with
  | Outcome.fault f => Outcome.fault f
  | Outcome.ok (lm1, txn1, _) => Outcome.ok (lm1, txn1)

/-- Transaction 0 holding a shared lock on rid (0, 0) and an exclusive lock on rid
(0, 1), the latter on a tuple it deleted. -/
def twoLocks : LockManager :=
  { strict_2PL := true,
    lockTable := [(⟨0, 0⟩, ⟨[⟨0, LockMode.SHARED, true⟩, ⟨1, LockMode.SHARED, true⟩], false⟩),
      (⟨0, 1⟩, ⟨[⟨0, LockMode.EXCLUSIVE, true⟩, ⟨1, LockMode.SHARED, false⟩], false⟩)] }

/-- The transaction of `twoLocks`. -/
def twoLocksTxn : Transaction :=
  { txn_id := 0, state := TransactionState.GROWING, shared_lock_set := [⟨0, 0⟩],
    exclusive_lock_set := [⟨0, 1⟩] }

end LockManager

/-! ## Table pages, log records and recovery (`src/project4`)

A page or a log buffer is the list of its bytes.  An `int32_t` is stored in four
bytes, least significant first, and read back as a two's complement value;
offsets are integers.  A read outside the buffer and a copy that does not fit in
it are undefined in the source: here such a read yields 0 and such a copy is left
out.  The arithmetic on offsets and sizes is exact; it stays below `2^31` on the
pages the theorems speak of.  `ENABLE_LOGGING` is false in every table page call
(recovery asserts it), so the blocks under `if (ENABLE_LOGGING)` are left out and
the transaction, lock manager and log manager arguments, null pointers in
recovery, are dropped. -/

/-- The value an `int32_t` holds after the store of `v`. -/
def wrap32 (v : Int) : Int := toInt32 (v % 4294967296).toNat

/-- The four bytes of an `int32_t`, least significant first. -/
def enc32 (v : Int) : List Nat :=
  let u := (v % 4294967296).toNat
  [u % 256, u / 256 % 256, u / 65536 % 256, u / 16777216 % 256]

/-- Byte `a` of a buffer. -/
def getByte (d : List Nat) (a : Int) : Nat := if 0 ≤ a then d.getD a.toNat 0 else 0

/-- The `n` bytes from offset `a` on. -/
def rdBytes (d : List Nat) (a : Int) (n : Int) : List Nat :=
  (List.range n.toNat).map (fun (i : Nat) => getByte d (a + (i : Int)))

/-- The `int32_t` at offset `a`. -/
def rd32 (d : List Nat) (a : Int) : Int :=
  toInt32 (getByte d a + 256 * getByte d (a + 1) + 65536 * getByte d (a + 2)
    + 16777216 * getByte d (a + 3))

/-- The call `memcpy(buffer + a, src, src.length)`. -/
def wrBytes (d : List Nat) (a : Int) (src : List Nat) : List Nat :=
  if 0 ≤ a ∧ a + src.length ≤ d.length then
    d.take a.toNat ++ src ++ d.drop (a.toNat + src.length)
  else d

/-- The store of an `int32_t` at offset `a`. -/
def wr32 (d : List Nat) (a : Int) (v : Int) : List Nat := wrBytes d a (enc32 v)
/-- Modelled from the spec: class `Tuple` (`table/tuple.h` is absent) as far as
the table page uses it: the bytes `data_` (`size_` is their number), the record
id `rid_` and the flag `allocated_`. -/
structure Tuple where
  data : List Nat
  rid : RID
  allocated : Bool
deriving DecidableEq, Repr

namespace Tuple

/-- Field `size_`. -/
def size (t : Tuple) : Int := t.data.length

/-- Modelled from the spec: the default constructor `Tuple()`, an empty tuple
with the invalid record id. -/
def empty (INVALID_PAGE_ID : Int) : Tuple :=
  { data := [], rid := ⟨INVALID_PAGE_ID, -1⟩, allocated := false }

end Tuple

/-- Class `TablePage`: the bytes `GetData()` of the page.  The header is
`page_id@0`, `lsn@4`, `prev_page_id@8`, `next_page_id@12`,
`free_space_pointer@16`, `tuple_count@20`; slot `i` is `offset@24+8i`,
`size@28+8i`. -/
structure TablePage where
  data : List Nat
deriving DecidableEq, Repr

namespace TablePage

/-- Method `GetPageId`. -/
def GetPageId (p : TablePage) : Int := rd32 p.data 0

/-- Modelled from the spec: `Page::GetLSN` (`page/page.h` is absent), the
`int32_t` at offset 4. -/
def GetLSN (p : TablePage) : Int := rd32 p.data 4

/-- Modelled from the spec: `Page::SetLSN` (`page/page.h` is absent). -/
def SetLSN (p : TablePage) (lsn : Int) : TablePage := ⟨wr32 p.data 4 lsn⟩

/-- Method `GetPrevPageId`. -/
def GetPrevPageId (p : TablePage) : Int := rd32 p.data 8

/-- Method `GetNextPageId`. -/
def GetNextPageId (p : TablePage) : Int := rd32 p.data 12

/-- Method `SetPrevPageId`. -/
def SetPrevPageId (p : TablePage) (prev_page_id : Int) : TablePage :=
  ⟨wr32 p.data 8 prev_page_id⟩

/-- Method `SetNextPageId`. -/
def SetNextPageId (p : TablePage) (next_page_id : Int) : TablePage :=
  ⟨wr32 p.data 12 next_page_id⟩

/-- Method `GetFreeSpacePointer`. -/
def GetFreeSpacePointer (p : TablePage) : Int := rd32 p.data 16

/-- Method `SetFreeSpacePointer`. -/
def SetFreeSpacePointer (p : TablePage) (free_space_pointer : Int) : TablePage :=
  ⟨wr32 p.data 16 free_space_pointer⟩

/-- Method `GetTupleCount`. -/
def GetTupleCount (p : TablePage) : Int := rd32 p.data 20

/-- Method `SetTupleCount`. -/
def SetTupleCount (p : TablePage) (tuple_count : Int) : TablePage :=
  ⟨wr32 p.data 20 tuple_count⟩

/-- Method `GetTupleOffset`. -/
def GetTupleOffset (p : TablePage) (slot_num : Int) : Int := rd32 p.data (24 + 8 * slot_num)

/-- Method `GetTupleSize`. -/
def GetTupleSize (p : TablePage) (slot_num : Int) : Int := rd32 p.data (28 + 8 * slot_num)

/-- Method `SetTupleOffset`. -/
def SetTupleOffset (p : TablePage) (slot_num : Int) (offset : Int) : TablePage :=
  ⟨wr32 p.data (24 + 8 * slot_num) offset⟩

/-- Method `SetTupleSize`. -/
def SetTupleSize (p : TablePage) (slot_num : Int) (size : Int) : TablePage :=
  ⟨wr32 p.data (28 + 8 * slot_num) size⟩

/-- Method `GetFreeSpaceSize`. -/
def GetFreeSpaceSize (p : TablePage) : Int :=
  p.GetFreeSpacePointer - 24 - p.GetTupleCount * 8

/-- Method `Init` on the frame `p`. -/
def Init (cfg : Config) (p : TablePage) (page_id : Int) (page_size : Int)
    (prev_page_id : Int) : TablePage :=
  let p1 : TablePage := ⟨wr32 p.data 0 page_id⟩
  let p2 := p1.SetPrevPageId prev_page_id
  let p3 := p2.SetNextPageId cfg.INVALID_PAGE_ID
  let p4 := p3.SetFreeSpacePointer page_size
  p4.SetTupleCount 0

/-- The loop of `InsertTuple` that looks for an empty slot, from slot `i` on with
`n` slots left: the value of `i` when the loop ends. -/
def freeSlotLoop (p : TablePage) : Nat → Int → Int
  | 0, i => i
  | n + 1, i => if p.GetTupleSize i = 0 then i else freeSlotLoop p n (i + 1)

/-- Method `InsertTuple`: the page afterwards, the `rid` afterwards and the flag
returned. -/
def InsertTuple (p : TablePage) (tuple : Tuple) (rid : RID) :
    Outcome (TablePage × RID × Bool) :=
  if tuple.size > 0 then
    if p.GetFreeSpaceSize < tuple.size then Outcome.ok (p, rid, false)
    else
      let i := freeSlotLoop p p.GetTupleCount.toNat 0
      let rid1 : RID :=
        if p.GetTupleCount ≤ 0 then rid
        else if i = p.GetTupleCount then ⟨p.GetPageId, i - 1⟩ else ⟨p.GetPageId, i⟩
      if i = p.GetTupleCount ∧ p.GetFreeSpaceSize < tuple.size + 8 then
        Outcome.ok (p, rid1, false)
      else
        let p1 := p.SetFreeSpacePointer (p.GetFreeSpacePointer - tuple.size)
        let p2 : TablePage := ⟨wrBytes p1.data p1.GetFreeSpacePointer tuple.data⟩
        let p3 := p2.SetTupleOffset i p2.GetFreeSpacePointer
        let p4 := p3.SetTupleSize i tuple.size
        if i = p4.GetTupleCount then
          Outcome.ok (p4.SetTupleCount (p4.GetTupleCount + 1), ⟨p4.GetPageId, i⟩, true)
        else Outcome.ok (p4, rid1, true)
  else Outcome.fault Fault.assert_failed

/-- Method `MarkDelete`: the page afterwards and the flag returned. -/
def MarkDelete (p : TablePage) (rid : RID) : TablePage × Bool :=
  let slot_num := rid.slot_num
  if slot_num ≥ p.GetTupleCount then (p, false)
  else
    let tuple_size := p.GetTupleSize slot_num
    if tuple_size < 0 then (p, false)
    else if tuple_size > 0 then (p.SetTupleSize slot_num (-tuple_size), true)
    else (p, true)

/-- The loop that updates the tuple offsets at the end of `UpdateTuple` and of
`ApplyDelete`, from slot `i` on with `n` slots left: the offset of every slot in
use that is below `limit` grows by `delta`. -/
def shiftLoop (limit delta : Int) : Nat → Int → TablePage → TablePage
  | 0, _, p => p
  | n + 1, i, p =>
    let tuple_offset_i := p.GetTupleOffset i
    shiftLoop limit delta n (i + 1)
      (if p.GetTupleSize i ≠ 0 ∧ tuple_offset_i < limit then
        p.SetTupleOffset i (tuple_offset_i + delta)
      else p)

/-- Method `UpdateTuple`: the page afterwards, `old_tuple` afterwards and the flag
returned. -/
def UpdateTuple (p : TablePage) (new_tuple old_tuple : Tuple) (rid : RID) :
    Outcome (TablePage × Tuple × Bool) :=
  let slot_num := rid.slot_num
  if slot_num ≥ p.GetTupleCount then Outcome.ok (p, old_tuple, false)
  else
    let tuple_size := p.GetTupleSize slot_num
    if tuple_size ≤ 0 then Outcome.ok (p, old_tuple, false)
    else if p.GetFreeSpaceSize < new_tuple.size - tuple_size then
      Outcome.ok (p, old_tuple, false)
    else
      let tuple_offset := p.GetTupleOffset slot_num
      let old1 : Tuple := ⟨rdBytes p.data tuple_offset tuple_size, rid, true⟩
      let free_space_pointer := p.GetFreeSpacePointer
      if tuple_offset ≥ free_space_pointer then
        let p1 : TablePage := ⟨wrBytes p.data (free_space_pointer + tuple_size - new_tuple.size)
          (rdBytes p.data free_space_pointer (tuple_offset - free_space_pointer))⟩
        let p2 := p1.SetFreeSpacePointer (free_space_pointer + tuple_size - new_tuple.size)
        let p3 : TablePage :=
          ⟨wrBytes p2.data (tuple_offset + tuple_size - new_tuple.size) new_tuple.data⟩
        let p4 := p3.SetTupleSize slot_num new_tuple.size
        Outcome.ok (shiftLoop (tuple_offset + tuple_size) (tuple_size - new_tuple.size)
          p4.GetTupleCount.toNat 0 p4, old1, true)
      else Outcome.fault Fault.assert_failed

/-- Method `ApplyDelete`. -/
def ApplyDelete (p : TablePage) (rid : RID) : Outcome TablePage :=
  let slot_num := rid.slot_num
  if slot_num < p.GetTupleCount then
    let tuple_offset := p.GetTupleOffset slot_num
    let tuple_size :=
      if p.GetTupleSize slot_num < 0 then -p.GetTupleSize slot_num else p.GetTupleSize slot_num
    let free_space_pointer := p.GetFreeSpacePointer
    if tuple_offset ≥ free_space_pointer then
      let p1 : TablePage := ⟨wrBytes p.data (free_space_pointer + tuple_size)
        (rdBytes p.data free_space_pointer (tuple_offset - free_space_pointer))⟩
      let p2 := p1.SetFreeSpacePointer (free_space_pointer + tuple_size)
      let p3 := p2.SetTupleSize slot_num 0
      let p4 := p3.SetTupleOffset slot_num 0
      Outcome.ok (shiftLoop tuple_offset tuple_size p4.GetTupleCount.toNat 0 p4)
    else Outcome.fault Fault.assert_failed
  else Outcome.fault Fault.assert_failed

/-- Method `RollbackDelete`. -/
def RollbackDelete (p : TablePage) (rid : RID) : Outcome TablePage :=
  let slot_num := rid.slot_num
  if slot_num < p.GetTupleCount then
    let tuple_size := p.GetTupleSize slot_num
    if tuple_size < 0 then Outcome.ok (p.SetTupleSize slot_num (-tuple_size))
    else Outcome.ok p
  else Outcome.fault Fault.assert_failed

/-- Method `GetTuple`: `tuple` afterwards and the flag returned. -/
def GetTuple (p : TablePage) (rid : RID) (tuple : Tuple) : Tuple × Bool :=
  let slot_num := rid.slot_num
  if slot_num ≥ p.GetTupleCount then (tuple, false)
  else
    let tuple_size := p.GetTupleSize slot_num
    if tuple_size ≤ 0 then (tuple, false)
    else
      let tuple_offset := p.GetTupleOffset slot_num
      (⟨rdBytes p.data tuple_offset tuple_size, rid, true⟩, true)

end TablePage
namespace TablePage

/-- Shape of a table page of `PAGE_SIZE` bytes: the slot array ends below the free
space pointer, every slot in use (size not 0; a negative size is a tuple marked as
deleted) names bytes between the free space pointer and the end of the page, and
no two slots in use share a byte. -/
structure TInv (cfg : Config) (p : TablePage) : Prop where
  len : p.data.length = cfg.PAGE_SIZE
  count_nonneg : 0 ≤ p.GetTupleCount
  slots_fit : 24 + 8 * p.GetTupleCount ≤ p.GetFreeSpacePointer
  fsp_le : p.GetFreeSpacePointer ≤ cfg.PAGE_SIZE
  slot_in : ∀ i, 0 ≤ i → i < p.GetTupleCount → p.GetTupleSize i ≠ 0 →
    p.GetFreeSpacePointer ≤ p.GetTupleOffset i ∧
    p.GetTupleOffset i + p.GetTupleSize i ≤ cfg.PAGE_SIZE ∧
    p.GetTupleOffset i - p.GetTupleSize i ≤ cfg.PAGE_SIZE
  disjoint : ∀ i j, 0 ≤ i → i < p.GetTupleCount → 0 ≤ j → j < p.GetTupleCount → i ≠ j →
    p.GetTupleSize i ≠ 0 → p.GetTupleSize j ≠ 0 →
    (p.GetTupleOffset i + p.GetTupleSize i ≤ p.GetTupleOffset j ∧
      p.GetTupleOffset i - p.GetTupleSize i ≤ p.GetTupleOffset j) ∨
    (p.GetTupleOffset j + p.GetTupleSize j ≤ p.GetTupleOffset i ∧
      p.GetTupleOffset j - p.GetTupleSize j ≤ p.GetTupleOffset i)

/-- Table pages reached from `Init` on a frame of `PAGE_SIZE` bytes by the table
page calls, with logging disabled; record ids name slots, so their slot numbers
are not negative. -/
inductive TPReachable (cfg : Config) : TablePage → Prop where
  | init (p : TablePage) (page_id prev_page_id : Int) :
      p.data.length = cfg.PAGE_SIZE →
      TPReachable cfg (Init cfg p page_id cfg.PAGE_SIZE prev_page_id)
  | insert (p : TablePage) (tuple : Tuple) (rid : RID) (p1 : TablePage) (rid1 : RID)
      (b : Bool) :
      TPReachable cfg p → InsertTuple p tuple rid = Outcome.ok (p1, rid1, b) →
      TPReachable cfg p1
  | markDelete (p : TablePage) (rid : RID) :
      TPReachable cfg p → 0 ≤ rid.slot_num → TPReachable cfg (MarkDelete p rid).1
  | update (p : TablePage) (new_tuple old_tuple : Tuple) (rid : RID) (p1 : TablePage)
      (old1 : Tuple) (b : Bool) :
      TPReachable cfg p → 0 ≤ rid.slot_num →
      UpdateTuple p new_tuple old_tuple rid = Outcome.ok (p1, old1, b) → TPReachable cfg p1
  | applyDelete (p : TablePage) (rid : RID) (p1 : TablePage) :
      TPReachable cfg p → 0 ≤ rid.slot_num → ApplyDelete p rid = Outcome.ok p1 →
      TPReachable cfg p1
  | rollbackDelete (p : TablePage) (rid : RID) (p1 : TablePage) :
      TPReachable cfg p → 0 ≤ rid.slot_num → RollbackDelete p rid = Outcome.ok p1 →
      TPReachable cfg p1
  | setLSN (p : TablePage) (lsn : Int) : TPReachable cfg p → TPReachable cfg (p.SetLSN lsn)
  | setPrevPageId (p : TablePage) (id : Int) :
      TPReachable cfg p → TPReachable cfg (p.SetPrevPageId id)
  | setNextPageId (p : TablePage) (id : Int) :
      TPReachable cfg p → TPReachable cfg (p.SetNextPageId id)

end TablePage
namespace TablePage

/-- A configuration with pages of 48 bytes, for examples. -/
def demoPageConfig : Config :=
  { PAGE_SIZE := 48, BUCKET_SIZE := 2, INVALID_PAGE_ID := -1, INVALID_LSN := -1 }

/-- The table page 7 right after `Init`, without a previous page. -/
def demoTablePage : TablePage := Init demoPageConfig ⟨List.replicate 48 0⟩ 7 48 (-1)

/-- The page `demoTablePage` after the insertion of the tuple `[1, 2, 3]`. -/
def demoTablePage1 : TablePage :=
  ⟨[7, 0, 0, 0, 0, 0, 0, 0, 255, 255, 255, 255, 255, 255, 255, 255, 45, 0, 0, 0, 1, 0, 0, 0,
    45, 0, 0, 0, 3, 0, 0, 0, 0, 0, 0, 0, 0, 0, 0, 0, 0, 0, 0, 0, 0, 1, 2, 3]⟩

end TablePage

/-! ## Log records and the log manager (`src/project4/log_record.h`,
`log_manager.cpp`)

The header of a record is the first 20 bytes of the object: the five `int`
members `size_`, `lsn_`, `txn_id_`, `prev_lsn_`, `log_record_type_`.
`common/config.h` is absent, so `LOG_BUFFER_SIZE` and `INVALID_TXN_ID` are
parameters.  A log buffer is a byte array of `LOG_BUFFER_SIZE` bytes, a position
in it an index. -/

namespace RID

/-- Modelled from the spec: the 8 bytes of a `RID` in memory (`sizeof(RID)`), the
page id followed by the slot number, written at `pos`. -/
def write (buf : List Nat) (pos : Int) (rid : RID) : List Nat :=
  wr32 (wr32 buf pos rid.page_id) (pos + 4) rid.slot_num

/-- Modelled from the spec: the `RID` whose 8 bytes start at `pos`. -/
def read (buf : List Nat) (pos : Int) : RID := ⟨rd32 buf pos, rd32 buf (pos + 4)⟩

end RID

namespace Tuple

/-- Modelled from the spec: `Tuple::SerializeTo(storage)`, "tuple serializer
writes length-prefixed bytes": the size as a 32-bit integer, then the bytes. -/
def SerializeTo (t : Tuple) (buf : List Nat) (pos : Int) : List Nat :=
  wrBytes (wr32 buf pos t.size) (pos + 4) t.data

/-- Modelled from the spec: `Tuple::DeserializeFrom(storage)`, the inverse of
`SerializeTo`: reads the size, then that many bytes; the record id of the tuple
is left as it is. -/
def DeserializeFrom (t : Tuple) (buf : List Nat) (pos : Int) : Tuple :=
  { t with data := rdBytes buf (pos + 4) (rd32 buf pos), allocated := true }

end Tuple

/-- Enum `LogRecordType`, by the integer values of its members. -/
structure LogRecordType where
  val : Int
deriving DecidableEq, Repr

namespace LogRecordType

def INVALID : LogRecordType := ⟨0⟩
def INSERT : LogRecordType := ⟨1⟩
def MARKDELETE : LogRecordType := ⟨2⟩
def APPLYDELETE : LogRecordType := ⟨3⟩
def ROLLBACKDELETE : LogRecordType := ⟨4⟩
def UPDATE : LogRecordType := ⟨5⟩
def BEGIN : LogRecordType := ⟨6⟩
def COMMIT : LogRecordType := ⟨7⟩
def ABORT : LogRecordType := ⟨8⟩
def NEWPAGE : LogRecordType := ⟨9⟩

end LogRecordType

/-- Class `LogRecord`, its data members in the order of declaration. -/
structure LogRecord where
  size : Int
  lsn : Int
  txn_id : Int
  prev_lsn : Int
  log_record_type : LogRecordType
  delete_rid : RID
  delete_tuple : Tuple
  insert_rid : RID
  insert_tuple : Tuple
  update_rid : RID
  old_tuple : Tuple
  new_tuple : Tuple
  prev_page_id : Int
  page_id : Int
deriving DecidableEq, Repr

namespace LogRecord

/-- Constant `HEADER_SIZE`. -/
def HEADER_SIZE : Int := 20

/-- Constructor `LogRecord()`.  The record ids and tuples are default
constructed (modelled from the spec: the invalid record id, the empty tuple). -/
def new (cfg : Config) (INVALID_TXN_ID : Int) : LogRecord :=
  { size := 0, lsn := cfg.INVALID_LSN, txn_id := INVALID_TXN_ID,
    prev_lsn := cfg.INVALID_LSN, log_record_type := LogRecordType.INVALID,
    delete_rid := ⟨cfg.INVALID_PAGE_ID, -1⟩, delete_tuple := Tuple.empty cfg.INVALID_PAGE_ID,
    insert_rid := ⟨cfg.INVALID_PAGE_ID, -1⟩, insert_tuple := Tuple.empty cfg.INVALID_PAGE_ID,
    update_rid := ⟨cfg.INVALID_PAGE_ID, -1⟩, old_tuple := Tuple.empty cfg.INVALID_PAGE_ID,
    new_tuple := Tuple.empty cfg.INVALID_PAGE_ID,
    prev_page_id := cfg.INVALID_PAGE_ID, page_id := cfg.INVALID_PAGE_ID }

/-- Constructor for the transaction records (BEGIN, COMMIT, ABORT):
`LogRecord(txn_id, prev_lsn, log_record_type)`. -/
def ofTxn (cfg : Config) (INVALID_TXN_ID : Int) (txn_id prev_lsn : Int)
    (log_record_type : LogRecordType) : LogRecord :=
  { new cfg INVALID_TXN_ID with
    size := HEADER_SIZE, lsn := cfg.INVALID_LSN, txn_id := txn_id, prev_lsn := prev_lsn,
    log_record_type := log_record_type }

/-- Constructor for the INSERT and delete records:
`LogRecord(txn_id, prev_lsn, log_record_type, rid, tuple)`.  The size is computed
in `size_t` and stored in an `int32_t`. -/
def ofTuple (cfg : Config) (INVALID_TXN_ID : Int) (txn_id prev_lsn : Int)
    (log_record_type : LogRecordType) (rid : RID) (tuple : Tuple) : Outcome LogRecord :=
  let r0 : LogRecord :=
    { new cfg INVALID_TXN_ID with
      lsn := cfg.INVALID_LSN, txn_id := txn_id, prev_lsn := prev_lsn,
      log_record_type := log_record_type }
  if log_record_type = LogRecordType.INSERT then
    Outcome.ok { r0 with insert_rid := rid, insert_tuple := tuple,
                         size := wrap32 (HEADER_SIZE + 8 + 4 + tuple.size) }
  else if log_record_type = LogRecordType.APPLYDELETE ∨
      log_record_type = LogRecordType.MARKDELETE ∨
      log_record_type = LogRecordType.ROLLBACKDELETE then
    Outcome.ok { r0 with delete_rid := rid, delete_tuple := tuple,
                         size := wrap32 (HEADER_SIZE + 8 + 4 + tuple.size) }
  else Outcome.fault Fault.assert_failed

/-- Constructor for the UPDATE record:
`LogRecord(txn_id, prev_lsn, log_record_type, update_rid, old_tuple, new_tuple)`. -/
def ofUpdate (cfg : Config) (INVALID_TXN_ID : Int) (txn_id prev_lsn : Int)
    (log_record_type : LogRecordType) (update_rid : RID) (old_tuple new_tuple : Tuple) :
    LogRecord :=
  { new cfg INVALID_TXN_ID with
    lsn := cfg.INVALID_LSN, txn_id := txn_id, prev_lsn := prev_lsn,
    log_record_type := log_record_type, update_rid := update_rid, old_tuple := old_tuple,
    new_tuple := new_tuple,
    size := wrap32 (HEADER_SIZE + 8 + old_tuple.size + new_tuple.size + 2 * 4) }

/-- Constructor for the NEWPAGE record:
`LogRecord(txn_id, prev_lsn, log_record_type, prev_page_id, page_id)`. -/
def ofNewPage (cfg : Config) (INVALID_TXN_ID : Int) (txn_id prev_lsn : Int)
    (log_record_type : LogRecordType) (prev_page_id page_id : Int) : LogRecord :=
  { new cfg INVALID_TXN_ID with
    lsn := cfg.INVALID_LSN, txn_id := txn_id, prev_lsn := prev_lsn,
    log_record_type := log_record_type, prev_page_id := prev_page_id, page_id := page_id,
    size := HEADER_SIZE + 4 * 2 }

/-- The copy of the first `HEADER_SIZE` bytes of the record to `pos`
(`memcpy(log_buffer_ + logBufferOffset_, &log_record, HEADER_SIZE)`). -/
def writeHeader (r : LogRecord) (buf : List Nat) (pos : Int) : List Nat :=
  wr32 (wr32 (wr32 (wr32 (wr32 buf pos r.size) (pos + 4) r.lsn) (pos + 8) r.txn_id)
    (pos + 12) r.prev_lsn) (pos + 16) r.log_record_type.val

/-- The copy of `HEADER_SIZE` bytes at `pos` over the first members of the
record (`memcpy(&log_record, data, HEADER_SIZE)`). -/
def readHeader (r : LogRecord) (buf : List Nat) (pos : Int) : LogRecord :=
  { r with size := rd32 buf pos, lsn := rd32 buf (pos + 4), txn_id := rd32 buf (pos + 8),
           prev_lsn := rd32 buf (pos + 12), log_record_type := ⟨rd32 buf (pos + 16)⟩ }

end LogRecord

/-- How a call of `AppendLogRecord` goes on: it returns the lsn (with the log
manager and the record as they are then), or it blocks on `appendCv_`. -/
inductive AppendResult where
  | done (l : LogManager) (log_record : LogRecord) (lsn : Int)
  | waiting (l : LogManager)
deriving DecidableEq, Repr

namespace LogManager

/-- Method `AppendLogRecord` after the wait: stamps the record, serializes it at
`logBufferOffset_` and advances the offset.  `next_lsn_` is an atomic 32-bit
counter. -/
def appendBody (l : LogManager) (log_record : LogRecord) : LogManager × LogRecord × Int :=
  let r : LogRecord := { log_record with lsn := l.next_lsn }
  let l1 : LogManager := { l with next_lsn := wrap32 (l.next_lsn + 1) }
  let b0 := r.writeHeader l1.log_buffer l1.logBufferOffset
  let pos := l1.logBufferOffset + LogRecord.HEADER_SIZE
  let b1 :=
    if r.log_record_type = LogRecordType.INSERT then
      r.insert_tuple.SerializeTo (RID.write b0 pos r.insert_rid) (pos + 8)
    else if r.log_record_type = LogRecordType.MARKDELETE ∨
        r.log_record_type = LogRecordType.APPLYDELETE ∨
        r.log_record_type = LogRecordType.ROLLBACKDELETE then
      r.delete_tuple.SerializeTo (RID.write b0 pos r.delete_rid) (pos + 8)
    else if r.log_record_type = LogRecordType.UPDATE then
      r.new_tuple.SerializeTo
        (r.old_tuple.SerializeTo (RID.write b0 pos r.update_rid) (pos + 8))
        (pos + 8 + (r.old_tuple.size + 4))
    else if r.log_record_type = LogRecordType.NEWPAGE then
      wr32 (wr32 b0 pos r.prev_page_id) (pos + 4) r.page_id
    else b0
  ({ l1 with log_buffer := b1, logBufferOffset := l1.logBufferOffset + r.size,
             lastLsn := r.lsn }, r, r.lsn)

/-- Method `AppendLogRecord`.  When the record does not fit, the call sets
`needFlush_` and blocks until the flush thread has made room. -/
def AppendLogRecord (LOG_BUFFER_SIZE : Int) (l : LogManager) (log_record : LogRecord) :
    AppendResult :=
  if l.logBufferOffset + log_record.size ≥ LOG_BUFFER_SIZE then
    AppendResult.waiting { l with needFlush := true }
  else
    AppendResult.done (appendBody l log_record).1 (appendBody l log_record).2.1
      (appendBody l log_record).2.2

/-- A blocked `AppendLogRecord` when `appendCv_` is notified: it goes on once the
record fits. -/
def resumeAppend (LOG_BUFFER_SIZE : Int) (l : LogManager) (log_record : LogRecord) :
    AppendResult :=
  if l.logBufferOffset + log_record.size < LOG_BUFFER_SIZE then
    AppendResult.done (appendBody l log_record).1 (appendBody l log_record).2.1
      (appendBody l log_record).2.2
  else AppendResult.waiting l

end LogManager

/-- Method `LogRecovery::DeserializeLogRecord`; `data` is the position in the log
buffer `buf` that the pointer names.  The result is the record afterwards and the
flag returned. -/
def DeserializeLogRecord (LOG_BUFFER_SIZE : Int) (buf : List Nat) (data : Int)
    (log_record : LogRecord) : Outcome (LogRecord × Bool) :=
  if data + LogRecord.HEADER_SIZE > LOG_BUFFER_SIZE then Outcome.ok (log_record, false)
  else
    let r := log_record.readHeader buf data
    if r.size ≤ 0 ∨ data + r.size > LOG_BUFFER_SIZE then Outcome.ok (r, false)
    else
      let d := data + LogRecord.HEADER_SIZE
      if r.log_record_type = LogRecordType.INSERT then
        Outcome.ok ({ r with insert_rid := RID.read buf d,
                             insert_tuple := r.insert_tuple.DeserializeFrom buf (d + 8) }, true)
      else if r.log_record_type = LogRecordType.MARKDELETE ∨
          r.log_record_type = LogRecordType.APPLYDELETE ∨
          r.log_record_type = LogRecordType.ROLLBACKDELETE then
        Outcome.ok ({ r with delete_rid := RID.read buf d,
                             delete_tuple := r.delete_tuple.DeserializeFrom buf (d + 8) }, true)
      else if r.log_record_type = LogRecordType.UPDATE then
        let old1 := r.old_tuple.DeserializeFrom buf (d + 8)
        Outcome.ok ({ r with update_rid := RID.read buf d, old_tuple := old1,
                             new_tuple := r.new_tuple.DeserializeFrom buf (d + 8 + 4 + old1.size) },
          true)
      else if r.log_record_type = LogRecordType.BEGIN ∨
          r.log_record_type = LogRecordType.COMMIT ∨
          r.log_record_type = LogRecordType.ABORT then
        Outcome.ok (r, true)
      else if r.log_record_type = LogRecordType.NEWPAGE then
        Outcome.ok ({ r with prev_page_id := rd32 buf d, page_id := rd32 buf (d + 4) }, true)
      else Outcome.fault Fault.assert_failed
namespace RID

/-- The record layout in the words of the spec: the 8 bytes of a rid. -/
def bytes (rid : RID) : List Nat := enc32 rid.page_id ++ enc32 rid.slot_num

end RID

namespace Tuple

/-- The record layout in the words of the spec: a tuple is written as
length-prefixed bytes. -/
def bytes (t : Tuple) : List Nat := enc32 t.size ++ t.data

end Tuple

namespace LogRecord

/-- The record layout in the words of the spec: the 20-byte header
`(size, lsn, txn_id, prev_lsn, type)`. -/
def headerBytes (r : LogRecord) : List Nat :=
  enc32 r.size ++ enc32 r.lsn ++ enc32 r.txn_id ++ enc32 r.prev_lsn ++
    enc32 r.log_record_type.val

/-- The record layout in the words of the spec: the payload by type.
INSERT and the delete records carry rid and tuple, UPDATE carries rid, old tuple
and new tuple, NEWPAGE carries `prev_page_id, page_id`, BEGIN, COMMIT and ABORT
carry nothing. -/
def payloadBytes (r : LogRecord) : List Nat :=
  if r.log_record_type = LogRecordType.INSERT then
    r.insert_rid.bytes ++ r.insert_tuple.bytes
  else if r.log_record_type = LogRecordType.MARKDELETE ∨
      r.log_record_type = LogRecordType.APPLYDELETE ∨
      r.log_record_type = LogRecordType.ROLLBACKDELETE then
    r.delete_rid.bytes ++ r.delete_tuple.bytes
  else if r.log_record_type = LogRecordType.UPDATE then
    r.update_rid.bytes ++ r.old_tuple.bytes ++ r.new_tuple.bytes
  else if r.log_record_type = LogRecordType.NEWPAGE then
    enc32 r.prev_page_id ++ enc32 r.page_id
  else []

/-- The record layout in the words of the spec: header, then payload. -/
def bytes (r : LogRecord) : List Nat := r.headerBytes ++ r.payloadBytes

/-- The records that the constructors of `LogRecord` build from `int` transaction
ids, lsns and page ids (and record ids made of them): BEGIN, COMMIT and ABORT
records, INSERT and delete records, UPDATE records and NEWPAGE records. -/
inductive Built (cfg : Config) (INVALID_TXN_ID : Int) : LogRecord → Prop where
  | txn (txn_id prev_lsn : Int) (t : LogRecordType) :
      isInt32 txn_id → isInt32 prev_lsn →
      t = LogRecordType.BEGIN ∨ t = LogRecordType.COMMIT ∨ t = LogRecordType.ABORT →
      Built cfg INVALID_TXN_ID (ofTxn cfg INVALID_TXN_ID txn_id prev_lsn t)
  | tuple (txn_id prev_lsn : Int) (t : LogRecordType) (rid : RID) (tuple : Tuple)
      (r : LogRecord) :
      isInt32 txn_id → isInt32 prev_lsn →
      isInt32 rid.page_id → isInt32 rid.slot_num →
      ofTuple cfg INVALID_TXN_ID txn_id prev_lsn t rid tuple = Outcome.ok r →
      Built cfg INVALID_TXN_ID r
  | update (txn_id prev_lsn : Int) (rid : RID) (old_tuple new_tuple : Tuple) :
      isInt32 txn_id → isInt32 prev_lsn →
      isInt32 rid.page_id → isInt32 rid.slot_num →
      Built cfg INVALID_TXN_ID
        (ofUpdate cfg INVALID_TXN_ID txn_id prev_lsn LogRecordType.UPDATE rid old_tuple
          new_tuple)
  | newPage (txn_id prev_lsn prev_page_id page_id : Int) :
      isInt32 txn_id → isInt32 prev_lsn →
      isInt32 prev_page_id → isInt32 page_id →
      Built cfg INVALID_TXN_ID
        (ofNewPage cfg INVALID_TXN_ID txn_id prev_lsn LogRecordType.NEWPAGE prev_page_id
          page_id)

end LogRecord
namespace LogRecord

/-- Every integer member of the record is an `int` (32 bits), and so is the size
of each of its tuples. -/
structure IsInt (r : LogRecord) : Prop where
  size : isInt32 r.size
  lsn : isInt32 r.lsn
  txn_id : isInt32 r.txn_id
  prev_lsn : isInt32 r.prev_lsn
  type : isInt32 r.log_record_type.val
  delete_rid : isInt32 r.delete_rid.page_id ∧ isInt32 r.delete_rid.slot_num
  insert_rid : isInt32 r.insert_rid.page_id ∧ isInt32 r.insert_rid.slot_num
  update_rid : isInt32 r.update_rid.page_id ∧ isInt32 r.update_rid.slot_num
  delete_tuple : isInt32 r.delete_tuple.size
  insert_tuple : isInt32 r.insert_tuple.size
  old_tuple : isInt32 r.old_tuple.size
  new_tuple : isInt32 r.new_tuple.size
  prev_page_id : isInt32 r.prev_page_id
  page_id : isInt32 r.page_id

/-- The record `r2` has the header fields of `r` and the payload of `r` that
goes with its type: rid and tuple bytes, rid and the bytes of the old and the new
tuple, or `prev_page_id` and `page_id`. -/
structure Reproduces (r r2 : LogRecord) : Prop where
  size : r2.size = r.size
  lsn : r2.lsn = r.lsn
  txn_id : r2.txn_id = r.txn_id
  prev_lsn : r2.prev_lsn = r.prev_lsn
  type : r2.log_record_type = r.log_record_type
  insert : r.log_record_type = LogRecordType.INSERT →
    r2.insert_rid = r.insert_rid ∧ r2.insert_tuple.data = r.insert_tuple.data
  delete : r.log_record_type = LogRecordType.MARKDELETE ∨
    r.log_record_type = LogRecordType.APPLYDELETE ∨
    r.log_record_type = LogRecordType.ROLLBACKDELETE →
    r2.delete_rid = r.delete_rid ∧ r2.delete_tuple.data = r.delete_tuple.data
  update : r.log_record_type = LogRecordType.UPDATE →
    r2.update_rid = r.update_rid ∧ r2.old_tuple.data = r.old_tuple.data ∧
    r2.new_tuple.data = r.new_tuple.data
  newPage : r.log_record_type = LogRecordType.NEWPAGE →
    r2.prev_page_id = r.prev_page_id ∧ r2.page_id = r.page_id

/-- The types of the records that the log holds. -/
def ValidType (t : LogRecordType) : Prop :=
  t = LogRecordType.INSERT ∨ t = LogRecordType.MARKDELETE ∨ t = LogRecordType.APPLYDELETE ∨
  t = LogRecordType.ROLLBACKDELETE ∨ t = LogRecordType.UPDATE ∨ t = LogRecordType.BEGIN ∨
  t = LogRecordType.COMMIT ∨ t = LogRecordType.ABORT ∨ t = LogRecordType.NEWPAGE

end LogRecord
namespace LogManager

/-- A log manager with empty log buffers of 64 bytes, for examples. -/
def demoLog64 : LogManager :=
  { LogManager.new TablePage.demoPageConfig with
    log_buffer := List.replicate 64 0, flush_buffer := List.replicate 64 0 }

/-- The log manager `demoLog64` when `next_lsn_` has reached the greatest
`int`. -/
def demoLogMax : LogManager := { demoLog64 with next_lsn := 2147483647 }

/-- The BEGIN record of transaction 1. -/
def demoBegin : LogRecord :=
  LogRecord.ofTxn TablePage.demoPageConfig (-1) 1 (-1) LogRecordType.BEGIN

end LogManager

/-! ## Recovery (`src/project4/log_recovery.h`, `.cpp`)

Recovery runs with logging disabled.  The pages are reached through the buffer
pool; a `TablePage *` is a frame of the pool, and the table page calls act on the
bytes of that frame.  The log file is kept apart from the page file. -/

namespace DiskManager

/-- Modelled from the spec: `ReadLog(&buf, size, offset) -> bool` on the log
file: false at or past the end of the file, otherwise the `size` bytes from
`offset` on, with zeros past the end of the file ("end-of-log is signaled by
`ReadLog` returning false or by encountering `size == 0`"). -/
def ReadLog (log_file : List Nat) (size : Int) (offset : Int) : Option (List Nat) :=
  if offset ≥ log_file.length then none else some (rdBytes log_file offset size)

end DiskManager

/-- Class `LogRecovery`: the log file of the disk manager, the buffer pool (with
the disk manager in it), the two maps, `offset_` and the log buffer.  The maps
keep their entries in the order of insertion. -/
structure LogRecovery where
  log_file : List Nat
  buffer_pool_manager : BufferPoolManager
  active_txn : List (Int × Int)
  lsn_mapping : List (Int × Int)
  offset : Int
  log_buffer : List Nat
deriving DecidableEq, Repr

namespace LogRecovery

/-- The table page in frame `tar` of the pool. -/
def frame (s : BufferPoolManager) (tar : Nat) : TablePage :=
  ⟨(BufferPoolManager.pageAt s tar).data⟩

/-- The branch of `Redo` for a NEWPAGE record: the pool afterwards. -/
def redoNewPage (cfg : Config) (fuel : Nat) (s : BufferPoolManager) (log : LogRecord) :
    Outcome BufferPoolManager :=
  match BufferPoolManager.FetchPage cfg fuel s log.page_id with
  | Outcome.fault f => Outcome.fault f
  | Outcome.ok (_, none) => Outcome.fault Fault.assert_failed
  | Outcome.ok (s1, some tar) =>
    let page := frame s1 tar
    if log.lsn > page.GetLSN then
      let page1 := (TablePage.Init cfg page log.page_id cfg.PAGE_SIZE log.prev_page_id).SetLSN
        log.lsn
      let s2 := BufferPoolManager.WriteData s1 tar page1.data
      if log.prev_page_id ≠ cfg.INVALID_PAGE_ID then
        match BufferPoolManager.FetchPage cfg fuel s2 log.prev_page_id with
        | Outcome.fault f => Outcome.fault f
        | Outcome.ok (_, none) => Outcome.fault Fault.assert_failed
        | Outcome.ok (s3, some ptar) =>
          let prevPage := frame s3 ptar
          let needChange : Bool := decide (prevPage.GetNextPageId = log.page_id)
          let prev1 := prevPage.SetNextPageId log.page_id
          let s4 := BufferPoolManager.WriteData s3 ptar prev1.data
          let s5 := (BufferPoolManager.UnpinPage s4 prev1.GetPageId needChange).1
          Outcome.ok (BufferPoolManager.UnpinPage s5 (frame s5 tar).GetPageId true).1
      else Outcome.ok (BufferPoolManager.UnpinPage s2 page1.GetPageId true).1
    else Outcome.ok (BufferPoolManager.UnpinPage s1 page.GetPageId false).1

/-- The record id that `Redo` and `Undo` take from a tuple record. -/
def ridOf (log : LogRecord) : RID :=
  if log.log_record_type = LogRecordType.INSERT then log.insert_rid
  else if log.log_record_type = LogRecordType.UPDATE then log.update_rid
  else log.delete_rid

/-- The replay of a tuple record on its page in `Redo`. -/
def replay (page : TablePage) (log : LogRecord) : Outcome TablePage :=
  if log.log_record_type = LogRecordType.INSERT then
    match page.InsertTuple log.insert_tuple (ridOf log) with
    | Outcome.ok (p, _, _) => Outcome.ok p
    | Outcome.fault f => Outcome.fault f
  else if log.log_record_type = LogRecordType.UPDATE then
    match page.UpdateTuple log.new_tuple log.old_tuple (ridOf log) with
    | Outcome.ok (p, _, _) => Outcome.ok p
    | Outcome.fault f => Outcome.fault f
  else if log.log_record_type = LogRecordType.MARKDELETE then
    Outcome.ok (page.MarkDelete (ridOf log)).1
  else if log.log_record_type = LogRecordType.APPLYDELETE then page.ApplyDelete (ridOf log)
  else if log.log_record_type = LogRecordType.ROLLBACKDELETE then
    page.RollbackDelete (ridOf log)
  else Outcome.fault Fault.assert_failed

/-- The branch of `Redo` for a tuple record (INSERT, UPDATE, MARKDELETE,
APPLYDELETE, ROLLBACKDELETE): the pool afterwards. -/
def redoTuple (cfg : Config) (fuel : Nat) (s : BufferPoolManager) (log : LogRecord) :
    Outcome BufferPoolManager :=
  match BufferPoolManager.FetchPage cfg fuel s (ridOf log).page_id with
  | Outcome.fault f => Outcome.fault f
  | Outcome.ok (_, none) => Outcome.fault Fault.assert_failed
  | Outcome.ok (s1, some tar) =>
    let page := frame s1 tar
    if log.lsn > page.GetLSN then
      match replay page log with
      | Outcome.fault f => Outcome.fault f
      | Outcome.ok page1 =>
        let page2 := page1.SetLSN log.lsn
        Outcome.ok (BufferPoolManager.UnpinPage
          (BufferPoolManager.WriteData s1 tar page2.data) page2.GetPageId true).1
    else Outcome.ok (BufferPoolManager.UnpinPage s1 page.GetPageId false).1

/-- The inner loop of `Redo` over the records in the log buffer, from
`bufferOffset` on, with `log` the record object of the chunk: the state and
`bufferOffset` when `DeserializeLogRecord` returns false.  `fuel` bounds the page
table inserts, the first number the iterations. -/
def redoLoop (cfg : Config) (LOG_BUFFER_SIZE : Int) (fuel : Nat) (bufferStart : Int) :
    Nat → LogRecovery → Int → LogRecord → Outcome (LogRecovery × Int)
  | 0, _, _, _ => Outcome.fault Fault.out_of_fuel
  | n + 1, rc, bufferOffset, log0 =>
    match DeserializeLogRecord LOG_BUFFER_SIZE rc.log_buffer bufferOffset log0 with
    | Outcome.fault f => Outcome.fault f
    | Outcome.ok (_, false) => Outcome.ok (rc, bufferOffset)
    | Outcome.ok (log, true) =>
      let rc1 : LogRecovery :=
        { rc with lsn_mapping := kmapSet rc.lsn_mapping log.lsn (bufferStart + bufferOffset),
                  active_txn := kmapSet rc.active_txn log.txn_id log.lsn }
      let bufferOffset1 := bufferOffset + log.size
      if log.log_record_type = LogRecordType.BEGIN then
        redoLoop cfg LOG_BUFFER_SIZE fuel bufferStart n rc1 bufferOffset1 log
      else if log.log_record_type = LogRecordType.COMMIT ∨
          log.log_record_type = LogRecordType.ABORT then
        if (kmapFind rc1.active_txn log.txn_id).isSome then
          redoLoop cfg LOG_BUFFER_SIZE fuel bufferStart n
            { rc1 with active_txn := kmapErase rc1.active_txn log.txn_id } bufferOffset1 log
        else Outcome.fault Fault.assert_failed
      else if log.log_record_type = LogRecordType.NEWPAGE then
        match redoNewPage cfg fuel rc1.buffer_pool_manager log with
        | Outcome.fault f => Outcome.fault f
        | Outcome.ok s =>
          redoLoop cfg LOG_BUFFER_SIZE fuel bufferStart n
            { rc1 with buffer_pool_manager := s } bufferOffset1 log
      else
        match redoTuple cfg fuel rc1.buffer_pool_manager log with
        | Outcome.fault f => Outcome.fault f
        | Outcome.ok s =>
          redoLoop cfg LOG_BUFFER_SIZE fuel bufferStart n
            { rc1 with buffer_pool_manager := s } bufferOffset1 log

/-- The outer loop of `Redo` over the chunks of the log file, with the number of
bytes `bufferOffset` kept from the chunk before. -/
def redoChunks (cfg : Config) (LOG_BUFFER_SIZE INVALID_TXN_ID : Int) (fuel fuelLoop : Nat) :
    Nat → LogRecovery → Int → Outcome LogRecovery
  | 0, _, _ => Outcome.fault Fault.out_of_fuel
  | n + 1, rc, bufferOffset =>
    match DiskManager.ReadLog rc.log_file (LOG_BUFFER_SIZE - bufferOffset) rc.offset with
    | none => Outcome.ok rc
    | some bytes =>
      let bufferStart := rc.offset
      let rc1 : LogRecovery :=
        { rc with log_buffer := wrBytes rc.log_buffer bufferOffset bytes,
                  offset := rc.offset + (LOG_BUFFER_SIZE - bufferOffset) }
      match redoLoop cfg LOG_BUFFER_SIZE fuel bufferStart fuelLoop rc1 0
          (LogRecord.new cfg INVALID_TXN_ID) with
      | Outcome.fault f => Outcome.fault f
      | Outcome.ok (rc2, bufferOffset2) =>
        redoChunks cfg LOG_BUFFER_SIZE INVALID_TXN_ID fuel fuelLoop n
          { rc2 with log_buffer := (wrBytes rc2.log_buffer 0
              (rdBytes rc2.log_buffer bufferOffset2 (LOG_BUFFER_SIZE - bufferOffset2))) }
          (LOG_BUFFER_SIZE - bufferOffset2)

/-- Method `Redo`.  `fuel` bounds the page table inserts, `fuelLoop` the records
of a chunk and `fuelChunks` the chunks. -/
def Redo (cfg : Config) (LOG_BUFFER_SIZE INVALID_TXN_ID : Int) (fuel fuelLoop fuelChunks : Nat)
    (rc : LogRecovery) : Outcome LogRecovery :=
  redoChunks cfg LOG_BUFFER_SIZE INVALID_TXN_ID fuel fuelLoop fuelChunks { rc with offset := 0 } 0

/-- The branch of `Undo` for a NEWPAGE record: the pool afterwards. -/
def undoNewPage (cfg : Config) (fuel : Nat) (s : BufferPoolManager) (log : LogRecord) :
    Outcome BufferPoolManager :=
  let del := BufferPoolManager.DeletePage cfg s log.page_id
  let s1 : BufferPoolManager :=
    if del.2 then del.1
    else { del.1 with disk_manager := del.1.disk_manager.DeallocatePage log.page_id }
  if log.prev_page_id ≠ cfg.INVALID_PAGE_ID then
    match BufferPoolManager.FetchPage cfg fuel s1 log.prev_page_id with
    | Outcome.fault f => Outcome.fault f
    | Outcome.ok (_, none) => Outcome.fault Fault.assert_failed
    | Outcome.ok (s2, some ptar) =>
      let prevPage := frame s2 ptar
      if prevPage.GetNextPageId = log.page_id then
        let prev1 := prevPage.SetNextPageId cfg.INVALID_PAGE_ID
        Outcome.ok (BufferPoolManager.UnpinPage
          (BufferPoolManager.WriteData s2 ptar prev1.data) prev1.GetPageId true).1
      else Outcome.fault Fault.assert_failed
  else Outcome.ok s1

/-- The inverse of a tuple record applied to its page in `Undo`. -/
def invert (cfg : Config) (page : TablePage) (log : LogRecord) : Outcome TablePage :=
  if log.log_record_type = LogRecordType.INSERT then page.ApplyDelete log.insert_rid
  else if log.log_record_type = LogRecordType.UPDATE then
    match page.UpdateTuple log.old_tuple (Tuple.empty cfg.INVALID_PAGE_ID) log.update_rid with
    | Outcome.fault f => Outcome.fault f
    | Outcome.ok (p, tuple, _) =>
      if tuple.size = log.new_tuple.size ∧ tuple.data = log.new_tuple.data then Outcome.ok p
      else Outcome.fault Fault.assert_failed
  else if log.log_record_type = LogRecordType.MARKDELETE then
    page.RollbackDelete log.delete_rid
  else if log.log_record_type = LogRecordType.APPLYDELETE then
    match page.InsertTuple log.delete_tuple log.delete_rid with
    | Outcome.ok (p, _, _) => Outcome.ok p
    | Outcome.fault f => Outcome.fault f
  else if log.log_record_type = LogRecordType.ROLLBACKDELETE then
    Outcome.ok (page.MarkDelete log.delete_rid).1
  else Outcome.fault Fault.assert_failed

/-- The branch of `Undo` for a tuple record: the pool afterwards. -/
def undoTuple (cfg : Config) (fuel : Nat) (s : BufferPoolManager) (log : LogRecord) :
    Outcome BufferPoolManager :=
  match BufferPoolManager.FetchPage cfg fuel s (ridOf log).page_id with
  | Outcome.fault f => Outcome.fault f
  | Outcome.ok (_, none) => Outcome.fault Fault.assert_failed
  | Outcome.ok (s1, some tar) =>
    let page := frame s1 tar
    if page.GetLSN ≥ log.lsn then
      match invert cfg page log with
      | Outcome.fault f => Outcome.fault f
      | Outcome.ok page1 =>
        Outcome.ok (BufferPoolManager.UnpinPage
          (BufferPoolManager.WriteData s1 tar page1.data) page1.GetPageId true).1
    else Outcome.fault Fault.assert_failed

/-- The statement `disk_manager_->ReadLog(log_buffer_, PAGE_SIZE,
lsn_mapping_[lsn])` of `Undo`; `operator[]` adds the entry `lsn -> 0` when the map
has none. -/
def readRecordOf (cfg : Config) (rc : LogRecovery) (lsn : Int) : LogRecovery :=
  { rc with
    lsn_mapping :=
      if (kmapFind rc.lsn_mapping lsn).isSome then rc.lsn_mapping
      else kmapSet rc.lsn_mapping lsn 0,
    log_buffer :=
      match DiskManager.ReadLog rc.log_file cfg.PAGE_SIZE
          ((kmapFind rc.lsn_mapping lsn).getD 0) with
      | none => rc.log_buffer
      | some bytes => wrBytes rc.log_buffer 0 bytes }

/-- The loop `while (lsn != INVALID_LSN)` of `Undo` for one transaction. -/
def undoChain (cfg : Config) (LOG_BUFFER_SIZE INVALID_TXN_ID : Int) (fuel : Nat) :
    Nat → LogRecovery → Int → Outcome LogRecovery
  | 0, _, _ => Outcome.fault Fault.out_of_fuel
  | n + 1, rc, lsn =>
    if lsn = cfg.INVALID_LSN then Outcome.ok rc
    else
      let rc1 := readRecordOf cfg rc lsn
      match DeserializeLogRecord LOG_BUFFER_SIZE rc1.log_buffer 0
          (LogRecord.new cfg INVALID_TXN_ID) with
      | Outcome.fault f => Outcome.fault f
      | Outcome.ok (_, false) => Outcome.fault Fault.assert_failed
      | Outcome.ok (log, true) =>
        if log.lsn = lsn then
          if log.log_record_type = LogRecordType.BEGIN then
            if log.prev_lsn = cfg.INVALID_LSN then
              undoChain cfg LOG_BUFFER_SIZE INVALID_TXN_ID fuel n rc1 log.prev_lsn
            else Outcome.fault Fault.assert_failed
          else if log.log_record_type = LogRecordType.COMMIT ∨
              log.log_record_type = LogRecordType.ABORT then
            Outcome.fault Fault.assert_failed
          else if log.log_record_type = LogRecordType.NEWPAGE then
            match undoNewPage cfg fuel rc1.buffer_pool_manager log with
            | Outcome.fault f => Outcome.fault f
            | Outcome.ok s =>
              undoChain cfg LOG_BUFFER_SIZE INVALID_TXN_ID fuel n
                { rc1 with buffer_pool_manager := s } log.prev_lsn
          else
            match undoTuple cfg fuel rc1.buffer_pool_manager log with
            | Outcome.fault f => Outcome.fault f
            | Outcome.ok s =>
              undoChain cfg LOG_BUFFER_SIZE INVALID_TXN_ID fuel n
                { rc1 with buffer_pool_manager := s } log.prev_lsn
        else Outcome.fault Fault.assert_failed

/-- The loop of `Undo` over the transactions left in `active_txn_`.  The source
iterates a `std::unordered_map`, whose order is not specified; the list is walked
in the order of insertion, and statements about `Undo` with more than one active
transaction hold for that order. -/
def undoAll (cfg : Config) (LOG_BUFFER_SIZE INVALID_TXN_ID : Int) (fuel fuelChain : Nat) :
    List (Int × Int) → LogRecovery → Outcome LogRecovery
  | [], rc => Outcome.ok rc
  | txn :: rest, rc =>
    match undoChain cfg LOG_BUFFER_SIZE INVALID_TXN_ID fuel fuelChain rc txn.2 with
    | Outcome.fault f => Outcome.fault f
    | Outcome.ok rc1 => undoAll cfg LOG_BUFFER_SIZE INVALID_TXN_ID fuel fuelChain rest rc1

/-- Method `Undo`.  `fuel` bounds the page table inserts, `fuelChain` the records
of a transaction. -/
def Undo (cfg : Config) (LOG_BUFFER_SIZE INVALID_TXN_ID : Int) (fuel fuelChain : Nat)
    (rc : LogRecovery) : Outcome LogRecovery :=
  match undoAll cfg LOG_BUFFER_SIZE INVALID_TXN_ID fuel fuelChain rc.active_txn rc with
  | Outcome.fault f => Outcome.fault f
  | Outcome.ok rc1 => Outcome.ok { rc1 with active_txn := [], lsn_mapping := [] }

end LogRecovery
namespace LogRecovery

/-- Page `pid` is in frame `tar` of the pool, with the bytes of `p`. -/
structure Resident (s : BufferPoolManager) (pid : Int) (tar : Nat) (p : TablePage) : Prop where
  find : s.page_table.Find pid = some tar
  lt : tar < s.pages.length
  data : frame s tar = p

end LogRecovery
namespace LogRecord

/-- The record after `AppendLogRecord` has set its lsn. -/
def stamp (r : LogRecord) (lsn : Int) : LogRecord := { r with lsn := lsn }

end LogRecord
namespace LogRecovery

/-- A pool of one frame over a disk that holds `data` as page 7. -/
def demoPool (data : List Nat) : BufferPoolManager :=
  BufferPoolManager.new TablePage.demoPageConfig 1 ⟨[(7, data)], 8, []⟩ none

/-- A recovery object over the log file `log_file`, the pool `demoPool data` and a
log buffer of 128 bytes. -/
def demoRecovery (log_file data : List Nat) : LogRecovery :=
  { log_file := log_file, buffer_pool_manager := demoPool data, active_txn := [],
    lsn_mapping := [], offset := 0, log_buffer := List.replicate 128 0 }

/-- The tuple `[1, 2, 3]` that `demoTablePage1` holds in slot 0. -/
def demoTuple : Tuple := ⟨[1, 2, 3], ⟨7, 0⟩, false⟩

/-- The INSERT record of transaction 1 for `demoTuple` at slot 0 of page 7, with
the BEGIN record (lsn 0) before it, as the constructor leaves it. -/
def demoInsertRecord : LogRecord :=
  match LogRecord.ofTuple TablePage.demoPageConfig (-1) 1 0 LogRecordType.INSERT ⟨7, 0⟩
      demoTuple with
  | Outcome.ok r => r
  | Outcome.fault _ => LogRecord.new TablePage.demoPageConfig (-1)

/-- The page `demoTablePage1` after the insertion of the tuple `[9, 8]` (slot 1). -/
def demoTablePage2 : TablePage :=
  ⟨[7, 0, 0, 0, 0, 0, 0, 0, 255, 255, 255, 255, 255, 255, 255, 255, 43, 0, 0, 0, 2, 0, 0, 0,
    45, 0, 0, 0, 3, 0, 0, 0, 43, 0, 0, 0, 2, 0, 0, 0, 0, 0, 0, 9, 8, 1, 2, 3]⟩

/-- The page `demoTablePage2` after `ApplyDelete` of slot 0. -/
def demoTablePage3 : TablePage :=
  ⟨[7, 0, 0, 0, 0, 0, 0, 0, 255, 255, 255, 255, 255, 255, 255, 255, 46, 0, 0, 0, 2, 0, 0, 0,
    0, 0, 0, 0, 0, 0, 0, 0, 46, 0, 0, 0, 2, 0, 0, 0, 0, 0, 0, 9, 8, 1, 9, 8]⟩

/-- The page `demoTablePage3` after `ApplyDelete` of slot 1 and `SetLSN(5)`: both
slots are empty. -/
def demoTablePage4 : TablePage :=
  ⟨[7, 0, 0, 0, 5, 0, 0, 0, 255, 255, 255, 255, 255, 255, 255, 255, 48, 0, 0, 0, 2, 0, 0, 0,
    0, 0, 0, 0, 0, 0, 0, 0, 0, 0, 0, 0, 0, 0, 0, 0, 0, 0, 0, 9, 8, 1, 9, 8]⟩

/-- The APPLYDELETE record (lsn 5) of transaction 1 for the tuple `[9, 8]` at
slot 1 of page 7, with the BEGIN record (lsn 4) before it. -/
def demoDeleteRecord : LogRecord :=
  match LogRecord.ofTuple TablePage.demoPageConfig (-1) 1 4 LogRecordType.APPLYDELETE ⟨7, 1⟩
      ⟨[9, 8], ⟨7, 1⟩, true⟩ with
  | Outcome.ok r => r.stamp 5
  | Outcome.fault _ => LogRecord.new TablePage.demoPageConfig (-1)

/-- The log of transaction 1 that ends after the APPLYDELETE record: BEGIN with
lsn 4 and APPLYDELETE with lsn 5. -/
def demoLogDelete : List Nat :=
  ((LogRecord.ofTxn TablePage.demoPageConfig (-1) 1 (-1) LogRecordType.BEGIN).stamp 4).bytes ++
    demoDeleteRecord.bytes

end LogRecovery

namespace BufferPoolManager

/-- From `demo1`, page 0 was unpinned clean and deleted with `DeletePage(0)`:
frame 0 is back on the free list. -/
def demoDeleted : BufferPoolManager := (DeletePage demoCfg (UnpinPage demo1 0 false).1 0).1

end BufferPoolManager
namespace LockManager

/-- Lock managers reachable from construction by calls of `LockShared`,
`LockExclusive`, `LockUpgrade` and `Unlock` that return or leave the caller
waiting. -/
inductive Reached : LockManager → Prop where
  | init (strict_2PL : Bool) : Reached (new strict_2PL)
  | lockShared (lm lm1 : LockManager) (txn txn1 : Transaction) (rid : RID) (res : LockResult) :
      Reached lm → LockShared lm txn rid = Outcome.ok (lm1, txn1, res) → Reached lm1
  | lockExclusive (lm lm1 : LockManager) (txn txn1 : Transaction) (rid : RID)
      (res : LockResult) :
      Reached lm → LockExclusive lm txn rid = Outcome.ok (lm1, txn1, res) → Reached lm1
  | lockUpgrade (lm lm1 : LockManager) (txn txn1 : Transaction) (rid : RID)
      (res : LockResult) :
      Reached lm → LockUpgrade lm txn rid = Outcome.ok (lm1, txn1, res) → Reached lm1
  | unlock (lm lm1 : LockManager) (txn txn1 : Transaction) (rid : RID) (b : Bool) :
      Reached lm → Unlock lm txn rid = Outcome.ok (lm1, txn1, b) → Reached lm1

/-- A non-strict manager after `LockExclusive` by transaction 1 on rid (0, 0). -/
def writerOnly : LockManager :=
  { strict_2PL := false,
    lockTable := [(⟨0, 0⟩, ⟨[⟨1, LockMode.EXCLUSIVE, true⟩], false⟩)] }

/-- The manager `writerOnly` after `LockShared` by transaction 2 on rid (0, 0),
which waits. -/
def writerThenReader : LockManager :=
  { strict_2PL := false,
    lockTable := [(⟨0, 0⟩, ⟨[⟨1, LockMode.EXCLUSIVE, true⟩, ⟨2, LockMode.SHARED, false⟩],
      false⟩)] }

/-- The manager `writerThenWaiters` after `Unlock` by transaction 1 on rid
(0, 0). -/
def readerAndWriter : LockManager :=
  { strict_2PL := false,
    lockTable := [(⟨0, 0⟩, ⟨[⟨2, LockMode.SHARED, true⟩, ⟨3, LockMode.EXCLUSIVE, true⟩],
      false⟩)] }

end LockManager
namespace LeafPage

variable {V : Type}

/-- The keys of the leaf are in strictly ascending order. -/
def Sorted (p : LeafPage V) : Prop := (p.array.map Prod.fst).Pairwise (fun a b => a < b)

/-- A leaf of max size 3 with the keys 10, 20, 30, 40, one more than its max
size, as `Insert` leaves it before a split. -/
def demoLeaf : LeafPage Nat :=
  { max_size := 3, parent_page_id := -1, page_id := 1, next_page_id := 9,
    array := [(10, 100), (20, 200), (30, 300), (40, 400)] }

/-- A leaf of max size 3 with the keys 10 and 30. -/
def demoLeaf2 : LeafPage Nat :=
  { max_size := 3, parent_page_id := -1, page_id := 1, next_page_id := 9,
    array := [(10, 100), (30, 300)] }

/-- An empty leaf with page id 2, as `Init` leaves it. -/
def demoRecipient : LeafPage Nat :=
  { max_size := 3, parent_page_id := -1, page_id := 2, next_page_id := -1, array := [] }

end LeafPage

namespace LogRecovery

/-- A pool of two frames over a disk that holds `demoTablePage` (next page id
-1) as page 7. -/
def demoPool2 : BufferPoolManager :=
  BufferPoolManager.new TablePage.demoPageConfig 2
    ⟨[(7, TablePage.demoTablePage.data)], 9, []⟩ none

/-- The NEWPAGE record (lsn 1) of transaction 1 for the new page 8 with the
predecessor page 7, with the BEGIN record (lsn 0) before it. -/
def demoNewPageRecord : LogRecord :=
  (LogRecord.ofNewPage TablePage.demoPageConfig (-1) 1 0 LogRecordType.NEWPAGE 7 8).stamp 1

/-- A recovery object over the pool `demoPool2`, a log buffer of 128 bytes and the
log file that holds BEGIN (lsn 0) and NEWPAGE (lsn 1) of transaction 1. -/
def demoRecovery2 : LogRecovery :=
  { log_file :=
      ((LogRecord.ofTxn TablePage.demoPageConfig (-1) 1 (-1) LogRecordType.BEGIN).stamp
        0).bytes ++ demoNewPageRecord.bytes,
    buffer_pool_manager := demoPool2, active_txn := [], lsn_mapping := [], offset := 0,
    log_buffer := List.replicate 128 0 }

/-- The BEGIN record of transaction `txn_id` with lsn `lsn`. -/
def demoBeginOf (txn_id lsn : Int) : LogRecord :=
  (LogRecord.ofTxn TablePage.demoPageConfig (-1) txn_id (-1) LogRecordType.BEGIN).stamp lsn

/-- A recovery object with a log buffer of 48 bytes over a log file of 60 bytes:
the BEGIN records of the transactions 1, 2 and 3 with the lsns 0, 1 and 2, which
begin at the offsets 0, 20 and 40 of the file. -/
def demoRecovery3 : LogRecovery :=
  { log_file := (demoBeginOf 1 0).bytes ++ (demoBeginOf 2 1).bytes ++ (demoBeginOf 3 2).bytes,
    buffer_pool_manager := demoPool2, active_txn := [], lsn_mapping := [], offset := 0,
    log_buffer := List.replicate 48 0 }

end LogRecovery

namespace LogRecord

/-- A record as `AppendLogRecord` writes it: built by one of the constructors and
stamped with an `int` lsn. -/
def Appended (cfg : Config) (INVALID_TXN_ID : Int) (r : LogRecord) : Prop :=
  ∃ r0 lsn, Built cfg INVALID_TXN_ID r0 ∧ isInt32 lsn ∧ r = r0.stamp lsn

end LogRecord

namespace LogRecovery

/-- The log file format in the words of the spec: a concatenation of records. -/
def logBytes : List LogRecord → List Nat
  | [] => []
  | r :: rs => r.bytes ++ logBytes rs

/-- The statements of the record loop of `Redo` that act on `active_txn_`, for one
record: `active_txn_[log.txn_id_] = log.lsn_`, and `active_txn_.erase` for a COMMIT
or ABORT record. -/
def stepActive (a : List (Int × Int)) (log : LogRecord) : List (Int × Int) :=
  if log.log_record_type = LogRecordType.COMMIT ∨ log.log_record_type = LogRecordType.ABORT then
    kmapErase (kmapSet a log.txn_id log.lsn) log.txn_id
  else kmapSet a log.txn_id log.lsn

/-- The table `active_txn_` after the statements of `stepActive` for the records
of a list, first record first. -/
def foldActive (a : List (Int × Int)) (rs : List LogRecord) : List (Int × Int) :=
  rs.foldl stepActive a

/-- The first `n` bytes of the buffer `buf` are the bytes of the file from offset
`w` on (zeros past the end of the file). -/
def Win (file buf : List Nat) (w n : Int) : Prop :=
  ∀ x, 0 ≤ x → x < n → getByte buf x = getByte file (w + x)

/-- The BEGIN records of the transactions 1, 2 and 3 (lsns 0, 1, 2) and the COMMIT
record of transaction 2 (lsn 3). -/
def demoRecords4 : List LogRecord :=
  [demoBeginOf 1 0, demoBeginOf 2 1, demoBeginOf 3 2,
    (LogRecord.ofTxn TablePage.demoPageConfig (-1) 2 1 LogRecordType.COMMIT).stamp 3]

/-- A recovery object with a log buffer of 48 bytes over the log file of 80 bytes
that holds the records `demoRecords4`. -/
def demoRecovery4 : LogRecovery :=
  { log_file := logBytes demoRecords4, buffer_pool_manager := demoPool2, active_txn := [],
    lsn_mapping := [], offset := 0, log_buffer := List.replicate 48 0 }

end LogRecovery

namespace BPlusTree

variable {V : Type}

/-- Labels used to state the shape of the tree: the level of each page (0 for a
leaf) and the bounds of the keys below it (`none` is no bound). -/
structure Labels where
  lvl : Int → Nat
  lo : Int → Option Int
  hi : Int → Option Int

/-- The children of an internal page: first child `c`, then the entries `rest`;
each child lies between the key before it and the key after it. -/
def Chain (R : Option Int → Int → Option Int → Prop) :
    Option Int → Int → List (Int × Int) → Option Int → Prop
  | lo, c, [], hi => R lo c hi
  | lo, c, e :: rest, hi => R lo c (some e.1) ∧ Chain R (some e.1) e.2 rest hi

end BPlusTree

namespace BPlusTree

/-- The labels after page `o` is split at `key` into `o` and the new page `n`. -/
def Labels.split (G : Labels) (o n : Int) (key : Int) : Labels :=
  { lvl := fun x => if x = n then G.lvl o else G.lvl x,
    lo := fun x => if x = n then some key else G.lo x,
    hi := fun x => if x = n then G.hi o else if x = o then some key else G.hi x }

end BPlusTree

namespace BPlusTree

/-- The labels after a new root `r` is put over the old root `o`. -/
def Labels.newRoot (G : Labels) (o r : Int) : Labels :=
  { lvl := fun x => if x = r then G.lvl o + 1 else G.lvl x,
    lo := fun x => if x = r then none else G.lo x,
    hi := fun x => if x = r then none else G.hi x }

end BPlusTree

namespace BPlusTree

end BPlusTree

namespace BPlusTree

variable {V : Type}

end BPlusTree

namespace BPlusTree

end BPlusTree

namespace ExtendibleHash
variable {V : Type}

/-- The number of entries in the bucket of `key` whose hash agrees with the hash
of `key` on the low `d` bits: the entries that `d` splits cannot part from it. -/
def collisions (d : Nat) (t : ExtendibleHash V) (key : Int) : Nat :=
  ((bucketOf t (dirAt t (getIdx t key))).kmap.filter
    (fun e => decide (HashKey e.1 % 2 ^ d = HashKey key % 2 ^ d))).length

end ExtendibleHash

/-- The size-1 table after `Insert(2147483647, 7)`. -/
def table_int_max : ExtendibleHash Nat := ⟨0, 1, 1, [0], [⟨0, [(2147483647, 7)]⟩]⟩

/-- The size-1 table after `Insert(1, 7)`. -/
def table_one : ExtendibleHash Nat := ⟨0, 1, 1, [0], [⟨0, [(1, 7)]⟩]⟩
namespace LogRecovery

/-- The NEWPAGE record (lsn 2) of transaction 1 for the new page 8 with the
predecessor page 7, after the INSERT record (lsn 1). -/
def demoNewPage8 : LogRecord :=
  (LogRecord.ofNewPage TablePage.demoPageConfig (-1) 1 1 LogRecordType.NEWPAGE 7 8).stamp 2

/-- The NEWPAGE record (lsn 3) of transaction 1 for the new page 9 with the
predecessor page 8. -/
def demoNewPage9 : LogRecord :=
  (LogRecord.ofNewPage TablePage.demoPageConfig (-1) 1 2 LogRecordType.NEWPAGE 8 9).stamp 3

/-- A recovery object over the pool `demoPool2` (two frames, page 7 on disk with
lsn 0), a log buffer of 128 bytes and a log file that holds the given records. -/
def demoRecoveryOf (rs : List LogRecord) : LogRecovery :=
  { log_file := logBytes rs, buffer_pool_manager := demoPool2, active_txn := [],
    lsn_mapping := [], offset := 0, log_buffer := List.replicate 128 0 }

end LogRecovery
namespace LogRecovery

end LogRecovery

namespace LogRecovery

end LogRecovery

/-! # Theorems -/

section Basics
variable {V : Type}


theorem and_mask_eq_mod (x n : Nat) : x &&& ((1 <<< n) - 1) = x % 2 ^ n := by
  rw [Nat.one_shiftLeft]; exact Nat.and_pow_two_sub_one_eq_mod x n

theorem and_bit_ne_zero_iff (x n : Nat) : x &&& (1 <<< n) ≠ 0 ↔ x / 2 ^ n % 2 = 1 := by
  rw [Nat.one_shiftLeft, Nat.and_two_pow, Nat.testBit_to_div_mod]
  have hp : 0 < 2 ^ n := Nat.two_pow_pos n
  by_cases h : x / 2 ^ n % 2 = 1
  · simp [h]
  · simp [h]

theorem mod_succ_eq_iff (a b n : Nat) :
    a % 2 ^ (n + 1) = b % 2 ^ (n + 1) ↔
      a % 2 ^ n = b % 2 ^ n ∧ (a / 2 ^ n % 2 = 1 ↔ b / 2 ^ n % 2 = 1) := by
  rw [Nat.mod_pow_succ, Nat.mod_pow_succ]
  have hp : 0 < 2 ^ n := Nat.two_pow_pos n
  have ha : a % 2 ^ n < 2 ^ n := Nat.mod_lt _ hp
  have hb : b % 2 ^ n < 2 ^ n := Nat.mod_lt _ hp
  have ha2 : a / 2 ^ n % 2 < 2 := Nat.mod_lt _ (by decide)
  have hb2 : b / 2 ^ n % 2 < 2 := Nat.mod_lt _ (by decide)
  generalize a / 2 ^ n % 2 = x at *
  generalize b / 2 ^ n % 2 = y at *
  generalize a % 2 ^ n = r at *
  generalize b % 2 ^ n = s at *
  generalize 2 ^ n = p at *
  constructor
  · intro h
    have hx : x = 0 ∨ x = 1 := by omega
    have hy : y = 0 ∨ y = 1 := by omega
    rcases hx with rfl | rfl <;> rcases hy with rfl | rfl <;> simp at h ⊢ <;> omega
  · rintro ⟨h1, h2⟩
    have hx : x = 0 ∨ x = 1 := by omega
    have hy : y = 0 ∨ y = 1 := by omega
    rcases hx with rfl | rfl <;> rcases hy with rfl | rfl <;> simp at h2 ⊢ <;> omega

theorem mod_mod_pow (x : Nat) {m n : Nat} (h : m ≤ n) : x % 2 ^ n % 2 ^ m = x % 2 ^ m :=
  Nat.mod_mod_of_dvd x (pow_dvd_pow 2 h)

theorem div_mod_two_mod_pow (x : Nat) {m n : Nat} (h : m < n) :
    x % 2 ^ n / 2 ^ m % 2 = x / 2 ^ m % 2 := by
  have h1 := Nat.testBit_mod_two_pow x n m
  rw [Nat.testBit_to_div_mod, Nat.testBit_to_div_mod] at h1
  simp [h] at h1
  have ha2 : x % 2 ^ n / 2 ^ m % 2 < 2 := Nat.mod_lt _ (by decide)
  have hb2 : x / 2 ^ m % 2 < 2 := Nat.mod_lt _ (by decide)
  omega

theorem HashKey_inj {a b : Int} (ha : isInt32 a) (hb : isInt32 b)
    (h : ExtendibleHash.HashKey a % 4294967296 = ExtendibleHash.HashKey b % 4294967296) :
    a = b := by
  unfold isInt32 at ha hb
  unfold ExtendibleHash.HashKey at h
  omega

/-! ### The bucket map -/

theorem kmapFind_kmapSet (m : List (Int × V)) (k : Int) (v : V) (k' : Int) :
    kmapFind (kmapSet m k v) k' = if k' = k then some v else kmapFind m k' := by
  induction m with
  | nil =>
    by_cases h : k = k'
    · subst h; simp [kmapSet, kmapFind]
    · have h' : ¬ k' = k := fun e => h e.symm
      simp [kmapSet, kmapFind, h, h']
  | cons e m ih =>
    by_cases he : e.1 = k
    · by_cases h : k' = k
      · subst h; simp [kmapSet, kmapFind, he]
      · have h' : ¬ k = k' := fun e => h e.symm
        have h'' : ¬ e.1 = k' := by rw [he]; exact h'
        simp [kmapSet, kmapFind, he, h, h', h'']
    · by_cases h : k' = k
      · subst h; simp [kmapSet, kmapFind, he, ih]
      · simp [kmapSet, kmapFind, he, h, ih]

theorem kmapFind_filter (q : Int → Bool) (m : List (Int × V)) (k : Int) :
    kmapFind (m.filter (fun e => q e.1)) k = if q k = true then kmapFind m k else none := by
  induction m with
  | nil => simp [kmapFind]
  | cons e m ih =>
    by_cases hq : q e.1 = true
    · by_cases he : e.1 = k
      · subst he; simp [List.filter_cons, hq, kmapFind]
      · simp [List.filter_cons, hq, kmapFind, he, ih]
    · by_cases he : e.1 = k
      · subst he; simp [List.filter_cons, hq, kmapFind, ih]
      · simp [List.filter_cons, hq, kmapFind, he, ih]

theorem kmapFind_kmapErase (m : List (Int × V)) (k k' : Int) :
    kmapFind (kmapErase m k) k' = if k' = k then none else kmapFind m k' := by
  unfold kmapErase
  rw [kmapFind_filter (fun x => decide (x ≠ k)) m k']
  by_cases h : k' = k <;> simp [h]

theorem mem_kmapSet {m : List (Int × V)} {k : Int} {v : V} {e : Int × V}
    (h : e ∈ kmapSet m k v) : e ∈ m ∨ e = (k, v) := by
  induction m with
  | nil => simp [kmapSet] at h; exact Or.inr h
  | cons a m ih =>
    by_cases ha : a.1 = k
    · simp [kmapSet, ha] at h
      rcases h with h | h
      · exact Or.inr h
      · exact Or.inl (List.mem_cons_of_mem _ h)
    · simp [kmapSet, ha] at h
      rcases h with h | h
      · exact Or.inl (by rw [h]; exact List.mem_cons_self _ _)
      · rcases ih h with h | h
        · exact Or.inl (List.mem_cons_of_mem _ h)
        · exact Or.inr h

theorem kmapSet_length_of_found (m : List (Int × V)) (k : Int) (v : V)
    (h : (kmapFind m k).isSome) : (kmapSet m k v).length = m.length := by
  induction m with
  | nil => simp [kmapFind] at h
  | cons a m ih =>
    by_cases ha : a.1 = k
    · simp [kmapSet, ha]
    · simp [kmapFind, ha] at h
      simp [kmapSet, ha, ih h]

theorem exists_other_key {m : List (Int × V)} {k : Int}
    (hlen : 0 < m.length) (h : kmapFind m k = none) : ∃ e ∈ m, e.1 ≠ k := by
  cases m with
  | nil => simp at hlen
  | cons a m =>
    refine ⟨a, List.mem_cons_self _ _, ?_⟩
    intro ha
    simp [kmapFind, ha] at h



theorem getD_append_self (l : List Nat) (i : Nat) (hi : i < 2 * l.length) :
    (l ++ l).getD i 0 = l.getD (i % l.length) 0 := by
  by_cases h : i < l.length
  · rw [Nat.mod_eq_of_lt h, List.getD_eq_getElem?_getD, List.getD_eq_getElem?_getD,
      List.getElem?_append]
    simp [h]
  · have h1 : i % l.length = i - l.length := by
      rw [Nat.mod_eq_sub_mod (by omega)]
      exact Nat.mod_eq_of_lt (by omega)
    rw [h1, List.getD_eq_getElem?_getD, List.getD_eq_getElem?_getD, List.getElem?_append]
    simp [h]

theorem getD_set_append_other {α : Type} (l : List α) (c a : Nat) (x y d : α)
    (ha : a < l.length) (hne : a ≠ c) : (l.set c x ++ [y]).getD a d = l.getD a d := by
  rw [List.getD_eq_getElem?_getD, List.getD_eq_getElem?_getD, List.getElem?_append]
  have hne' : ¬ c = a := fun e => hne e.symm
  simp [ha, List.getElem?_set, hne']

theorem getD_set_append_self {α : Type} (l : List α) (c : Nat) (x y d : α)
    (hc : c < l.length) : (l.set c x ++ [y]).getD c d = x := by
  rw [List.getD_eq_getElem?_getD, List.getElem?_append]
  simp [hc]

theorem getD_set_append_new {α : Type} (l : List α) (c : Nat) (x y d : α) :
    (l.set c x ++ [y]).getD l.length d = y := by
  rw [List.getD_eq_getElem?_getD, List.getElem?_append]
  simp

theorem getD_set_other {α : Type} (l : List α) (c a : Nat) (x d : α) (hne : a ≠ c) :
    (l.set c x).getD a d = l.getD a d := by
  rw [List.getD_eq_getElem?_getD, List.getD_eq_getElem?_getD]
  have hne' : ¬ c = a := fun e => hne e.symm
  simp [List.getElem?_set, hne']

theorem getD_set_self {α : Type} (l : List α) (c : Nat) (x d : α) (hc : c < l.length) :
    (l.set c x).getD c d = x := by
  rw [List.getD_eq_getElem?_getD]
  simp [List.getElem?_set, hc]

end Basics

namespace ExtendibleHash
variable {V : Type}

theorem getIdx_eq_mod (t : ExtendibleHash V) (k : Int) :
    getIdx t k = HashKey k % 2 ^ t.globalDepth := and_mask_eq_mod _ _

theorem getIdx_lt {t : ExtendibleHash V} (h : HInv t) (k : Int) :
    getIdx t k < t.buckets.length := by
  rw [getIdx_eq_mod, h.len]
  exact Nat.mod_lt _ (Nat.two_pow_pos _)

theorem splitBucket_globalDepth (t : ExtendibleHash V) (cur : Nat)
    (hd : (bucketOf t cur).localDepth ≤ t.globalDepth) :
    (splitBucket t cur).globalDepth =
      if (bucketOf t cur).localDepth = t.globalDepth then t.globalDepth + 1 else t.globalDepth := by
  unfold splitBucket
  by_cases h : (bucketOf t cur).localDepth = t.globalDepth
  · simp [h]
  · have : ¬ t.globalDepth < (bucketOf t cur).localDepth + 1 := by omega
    simp [h, this]

theorem splitBucket_length (t : ExtendibleHash V) (cur : Nat) (hl : HInv t)
    (hd : (bucketOf t cur).localDepth ≤ t.globalDepth) :
    (splitBucket t cur).buckets.length = 2 ^ (splitBucket t cur).globalDepth := by
  rw [splitBucket_globalDepth t cur hd]
  unfold splitBucket
  by_cases h : (bucketOf t cur).localDepth = t.globalDepth
  · simp [h, hl.len, pow_succ]; omega
  · have : ¬ t.globalDepth < (bucketOf t cur).localDepth + 1 := by omega
    simp [h, this, hl.len]

theorem splitBucket_globalDepth_le (t : ExtendibleHash V) (cur : Nat)
    (hd : (bucketOf t cur).localDepth ≤ t.globalDepth) :
    t.globalDepth ≤ (splitBucket t cur).globalDepth ∧
    (bucketOf t cur).localDepth + 1 ≤ (splitBucket t cur).globalDepth := by
  rw [splitBucket_globalDepth t cur hd]
  by_cases h : (bucketOf t cur).localDepth = t.globalDepth
  · simp [h]
  · simp [h]; omega

theorem splitBucket_dirAt (t : ExtendibleHash V) (cur : Nat) (hl : HInv t)
    (hd : (bucketOf t cur).localDepth ≤ t.globalDepth) (i : Nat)
    (hi : i < (splitBucket t cur).buckets.length) :
    dirAt (splitBucket t cur) i =
      if dirAt t (i % 2 ^ t.globalDepth) = cur ∧ i / 2 ^ (bucketOf t cur).localDepth % 2 = 1
      then t.heap.length else dirAt t (i % 2 ^ t.globalDepth) := by
  have hlen := splitBucket_length t cur hl hd
  rw [hlen, splitBucket_globalDepth t cur hd] at hi
  have hbit := and_bit_ne_zero_iff i (bucketOf t cur).localDepth
  unfold dirAt
  unfold splitBucket
  simp only []
  rw [List.getD_eq_getElem?_getD, List.getElem?_mapIdx]
  by_cases h : (bucketOf t cur).localDepth = t.globalDepth
  · simp only [h, if_pos] at hi
    have hi2 : i < 2 * t.buckets.length := by rw [hl.len]; rw [pow_succ] at hi; omega
    have hg : decide ((bucketOf t cur).localDepth + 1 > t.globalDepth) = true := by
      simp [h]
    rw [hg]
    simp only [if_true]
    have hsome : (t.buckets ++ t.buckets)[i]? = some ((t.buckets ++ t.buckets).getD i 0) := by
      rw [List.getD_eq_getElem?_getD]
      have : i < (t.buckets ++ t.buckets).length := by simp; omega
      simp [List.getElem?_eq_getElem this]
    rw [hsome, getD_append_self _ _ hi2, hl.len]
    simp only [Option.map_some', Option.getD_some]
    by_cases hc : t.buckets.getD (i % 2 ^ t.globalDepth) 0 = cur
    · by_cases hb : i / 2 ^ (bucketOf t cur).localDepth % 2 = 1
      · have := hbit.mpr hb
        simp [hc, hb, this]
      · have : ¬ (i &&& 1 <<< (bucketOf t cur).localDepth ≠ 0) := fun x => hb (hbit.mp x)
        simp only [hc, hb, this, and_false, if_false, true_and]
    · simp only [hc, false_and, if_false]
  · simp only [h, if_neg, if_false] at hi
    have hi2 : i < t.buckets.length := by rw [hl.len]; exact hi
    have hg : decide ((bucketOf t cur).localDepth + 1 > t.globalDepth) = false := by
      simp; omega
    rw [hg]
    simp only [Bool.false_eq_true, if_false]
    have hsome : t.buckets[i]? = some (t.buckets.getD i 0) := by
      rw [List.getD_eq_getElem?_getD]
      simp [List.getElem?_eq_getElem hi2]
    rw [hsome, Nat.mod_eq_of_lt hi]
    simp only [Option.map_some', Option.getD_some]
    by_cases hc : t.buckets.getD i 0 = cur
    · by_cases hb : i / 2 ^ (bucketOf t cur).localDepth % 2 = 1
      · have := hbit.mpr hb
        simp [hc, hb, this]
      · have : ¬ (i &&& 1 <<< (bucketOf t cur).localDepth ≠ 0) := fun x => hb (hbit.mp x)
        simp only [hc, hb, this, and_false, if_false, true_and]
    · simp only [hc, false_and, if_false]


theorem splitBucket_heap_length (t : ExtendibleHash V) (cur : Nat) :
    (splitBucket t cur).heap.length = t.heap.length + 1 := by
  unfold splitBucket; simp

theorem splitBucket_bucketSize (t : ExtendibleHash V) (cur : Nat) :
    (splitBucket t cur).bucketSize = t.bucketSize := rfl

theorem splitBucket_bucketNum (t : ExtendibleHash V) (cur : Nat) :
    (splitBucket t cur).bucketNum = t.bucketNum + 1 := rfl

theorem splitBucket_bucketOf_cur (t : ExtendibleHash V) (cur : Nat) (hc : cur < t.heap.length) :
    bucketOf (splitBucket t cur) cur =
      ⟨(bucketOf t cur).localDepth + 1, (bucketOf t cur).kmap.filter
        (fun e => !decide (HashKey e.1 &&& 1 <<< (bucketOf t cur).localDepth ≠ 0))⟩ := by
  unfold splitBucket bucketOf
  exact getD_set_append_self _ _ _ _ _ hc

theorem splitBucket_bucketOf_new (t : ExtendibleHash V) (cur : Nat) :
    bucketOf (splitBucket t cur) t.heap.length =
      ⟨(bucketOf t cur).localDepth + 1, (bucketOf t cur).kmap.filter
        (fun e => decide (HashKey e.1 &&& 1 <<< (bucketOf t cur).localDepth ≠ 0))⟩ := by
  unfold splitBucket bucketOf
  exact getD_set_append_new _ _ _ _ _

theorem splitBucket_bucketOf_other (t : ExtendibleHash V) (cur a : Nat)
    (ha : a < t.heap.length) (hne : a ≠ cur) :
    bucketOf (splitBucket t cur) a = bucketOf t a := by
  unfold splitBucket bucketOf
  exact getD_set_append_other _ _ _ _ _ _ ha hne

/-- Splitting a directory bucket leaves every lookup unchanged. -/
theorem splitBucket_Find (t : ExtendibleHash V) (hl : HInv t) (j : Nat)
    (hj : j < t.buckets.length) (k : Int) :
    Find (splitBucket t (dirAt t j)) k = Find t k := by
  have hd := hl.depth j hj
  have hv := hl.valid j hj
  generalize hcur : dirAt t j = cur at hd hv
  obtain ⟨hg1, hg2⟩ := splitBucket_globalDepth_le t cur hd
  have hidx : getIdx (splitBucket t cur) k < (splitBucket t cur).buckets.length := by
    rw [splitBucket_length t cur hl hd, getIdx_eq_mod]
    exact Nat.mod_lt _ (Nat.two_pow_pos _)
  have hmod : getIdx (splitBucket t cur) k % 2 ^ t.globalDepth = getIdx t k := by
    rw [getIdx_eq_mod, getIdx_eq_mod, mod_mod_pow _ hg1]
  have hbit : getIdx (splitBucket t cur) k / 2 ^ (bucketOf t cur).localDepth % 2
      = HashKey k / 2 ^ (bucketOf t cur).localDepth % 2 := by
    rw [getIdx_eq_mod]
    exact div_mod_two_mod_pow _ (by omega)
  have hb := and_bit_ne_zero_iff (HashKey k) (bucketOf t cur).localDepth
  unfold Find
  simp only []
  rw [splitBucket_dirAt t cur hl hd _ hidx, hmod, hbit]
  by_cases hc : dirAt t (getIdx t k) = cur
  · by_cases hbk : HashKey k / 2 ^ (bucketOf t cur).localDepth % 2 = 1
    · rw [if_pos ⟨hc, hbk⟩, splitBucket_bucketOf_new, hc]
      have := kmapFind_filter
        (fun x => decide (HashKey x &&& 1 <<< (bucketOf t cur).localDepth ≠ 0))
        (bucketOf t cur).kmap k
      simp only [] at this
      rw [this]
      simp [hb.mpr hbk]
    · rw [if_neg (fun h => hbk h.2), hc, splitBucket_bucketOf_cur t cur hv]
      have := kmapFind_filter
        (fun x => !decide (HashKey x &&& 1 <<< (bucketOf t cur).localDepth ≠ 0))
        (bucketOf t cur).kmap k
      simp only [] at this
      rw [this]
      have hz : HashKey k &&& 1 <<< (bucketOf t cur).localDepth = 0 := by
        by_contra hz
        exact hbk (hb.mp hz)
      simp [hz]
  · rw [if_neg (fun h => hc h.1)]
    rw [splitBucket_bucketOf_other t cur _ (hl.valid _ (getIdx_lt hl k)) hc]


/-- The three kinds of directory slot after a split of bucket `cur`: redirected to
the new bucket, still naming `cur`, or naming an untouched bucket. -/
theorem splitBucket_cases (t : ExtendibleHash V) (hl : HInv t) (cur : Nat)
    (hv : cur < t.heap.length) (hd : (bucketOf t cur).localDepth ≤ t.globalDepth)
    (i : Nat) (hi : i < (splitBucket t cur).buckets.length) :
    (dirAt (splitBucket t cur) i = t.heap.length ∧ dirAt t (i % 2 ^ t.globalDepth) = cur ∧
        i / 2 ^ (bucketOf t cur).localDepth % 2 = 1 ∧
        bucketOf (splitBucket t cur) (dirAt (splitBucket t cur) i) =
          ⟨(bucketOf t cur).localDepth + 1, (bucketOf t cur).kmap.filter
            (fun e => decide (HashKey e.1 &&& 1 <<< (bucketOf t cur).localDepth ≠ 0))⟩) ∨
    (dirAt (splitBucket t cur) i = cur ∧ dirAt t (i % 2 ^ t.globalDepth) = cur ∧
        ¬ i / 2 ^ (bucketOf t cur).localDepth % 2 = 1 ∧
        bucketOf (splitBucket t cur) (dirAt (splitBucket t cur) i) =
          ⟨(bucketOf t cur).localDepth + 1, (bucketOf t cur).kmap.filter
            (fun e => !decide (HashKey e.1 &&& 1 <<< (bucketOf t cur).localDepth ≠ 0))⟩) ∨
    (dirAt (splitBucket t cur) i = dirAt t (i % 2 ^ t.globalDepth) ∧
        dirAt t (i % 2 ^ t.globalDepth) ≠ cur ∧
        bucketOf (splitBucket t cur) (dirAt (splitBucket t cur) i) =
          bucketOf t (dirAt t (i % 2 ^ t.globalDepth))) := by
  have hdir := splitBucket_dirAt t cur hl hd i hi
  have hi0 : i % 2 ^ t.globalDepth < t.buckets.length := by
    rw [hl.len]; exact Nat.mod_lt _ (Nat.two_pow_pos _)
  by_cases hc : dirAt t (i % 2 ^ t.globalDepth) = cur
  · by_cases hb : i / 2 ^ (bucketOf t cur).localDepth % 2 = 1
    · rw [if_pos ⟨hc, hb⟩] at hdir
      refine Or.inl ⟨hdir, hc, hb, ?_⟩
      rw [hdir, splitBucket_bucketOf_new]
    · rw [if_neg (fun h => hb h.2), hc] at hdir
      refine Or.inr (Or.inl ⟨hdir, hc, hb, ?_⟩)
      rw [hdir, splitBucket_bucketOf_cur t cur hv]
  · rw [if_neg (fun h => hc h.1)] at hdir
    refine Or.inr (Or.inr ⟨hdir, hc, ?_⟩)
    rw [hdir, splitBucket_bucketOf_other t cur _ (hl.valid _ hi0) hc]

theorem mod_succ_of_bits {a b n : Nat} (h : a % 2 ^ n = b % 2 ^ n)
    (hb : a / 2 ^ n % 2 = 1 ↔ b / 2 ^ n % 2 = 1) : a % 2 ^ (n + 1) = b % 2 ^ (n + 1) :=
  (mod_succ_eq_iff a b n).mpr ⟨h, hb⟩

/-- Splitting a directory bucket keeps the table well-formed. -/
theorem splitBucket_HInv (t : ExtendibleHash V) (hl : HInv t) (j : Nat)
    (hj : j < t.buckets.length) : HInv (splitBucket t (dirAt t j)) := by
  have hd := hl.depth j hj
  have hv := hl.valid j hj
  generalize hcur : dirAt t j = cur at hd hv
  obtain ⟨hg1, hg2⟩ := splitBucket_globalDepth_le t cur hd
  have hcases := splitBucket_cases t hl cur hv hd
  have hi0 : ∀ i, i % 2 ^ t.globalDepth < t.buckets.length := by
    intro i; rw [hl.len]; exact Nat.mod_lt _ (Nat.two_pow_pos _)
  have hmm : ∀ (i : Nat) {m : Nat}, m ≤ t.globalDepth →
      i % 2 ^ t.globalDepth % 2 ^ m = i % 2 ^ m := fun i _ h => mod_mod_pow i h
  refine ⟨splitBucket_length t cur hl hd, ?_, ?_, ?_, ?_⟩
  · intro i hi
    rw [splitBucket_heap_length]
    rcases hcases i hi with ⟨h1, _⟩ | ⟨h1, _⟩ | ⟨h1, _, _⟩
    · omega
    · omega
    · rw [h1]; have := hl.valid _ (hi0 i); omega
  · intro i hi
    rcases hcases i hi with ⟨_, _, _, h4⟩ | ⟨_, _, _, h4⟩ | ⟨_, _, h4⟩
    · rw [h4]; exact hg2
    · rw [h4]; exact hg2
    · rw [h4]; exact le_trans (hl.depth _ (hi0 i)) hg1
  · intro i i' hi hi' heq
    rcases hcases i hi with ⟨h1, h2, h3, h4⟩ | ⟨h1, h2, h3, h4⟩ | ⟨h1, h2, h4⟩
    · rcases hcases i' hi' with ⟨g1, g2, g3, _⟩ | ⟨g1, _, _, _⟩ | ⟨g1, _, _⟩
      · rw [h4]
        have hs := hl.share _ _ (hi0 i) (hi0 i') (h2.trans g2.symm)
        rw [h2, hmm i hd, hmm i' hd] at hs
        exact mod_succ_of_bits hs (by simp [h3, g3])
      · rw [h1, g1] at heq; omega
      · rw [h1, g1] at heq; have := hl.valid _ (hi0 i'); omega
    · rcases hcases i' hi' with ⟨g1, _, _, _⟩ | ⟨g1, g2, g3, _⟩ | ⟨g1, g2, _⟩
      · rw [h1, g1] at heq; omega
      · rw [h4]
        have hs := hl.share _ _ (hi0 i) (hi0 i') (h2.trans g2.symm)
        rw [h2, hmm i hd, hmm i' hd] at hs
        exact mod_succ_of_bits hs (by simp [h3, g3])
      · rw [h1, g1] at heq; exact absurd heq.symm g2
    · rcases hcases i' hi' with ⟨g1, _, _, _⟩ | ⟨g1, g2, g3, _⟩ | ⟨g1, g2, _⟩
      · rw [h1, g1] at heq; have := hl.valid _ (hi0 i); omega
      · rw [h1, g1] at heq; exact absurd heq h2
      · rw [h4]
        rw [h1, g1] at heq
        have hs := hl.share _ _ (hi0 i) (hi0 i') heq
        rw [hmm i (hl.depth _ (hi0 i)), hmm i' (hl.depth _ (hi0 i))] at hs
        exact hs
  · intro i hi e he
    rcases hcases i hi with ⟨h1, h2, h3, h4⟩ | ⟨h1, h2, h3, h4⟩ | ⟨h1, h2, h4⟩
    · rw [h4] at he ⊢
      simp only [List.mem_filter, decide_eq_true_eq] at he
      have hk := hl.keys _ (hi0 i) e (by rw [h2]; exact he.1)
      rw [h2, hmm i hd] at hk
      refine ⟨mod_succ_of_bits hk.1 ?_, hk.2⟩
      have := (and_bit_ne_zero_iff (HashKey e.1) (bucketOf t cur).localDepth).mp he.2
      simp [this, h3]
    · rw [h4] at he ⊢
      simp only [List.mem_filter, Bool.not_eq_true', decide_eq_false_iff_not] at he
      have hk := hl.keys _ (hi0 i) e (by rw [h2]; exact he.1)
      rw [h2, hmm i hd] at hk
      refine ⟨mod_succ_of_bits hk.1 ?_, hk.2⟩
      have : ¬ HashKey e.1 / 2 ^ (bucketOf t cur).localDepth % 2 = 1 := fun hx =>
        he.2 ((and_bit_ne_zero_iff (HashKey e.1) (bucketOf t cur).localDepth).mpr hx)
      simp [this, h3]
    · rw [h4] at he ⊢
      have hk := hl.keys _ (hi0 i) e he
      rw [hmm i (hl.depth _ (hi0 i))] at hk
      exact hk



theorem getIdx_mod (t : ExtendibleHash V) (k : Int) {m : Nat} (h : m ≤ t.globalDepth) :
    getIdx t k % 2 ^ m = HashKey k % 2 ^ m := by
  rw [getIdx_eq_mod]; exact mod_mod_pow _ h

/-- Replacing the entries of one bucket: lookups that do not land in that bucket
are unchanged. -/
theorem bucketOf_setKmap (t : ExtendibleHash V) (cur : Nat) (m : List (Int × V)) (a : Nat)
    (hc : cur < t.heap.length) :
    bucketOf (setKmap t cur m) a
      = if a = cur then ⟨(bucketOf t cur).localDepth, m⟩ else bucketOf t a := by
  unfold setKmap bucketOf
  by_cases h : a = cur
  · subst h; simp only [if_true]; exact getD_set_self _ _ _ _ hc
  · simp only [h, if_false]; exact getD_set_other _ _ _ _ _ h

/-- Rewriting the entries of one directory bucket, keeping its local depth and
only keys that belong there, keeps the table well-formed. -/
theorem HInv_set (t : ExtendibleHash V) (hl : HInv t) (j : Nat) (hj : j < t.buckets.length)
    (m : List (Int × V))
    (hm : ∀ e ∈ m, e ∈ (bucketOf t (dirAt t j)).kmap ∨
      (HashKey e.1 % 2 ^ (bucketOf t (dirAt t j)).localDepth
        = j % 2 ^ (bucketOf t (dirAt t j)).localDepth ∧ isInt32 e.1)) :
    HInv (setKmap t (dirAt t j) m) := by
  have hv := hl.valid j hj
  have hb := fun a => bucketOf_setKmap t (dirAt t j) m a hv
  have hdir : ∀ i, dirAt (setKmap t (dirAt t j) m) i = dirAt t i := fun _ => rfl
  have hld : ∀ a, (bucketOf (setKmap t (dirAt t j) m) a).localDepth
      = (bucketOf t a).localDepth := by
    intro a
    rw [hb]
    by_cases h : a = dirAt t j
    · simp [h]
    · simp [h]
  refine ⟨hl.len, ?_, ?_, ?_, ?_⟩
  · intro i hi
    have : (setKmap t (dirAt t j) m).heap.length = t.heap.length := by simp [setKmap]
    rw [hdir, this]
    exact hl.valid i hi
  · intro i hi
    rw [hld]
    exact hl.depth i hi
  · intro i i' hi hi' heq
    rw [hld]
    exact hl.share i i' hi hi' heq
  · intro i hi e he
    rw [hld, hdir]
    rw [hb, hdir] at he
    by_cases h : dirAt t i = dirAt t j
    · rw [if_pos h] at he
      simp only [] at he
      rcases hm e he with h1 | h1
      · exact hl.keys i hi e (by rw [h]; exact h1)
      · have hs := hl.share i j hi hj h
        rw [h] at hs ⊢
        exact ⟨h1.1.trans hs.symm, h1.2⟩
    · rw [if_neg h] at he
      exact hl.keys i hi e he

/-- The `break` branch of `Insert`: storing the pair in the key's bucket
changes the lookup of that key only. -/
theorem upsert_Find (t : ExtendibleHash V) (hl : HInv t) (k : Int) (v : V) (k' : Int) :
    Find (setKmap t (dirAt t (getIdx t k))
        (kmapSet (bucketOf t (dirAt t (getIdx t k))).kmap k v)) k'
      = if k' = k then some v else Find t k' := by
  have hv := hl.valid _ (getIdx_lt hl k)
  unfold Find
  simp only []
  have hidx : ∀ m x, getIdx (setKmap t (dirAt t (getIdx t k)) m) x = getIdx t x :=
    fun _ _ => rfl
  have hdir : ∀ m i, dirAt (setKmap t (dirAt t (getIdx t k)) m) i = dirAt t i :=
    fun _ _ => rfl
  rw [hidx, hdir, bucketOf_setKmap _ _ _ _ hv]
  by_cases h : dirAt t (getIdx t k') = dirAt t (getIdx t k)
  · rw [if_pos h]
    simp only []
    rw [kmapFind_kmapSet, h]
  · rw [if_neg h]
    have hne : k' ≠ k := fun e => h (by rw [e])
    rw [if_neg hne]

theorem upsert_HInv (t : ExtendibleHash V) (hl : HInv t) (k : Int) (hk : isInt32 k) (v : V) :
    HInv (setKmap t (dirAt t (getIdx t k))
        (kmapSet (bucketOf t (dirAt t (getIdx t k))).kmap k v)) := by
  apply HInv_set t hl _ (getIdx_lt hl k)
  intro e he
  rcases mem_kmapSet he with h | h
  · exact Or.inl h
  · refine Or.inr ?_
    rw [h]
    exact ⟨(getIdx_mod t k (hl.depth _ (getIdx_lt hl k))).symm, hk⟩

/-- After a split the key's bucket is one level deeper. -/
theorem splitBucket_key_depth (t : ExtendibleHash V) (hl : HInv t) (k : Int) :
    (bucketOf (splitBucket t (dirAt t (getIdx t k)))
        (dirAt (splitBucket t (dirAt t (getIdx t k)))
          (getIdx (splitBucket t (dirAt t (getIdx t k))) k))).localDepth
      = (bucketOf t (dirAt t (getIdx t k))).localDepth + 1 := by
  have hj := getIdx_lt hl k
  have hd := hl.depth _ hj
  have hv := hl.valid _ hj
  have hl1 := splitBucket_HInv t hl _ hj
  obtain ⟨hg1, _⟩ := splitBucket_globalDepth_le t _ hd
  have hmod : getIdx (splitBucket t (dirAt t (getIdx t k))) k % 2 ^ t.globalDepth
      = getIdx t k := (getIdx_mod _ k hg1).trans (getIdx_eq_mod t k).symm
  rcases splitBucket_cases t hl _ hv hd _ (getIdx_lt hl1 k) with
    ⟨_, _, _, h4⟩ | ⟨_, _, _, h4⟩ | ⟨_, h2, _⟩
  · rw [h4]
  · rw [h4]
  · rw [hmod] at h2; exact absurd rfl h2

/-- A full bucket that lacks the key holds another key with the same low bits, so
its local depth is below the key width. -/
theorem full_bucket_depth_lt (t : ExtendibleHash V) (hl : HInv t) (k : Int) (hk : isInt32 k)
    (hfull : 0 < (bucketOf t (dirAt t (getIdx t k))).kmap.length)
    (hnone : kmapFind (bucketOf t (dirAt t (getIdx t k))).kmap k = none) :
    (bucketOf t (dirAt t (getIdx t k))).localDepth < 32 := by
  by_contra hge
  have hge : 32 ≤ (bucketOf t (dirAt t (getIdx t k))).localDepth := by omega
  obtain ⟨e, he, hne⟩ := exists_other_key hfull hnone
  have hj := getIdx_lt hl k
  obtain ⟨h1, h2⟩ := hl.keys _ hj e he
  have h3 : HashKey e.1 % 2 ^ (bucketOf t (dirAt t (getIdx t k))).localDepth
      = HashKey k % 2 ^ (bucketOf t (dirAt t (getIdx t k))).localDepth :=
    h1.trans (getIdx_mod t k (hl.depth _ hj))
  have h4 : HashKey e.1 % 2 ^ 32 = HashKey k % 2 ^ 32 := by
    rw [← mod_mod_pow (HashKey e.1) hge, ← mod_mod_pow (HashKey k) hge, h3]
  exact hne (HashKey_inj h2 hk (by simpa using h4))

/-- Partial correctness of the insert loop: whatever number of iterations it
takes, the result is well-formed and differs from the start only at `key`. -/
theorem InsertLoop_spec (k : Int) (hk : isInt32 k) (v : V) :
    ∀ (fuel : Nat) (t t1 : ExtendibleHash V), HInv t →
      InsertLoop k v fuel t (dirAt t (getIdx t k)) = some t1 →
      HInv t1 ∧ (∀ k', Find t1 k' = if k' = k then some v else Find t k') ∧
        t1.bucketSize = t.bucketSize ∧ t.globalDepth ≤ t1.globalDepth ∧
        t.bucketNum ≤ t1.bucketNum := by
  intro fuel
  induction fuel with
  | zero => intro t t1 _ h; simp [InsertLoop] at h
  | succ n ih =>
    intro t t1 hl h
    unfold InsertLoop at h
    simp only [] at h
    split at h
    · injection h with h
      subst h
      exact ⟨upsert_HInv t hl k hk v, upsert_Find t hl k v, rfl, le_refl _, le_refl _⟩
    · have hj := getIdx_lt hl k
      have hl1 := splitBucket_HInv t hl _ hj
      obtain ⟨h1, h2, h3, h4, h5⟩ := ih _ t1 hl1 h
      refine ⟨h1, ?_, ?_, ?_, ?_⟩
      · intro k'
        rw [h2 k', splitBucket_Find t hl _ hj]
      · rw [h3]; rfl
      · exact le_trans (splitBucket_globalDepth_le t _ (hl.depth _ hj)).1 h4
      · rw [splitBucket_bucketNum] at h5; omega

/-- Termination of the insert loop for a positive bucket size: every iteration
that does not finish deepens the key's bucket, and a full bucket is never
deeper than the key width. -/
theorem InsertLoop_terminates (k : Int) (hk : isInt32 k) (v : V) :
    ∀ (fuel : Nat) (t : ExtendibleHash V), HInv t → 0 < t.bucketSize → 0 < fuel →
      32 < fuel + (bucketOf t (dirAt t (getIdx t k))).localDepth →
      ∃ t1, InsertLoop k v fuel t (dirAt t (getIdx t k)) = some t1 := by
  intro fuel
  induction fuel with
  | zero =>
    intro t hl hB h0 hf
    omega
  | succ n ih =>
    intro t hl hB _ hf
    unfold InsertLoop
    simp only []
    split
    · exact ⟨_, rfl⟩
    · rename_i hcond
      have hnone : kmapFind (bucketOf t (dirAt t (getIdx t k))).kmap k = none := by
        cases hx : kmapFind (bucketOf t (dirAt t (getIdx t k))).kmap k with
        | none => rfl
        | some x => exact absurd (Or.inl (by simp [hx])) hcond
      have hfull : 0 < (bucketOf t (dirAt t (getIdx t k))).kmap.length := by
        have : ¬ (bucketOf t (dirAt t (getIdx t k))).kmap.length < t.bucketSize :=
          fun hx => hcond (Or.inr hx)
        omega
      have hj := getIdx_lt hl k
      have hl1 := splitBucket_HInv t hl _ hj
      have hlt := full_bucket_depth_lt t hl k hk hfull hnone
      apply ih _ hl1 hB (by omega)
      rw [splitBucket_key_depth t hl k]
      omega


theorem Insert_spec (fuel : Nat) (t t1 : ExtendibleHash V) (hl : HInv t) (k : Int)
    (hk : isInt32 k) (v : V) (h : Insert fuel t k v = some t1) :
    HInv t1 ∧ (∀ k', Find t1 k' = if k' = k then some v else Find t k') ∧
      t1.bucketSize = t.bucketSize ∧ t.globalDepth ≤ t1.globalDepth ∧
      t.bucketNum ≤ t1.bucketNum :=
  InsertLoop_spec k hk v fuel t t1 hl h

theorem Insert_terminates (fuel : Nat) (hf : 33 ≤ fuel) (t : ExtendibleHash V) (hl : HInv t)
    (hB : 0 < t.bucketSize) (k : Int) (hk : isInt32 k) (v : V) :
    ∃ t1, Insert fuel t k v = some t1 :=
  InsertLoop_terminates k hk v fuel t hl hB (by omega) (by omega)

/-- An insert of a key that is present takes the `break` branch at once. -/
theorem Insert_present (fuel : Nat) (t : ExtendibleHash V) (k : Int) (v : V)
    (h : (Find t k).isSome) :
    Insert (fuel + 1) t k v = some (setKmap t (dirAt t (getIdx t k))
      (kmapSet (bucketOf t (dirAt t (getIdx t k))).kmap k v)) := by
  unfold Insert InsertLoop
  simp only []
  unfold Find at h
  simp only [] at h
  rw [if_pos (Or.inl h)]

theorem HInv_mk_sized (size : Nat) : HInv (mk_sized size : ExtendibleHash V) := by
  refine ⟨rfl, ?_, ?_, ?_, ?_⟩
  · intro i hi
    simp [mk_sized] at hi
    subst hi
    simp [mk_sized, dirAt]
  · intro i hi
    simp [mk_sized] at hi
    subst hi
    simp [mk_sized, dirAt, bucketOf]
  · intro i j hi hj _
    simp [mk_sized] at hi hj
    subst hi; subst hj; rfl
  · intro i hi e he
    simp [mk_sized] at hi
    subst hi
    simp [mk_sized, dirAt, bucketOf] at he

theorem Remove_HInv (t : ExtendibleHash V) (hl : HInv t) (k : Int) : HInv (Remove t k).1 := by
  unfold Remove
  simp only []
  split
  · exact hl
  · apply HInv_set t hl _ (getIdx_lt hl k)
    intro e he
    unfold kmapErase at he
    exact Or.inl (List.mem_filter.mp he).1

theorem Remove_Find (t : ExtendibleHash V) (hl : HInv t) (k k' : Int) :
    Find (Remove t k).1 k' = if k' = k then none else Find t k' := by
  unfold Remove
  simp only []
  split
  · rename_i hnone
    by_cases h : k' = k
    · subst h
      rw [if_pos rfl]
      unfold Find
      simpa using hnone
    · rw [if_neg h]
  · have hv := hl.valid _ (getIdx_lt hl k)
    unfold Find
    simp only []
    have hidx : ∀ m x, getIdx (setKmap t (dirAt t (getIdx t k)) m) x = getIdx t x :=
      fun _ _ => rfl
    have hdir : ∀ m i, dirAt (setKmap t (dirAt t (getIdx t k)) m) i = dirAt t i :=
      fun _ _ => rfl
    rw [hidx, hdir, bucketOf_setKmap _ _ _ _ hv]
    by_cases h : dirAt t (getIdx t k') = dirAt t (getIdx t k)
    · rw [if_pos h]
      simp only []
      rw [kmapFind_kmapErase, h]
    · rw [if_neg h]
      have hne : k' ≠ k := fun e => h (by rw [e])
      rw [if_neg hne]

theorem Remove_result (t : ExtendibleHash V) (k : Int) :
    (Remove t k).2 = (Find t k).isSome := by
  unfold Remove Find
  simp only []
  cases h : kmapFind (bucketOf t (dirAt t (getIdx t k))).kmap k <;> simp

theorem Remove_shape (t : ExtendibleHash V) (k : Int) :
    (Remove t k).1.globalDepth = t.globalDepth ∧ (Remove t k).1.bucketNum = t.bucketNum ∧
    (Remove t k).1.buckets = t.buckets ∧ (Remove t k).1.bucketSize = t.bucketSize := by
  unfold Remove
  simp only []
  split <;> exact ⟨rfl, rfl, rfl, rfl⟩

theorem HReachable_HInv {size : Nat} {t : ExtendibleHash V} (h : HReachable size t) :
    HInv t ∧ t.bucketSize = size := by
  induction h with
  | init => exact ⟨HInv_mk_sized size, rfl⟩
  | insert fuel key value _ hk hins ih =>
    obtain ⟨h1, _, h3, _⟩ := Insert_spec fuel _ _ ih.1 key hk value hins
    exact ⟨h1, h3.trans ih.2⟩
  | remove key _ _ ih =>
    exact ⟨Remove_HInv _ ih.1 key, (Remove_shape _ key).2.2.2.trans ih.2⟩

end ExtendibleHash

namespace ExtendibleHash
variable {V : Type}

/-- The bucket of the key after a split holds a part of the entries it held
before. -/
theorem splitBucket_key_sublist (t : ExtendibleHash V) (hl : HInv t) (k : Int) :
    ((bucketOf (splitBucket t (dirAt t (getIdx t k)))
        (dirAt (splitBucket t (dirAt t (getIdx t k)))
          (getIdx (splitBucket t (dirAt t (getIdx t k))) k))).kmap).Sublist
      (bucketOf t (dirAt t (getIdx t k))).kmap := by
  have hj := getIdx_lt hl k
  have hd := hl.depth _ hj
  have hv := hl.valid _ hj
  have hl1 := splitBucket_HInv t hl _ hj
  obtain ⟨hg1, _⟩ := splitBucket_globalDepth_le t _ hd
  have hmod : getIdx (splitBucket t (dirAt t (getIdx t k))) k % 2 ^ t.globalDepth
      = getIdx t k := (getIdx_mod _ k hg1).trans (getIdx_eq_mod t k).symm
  rcases splitBucket_cases t hl _ hv hd _ (getIdx_lt hl1 k) with
    ⟨_, _, _, h4⟩ | ⟨_, _, _, h4⟩ | ⟨_, h2, _⟩
  · rw [h4]; exact List.filter_sublist _
  · rw [h4]; exact List.filter_sublist _
  · rw [hmod] at h2; exact absurd rfl h2

theorem collisions_splitBucket_le (d : Nat) (t : ExtendibleHash V) (hl : HInv t) (k : Int) :
    collisions d (splitBucket t (dirAt t (getIdx t k))) k ≤ collisions d t k := by
  unfold collisions
  exact ((splitBucket_key_sublist t hl k).filter _).length_le

/-- A full bucket that holds fewer than `bucketSize` entries agreeing with the key
on the low `d` bits has a local depth below `d`. -/
theorem full_bucket_depth_lt_of_collisions (d : Nat) (t : ExtendibleHash V) (hl : HInv t)
    (k : Int) (hc : collisions d t k < t.bucketSize)
    (hfull : t.bucketSize ≤ (bucketOf t (dirAt t (getIdx t k))).kmap.length) :
    (bucketOf t (dirAt t (getIdx t k))).localDepth < d := by
  by_contra hge
  have hge : d ≤ (bucketOf t (dirAt t (getIdx t k))).localDepth := by omega
  have hj := getIdx_lt hl k
  have hall : (bucketOf t (dirAt t (getIdx t k))).kmap.filter
      (fun e => decide (HashKey e.1 % 2 ^ d = HashKey k % 2 ^ d))
      = (bucketOf t (dirAt t (getIdx t k))).kmap := by
    rw [List.filter_eq_self]
    intro e he
    obtain ⟨h1, _⟩ := hl.keys _ hj e he
    have h3 : HashKey e.1 % 2 ^ (bucketOf t (dirAt t (getIdx t k))).localDepth
        = HashKey k % 2 ^ (bucketOf t (dirAt t (getIdx t k))).localDepth :=
      h1.trans (getIdx_mod t k (hl.depth _ hj))
    have h4 : HashKey e.1 % 2 ^ d = HashKey k % 2 ^ d := by
      rw [← mod_mod_pow (HashKey e.1) hge, ← mod_mod_pow (HashKey k) hge, h3]
    simpa using h4
  unfold collisions at hc
  rw [hall] at hc
  omega

/-- Termination of the insert loop below a depth bound `d`: when the table is no
deeper than `d` and the bucket of the key holds fewer than `bucketSize` entries
that agree with the key on the low `d` bits, the loop reaches its `break` after
at most `d` splits, and the directory is still no deeper than `d`. -/
theorem InsertLoop_terminates_below (d : Nat) (k : Int) (v : V) :
    ∀ (fuel : Nat) (t : ExtendibleHash V), HInv t → t.globalDepth ≤ d →
      collisions d t k < t.bucketSize → 0 < fuel →
      d < fuel + (bucketOf t (dirAt t (getIdx t k))).localDepth →
      ∃ t1, InsertLoop k v fuel t (dirAt t (getIdx t k)) = some t1 ∧ t1.globalDepth ≤ d := by
  intro fuel
  induction fuel with
  | zero =>
    intro t hl hg hc h0 hf
    omega
  | succ n ih =>
    intro t hl hg hc _ hf
    unfold InsertLoop
    simp only []
    split
    · exact ⟨_, rfl, hg⟩
    · rename_i hcond
      have hfull : t.bucketSize ≤ (bucketOf t (dirAt t (getIdx t k))).kmap.length := by
        have : ¬ (bucketOf t (dirAt t (getIdx t k))).kmap.length < t.bucketSize :=
          fun hx => hcond (Or.inr hx)
        omega
      have hj := getIdx_lt hl k
      have hl1 := splitBucket_HInv t hl _ hj
      have hlt := full_bucket_depth_lt_of_collisions d t hl k hc hfull
      have hg1 : (splitBucket t (dirAt t (getIdx t k))).globalDepth ≤ d := by
        rw [splitBucket_globalDepth t _ (hl.depth _ hj)]
        split
        · rename_i he; omega
        · exact hg
      have hc1 : collisions d (splitBucket t (dirAt t (getIdx t k))) k
          < (splitBucket t (dirAt t (getIdx t k))).bucketSize := by
        rw [splitBucket_bucketSize]
        exact lt_of_le_of_lt (collisions_splitBucket_le d t hl k) hc
      apply ih _ hl1 hg1 hc1 (by omega)
      rw [splitBucket_key_depth t hl k]
      omega

/-- Within depth 30 `Insert` returns: for a key that is present, or whose bucket
holds fewer than `bucketSize` entries agreeing with it on the low 30 bits, 31 loop
iterations suffice and the directory stays within depth 30. -/
theorem Insert_terminates_below (fuel : Nat) (hf : 31 ≤ fuel) (t : ExtendibleHash V)
    (hl : HInv t) (hg : t.globalDepth ≤ 30) (k : Int) (v : V)
    (hsep : (Find t k).isSome ∨ collisions 30 t k < t.bucketSize) :
    ∃ t1, Insert fuel t k v = some t1 ∧ t1.globalDepth ≤ 30 := by
  rcases hsep with hp | hc
  · obtain ⟨n, rfl⟩ : ∃ n, fuel = n + 1 := ⟨fuel - 1, by omega⟩
    exact ⟨_, Insert_present n t k v hp, hg⟩
  · exact InsertLoop_terminates_below 30 k v fuel t hl hg hc (by omega) (by omega)

/-- Two keys whose hashes agree on the low 31 bits share a bucket as long as the
directory is no deeper than 31, so a table of bucket size 1 that holds one of
them can take the other only with a directory of depth 32 or more. -/
theorem InsertLoop_deep_of_collision (k k0 : Int) (hk : isInt32 k)
    (hcol : HashKey k % 2 ^ 31 = HashKey k0 % 2 ^ 31) (v : V) :
    ∀ (fuel : Nat) (t t1 : ExtendibleHash V), HInv t → t.bucketSize ≤ 1 →
      (Find t k0).isSome → Find t k = none →
      InsertLoop k v fuel t (dirAt t (getIdx t k)) = some t1 → 32 ≤ t1.globalDepth := by
  intro fuel
  induction fuel with
  | zero => intro t t1 _ _ _ _ h; simp [InsertLoop] at h
  | succ n ih =>
    intro t t1 hl hB h0 hnone h
    by_cases hg : 32 ≤ t.globalDepth
    · exact le_trans hg (InsertLoop_spec k hk v _ t t1 hl h).2.2.2.1
    · have hg : t.globalDepth ≤ 31 := by omega
      have hidx : getIdx t k0 = getIdx t k := by
        rw [getIdx_eq_mod, getIdx_eq_mod, ← mod_mod_pow (HashKey k0) hg,
          ← mod_mod_pow (HashKey k) hg, hcol]
      unfold Find at h0 hnone
      simp only [] at h0 hnone
      rw [hidx] at h0
      have hlen : 0 < (bucketOf t (dirAt t (getIdx t k))).kmap.length := by
        cases hm : (bucketOf t (dirAt t (getIdx t k))).kmap with
        | nil => rw [hm] at h0; simp [kmapFind] at h0
        | cons a m => simp
      unfold InsertLoop at h
      simp only [] at h
      have hcond : ¬ ((kmapFind (bucketOf t (dirAt t (getIdx t k))).kmap k).isSome ∨
          (bucketOf t (dirAt t (getIdx t k))).kmap.length < t.bucketSize) := by
        rw [hnone]
        intro hx
        rcases hx with hx | hx
        · simp at hx
        · omega
      rw [if_neg hcond] at h
      have hj := getIdx_lt hl k
      have hl1 := splitBucket_HInv t hl _ hj
      apply ih _ t1 hl1 (by rw [splitBucket_bucketSize]; exact hB) _ _ h
      · rw [splitBucket_Find t hl _ hj]
        unfold Find
        simp only []
        rw [hidx]; exact h0
      · rw [splitBucket_Find t hl _ hj]
        unfold Find
        simp only []
        exact hnone

/-- C8 (amended): on every table reachable from the sized constructor by Insert
and Remove (int keys, identity hash), an `Insert(k, v)` that returns with a
directory of depth at most 30 (the depths at which `1 << globalDepth` and the
split mask are exact in 32-bit `int`) is followed by a `Find(k)` that returns
true and yields `v`; when `k` was already present the directory, the depths, the
bucket count and the number of entries of every bucket are unchanged (the value
is overwritten, no second entry is added).  `Insert` does return that way, within
31 loop iterations, from every table of depth at most 30 in which `k` is present
or the bucket of `k` holds fewer than `size` entries whose hash agrees with the
hash of `k` on the low 30 bits. -/
theorem C8_insert_then_find (size : Nat) (t : ExtendibleHash V) (hr : HReachable size t)
    (k : Int) (hk : isInt32 k) (v : V) :
    (∀ fuel t1, Insert fuel t k v = some t1 → t1.globalDepth ≤ 30 →
        Find t1 k = some v ∧
        ((Find t k).isSome →
          t1.globalDepth = t.globalDepth ∧ t1.bucketNum = t.bucketNum ∧
          t1.buckets = t.buckets ∧
          ∀ a, (bucketOf t1 a).kmap.length = (bucketOf t a).kmap.length)) ∧
    (t.globalDepth ≤ 30 → ((Find t k).isSome ∨ collisions 30 t k < size) →
      ∀ fuel, 31 ≤ fuel →
        ∃ t1, Insert fuel t k v = some t1 ∧ t1.globalDepth ≤ 30 ∧ Find t1 k = some v) := by
  obtain ⟨hl, hsz⟩ := HReachable_HInv hr
  have hfind : ∀ fuel t1, Insert fuel t k v = some t1 → Find t1 k = some v := by
    intro fuel t1 h
    obtain ⟨_, h2, _⟩ := Insert_spec fuel t t1 hl k hk v h
    rw [h2 k, if_pos rfl]
  constructor
  · intro fuel t1 h _
    refine ⟨hfind fuel t1 h, ?_⟩
    intro hpres
    cases fuel with
    | zero => simp [Insert, InsertLoop] at h
    | succ n =>
      rw [Insert_present n t k v hpres] at h
      injection h with h
      subst h
      refine ⟨rfl, rfl, rfl, ?_⟩
      intro a
      rw [bucketOf_setKmap _ _ _ _ (hl.valid _ (getIdx_lt hl k))]
      by_cases ha : a = dirAt t (getIdx t k)
      · rw [if_pos ha, ha]
        exact kmapSet_length_of_found _ k v hpres
      · rw [if_neg ha]
  · intro hg hsep fuel hf
    obtain ⟨t1, h, hg1⟩ := Insert_terminates_below fuel hf t hl hg k v (by rw [hsz]; exact hsep)
    exact ⟨t1, h, hg1, hfind fuel t1 h⟩

/-- C9 (amended): on every reachable table, for every key `k'` different from
`k`, an `Insert(k, v)` that returns with a directory of depth at most 30 leaves
the result of `Find(k')` unchanged, however many bucket splits and directory
doublings it performs; and `Insert` does return that way, within 31 loop
iterations, from every table of depth at most 30 in which `k` is present or the
bucket of `k` holds fewer than `size` entries whose hash agrees with the hash of
`k` on the low 30 bits. -/
theorem C9_insert_frame (size : Nat) (t : ExtendibleHash V) (hr : HReachable size t)
    (k : Int) (hk : isInt32 k) (v : V) (k' : Int) (hne : k' ≠ k) :
    (∀ fuel t1, Insert fuel t k v = some t1 → t1.globalDepth ≤ 30 →
      Find t1 k' = Find t k') ∧
    (t.globalDepth ≤ 30 → ((Find t k).isSome ∨ collisions 30 t k < size) →
      ∀ fuel, 31 ≤ fuel →
        ∃ t1, Insert fuel t k v = some t1 ∧ t1.globalDepth ≤ 30 ∧
          Find t1 k' = Find t k') := by
  obtain ⟨hl, hsz⟩ := HReachable_HInv hr
  have hframe : ∀ fuel t1, Insert fuel t k v = some t1 → Find t1 k' = Find t k' := by
    intro fuel t1 h
    obtain ⟨_, h2, _⟩ := Insert_spec fuel t t1 hl k hk v h
    rw [h2 k', if_neg hne]
  refine ⟨fun fuel t1 h _ => hframe fuel t1 h, ?_⟩
  intro hg hsep fuel hf
  obtain ⟨t1, h, hg1⟩ := Insert_terminates_below fuel hf t hl hg k v (by rw [hsz]; exact hsep)
  exact ⟨t1, h, hg1, hframe fuel t1 h⟩

/-- C10: on every reachable table `Remove(k)` returns true exactly when `k` was
present; afterwards `Find(k)` returns false, `Find` of every other key is
unchanged, and the global depth, the number of buckets and the directory are
unchanged. -/
theorem C10_remove (size : Nat) (t : ExtendibleHash V) (hr : HReachable size t) (k : Int) :
    ((Remove t k).2 = true ↔ (Find t k).isSome = true) ∧
    Find (Remove t k).1 k = none ∧
    (∀ k', k' ≠ k → Find (Remove t k).1 k' = Find t k') ∧
    GetGlobalDepth (Remove t k).1 = GetGlobalDepth t ∧
    GetNumBuckets (Remove t k).1 = GetNumBuckets t ∧
    (Remove t k).1.buckets = t.buckets := by
  obtain ⟨hl, _⟩ := HReachable_HInv hr
  obtain ⟨h1, h2, h3, _⟩ := Remove_shape t k
  refine ⟨by rw [Remove_result], ?_, ?_, h1, h2, h3⟩
  · rw [Remove_Find t hl, if_pos rfl]
  · intro k' hne
    rw [Remove_Find t hl, if_neg hne]

theorem reachable_6_10 : HReachable 2 table_6_10 :=
  HReachable.insert 33 10 2
    (HReachable.insert 33 6 1 HReachable.init (by decide)
      (show Insert 33 (mk_sized 2) 6 1
        = some (⟨0, 2, 1, [0], [⟨0, [(6, 1)]⟩]⟩ : ExtendibleHash Nat) by decide))
    (by decide) (by decide)

theorem reachable_int_max : HReachable 1 table_int_max :=
  HReachable.insert 1 2147483647 7 HReachable.init
    (by decide) (by decide)

theorem reachable_one : HReachable 1 table_one :=
  HReachable.insert 1 1 7 HReachable.init (by decide) (by decide)


/-- C8, counterexample to the claim as stated: the table of bucket size 1 that
holds 2147483647 is reachable at depth 0, and -1 is an int key that is not in
it, but the hashes of the two keys agree on their low 31 bits, so the one entry
of the bucket of -1 collides with it on the low 30 bits and no run of
`Insert(-1, 9)` returns with a directory of depth below 32: the loop has to split
the bucket at local depths 0 to 31 and to double the directory to 2^32 slots,
past the depths at which `1 << localDepth` and `(1 << globalDepth) - 1` have a
value in the 32-bit `int` of the source. -/
theorem C8_insert_colliding_key_needs_depth_32 :
    HReachable 1 table_int_max ∧ isInt32 (-1) ∧ table_int_max.globalDepth = 0 ∧
    Find table_int_max (-1) = none ∧ collisions 30 table_int_max (-1) = 1 ∧
    ∀ fuel t1, Insert fuel table_int_max (-1) 9 = some t1 →
      32 ≤ t1.globalDepth ∧ 2 ^ 32 ≤ t1.buckets.length := by
  refine ⟨reachable_int_max, by decide, rfl, by decide, by decide, ?_⟩
  intro fuel t1 h
  have hl := (HReachable_HInv reachable_int_max).1
  have hd : 32 ≤ t1.globalDepth :=
    InsertLoop_deep_of_collision (-1) 2147483647 (by decide) (by decide) 9 fuel
      table_int_max t1 hl (by decide) (by decide) (by decide) h
  refine ⟨hd, ?_⟩
  rw [(Insert_spec fuel _ t1 hl (-1) (by decide) 9 h).1.len]
  exact Nat.pow_le_pow_right (by decide) hd

/-- C9, counterexample to the claim as stated: the table of bucket size 1 that
holds key 1 is reachable at depth 0 and `Find(1)` yields 7 on it; the int key
-2147483647 differs from 1 but its hash agrees with the hash of 1 on the low 31
bits, so no run of `Insert(-2147483647, 9)` returns with a directory of depth
below 32: there is no table, at a depth at which the `int` shifts of the source
have a value, on which `Find(1)` could be compared with its result before. -/
theorem C9_insert_colliding_key_needs_depth_32 :
    HReachable 1 table_one ∧ isInt32 (-2147483647) ∧ (1 : Int) ≠ -2147483647 ∧
    table_one.globalDepth = 0 ∧ Find table_one 1 = some 7 ∧
    Find table_one (-2147483647) = none ∧ collisions 30 table_one (-2147483647) = 1 ∧
    ∀ fuel t1, Insert fuel table_one (-2147483647) 9 = some t1 →
      32 ≤ t1.globalDepth ∧ 2 ^ 32 ≤ t1.buckets.length := by
  refine ⟨reachable_one, by decide, by decide, rfl, by decide, by decide, by decide, ?_⟩
  intro fuel t1 h
  have hl := (HReachable_HInv reachable_one).1
  have hd : 32 ≤ t1.globalDepth :=
    InsertLoop_deep_of_collision (-2147483647) 1 (by decide) (by decide) 9 fuel
      table_one t1 hl (by decide) (by decide) (by decide) h
  refine ⟨hd, ?_⟩
  rw [(Insert_spec fuel _ t1 hl (-2147483647) (by decide) 9 h).1.len]
  exact Nat.pow_le_pow_right (by decide) hd

/-- Witness for C8: `Insert(14, 3)` into the size-2 table holding 6 and 10 (three
splits, directory doubled to depth 3) returns, and `Find(14)` then yields 3. -/
theorem C8_insert_then_find_witness :
    HReachable 2 table_6_10 ∧ isInt32 14 ∧ table_6_10.globalDepth ≤ 30 ∧
      collisions 30 table_6_10 14 < 2 ∧
      ∃ t1, Insert 31 table_6_10 14 3 = some t1 ∧ t1.globalDepth ≤ 30 ∧
        Find t1 14 = some 3 :=
  ⟨reachable_6_10, by decide, by decide, by decide,
    (C8_insert_then_find 2 table_6_10 reachable_6_10 14 (by decide) 3).2
      (by decide) (Or.inr (by decide)) 31 (le_refl _)⟩

/-- Witness for C9: the same splitting insert leaves `Find(10)` as it was. -/
theorem C9_insert_frame_witness :
    HReachable 2 table_6_10 ∧ isInt32 14 ∧ (10 : Int) ≠ 14 ∧
      table_6_10.globalDepth ≤ 30 ∧ collisions 30 table_6_10 14 < 2 ∧
      ∃ t1, Insert 31 table_6_10 14 3 = some t1 ∧ t1.globalDepth ≤ 30 ∧
        Find t1 10 = Find table_6_10 10 :=
  ⟨reachable_6_10, by decide, by decide, by decide, by decide,
    (C9_insert_frame 2 table_6_10 reachable_6_10 14 (by decide) 3 10 (by decide)).2
      (by decide) (Or.inr (by decide)) 31 (le_refl _)⟩

/-- Witness for C10: removing 6 from the table holding 6 and 10. -/
theorem C10_remove_witness :
    HReachable 2 table_6_10 ∧
      ((Remove table_6_10 6).2 = true ↔ (Find table_6_10 6).isSome = true) ∧
      Find (Remove table_6_10 6).1 6 = none ∧
      (∀ k', k' ≠ 6 → Find (Remove table_6_10 6).1 k' = Find table_6_10 k') ∧
      GetGlobalDepth (Remove table_6_10 6).1 = GetGlobalDepth table_6_10 ∧
      GetNumBuckets (Remove table_6_10 6).1 = GetNumBuckets table_6_10 ∧
      (Remove table_6_10 6).1.buckets = table_6_10.buckets :=
  ⟨reachable_6_10, C10_remove 2 table_6_10 reachable_6_10 6⟩

end ExtendibleHash

namespace BufferPoolManager

theorem pageAt_setPage_self (s : BufferPoolManager) (tar : Nat) (p : Page)
    (h : tar < s.pages.length) : pageAt (setPage s tar p) tar = p := by
  unfold pageAt setPage
  exact getD_set_self _ _ _ _ h

theorem pageAt_setPage_other (s : BufferPoolManager) (tar tar' : Nat) (p : Page)
    (h : tar' ≠ tar) : pageAt (setPage s tar p) tar' = pageAt s tar' := by
  unfold pageAt setPage
  exact getD_set_other _ _ _ _ _ h

theorem Victim_some {r r1 : LRUReplacer Nat} {tar : Nat}
    (h : LRUReplacer.Victim r = (r1, some tar)) : r = r1 ++ [tar] := by
  unfold LRUReplacer.Victim at h
  cases hl : r.getLast? with
  | none => rw [hl] at h; simp at h
  | some last =>
    rw [hl] at h
    simp only [Prod.mk.injEq, Option.some.injEq] at h
    obtain ⟨h1, h2⟩ := h
    subst h1; subst h2
    exact (List.dropLast_append_getLast? last hl).symm

theorem Victim_none {r r1 : LRUReplacer Nat}
    (h : LRUReplacer.Victim r = (r1, none)) : r = [] := by
  unfold LRUReplacer.Victim at h
  cases hl : r.getLast? with
  | none => exact List.getLast?_eq_none_iff.mp hl
  | some last => rw [hl] at h; simp at h

/-- What `GetVictimPage` did when it handed out a frame. -/
theorem GetVictimPage_some {cfg : Config} {s s1 : BufferPoolManager} {tar : Nat}
    (h : GetVictimPage cfg s = Outcome.ok (s1, some tar)) :
    (pageAt s tar).pin_count = 0 ∧
    ((∃ rest, s.free_list = tar :: rest ∧ s1 = { s with free_list := rest } ∧
        (pageAt s tar).page_id = cfg.INVALID_PAGE_ID) ∨
     (∃ r, s.free_list = [] ∧ s.replacer = r ++ [tar] ∧ s1 = { s with replacer := r })) := by
  unfold GetVictimPage at h
  split at h
  · rename_i hfree
    split at h
    · simp at h
    · split at h
      · simp at h
      · rename_i r tar' hv
        split at h
        · rename_i hpin
          simp only [Outcome.ok.injEq, Prod.mk.injEq, Option.some.injEq] at h
          obtain ⟨h1, h2⟩ := h
          subst h2
          exact ⟨hpin, Or.inr ⟨r, hfree, Victim_some hv, h1.symm⟩⟩
        · simp at h
  · rename_i tar' rest hfree
    split at h
    · rename_i hid
      split at h
      · rename_i hpin
        simp only [Outcome.ok.injEq, Prod.mk.injEq, Option.some.injEq] at h
        obtain ⟨h1, h2⟩ := h
        subst h2
        exact ⟨hpin, Or.inl ⟨rest, hfree, h1.symm, hid⟩⟩
      · simp at h
    · simp at h

/-- `GetVictimPage` returns null exactly on an empty free list and an empty
replacer, and then changes nothing. -/
theorem GetVictimPage_none (cfg : Config) (s s1 : BufferPoolManager) :
    GetVictimPage cfg s = Outcome.ok (s1, none) ↔
      s.free_list = [] ∧ s.replacer = [] ∧ s1 = s := by
  unfold GetVictimPage
  constructor
  · intro h
    split at h
    · rename_i hfree
      split at h
      · rename_i hsz
        simp only [Outcome.ok.injEq, Prod.mk.injEq, and_true] at h
        exact ⟨hfree, List.length_eq_zero.mp hsz, h.symm⟩
      · split at h
        · simp at h
        · split at h <;> simp at h
    · split at h
      · split at h <;> simp at h
      · simp at h
  · rintro ⟨h1, h2, h3⟩
    subst h3
    rw [h1]
    simp [LRUReplacer.Size, h2]

end BufferPoolManager

namespace BufferPoolManager

theorem mem_dropLast_of_ne {l r : List Nat} {tar t : Nat} (h : l = r ++ [tar])
    (ht : t ∈ l) (hne : t ≠ tar) : t ∈ r := by
  subst h
  simp only [List.mem_append, List.mem_singleton] at ht
  rcases ht with ht | ht
  · exact ht
  · exact absurd ht hne

/-- What the pool looks like right after `GetVictimPage` handed out `tar`: only
the free list or the replacer lost `tar`. -/
theorem victim_facts {cfg : Config} {s s1 : BufferPoolManager} {tar : Nat} (hs : BInv cfg s)
    (hv : GetVictimPage cfg s = Outcome.ok (s1, some tar)) :
    s1.pages = s.pages ∧ s1.pool_size = s.pool_size ∧ s1.page_table = s.page_table ∧
    s1.disk_manager = s.disk_manager ∧ s1.log_manager = s.log_manager ∧
    tar < s.pool_size ∧ (pageAt s tar).pin_count = 0 ∧
    tar ∉ s1.free_list ∧ tar ∉ s1.replacer ∧ s1.free_list.Nodup ∧ s1.replacer.Nodup ∧
    (∀ t, t ∈ s1.free_list → t ∈ s.free_list) ∧ (∀ t, t ∈ s1.replacer → t ∈ s.replacer) ∧
    (∀ t, t ≠ tar → t ∈ s.free_list → t ∈ s1.free_list) ∧
    (∀ t, t ≠ tar → t ∈ s.replacer → t ∈ s1.replacer) := by
  obtain ⟨hpin, h | h⟩ := GetVictimPage_some hv
  · obtain ⟨rest, hfree, h1, _⟩ := h
    subst h1
    have hin : tar ∈ s.free_list := by rw [hfree]; exact List.mem_cons_self _ _
    have hnd := hs.free_nodup
    rw [hfree] at hnd
    refine ⟨rfl, rfl, rfl, rfl, rfl, (hs.in_free tar hin).1, hpin, ?_, ?_, ?_, hs.replacer_nodup,
      ?_, ?_, ?_, ?_⟩
    · exact (List.nodup_cons.mp hnd).1
    · exact hs.disjoint tar hin
    · exact (List.nodup_cons.mp hnd).2
    · intro t ht; rw [hfree]; exact List.mem_cons_of_mem _ ht
    · intro t ht; exact ht
    · intro t hne ht
      rw [hfree] at ht
      rcases List.mem_cons.mp ht with h | h
      · exact absurd h hne
      · exact h
    · intro t _ ht; exact ht
  · obtain ⟨r, hfree, hrep, h1⟩ := h
    subst h1
    have hin : tar ∈ s.replacer := by rw [hrep]; simp
    have hnd := hs.replacer_nodup
    rw [hrep] at hnd
    have hnd' := List.nodup_append.mp hnd
    refine ⟨rfl, rfl, rfl, rfl, rfl, (hs.in_replacer tar hin).1, hpin, ?_, ?_, hs.free_nodup, ?_,
      ?_, ?_, ?_, ?_⟩
    · show tar ∉ s.free_list
      rw [hfree]; simp
    · intro hx
      exact hnd'.2.2 hx (List.mem_singleton_self tar)
    · exact hnd'.1
    · intro t ht; exact ht
    · intro t ht
      show t ∈ s.replacer
      rw [hrep]; exact List.mem_append_left _ ht
    · intro t _ ht; exact ht
    · intro t hne ht
      exact mem_dropLast_of_ne hrep ht hne

/-- Lookups in the page table after `Remove(q)` and a returning `Insert(pid, tar)`. -/
theorem remap_Find {pt pt1 : ExtendibleHash Nat} (hpt : pt.HInv) (q pid : Int)
    (hpid : isInt32 pid) (tar fuel : Nat) (hins : (pt.Remove q).1.Insert fuel pid tar = some pt1) :
    pt1.HInv ∧ pt1.bucketSize = pt.bucketSize ∧
    ∀ k, pt1.Find k = if k = pid then some tar else if k = q then none else pt.Find k := by
  obtain ⟨h1, h2, h3, _⟩ :=
    ExtendibleHash.Insert_spec fuel _ pt1 (ExtendibleHash.Remove_HInv pt hpt q) pid hpid tar hins
  refine ⟨h1, h3.trans (ExtendibleHash.Remove_shape pt q).2.2.2, ?_⟩
  intro k
  rw [h2 k, ExtendibleHash.Remove_Find pt hpt]

/-- Installing a page in the frame `GetVictimPage` handed out keeps the pool
well-formed. -/
theorem install_BInv {cfg : Config} {s s1 : BufferPoolManager} {tar : Nat} (hs : BInv cfg s)
    (hv : GetVictimPage cfg s = Outcome.ok (s1, some tar))
    (fuel : Nat) (pid : Int) (hpid : isInt32 pid) (pt1 : ExtendibleHash Nat)
    (hins : (s.page_table.Remove (pageAt s tar).page_id).1.Insert fuel pid tar = some pt1)
    (d : DiskManager) (hd : isInt32 d.next_page_id) (data : List Nat) :
    BInv cfg (install s1 tar pt1 d ⟨data, pid, 1, false⟩) := by
  obtain ⟨e1, e2, _, _, _, htar, hpin, hnf, hnr, hfn, hrn, hfs, hrs, hfk, hrk⟩ :=
    victim_facts hs hv
  obtain ⟨ht1, ht2, hfind⟩ := remap_Find hs.table (pageAt s tar).page_id pid hpid tar fuel hins
  have hlen : tar < s.pages.length := by rw [hs.pages_len]; exact htar
  have hself : pageAt (install s1 tar pt1 d ⟨data, pid, 1, false⟩) tar
      = ⟨data, pid, 1, false⟩ := by
    unfold pageAt install
    simp only [e1]
    exact getD_set_self _ _ _ _ hlen
  have hother : ∀ t, t ≠ tar →
      pageAt (install s1 tar pt1 d ⟨data, pid, 1, false⟩) t = pageAt s t := by
    intro t hne
    unfold pageAt install
    simp only [e1]
    exact getD_set_other _ _ _ _ _ hne
  refine ⟨?_, ht1, ht2.trans hs.bucket, ?_, ?_, ?_, hrn, hfn, ?_, ?_, ?_, hd⟩
  · show (s1.pages.set tar _).length = s1.pool_size
    rw [List.length_set, e1, e2]; exact hs.pages_len
  · intro k t hk
    show t < s1.pool_size ∧ _ ∧ t ∉ s1.free_list
    have hk' : pt1.Find k = some t := hk
    rw [hfind k] at hk'
    by_cases h1 : k = pid
    · rw [if_pos h1] at hk'
      injection hk' with hk'
      subst hk'
      rw [hself, e2]
      exact ⟨htar, h1.symm, hnf⟩
    · rw [if_neg h1] at hk'
      by_cases h2 : k = (pageAt s tar).page_id
      · rw [if_pos h2] at hk'; simp at hk'
      · rw [if_neg h2] at hk'
        obtain ⟨m1, m2, m3⟩ := hs.mapped k t hk'
        have hne : t ≠ tar := by
          intro e
          rw [e] at m2
          exact h2 m2.symm
        rw [hother t hne, e2]
        exact ⟨m1, m2, fun hx => m3 (hfs t hx)⟩
  · intro t ht
    have ht' : t ∈ s1.replacer := ht
    have hne : t ≠ tar := fun e => hnr (e ▸ ht')
    rw [hother t hne]
    show t < s1.pool_size ∧ _
    rw [e2]
    exact hs.in_replacer t (hrs t ht')
  · intro t ht
    have ht' : t ∈ s1.free_list := ht
    have hne : t ≠ tar := fun e => hnf (e ▸ ht')
    rw [hother t hne]
    show t < s1.pool_size ∧ _
    rw [e2]
    exact hs.in_free t (hfs t ht')
  · intro t ht hr
    exact hs.disjoint t (hfs t ht) (hrs t hr)
  · intro t
    by_cases hne : t = tar
    · subst hne; rw [hself]; exact Int.zero_le_ofNat 1
    · rw [hother t hne]; exact hs.pin_nonneg t
  · intro t ht hp
    have ht' : t < s1.pool_size := ht
    rw [e2] at ht'
    by_cases hne : t = tar
    · subst hne; rw [hself] at hp; simp at hp
    · rw [hother t hne] at hp
      rcases hs.unpinned t ht' hp with h | h
      · exact Or.inl (hfk t hne h)
      · exact Or.inr (hrk t hne h)

end BufferPoolManager

namespace BufferPoolManager

theorem writeBack_fields (s : BufferPoolManager) (tar : Nat) :
    (writeBack s tar).pages = s.pages ∧ (writeBack s tar).page_table = s.page_table ∧
    (writeBack s tar).pool_size = s.pool_size ∧ (writeBack s tar).replacer = s.replacer ∧
    (writeBack s tar).free_list = s.free_list ∧ (writeBack s tar).log_manager = s.log_manager ∧
    (writeBack s tar).disk_manager.next_page_id = s.disk_manager.next_page_id := by
  unfold writeBack
  split <;> exact ⟨rfl, rfl, rfl, rfl, rfl, rfl, rfl⟩

theorem writeBack_eq (s : BufferPoolManager) (tar : Nat) :
    writeBack s tar = { s with disk_manager := (writeBack s tar).disk_manager } := by
  unfold writeBack
  split <;> rfl

/-- The disk after the read of `FetchPage`, and the bytes read. -/
theorem FetchPage_hit (cfg : Config) (fuel : Nat) (s : BufferPoolManager) (pid : Int)
    (tar : Nat) (h : s.page_table.Find pid = some tar) :
    FetchPage cfg fuel s pid = Outcome.ok
      ({ setPage s tar { pageAt s tar with pin_count := (pageAt s tar).pin_count + 1 } with
          replacer := (LRUReplacer.Erase s.replacer tar).1 }, some tar) := by
  unfold FetchPage
  rw [h]
  rfl

theorem FetchPage_miss_fault (cfg : Config) (fuel : Nat) (s : BufferPoolManager) (pid : Int)
    (h : s.page_table.Find pid = none) (f : Fault) (hv : GetVictimPage cfg s = Outcome.fault f) :
    FetchPage cfg fuel s pid = Outcome.fault f := by
  unfold FetchPage
  rw [h]
  simp only [hv]

theorem FetchPage_miss_null (cfg : Config) (fuel : Nat) (s s1 : BufferPoolManager) (pid : Int)
    (h : s.page_table.Find pid = none) (hv : GetVictimPage cfg s = Outcome.ok (s1, none)) :
    FetchPage cfg fuel s pid = Outcome.ok (s1, none) := by
  unfold FetchPage
  rw [h]
  simp only [hv]

theorem FetchPage_miss_fuel (cfg : Config) (fuel : Nat) (s s1 : BufferPoolManager) (pid : Int)
    (tar : Nat) (h : s.page_table.Find pid = none)
    (hv : GetVictimPage cfg s = Outcome.ok (s1, some tar))
    (hins : (s1.page_table.Remove (pageAt s1 tar).page_id).1.Insert fuel pid tar = none) :
    FetchPage cfg fuel s pid = Outcome.fault Fault.out_of_fuel := by
  have e := writeBack_fields s1 tar
  unfold FetchPage
  rw [h]
  simp only [hv]
  unfold pageAt
  rw [e.1, e.2.1]
  unfold pageAt at hins
  rw [hins]

theorem FetchPage_miss_ok (cfg : Config) (fuel : Nat) (s s1 : BufferPoolManager) (pid : Int)
    (tar : Nat) (pt1 : ExtendibleHash Nat) (h : s.page_table.Find pid = none)
    (hv : GetVictimPage cfg s = Outcome.ok (s1, some tar))
    (hins : (s1.page_table.Remove (pageAt s1 tar).page_id).1.Insert fuel pid tar = some pt1) :
    FetchPage cfg fuel s pid = Outcome.ok
      (install s1 tar pt1 ((writeBack s1 tar).disk_manager.ReadPage cfg pid).1
        ⟨((writeBack s1 tar).disk_manager.ReadPage cfg pid).2, pid, 1, false⟩, some tar) := by
  have e := writeBack_fields s1 tar
  unfold FetchPage
  rw [h]
  simp only [hv]
  unfold pageAt
  rw [e.1, e.2.1]
  unfold pageAt at hins
  rw [hins]
  simp only [install, setPage]
  rw [writeBack_eq s1 tar]

theorem NewPage_fault (cfg : Config) (fuel : Nat) (s : BufferPoolManager)
    (f : Fault) (hv : GetVictimPage cfg s = Outcome.fault f) :
    NewPage cfg fuel s = Outcome.fault f := by
  unfold NewPage
  simp only [hv]

theorem NewPage_null (cfg : Config) (fuel : Nat) (s s1 : BufferPoolManager)
    (hv : GetVictimPage cfg s = Outcome.ok (s1, none)) :
    NewPage cfg fuel s = Outcome.ok (s1, none) := by
  unfold NewPage
  simp only [hv]

/-- The pool in the middle of `NewPage`, after `AllocatePage`. -/
theorem NewPage_fuel (cfg : Config) (fuel : Nat) (s s1 : BufferPoolManager)
    (tar : Nat) (hv : GetVictimPage cfg s = Outcome.ok (s1, some tar))
    (hins : (s1.page_table.Remove (pageAt s1 tar).page_id).1.Insert fuel
      s1.disk_manager.next_page_id tar = none) :
    NewPage cfg fuel s = Outcome.fault Fault.out_of_fuel := by
  have e := writeBack_fields { s1 with disk_manager := s1.disk_manager.AllocatePage.1 } tar
  unfold NewPage
  simp only [hv]
  unfold pageAt
  rw [e.1, e.2.1]
  unfold pageAt at hins
  simp only [DiskManager.AllocatePage] at hins ⊢
  rw [hins]

theorem NewPage_ok (cfg : Config) (fuel : Nat) (s s1 : BufferPoolManager)
    (tar : Nat) (pt1 : ExtendibleHash Nat) (hv : GetVictimPage cfg s = Outcome.ok (s1, some tar))
    (hins : (s1.page_table.Remove (pageAt s1 tar).page_id).1.Insert fuel
      s1.disk_manager.next_page_id tar = some pt1) :
    NewPage cfg fuel s = Outcome.ok
      (install s1 tar pt1
        (writeBack { s1 with disk_manager := s1.disk_manager.AllocatePage.1 } tar).disk_manager
        ⟨List.replicate cfg.PAGE_SIZE 0, s1.disk_manager.next_page_id, 1, false⟩,
       some (tar, s1.disk_manager.next_page_id)) := by
  have e := writeBack_fields { s1 with disk_manager := s1.disk_manager.AllocatePage.1 } tar
  unfold NewPage
  simp only [hv]
  unfold pageAt
  rw [e.1, e.2.1]
  unfold pageAt at hins
  simp only [DiskManager.AllocatePage] at hins ⊢
  rw [hins]
  simp only [install, setPage]
  rw [writeBack_eq { s1 with disk_manager := _ } tar]

end BufferPoolManager

namespace BufferPoolManager

theorem victim_pageAt {cfg : Config} {s s1 : BufferPoolManager} {tar : Nat} (hs : BInv cfg s)
    (hv : GetVictimPage cfg s = Outcome.ok (s1, some tar)) (t : Nat) :
    pageAt s1 t = pageAt s t := by
  unfold pageAt
  rw [(victim_facts hs hv).1]

theorem FetchPage_BInv {cfg : Config} {s s1 : BufferPoolManager} (hs : BInv cfg s)
    (fuel : Nat) (pid : Int) (hpid : isInt32 pid) (r : Option Nat)
    (h : FetchPage cfg fuel s pid = Outcome.ok (s1, r)) : BInv cfg s1 := by
  cases hf : s.page_table.Find pid with
  | some tar =>
    rw [FetchPage_hit cfg fuel s pid tar hf] at h
    simp only [Outcome.ok.injEq, Prod.mk.injEq] at h
    obtain ⟨h1, _⟩ := h
    subst h1
    obtain ⟨m1, m2, m3⟩ := hs.mapped pid tar hf
    have hlen : tar < s.pages.length := by rw [hs.pages_len]; exact m1
    have hself : ∀ (r : LRUReplacer Nat), pageAt { setPage s tar
        { pageAt s tar with pin_count := (pageAt s tar).pin_count + 1 } with replacer := r } tar
        = { pageAt s tar with pin_count := (pageAt s tar).pin_count + 1 } :=
      fun _ => pageAt_setPage_self s tar _ hlen
    have hother : ∀ (r : LRUReplacer Nat) t, t ≠ tar → pageAt { setPage s tar
        { pageAt s tar with pin_count := (pageAt s tar).pin_count + 1 } with replacer := r } t
        = pageAt s t :=
      fun _ t hne => pageAt_setPage_other s tar t _ hne
    refine ⟨?_, hs.table, hs.bucket, ?_, ?_, ?_, ?_, hs.free_nodup, ?_, ?_, ?_, hs.next_id⟩
    · show (s.pages.set tar _).length = s.pool_size
      rw [List.length_set]; exact hs.pages_len
    · intro k t hk
      obtain ⟨n1, n2, n3⟩ := hs.mapped k t hk
      refine ⟨n1, ?_, n3⟩
      by_cases hne : t = tar
      · subst hne; rw [hself]; exact n2
      · rw [hother _ t hne]; exact n2
    · intro t ht
      have ht' : t ∈ s.replacer ∧ t ≠ tar := by
        have : t ∈ (LRUReplacer.Erase s.replacer tar).1 := ht
        simpa [LRUReplacer.Erase] using this
      rw [hother _ t ht'.2]
      exact hs.in_replacer t ht'.1
    · intro t ht
      have ht' : t ∈ s.free_list := ht
      have hne : t ≠ tar := fun e => m3 (e ▸ ht')
      rw [hother _ t hne]
      exact hs.in_free t ht'
    · exact hs.replacer_nodup.filter _
    · intro t ht hr
      have hr' : t ∈ s.replacer ∧ t ≠ tar := by
        have : t ∈ (LRUReplacer.Erase s.replacer tar).1 := hr
        simpa [LRUReplacer.Erase] using this
      exact hs.disjoint t ht hr'.1
    · intro t
      by_cases hne : t = tar
      · subst hne; rw [hself]
        have := hs.pin_nonneg t
        show 0 ≤ (pageAt s t).pin_count + 1
        omega
      · rw [hother _ t hne]; exact hs.pin_nonneg t
    · intro t ht hp
      by_cases hne : t = tar
      · subst hne
        rw [hself] at hp
        have := hs.pin_nonneg t
        have hp' : (pageAt s t).pin_count + 1 = 0 := hp
        omega
      · rw [hother _ t hne] at hp
        rcases hs.unpinned t ht hp with h | h
        · exact Or.inl h
        · refine Or.inr ?_
          show t ∈ (LRUReplacer.Erase s.replacer tar).1
          simp [LRUReplacer.Erase, h, hne]
  | none =>
    cases hv : GetVictimPage cfg s with
    | fault f => rw [FetchPage_miss_fault cfg fuel s pid hf f hv] at h; simp at h
    | ok res =>
      obtain ⟨s2, o⟩ := res
      cases o with
      | none =>
        rw [FetchPage_miss_null cfg fuel s s2 pid hf hv] at h
        simp only [Outcome.ok.injEq, Prod.mk.injEq] at h
        rw [← h.1, ((GetVictimPage_none cfg s s2).mp hv).2.2]
        exact hs
      | some tar =>
        cases hins : (s2.page_table.Remove (pageAt s2 tar).page_id).1.Insert fuel pid tar with
        | none => rw [FetchPage_miss_fuel cfg fuel s s2 pid tar hf hv hins] at h; simp at h
        | some pt1 =>
          rw [FetchPage_miss_ok cfg fuel s s2 pid tar pt1 hf hv hins] at h
          simp only [Outcome.ok.injEq, Prod.mk.injEq] at h
          rw [← h.1]
          have hvf := victim_facts hs hv
          rw [hvf.2.2.1, victim_pageAt hs hv] at hins
          apply install_BInv hs hv fuel pid hpid pt1 hins
          show isInt32 (writeBack s2 tar).disk_manager.next_page_id
          rw [(writeBack_fields s2 tar).2.2.2.2.2.2, hvf.2.2.2.1]
          exact hs.next_id

theorem AllocatePage_next (d : DiskManager) :
    isInt32 d.AllocatePage.1.next_page_id := by
  unfold DiskManager.AllocatePage isInt32
  simp only []
  omega

theorem NewPage_BInv {cfg : Config} {s s1 : BufferPoolManager} (hs : BInv cfg s)
    (fuel : Nat) (r : Option (Nat × Int))
    (h : NewPage cfg fuel s = Outcome.ok (s1, r)) : BInv cfg s1 := by
  cases hv : GetVictimPage cfg s with
  | fault f => rw [NewPage_fault cfg fuel s f hv] at h; simp at h
  | ok res =>
    obtain ⟨s2, o⟩ := res
    cases o with
    | none =>
      rw [NewPage_null cfg fuel s s2 hv] at h
      simp only [Outcome.ok.injEq, Prod.mk.injEq] at h
      rw [← h.1, ((GetVictimPage_none cfg s s2).mp hv).2.2]
      exact hs
    | some tar =>
      cases hins : (s2.page_table.Remove (pageAt s2 tar).page_id).1.Insert fuel
          s2.disk_manager.next_page_id tar with
      | none => rw [NewPage_fuel cfg fuel s s2 tar hv hins] at h; simp at h
      | some pt1 =>
        rw [NewPage_ok cfg fuel s s2 tar pt1 hv hins] at h
        simp only [Outcome.ok.injEq, Prod.mk.injEq] at h
        rw [← h.1]
        have hvf := victim_facts hs hv
        rw [hvf.2.2.1, victim_pageAt hs hv] at hins
        have hid : isInt32 s2.disk_manager.next_page_id := by
          rw [hvf.2.2.2.1]; exact hs.next_id
        apply install_BInv hs hv fuel _ hid pt1 hins
        rw [(writeBack_fields _ tar).2.2.2.2.2.2]
        exact AllocatePage_next _

end BufferPoolManager

namespace BufferPoolManager

theorem setPage_setPage (s : BufferPoolManager) (tar : Nat) (p q : Page) :
    setPage (setPage s tar p) tar q = setPage s tar q := by
  unfold setPage
  simp [List.set_set]

/-- Changing only bytes and dirty flags of frames, and the disk and log manager
state, keeps a pool well-formed. -/
theorem BInv_congr {cfg : Config} {s : BufferPoolManager} (s1 : BufferPoolManager)
    (hs : BInv cfg s)
    (h1 : s1.pool_size = s.pool_size) (h2 : s1.pages.length = s.pages.length)
    (h3 : s1.page_table = s.page_table) (h4 : s1.replacer = s.replacer)
    (h5 : s1.free_list = s.free_list) (h6 : isInt32 s1.disk_manager.next_page_id)
    (h7 : ∀ t, (pageAt s1 t).page_id = (pageAt s t).page_id ∧
      (pageAt s1 t).pin_count = (pageAt s t).pin_count) : BInv cfg s1 := by
  refine ⟨?_, ?_, ?_, ?_, ?_, ?_, ?_, ?_, ?_, ?_, ?_, h6⟩
  · rw [h2, h1]; exact hs.pages_len
  · rw [h3]; exact hs.table
  · rw [h3]; exact hs.bucket
  · intro k t hk
    rw [h3] at hk
    rw [h1, h5, (h7 t).1]
    exact hs.mapped k t hk
  · intro t ht
    rw [h4] at ht
    rw [h1, (h7 t).2]
    exact hs.in_replacer t ht
  · intro t ht
    rw [h5] at ht
    rw [h1, (h7 t).2]
    exact hs.in_free t ht
  · rw [h4]; exact hs.replacer_nodup
  · rw [h5]; exact hs.free_nodup
  · intro t ht
    rw [h5] at ht
    rw [h4]
    exact hs.disjoint t ht
  · intro t
    rw [(h7 t).2]
    exact hs.pin_nonneg t
  · intro t ht hp
    rw [h1] at ht
    rw [(h7 t).2] at hp
    rw [h4, h5]
    exact hs.unpinned t ht hp

/-- The frame fields after a write through a `Page *` that keeps them. -/
theorem setPage_keeps (s : BufferPoolManager) (tar : Nat) (p : Page)
    (hid : p.page_id = (pageAt s tar).page_id) (hpin : p.pin_count = (pageAt s tar).pin_count)
    (t : Nat) :
    (pageAt (setPage s tar p) t).page_id = (pageAt s t).page_id ∧
    (pageAt (setPage s tar p) t).pin_count = (pageAt s t).pin_count := by
  by_cases hne : t = tar
  · subst hne
    by_cases hlen : t < s.pages.length
    · rw [pageAt_setPage_self s t p hlen]; exact ⟨hid, hpin⟩
    · have : setPage s t p = s := by
        unfold setPage
        rw [List.set_eq_of_length_le (by omega)]
      rw [this]; exact ⟨rfl, rfl⟩
  · rw [pageAt_setPage_other s tar t p hne]; exact ⟨rfl, rfl⟩

theorem WriteData_BInv {cfg : Config} {s : BufferPoolManager} (hs : BInv cfg s)
    (tar : Nat) (data : List Nat) : BInv cfg (WriteData s tar data) := by
  refine BInv_congr (WriteData s tar data) hs rfl (by simp [WriteData, setPage]) rfl rfl rfl
    hs.next_id ?_
  exact setPage_keeps s tar _ rfl rfl

theorem FlushPage_BInv {cfg : Config} {s : BufferPoolManager} (hs : BInv cfg s)
    (pid : Int) : BInv cfg (FlushPage cfg s pid).1 := by
  unfold FlushPage
  split
  · exact hs
  · split
    · exact hs
    · split
      · rename_i tar _ _ _
        refine BInv_congr (setPage (diskWrite s pid (pageAt s tar).data) tar _) hs rfl
          (by simp [setPage, diskWrite]) rfl rfl rfl hs.next_id ?_
        intro t
        exact setPage_keeps (diskWrite s pid (pageAt s tar).data) tar
          { pageAt (diskWrite s pid (pageAt s tar).data) tar with is_dirty := false } rfl rfl t
      · exact hs

/-- Method `UnpinPage` on a resident page, case by case. -/
theorem UnpinPage_eq (s : BufferPoolManager) (pid : Int) (d : Bool) (tar : Nat)
    (h : s.page_table.Find pid = some tar) (hlen : tar < s.pages.length) :
    UnpinPage s pid d =
      if (pageAt s tar).pin_count ≤ 0 then
        (setPage s tar { pageAt s tar with is_dirty := d }, false)
      else if (pageAt s tar).pin_count - 1 = 0 then
        ({ setPage s tar ⟨(pageAt s tar).data, (pageAt s tar).page_id,
              (pageAt s tar).pin_count - 1, d⟩ with
            replacer := LRUReplacer.Insert s.replacer tar }, true)
      else
        (setPage s tar ⟨(pageAt s tar).data, (pageAt s tar).page_id,
              (pageAt s tar).pin_count - 1, d⟩, true) := by
  have hlen1 : ∀ p, tar < (setPage s tar p).pages.length := by
    intro p; simpa [setPage] using hlen
  unfold UnpinPage
  rw [h]
  simp only []
  rw [pageAt_setPage_self s tar _ hlen, setPage_setPage,
    pageAt_setPage_self s tar _ hlen]
  rfl

theorem UnpinPage_BInv {cfg : Config} {s : BufferPoolManager} (hs : BInv cfg s)
    (pid : Int) (d : Bool) : BInv cfg (UnpinPage s pid d).1 := by
  cases hf : s.page_table.Find pid with
  | none =>
    unfold UnpinPage
    rw [hf]
    exact hs
  | some tar =>
    obtain ⟨m1, m2, m3⟩ := hs.mapped pid tar hf
    have hlen : tar < s.pages.length := by rw [hs.pages_len]; exact m1
    rw [UnpinPage_eq s pid d tar hf hlen]
    split
    · refine BInv_congr (setPage s tar _) hs rfl (by simp [setPage]) rfl rfl rfl hs.next_id ?_
      exact setPage_keeps s tar _ rfl rfl
    · rename_i hpos
      have hself : ∀ (r : LRUReplacer Nat), pageAt { setPage s tar
          ⟨(pageAt s tar).data, (pageAt s tar).page_id, (pageAt s tar).pin_count - 1, d⟩ with
          replacer := r } tar
          = ⟨(pageAt s tar).data, (pageAt s tar).page_id, (pageAt s tar).pin_count - 1, d⟩ :=
        fun _ => pageAt_setPage_self s tar _ hlen
      have hother : ∀ (r : LRUReplacer Nat) t, t ≠ tar → pageAt { setPage s tar
          ⟨(pageAt s tar).data, (pageAt s tar).page_id, (pageAt s tar).pin_count - 1, d⟩ with
          replacer := r } t = pageAt s t :=
        fun _ t hne => pageAt_setPage_other s tar t _ hne
      have hnotrep : tar ∉ s.replacer := by
        intro hx
        have := (hs.in_replacer tar hx).2
        omega
      split
      · rename_i hzero
        refine ⟨?_, hs.table, hs.bucket, ?_, ?_, ?_, ?_, hs.free_nodup, ?_, ?_, ?_, hs.next_id⟩
        · show (s.pages.set tar _).length = s.pool_size
          rw [List.length_set]; exact hs.pages_len
        · intro k t hk
          obtain ⟨n1, n2, n3⟩ := hs.mapped k t hk
          refine ⟨n1, ?_, n3⟩
          by_cases hne : t = tar
          · subst hne; rw [hself]; exact n2
          · rw [hother _ t hne]; exact n2
        · intro t ht
          have ht' : t = tar ∨ (t ∈ s.replacer ∧ t ≠ tar) := by
            have : t ∈ LRUReplacer.Insert s.replacer tar := ht
            simpa [LRUReplacer.Insert] using this
          rcases ht' with h | h
          · subst h; rw [hself]; exact ⟨m1, hzero⟩
          · rw [hother _ t h.2]; exact hs.in_replacer t h.1
        · intro t ht
          have ht' : t ∈ s.free_list := ht
          have hne : t ≠ tar := fun e => m3 (e ▸ ht')
          rw [hother _ t hne]
          exact hs.in_free t ht'
        · show (LRUReplacer.Insert s.replacer tar).Nodup
          unfold LRUReplacer.Insert
          refine List.nodup_cons.mpr ⟨?_, hs.replacer_nodup.filter _⟩
          simp
        · intro t ht hr
          have ht' : t ∈ s.free_list := ht
          have hr' : t = tar ∨ (t ∈ s.replacer ∧ t ≠ tar) := by
            have : t ∈ LRUReplacer.Insert s.replacer tar := hr
            simpa [LRUReplacer.Insert] using this
          rcases hr' with h | h
          · subst h; exact m3 ht'
          · exact hs.disjoint t ht' h.1
        · intro t
          by_cases hne : t = tar
          · subst hne; rw [hself]
            show 0 ≤ (pageAt s t).pin_count - 1
            omega
          · rw [hother _ t hne]; exact hs.pin_nonneg t
        · intro t ht hp
          by_cases hne : t = tar
          · subst hne
            refine Or.inr ?_
            show t ∈ LRUReplacer.Insert s.replacer t
            simp [LRUReplacer.Insert]
          · rw [hother _ t hne] at hp
            rcases hs.unpinned t ht hp with h | h
            · exact Or.inl h
            · refine Or.inr ?_
              show t ∈ LRUReplacer.Insert s.replacer tar
              simp [LRUReplacer.Insert, h, hne]
      · rename_i hnz
        have hself' : pageAt (setPage s tar
            ⟨(pageAt s tar).data, (pageAt s tar).page_id, (pageAt s tar).pin_count - 1, d⟩) tar
            = ⟨(pageAt s tar).data, (pageAt s tar).page_id, (pageAt s tar).pin_count - 1, d⟩ :=
          pageAt_setPage_self s tar _ hlen
        have hother' : ∀ t, t ≠ tar → pageAt (setPage s tar
            ⟨(pageAt s tar).data, (pageAt s tar).page_id, (pageAt s tar).pin_count - 1, d⟩) t
            = pageAt s t :=
          fun t hne => pageAt_setPage_other s tar t _ hne
        refine ⟨?_, hs.table, hs.bucket, ?_, ?_, ?_, hs.replacer_nodup, hs.free_nodup,
          hs.disjoint, ?_, ?_, hs.next_id⟩
        · show (s.pages.set tar _).length = s.pool_size
          rw [List.length_set]; exact hs.pages_len
        · intro k t hk
          obtain ⟨n1, n2, n3⟩ := hs.mapped k t hk
          refine ⟨n1, ?_, n3⟩
          by_cases hne : t = tar
          · subst hne; rw [hself']; exact n2
          · rw [hother' t hne]; exact n2
        · intro t ht
          have ht' : t ∈ s.replacer := ht
          have hne : t ≠ tar := fun e => hnotrep (e ▸ ht')
          rw [hother' t hne]
          exact hs.in_replacer t ht'
        · intro t ht
          have ht' : t ∈ s.free_list := ht
          have hne : t ≠ tar := fun e => m3 (e ▸ ht')
          rw [hother' t hne]
          exact hs.in_free t ht'
        · intro t
          by_cases hne : t = tar
          · subst hne; rw [hself']
            show 0 ≤ (pageAt s t).pin_count - 1
            omega
          · rw [hother' t hne]; exact hs.pin_nonneg t
        · intro t ht hp
          by_cases hne : t = tar
          · subst hne
            rw [hself'] at hp
            exact absurd hp hnz
          · rw [hother' t hne] at hp
            exact hs.unpinned t ht hp

end BufferPoolManager

namespace BufferPoolManager

/-- Method `DeletePage` on a resident, unpinned page. -/
theorem DeletePage_eq (cfg : Config) (s : BufferPoolManager) (pid : Int) (tar : Nat)
    (h : s.page_table.Find pid = some tar) (hpin : ¬ (pageAt s tar).pin_count > 0) :
    DeletePage cfg s pid =
      ({ s with
          pages := s.pages.set tar ⟨List.replicate cfg.PAGE_SIZE 0, (pageAt s tar).page_id,
            (pageAt s tar).pin_count, false⟩,
          page_table := (s.page_table.Remove pid).1,
          replacer := (LRUReplacer.Erase s.replacer tar).1,
          free_list := s.free_list ++ [tar],
          disk_manager := s.disk_manager.DeallocatePage pid }, true) := by
  unfold DeletePage
  rw [h]
  simp only [hpin, if_false]
  rfl

theorem DeletePage_pinned (cfg : Config) (s : BufferPoolManager) (pid : Int) (tar : Nat)
    (h : s.page_table.Find pid = some tar) (hpin : (pageAt s tar).pin_count > 0) :
    DeletePage cfg s pid = (s, false) := by
  unfold DeletePage
  rw [h]
  simp only [hpin, if_true]

theorem DeletePage_absent (cfg : Config) (s : BufferPoolManager) (pid : Int)
    (h : s.page_table.Find pid = none) :
    DeletePage cfg s pid
      = ({ s with disk_manager := s.disk_manager.DeallocatePage pid }, true) := by
  unfold DeletePage
  rw [h]

theorem DeletePage_BInv {cfg : Config} {s : BufferPoolManager} (hs : BInv cfg s)
    (pid : Int) : BInv cfg (DeletePage cfg s pid).1 := by
  cases hf : s.page_table.Find pid with
  | none =>
    rw [DeletePage_absent cfg s pid hf]
    exact BInv_congr _ hs rfl rfl rfl rfl rfl hs.next_id (fun _ => ⟨rfl, rfl⟩)
  | some tar =>
    by_cases hpin : (pageAt s tar).pin_count > 0
    · rw [DeletePage_pinned cfg s pid tar hf hpin]; exact hs
    · rw [DeletePage_eq cfg s pid tar hf hpin]
      obtain ⟨m1, m2, m3⟩ := hs.mapped pid tar hf
      have hlen : tar < s.pages.length := by rw [hs.pages_len]; exact m1
      have hzero : (pageAt s tar).pin_count = 0 := by
        have := hs.pin_nonneg tar
        omega
      generalize hsf : ({ s with
          pages := s.pages.set tar ⟨List.replicate cfg.PAGE_SIZE 0, (pageAt s tar).page_id,
            (pageAt s tar).pin_count, false⟩,
          page_table := (s.page_table.Remove pid).1,
          replacer := (LRUReplacer.Erase s.replacer tar).1,
          free_list := s.free_list ++ [tar],
          disk_manager := s.disk_manager.DeallocatePage pid } : BufferPoolManager) = sf
      have e1 : sf.pool_size = s.pool_size := by rw [← hsf]
      have e2 : sf.pages = s.pages.set tar ⟨List.replicate cfg.PAGE_SIZE 0,
          (pageAt s tar).page_id, (pageAt s tar).pin_count, false⟩ := by rw [← hsf]
      have e3 : sf.page_table = (s.page_table.Remove pid).1 := by rw [← hsf]
      have e4 : sf.replacer = s.replacer.filter (fun x => decide (x ≠ tar)) := by
        rw [← hsf]; rfl
      have e5 : sf.free_list = s.free_list ++ [tar] := by rw [← hsf]
      have e6 : sf.disk_manager.next_page_id = s.disk_manager.next_page_id := by
        rw [← hsf]; rfl
      have hmeta : ∀ t, (pageAt sf t).page_id = (pageAt s t).page_id ∧
          (pageAt sf t).pin_count = (pageAt s t).pin_count := by
        intro t
        unfold pageAt
        rw [e2]
        by_cases hne : t = tar
        · subst hne
          rw [getD_set_self _ _ _ _ hlen]
          exact ⟨rfl, rfl⟩
        · rw [getD_set_other _ _ _ _ _ hne]
          exact ⟨rfl, rfl⟩
      have hfind : ∀ k, sf.page_table.Find k = if k = pid then none else s.page_table.Find k := by
        intro k
        rw [e3, ExtendibleHash.Remove_Find _ hs.table]
      refine ⟨?_, ?_, ?_, ?_, ?_, ?_, ?_, ?_, ?_, ?_, ?_, ?_⟩
      · rw [e2, e1, List.length_set]; exact hs.pages_len
      · rw [e3]; exact ExtendibleHash.Remove_HInv _ hs.table pid
      · rw [e3, (ExtendibleHash.Remove_shape _ pid).2.2.2]; exact hs.bucket
      · intro k t hk
        rw [hfind k] at hk
        by_cases hkp : k = pid
        · rw [if_pos hkp] at hk; simp at hk
        · rw [if_neg hkp] at hk
          obtain ⟨n1, n2, n3⟩ := hs.mapped k t hk
          rw [e1, (hmeta t).1, e5]
          refine ⟨n1, n2, ?_⟩
          intro hx
          rcases List.mem_append.mp hx with hx | hx
          · exact n3 hx
          · rw [List.mem_singleton.mp hx, m2] at n2
            exact hkp n2.symm
      · intro t ht
        rw [e4] at ht
        rw [e1, (hmeta t).2]
        exact hs.in_replacer t (List.mem_filter.mp ht).1
      · intro t ht
        rw [e5] at ht
        rw [e1, (hmeta t).2]
        rcases List.mem_append.mp ht with hx | hx
        · exact hs.in_free t hx
        · rw [List.mem_singleton.mp hx]; exact ⟨m1, hzero⟩
      · rw [e4]; exact hs.replacer_nodup.filter _
      · rw [e5]
        refine List.nodup_append.mpr ⟨hs.free_nodup, List.nodup_singleton tar, ?_⟩
        intro a ha hb
        rw [List.mem_singleton.mp hb] at ha
        exact m3 ha
      · intro t ht hr
        rw [e5] at ht
        rw [e4] at hr
        have hr' := List.mem_filter.mp hr
        rcases List.mem_append.mp ht with hx | hx
        · exact hs.disjoint t hx hr'.1
        · have := hr'.2
          simp [List.mem_singleton.mp hx] at this
      · intro t
        rw [(hmeta t).2]; exact hs.pin_nonneg t
      · intro t ht hp
        rw [e1] at ht
        rw [(hmeta t).2] at hp
        rw [e5, e4]
        by_cases hne : t = tar
        · exact Or.inl (List.mem_append_right _ (by rw [hne]; exact List.mem_singleton_self tar))
        · rcases hs.unpinned t ht hp with h | h
          · exact Or.inl (List.mem_append_left _ h)
          · exact Or.inr (List.mem_filter.mpr ⟨h, by simp [hne]⟩)
      · rw [e6]; exact hs.next_id

theorem new_BInv (cfg : Config) (pool_size : Nat) (d : DiskManager) (l : Option LogManager)
    (hd : isInt32 d.next_page_id) : BInv cfg (new cfg pool_size d l) := by
  have hpage : ∀ t, pageAt (new cfg pool_size d l) t = Page.fresh cfg ∨
      pageAt (new cfg pool_size d l) t = ⟨[], 0, 0, false⟩ := by
    intro t
    unfold pageAt new
    simp only []
    rw [List.getD_eq_getElem?_getD]
    by_cases ht : t < pool_size
    · left
      rw [List.getElem?_eq_getElem (by simpa using ht)]
      simp
    · right
      rw [List.getElem?_eq_none (by simpa using ht)]
      rfl
  have hpin : ∀ t, (pageAt (new cfg pool_size d l) t).pin_count = 0 := by
    intro t
    rcases hpage t with h | h
    · rw [h]; rfl
    · rw [h]
  refine ⟨?_, ExtendibleHash.HInv_mk_sized _, rfl, ?_, ?_, ?_, List.nodup_nil, ?_, ?_, ?_, ?_, hd⟩
  · simp [new]
  · intro k t hk
    have : (ExtendibleHash.mk_sized cfg.BUCKET_SIZE : ExtendibleHash Nat).Find k = none := by
      simp [ExtendibleHash.Find, ExtendibleHash.mk_sized, ExtendibleHash.bucketOf,
        ExtendibleHash.dirAt, kmapFind, List.getD_eq_getElem?_getD]
    have hk' : (ExtendibleHash.mk_sized cfg.BUCKET_SIZE : ExtendibleHash Nat).Find k = some t := hk
    rw [this] at hk'
    simp at hk'
  · intro t ht
    have : t ∈ ([] : List Nat) := ht
    simp at this
  · intro t ht
    have ht' : t ∈ List.range pool_size := ht
    exact ⟨List.mem_range.mp ht', hpin t⟩
  · exact List.nodup_range pool_size
  · intro t _ hr
    have : t ∈ ([] : List Nat) := hr
    simp at this
  · intro t
    rw [hpin t]
  · intro t ht _
    exact Or.inl (List.mem_range.mpr ht)

/-- Every reachable pool is well-formed. -/
theorem Reachable_BInv {cfg : Config} {s : BufferPoolManager} (h : Reachable cfg s) :
    BInv cfg s := by
  induction h with
  | init pool_size d l hd => exact new_BInv cfg pool_size d l hd
  | fetch fuel page_id r _ hpid hf ih => exact FetchPage_BInv ih fuel page_id hpid r hf
  | newPage fuel r _ hn ih => exact NewPage_BInv ih fuel r hn
  | unpin page_id is_dirty _ ih => exact UnpinPage_BInv ih page_id is_dirty
  | flush page_id _ ih => exact FlushPage_BInv ih page_id
  | delete page_id _ ih => exact DeletePage_BInv ih page_id
  | write tar data _ _ ih => exact WriteData_BInv ih tar data
  | log l _ ih => exact BInv_congr _ ih rfl rfl rfl rfl rfl ih.next_id (fun _ => ⟨rfl, rfl⟩)

end BufferPoolManager

namespace BufferPoolManager

theorem Victim_append (r : LRUReplacer Nat) (tar : Nat) :
    LRUReplacer.Victim (r ++ [tar]) = (r, some tar) := by
  unfold LRUReplacer.Victim
  simp

/-- With an empty free list `GetVictimPage` hands out the replacer's tail. -/
theorem GetVictimPage_replacer (cfg : Config) (s : BufferPoolManager) (r : List Nat) (tar : Nat)
    (hfree : s.free_list = []) (hrep : s.replacer = r ++ [tar])
    (hpin : (pageAt s tar).pin_count = 0) :
    GetVictimPage cfg s = Outcome.ok ({ s with replacer := r }, some tar) := by
  unfold GetVictimPage
  rw [hfree]
  simp only []
  have hsz : ¬ LRUReplacer.Size s.replacer = 0 := by
    rw [hrep]; simp [LRUReplacer.Size]
  rw [if_neg hsz, hrep, Victim_append]
  simp only [hpin, if_true]

/-- A `FetchPage` that misses and returns a frame went through `GetVictimPage`,
the page table update and the disk read. -/
theorem FetchPage_miss_inv {cfg : Config} {fuel : Nat} {s s3 : BufferPoolManager} {pid : Int}
    {f : Nat} (hf : s.page_table.Find pid = none)
    (h : FetchPage cfg fuel s pid = Outcome.ok (s3, some f)) :
    ∃ s1 pt1, GetVictimPage cfg s = Outcome.ok (s1, some f) ∧
      s3 = install s1 f pt1 ((writeBack s1 f).disk_manager.ReadPage cfg pid).1
        ⟨((writeBack s1 f).disk_manager.ReadPage cfg pid).2, pid, 1, false⟩ := by
  cases hv : GetVictimPage cfg s with
  | fault e => rw [FetchPage_miss_fault cfg fuel s pid hf e hv] at h; simp at h
  | ok res =>
    obtain ⟨s2, o⟩ := res
    cases o with
    | none => rw [FetchPage_miss_null cfg fuel s s2 pid hf hv] at h; simp at h
    | some tar =>
      cases hins : (s2.page_table.Remove (pageAt s2 tar).page_id).1.Insert fuel pid tar with
      | none => rw [FetchPage_miss_fuel cfg fuel s s2 pid tar hf hv hins] at h; simp at h
      | some pt1 =>
        rw [FetchPage_miss_ok cfg fuel s s2 pid tar pt1 hf hv hins] at h
        simp only [Outcome.ok.injEq, Prod.mk.injEq, Option.some.injEq] at h
        obtain ⟨h1, h2⟩ := h
        subst h2
        exact ⟨s2, pt1, rfl, h1.symm⟩

/-- C1: in every reachable pool, when `GetVictimPage` hands out a frame `tar`
whose dirty flag is set, `FetchPage` of a non-resident page and `NewPage`
return (33 loop iterations of the page-table insert suffice for a positive
`BUCKET_SIZE`), reuse frame `tar`, and call `WritePage` with the victim's old
page id and its bytes before the read that overwrites the frame, so that the
page file holds those bytes under that id; and any later `FetchPage` of that
id that misses, returns a frame and finds the page file still holding those
bytes under the id returns a frame with exactly those bytes. -/
theorem C1_dirty_victim_written_back (cfg : Config) (s : BufferPoolManager)
    (hr : Reachable cfg s) (hB : 0 < cfg.BUCKET_SIZE) (sv : BufferPoolManager) (tar : Nat)
    (hv : GetVictimPage cfg s = Outcome.ok (sv, some tar))
    (hdirty : (pageAt s tar).is_dirty = true) (fuel : Nat) (hfuel : 33 ≤ fuel) :
    (∀ pid, isInt32 pid → s.page_table.Find pid = none →
      ∃ s1, FetchPage cfg fuel s pid = Outcome.ok (s1, some tar) ∧
        s1.disk_manager.calls = s.disk_manager.calls ++
          [DiskCall.WritePage (pageAt s tar).page_id (pageAt s tar).data (persistentLSN s),
           DiskCall.ReadPage pid] ∧
        kmapFind s1.disk_manager.pages (pageAt s tar).page_id = some (pageAt s tar).data) ∧
    (∃ s1, NewPage cfg fuel s = Outcome.ok (s1, some (tar, s.disk_manager.next_page_id)) ∧
        s1.disk_manager.calls = s.disk_manager.calls ++
          [DiskCall.AllocatePage s.disk_manager.next_page_id,
           DiskCall.WritePage (pageAt s tar).page_id (pageAt s tar).data (persistentLSN s)] ∧
        kmapFind s1.disk_manager.pages (pageAt s tar).page_id = some (pageAt s tar).data ∧
        (pageAt s1 tar).data = List.replicate cfg.PAGE_SIZE 0) ∧
    (∀ s2 fuel2 s3 f, Reachable cfg s2 →
      s2.page_table.Find (pageAt s tar).page_id = none →
      FetchPage cfg fuel2 s2 (pageAt s tar).page_id = Outcome.ok (s3, some f) →
      kmapFind s3.disk_manager.pages (pageAt s tar).page_id = some (pageAt s tar).data →
      (pageAt s3 f).data = (pageAt s tar).data) := by
  have hs := Reachable_BInv hr
  obtain ⟨e1, e2, e3, e4, e5, htar, _⟩ := victim_facts hs hv
  have hlen : tar < sv.pages.length := by rw [e1, hs.pages_len]; exact htar
  have hpage : pageAt sv tar = pageAt s tar := victim_pageAt hs hv tar
  have hlsn : persistentLSN sv = persistentLSN s := by unfold persistentLSN; rw [e5]
  have hwb : ∀ (d : DiskManager),
      (writeBack { sv with disk_manager := d } tar).disk_manager =
        d.WritePage (pageAt s tar).page_id (pageAt s tar).data (persistentLSN s) := by
    intro d
    unfold writeBack
    have hp : pageAt { sv with disk_manager := d } tar = pageAt s tar := hpage
    rw [hp, if_pos hdirty, ← hlsn]
    rfl
  have hwb0 : (writeBack sv tar).disk_manager =
      s.disk_manager.WritePage (pageAt s tar).page_id (pageAt s tar).data (persistentLSN s) := by
    unfold writeBack
    rw [hpage, if_pos hdirty]
    show sv.disk_manager.WritePage _ _ (persistentLSN sv) = _
    rw [e4, hlsn]
  refine ⟨?_, ?_, ?_⟩
  · intro pid hpid hnone
    obtain ⟨pt1, hins⟩ := ExtendibleHash.Insert_terminates fuel hfuel
      (sv.page_table.Remove (pageAt sv tar).page_id).1
      (ExtendibleHash.Remove_HInv _ (by rw [e3]; exact hs.table) _)
      (by rw [(ExtendibleHash.Remove_shape _ _).2.2.2, e3, hs.bucket]; exact hB) pid hpid tar
    refine ⟨_, FetchPage_miss_ok cfg fuel s sv pid tar pt1 hnone hv hins, ?_, ?_⟩
    · rw [hwb0]
      simp [install, DiskManager.ReadPage, DiskManager.WritePage]
    · rw [hwb0]
      simp only [install, DiskManager.ReadPage, DiskManager.WritePage]
      rw [kmapFind_kmapSet, if_pos rfl]
  · have hid : isInt32 sv.disk_manager.next_page_id := by rw [e4]; exact hs.next_id
    obtain ⟨pt1, hins⟩ := ExtendibleHash.Insert_terminates fuel hfuel
      (sv.page_table.Remove (pageAt sv tar).page_id).1
      (ExtendibleHash.Remove_HInv _ (by rw [e3]; exact hs.table) _)
      (by rw [(ExtendibleHash.Remove_shape _ _).2.2.2, e3, hs.bucket]; exact hB)
      sv.disk_manager.next_page_id hid tar
    have hok := NewPage_ok cfg fuel s sv tar pt1 hv hins
    rw [e4] at hok
    refine ⟨_, hok, ?_, ?_, ?_⟩
    · rw [hwb]
      simp [install, DiskManager.AllocatePage, DiskManager.WritePage]
    · rw [hwb]
      simp only [install, DiskManager.AllocatePage, DiskManager.WritePage]
      rw [kmapFind_kmapSet, if_pos rfl]
    · unfold pageAt install
      simp only []
      rw [getD_set_self _ _ _ _ hlen]
  · intro s2 fuel2 s3 f hr2 hnone hfetch hdisk
    have hs2 := Reachable_BInv hr2
    obtain ⟨s1, pt1, hv2, hs3⟩ := FetchPage_miss_inv hnone hfetch
    have hvf := victim_facts hs2 hv2
    have hlen2 : f < s1.pages.length := by
      rw [hvf.1, hs2.pages_len]; exact hvf.2.2.2.2.2.1
    rw [hs3] at hdisk ⊢
    have hself : pageAt (install s1 f pt1 ((writeBack s1 f).disk_manager.ReadPage cfg
        (pageAt s tar).page_id).1 ⟨((writeBack s1 f).disk_manager.ReadPage cfg
        (pageAt s tar).page_id).2, (pageAt s tar).page_id, 1, false⟩) f
        = ⟨((writeBack s1 f).disk_manager.ReadPage cfg (pageAt s tar).page_id).2,
            (pageAt s tar).page_id, 1, false⟩ := by
      unfold pageAt install
      exact getD_set_self _ _ _ _ hlen2
    rw [hself]
    simp only [install, DiskManager.ReadPage] at hdisk ⊢
    rw [hdisk]
    rfl

end BufferPoolManager

namespace BufferPoolManager

/-! ### The example pools are reachable -/

theorem demo0_reachable : Reachable demoCfg demo0 :=
  Reachable.init 1 ⟨[], 0, []⟩ (some (LogManager.new demoCfg)) (by decide)

theorem demo1_reachable : Reachable demoCfg demo1 :=
  Reachable.newPage 33 (some (0, 0)) demo0_reachable (by decide)

theorem demo2_reachable : Reachable demoCfg demo2 :=
  Reachable.log (some demoLog)
    (Reachable.unpin 0 true (Reachable.write 0 demoBytes demo1_reachable (by decide)))

theorem demo3_reachable : Reachable demoCfg demo3 :=
  Reachable.newPage 33 (some (0, 1)) demo2_reachable (by decide)

theorem demo4_reachable : Reachable demoCfg demo4 :=
  Reachable.unpin 1 false demo3_reachable

theorem demo5_reachable : Reachable demoCfg demo5 :=
  Reachable.fetch 33 0 (some 0) demo2_reachable (by decide) (by decide)

/-- Witness for C1: the one-frame pool whose only frame holds page 0, dirty and
unpinned.  `NewPage` writes the page to disk, and after the new page is
unpinned `FetchPage(0)` returns frame 0 holding the same bytes. -/
theorem C1_dirty_victim_written_back_witness :
    Reachable demoCfg demo2 ∧ 0 < demoCfg.BUCKET_SIZE ∧
    GetVictimPage demoCfg demo2 = Outcome.ok ({ demo2 with replacer := [] }, some 0) ∧
    (pageAt demo2 0).is_dirty = true ∧ 33 ≤ 33 ∧
    (∃ s1, NewPage demoCfg 33 demo2 = Outcome.ok (s1, some (0, 1)) ∧
      kmapFind s1.disk_manager.pages 0 = some demoBytes) ∧
    FetchPage demoCfg 33 demo4 0 = Outcome.ok (demo6, some 0) ∧
    (pageAt demo6 0).data = demoBytes :=
  ⟨demo2_reachable, by decide, by decide, by decide, le_refl _,
    (C1_dirty_victim_written_back demoCfg demo2 demo2_reachable (by decide)
        { demo2 with replacer := [] } 0 (by decide) (by decide) 33 (le_refl _)).2.1.elim
      (fun s1 h => ⟨s1, h.1, h.2.2.1⟩),
    by decide,
    (C1_dirty_victim_written_back demoCfg demo2 demo2_reachable (by decide)
        { demo2 with replacer := [] } 0 (by decide) (by decide) 33 (le_refl _)).2.2
        demo4 33 demo6 0 demo4_reachable (by decide) (by decide) (by decide)⟩

/-- C2, the code at the failing input: page 0 is resident, pinned once and dirty;
`UnpinPage(0, false)` returns true and leaves the dirty flag false, and the
`NewPage` that follows evicts the page without writing it: the page file holds
nothing under page id 0. -/
theorem C2_unpin_overwrites_dirty_flag :
    Reachable demoCfg demo5 ∧ demo5.page_table.Find 0 = some 0 ∧
    (pageAt demo5 0).is_dirty = true ∧ (pageAt demo5 0).pin_count = 1 ∧
    (UnpinPage demo5 0 false).2 = true ∧
    (pageAt (UnpinPage demo5 0 false).1 0).is_dirty = false ∧
    ∃ s1, NewPage demoCfg 33 (UnpinPage demo5 0 false).1 = Outcome.ok (s1, some (0, 1)) ∧
      kmapFind s1.disk_manager.pages 0 = none ∧
      s1.disk_manager.calls = [DiskCall.AllocatePage 0, DiskCall.AllocatePage 1] :=
  ⟨demo5_reachable, by decide, by decide, by decide, by decide, by decide,
    ((NewPage demoCfg 33 (UnpinPage demo5 0 false).1).getD (demo5, none)).1,
    by decide, by decide, by decide⟩

/-- C7, the code at the failing input: frame 0 holds dirty page 0 whose last LSN
is 5 while the log manager's persistent LSN is -1 (records 0..5 are still in
the log buffer); `NewPage` evicts the page and calls `WritePage` all the same,
and never touches the log manager. -/
theorem C7_dirty_page_written_ahead_of_log :
    Reachable demoCfg demo2 ∧ (pageAt demo2 0).is_dirty = true ∧
    Page.GetLSN (pageAt demo2 0) = 5 ∧ persistentLSN demo2 = some (-1) ∧
    ∃ s1, NewPage demoCfg 33 demo2 = Outcome.ok (s1, some (0, 1)) ∧
      s1.disk_manager.calls = [DiskCall.AllocatePage 0, DiskCall.AllocatePage 1,
        DiskCall.WritePage 0 demoBytes (some (-1))] ∧
      s1.log_manager = demo2.log_manager :=
  ⟨demo2_reachable, by decide, by decide, by decide, demo3, by decide, by decide, by decide⟩

end BufferPoolManager

namespace BufferPoolManager

theorem NewPage_null_iff (cfg : Config) (fuel : Nat) (s s1 : BufferPoolManager) :
    NewPage cfg fuel s = Outcome.ok (s1, none) ↔ GetVictimPage cfg s = Outcome.ok (s1, none) := by
  constructor
  · intro h
    cases hv : GetVictimPage cfg s with
    | fault e => rw [NewPage_fault cfg fuel s e hv] at h; simp at h
    | ok res =>
      obtain ⟨s2, o⟩ := res
      cases o with
      | none =>
        rw [NewPage_null cfg fuel s s2 hv] at h
        simp only [Outcome.ok.injEq, Prod.mk.injEq, and_true] at h
        rw [h]
      | some tar =>
        cases hins : (s2.page_table.Remove (pageAt s2 tar).page_id).1.Insert fuel
            s2.disk_manager.next_page_id tar with
        | none => rw [NewPage_fuel cfg fuel s s2 tar hv hins] at h; simp at h
        | some pt1 => rw [NewPage_ok cfg fuel s s2 tar pt1 hv hins] at h; simp at h
  · intro hv
    exact NewPage_null cfg fuel s s1 hv

theorem FetchPage_null_iff (cfg : Config) (fuel : Nat) (s s1 : BufferPoolManager) (pid : Int)
    (hf : s.page_table.Find pid = none) :
    FetchPage cfg fuel s pid = Outcome.ok (s1, none) ↔
      GetVictimPage cfg s = Outcome.ok (s1, none) := by
  constructor
  · intro h
    cases hv : GetVictimPage cfg s with
    | fault e => rw [FetchPage_miss_fault cfg fuel s pid hf e hv] at h; simp at h
    | ok res =>
      obtain ⟨s2, o⟩ := res
      cases o with
      | none =>
        rw [FetchPage_miss_null cfg fuel s s2 pid hf hv] at h
        simp only [Outcome.ok.injEq, Prod.mk.injEq, and_true] at h
        rw [h]
      | some tar =>
        cases hins : (s2.page_table.Remove (pageAt s2 tar).page_id).1.Insert fuel pid tar with
        | none => rw [FetchPage_miss_fuel cfg fuel s s2 pid tar hf hv hins] at h; simp at h
        | some pt1 => rw [FetchPage_miss_ok cfg fuel s s2 pid tar pt1 hf hv hins] at h; simp at h
  · intro hv
    exact FetchPage_miss_null cfg fuel s s1 pid hf hv

/-- C3: `NewPage`, and `FetchPage` of a page that is not resident, return null
exactly when the free list and the replacer are both empty, and then the pool
is unchanged (page table, replacer, free list, frames, and the disk manager: no
page allocated, read or written); in a reachable pool both being empty means
that every frame is pinned. -/
theorem C3_null_iff_saturated (cfg : Config) (s : BufferPoolManager) (hr : Reachable cfg s)
    (fuel : Nat) :
    (∀ s1, NewPage cfg fuel s = Outcome.ok (s1, none) ↔
      (s.free_list = [] ∧ s.replacer = [] ∧ s1 = s)) ∧
    (∀ pid s1, s.page_table.Find pid = none →
      (FetchPage cfg fuel s pid = Outcome.ok (s1, none) ↔
        (s.free_list = [] ∧ s.replacer = [] ∧ s1 = s))) ∧
    (s.free_list = [] → s.replacer = [] →
      ∀ tar, tar < s.pool_size → 0 < (pageAt s tar).pin_count) := by
  have hs := Reachable_BInv hr
  refine ⟨?_, ?_, ?_⟩
  · intro s1
    rw [NewPage_null_iff, GetVictimPage_none]
  · intro pid s1 hf
    rw [FetchPage_null_iff cfg fuel s s1 pid hf, GetVictimPage_none]
  · intro hfree hrep tar ht
    have h0 := hs.pin_nonneg tar
    by_contra hneg
    have hz : (pageAt s tar).pin_count = 0 := by omega
    rcases hs.unpinned tar ht hz with h | h
    · rw [hfree] at h; simp at h
    · rw [hrep] at h; simp at h

/-- Witness for C3: the one-frame pool whose frame is pinned. -/
theorem C3_null_iff_saturated_witness :
    Reachable demoCfg demo1 ∧ demo1.page_table.Find 7 = none ∧
    NewPage demoCfg 33 demo1 = Outcome.ok (demo1, none) ∧
    FetchPage demoCfg 33 demo1 7 = Outcome.ok (demo1, none) ∧
    0 < (pageAt demo1 0).pin_count :=
  ⟨demo1_reachable, by decide,
    ((C3_null_iff_saturated demoCfg demo1 demo1_reachable 33).1 demo1).mpr
      ⟨by decide, by decide, rfl⟩,
    ((C3_null_iff_saturated demoCfg demo1 demo1_reachable 33).2.1 7 demo1 (by decide)).mpr
      ⟨by decide, by decide, rfl⟩,
    (C3_null_iff_saturated demoCfg demo1 demo1_reachable 33).2.2 (by decide) (by decide) 0
      (by decide)⟩

/-- C4: `UnpinPage(pid, d)` returns false and leaves pin counts and the replacer
alone when `pid` is not in the page table or the frame's pin count is at most
0 (and then a further `UnpinPage` returns false again); otherwise it returns
true, lowers the pin count by exactly one, and inserts the frame into the
replacer if and only if the new pin count is 0. -/
theorem C4_unpin (cfg : Config) (s : BufferPoolManager) (hr : Reachable cfg s)
    (pid : Int) (d : Bool) :
    (s.page_table.Find pid = none → UnpinPage s pid d = (s, false)) ∧
    (∀ tar, s.page_table.Find pid = some tar →
      ((pageAt s tar).pin_count ≤ 0 →
        (UnpinPage s pid d).2 = false ∧
        (pageAt (UnpinPage s pid d).1 tar).pin_count = (pageAt s tar).pin_count ∧
        (UnpinPage s pid d).1.replacer = s.replacer ∧
        ∀ d2, (UnpinPage (UnpinPage s pid d).1 pid d2).2 = false) ∧
      (0 < (pageAt s tar).pin_count →
        (UnpinPage s pid d).2 = true ∧
        (pageAt (UnpinPage s pid d).1 tar).pin_count = (pageAt s tar).pin_count - 1 ∧
        (UnpinPage s pid d).1.replacer =
          (if (pageAt s tar).pin_count - 1 = 0 then LRUReplacer.Insert s.replacer tar
           else s.replacer) ∧
        (tar ∈ (UnpinPage s pid d).1.replacer ↔ (pageAt s tar).pin_count - 1 = 0))) := by
  have hs := Reachable_BInv hr
  refine ⟨?_, ?_⟩
  · intro hf
    unfold UnpinPage
    rw [hf]
  · intro tar hf
    obtain ⟨m1, _, _⟩ := hs.mapped pid tar hf
    have hlen : tar < s.pages.length := by rw [hs.pages_len]; exact m1
    have heq := UnpinPage_eq s pid d tar hf hlen
    refine ⟨?_, ?_⟩
    · intro hle
      rw [if_pos hle] at heq
      rw [heq]
      refine ⟨rfl, ?_, rfl, ?_⟩
      · show (pageAt (setPage s tar _) tar).pin_count = _
        rw [pageAt_setPage_self s tar _ hlen]
      · intro d2
        have hlen2 : tar < (setPage s tar { pageAt s tar with is_dirty := d }).pages.length := by
          simpa [setPage] using hlen
        have heq2 := UnpinPage_eq (setPage s tar { pageAt s tar with is_dirty := d }) pid d2 tar
          hf hlen2
        have hle2 : (pageAt (setPage s tar { pageAt s tar with is_dirty := d }) tar).pin_count
            ≤ 0 := by
          rw [pageAt_setPage_self s tar _ hlen]; exact hle
        rw [if_pos hle2] at heq2
        show (UnpinPage (setPage s tar { pageAt s tar with is_dirty := d }) pid d2).2 = false
        rw [heq2]
    · intro hpos
      have hnle : ¬ (pageAt s tar).pin_count ≤ 0 := by omega
      rw [if_neg hnle] at heq
      have hnotrep : tar ∉ s.replacer := by
        intro hx
        have := (hs.in_replacer tar hx).2
        omega
      by_cases hz : (pageAt s tar).pin_count - 1 = 0
      · rw [if_pos hz] at heq
        rw [heq, if_pos hz]
        refine ⟨rfl, ?_, rfl, ?_⟩
        · show (pageAt (setPage s tar _) tar).pin_count = _
          rw [pageAt_setPage_self s tar _ hlen]
        · constructor
          · intro _; exact hz
          · intro _
            show tar ∈ LRUReplacer.Insert s.replacer tar
            simp [LRUReplacer.Insert]
      · rw [if_neg hz] at heq
        rw [heq, if_neg hz]
        refine ⟨rfl, ?_, rfl, ?_⟩
        · rw [pageAt_setPage_self s tar _ hlen]
        · constructor
          · intro hx; exact absurd hx hnotrep
          · intro hx; exact absurd hx hz

/-- Witness for C4: page 0, pinned once in the one-frame pool, is unpinned. -/
theorem C4_unpin_witness :
    Reachable demoCfg demo5 ∧ demo5.page_table.Find 0 = some 0 ∧
    0 < (pageAt demo5 0).pin_count ∧
    (UnpinPage demo5 0 true).2 = true ∧
    (pageAt (UnpinPage demo5 0 true).1 0).pin_count = (pageAt demo5 0).pin_count - 1 ∧
    (UnpinPage demo5 0 true).1.replacer =
      (if (pageAt demo5 0).pin_count - 1 = 0 then LRUReplacer.Insert demo5.replacer 0
       else demo5.replacer) ∧
    (0 ∈ (UnpinPage demo5 0 true).1.replacer ↔ (pageAt demo5 0).pin_count - 1 = 0) :=
  ⟨demo5_reachable, by decide, by decide,
    ((C4_unpin demoCfg demo5 demo5_reachable 0 true).2 0 (by decide)).2 (by decide)⟩

/-- C5: `DeletePage(pid)` on a resident page whose pin count is positive returns
false and changes nothing; on a resident page with pin count 0 it returns true
and afterwards `pid` is absent from the page table, its frame is absent from
the replacer and on the free list with the dirty flag cleared and zeroed
bytes, and `DeallocatePage(pid)` is the one disk call made. -/
theorem C5_delete (cfg : Config) (s : BufferPoolManager) (hr : Reachable cfg s)
    (pid : Int) (tar : Nat) (hf : s.page_table.Find pid = some tar) :
    (0 < (pageAt s tar).pin_count → DeletePage cfg s pid = (s, false)) ∧
    ((pageAt s tar).pin_count = 0 →
      (DeletePage cfg s pid).2 = true ∧
      (DeletePage cfg s pid).1.page_table.Find pid = none ∧
      tar ∉ (DeletePage cfg s pid).1.replacer ∧
      tar ∈ (DeletePage cfg s pid).1.free_list ∧
      (pageAt (DeletePage cfg s pid).1 tar).is_dirty = false ∧
      (pageAt (DeletePage cfg s pid).1 tar).data = List.replicate cfg.PAGE_SIZE 0 ∧
      (DeletePage cfg s pid).1.disk_manager.calls
        = s.disk_manager.calls ++ [DiskCall.DeallocatePage pid]) := by
  have hs := Reachable_BInv hr
  obtain ⟨m1, _, _⟩ := hs.mapped pid tar hf
  have hlen : tar < s.pages.length := by rw [hs.pages_len]; exact m1
  refine ⟨fun hpos => DeletePage_pinned cfg s pid tar hf hpos, ?_⟩
  intro hz
  have hnpos : ¬ (pageAt s tar).pin_count > 0 := by omega
  rw [DeletePage_eq cfg s pid tar hf hnpos]
  refine ⟨rfl, ?_, ?_, ?_, ?_, ?_, rfl⟩
  · show (s.page_table.Remove pid).1.Find pid = none
    rw [ExtendibleHash.Remove_Find _ hs.table, if_pos rfl]
  · show tar ∉ (LRUReplacer.Erase s.replacer tar).1
    simp [LRUReplacer.Erase]
  · show tar ∈ s.free_list ++ [tar]
    simp
  · unfold pageAt
    simp only []
    rw [getD_set_self _ _ _ _ hlen]
  · unfold pageAt
    simp only []
    rw [getD_set_self _ _ _ _ hlen]

/-- Witness for C5: deleting the unpinned page 0 of the one-frame pool. -/
theorem C5_delete_witness :
    Reachable demoCfg demo2 ∧ demo2.page_table.Find 0 = some 0 ∧
    (pageAt demo2 0).pin_count = 0 ∧
    (DeletePage demoCfg demo2 0).2 = true ∧
    (DeletePage demoCfg demo2 0).1.page_table.Find 0 = none ∧
    0 ∉ (DeletePage demoCfg demo2 0).1.replacer ∧
    0 ∈ (DeletePage demoCfg demo2 0).1.free_list ∧
    (pageAt (DeletePage demoCfg demo2 0).1 0).is_dirty = false ∧
    (pageAt (DeletePage demoCfg demo2 0).1 0).data = List.replicate demoCfg.PAGE_SIZE 0 ∧
    (DeletePage demoCfg demo2 0).1.disk_manager.calls
      = demo2.disk_manager.calls ++ [DiskCall.DeallocatePage 0] :=
  ⟨demo2_reachable, by decide, by decide,
    (C5_delete demoCfg demo2 demo2_reachable 0 0 (by decide)).2 (by decide)⟩

/-- C6, counterexample: on the fresh one-frame pool page id 7 is not in the page
table, yet `DeletePage(7)` returns true. -/
theorem C6_delete_unknown_returns_true :
    demo0.page_table.Find 7 = none ∧
    ¬ ((FlushPage demoCfg demo0 7).2 = false ∧ (DeletePage demoCfg demo0 7).2 = false) :=
  ⟨by decide, by decide⟩

/-- C6, amended: when `pid` is not in the page table, `FlushPage(pid)` returns
false and changes nothing, while `DeletePage(pid)` calls `DeallocatePage(pid)`,
changes nothing else and returns true. -/
theorem C6_unknown_page (cfg : Config) (s : BufferPoolManager) (pid : Int)
    (hf : s.page_table.Find pid = none) :
    FlushPage cfg s pid = (s, false) ∧
    DeletePage cfg s pid
      = ({ s with disk_manager := s.disk_manager.DeallocatePage pid }, true) := by
  refine ⟨?_, DeletePage_absent cfg s pid hf⟩
  unfold FlushPage
  rw [hf]

/-- Witness for the amended C6: page id 7 on the fresh one-frame pool. -/
theorem C6_unknown_page_witness :
    demo0.page_table.Find 7 = none ∧
    FlushPage demoCfg demo0 7 = (demo0, false) ∧
    DeletePage demoCfg demo0 7
      = ({ demo0 with disk_manager := demo0.disk_manager.DeallocatePage 7 }, true) :=
  ⟨by decide, C6_unknown_page demoCfg demo0 7 (by decide)⟩

end BufferPoolManager

namespace ExtendibleHash
variable {V : Type}

/-- C11, the code at the failing input: whatever the uninitialised members of a
default-constructed table hold, its directory is empty, so the slot
`buckets[getIdx(key)]` that `Insert`, `Find` and `Remove` read first does not
exist for any key; the table is not the one `ExtendibleHash(64)` builds and is
not well-formed. -/
theorem C11_default_constructor_leaves_directory_empty (globalDepth bucketSize bucketNum : Nat)
    (key : Int) :
    (mk_default globalDepth bucketSize bucketNum : ExtendibleHash V).buckets = [] ∧
    ¬ getIdx (mk_default globalDepth bucketSize bucketNum : ExtendibleHash V) key
        < (mk_default globalDepth bucketSize bucketNum : ExtendibleHash V).buckets.length ∧
    (mk_default globalDepth bucketSize bucketNum : ExtendibleHash V) ≠ mk_sized 64 ∧
    ¬ HInv (mk_default globalDepth bucketSize bucketNum : ExtendibleHash V) := by
  refine ⟨rfl, ?_, ?_, ?_⟩
  · simp [mk_default]
  · intro h
    have : (mk_default globalDepth bucketSize bucketNum : ExtendibleHash V).buckets
        = (mk_sized 64 : ExtendibleHash V).buckets := by rw [h]
    simp [mk_default, mk_sized] at this
  · intro h
    have hlen := h.len
    have hpos : 0 < 2 ^ (mk_default globalDepth bucketSize bucketNum :
        ExtendibleHash V).globalDepth := Nat.two_pow_pos _
    rw [← hlen] at hpos
    simp [mk_default] at hpos

/-- C12: with bucket size 2 on an initially empty table, inserting keys 6, 10, 14
gives global depth 3 and four buckets, with local depth 3 at directory indexes
2 and 6; inserting 1, 3, 5 afterwards gives five buckets and local depth 2 at
directory indexes 1, 3 and 5. -/
theorem C12_depth_scenario :
    ∃ t3 t6 : ExtendibleHash String,
      InsertAll 33 (mk_sized 2) [(6, "a"), (10, "b"), (14, "c")] = some t3 ∧
      GetGlobalDepth t3 = 3 ∧ GetNumBuckets t3 = 4 ∧
      GetLocalDepth t3 2 = 3 ∧ GetLocalDepth t3 6 = 3 ∧
      InsertAll 33 t3 [(1, "d"), (3, "e"), (5, "f")] = some t6 ∧
      GetNumBuckets t6 = 5 ∧
      GetLocalDepth t6 1 = 2 ∧ GetLocalDepth t6 3 = 2 ∧ GetLocalDepth t6 5 = 2 :=
  ⟨⟨3, 2, 4, [0, 1, 2, 1, 0, 1, 3, 1],
      [⟨2, []⟩, ⟨1, []⟩, ⟨3, [(10, "b")]⟩, ⟨3, [(6, "a"), (14, "c")]⟩]⟩,
    ⟨3, 2, 5, [0, 1, 2, 4, 0, 1, 3, 4],
      [⟨2, []⟩, ⟨2, [(1, "d"), (5, "f")]⟩, ⟨3, [(10, "b")]⟩, ⟨3, [(6, "a"), (14, "c")]⟩,
       ⟨2, [(3, "e")]⟩]⟩,
    by decide, by decide, by decide, by decide, by decide, by decide, by decide, by decide,
    by decide, by decide⟩

end ExtendibleHash

namespace LRUReplacer
variable {T : Type} [DecidableEq T]

theorem scan_fst (value : T) (calls : List (Call T)) (acc : Nat × Option Nat) :
    (calls.foldl (scan value) acc).1 = acc.1 + calls.length := by
  induction calls generalizing acc with
  | nil => simp
  | cons c rest ih =>
    rw [List.foldl_cons, ih]
    simp [scan]
    omega

theorem lastInsert_append (calls : List (Call T)) (c : Call T) (value : T) :
    lastInsert (calls ++ [c]) value =
      if c = Call.Insert value then some calls.length else lastInsert calls value := by
  unfold lastInsert
  rw [List.foldl_append]
  simp only [List.foldl_cons, List.foldl_nil, scan]
  rw [scan_fst]
  simp

theorem lastInsert_lt (calls : List (Call T)) (value : T) (i : Nat)
    (h : lastInsert calls value = some i) : i < calls.length := by
  induction calls using List.reverseRecOn generalizing i with
  | nil => simp [lastInsert] at h
  | append_singleton calls c ih =>
    rw [lastInsert_append] at h
    rw [List.length_append, List.length_singleton]
    split at h
    · injection h with h; omega
    · have := ih i h; omega

theorem run_append (calls : List (Call T)) (c : Call T) :
    run (calls ++ [c]) = step (run calls) c := by
  unfold run
  rw [List.foldl_append]
  rfl

/-- After every call sequence the list holds each member once, every member
has a most recent `Insert`, and the list is ordered from the most recently
inserted member to the least recently inserted one. -/
theorem run_sorted (calls : List (Call T)) :
    (run calls).Nodup ∧ (∀ a ∈ run calls, ∃ i, lastInsert calls a = some i) ∧
    (run calls).Pairwise (Later calls) := by
  induction calls using List.reverseRecOn with
  | nil => simp [run]
  | append_singleton calls c ih =>
    obtain ⟨hnd, hmem, hpw⟩ := ih
    rw [run_append]
    cases c with
    | Insert v =>
      have hlast : lastInsert (calls ++ [Call.Insert v]) v = some calls.length := by
        rw [lastInsert_append, if_pos rfl]
      have hother : ∀ w, w ≠ v →
          lastInsert (calls ++ [Call.Insert v]) w = lastInsert calls w := by
        intro w hw
        rw [lastInsert_append, if_neg]
        intro h
        injection h with h
        exact hw h.symm
      have hfmem : ∀ w, w ∈ (run calls).filter (fun x => decide (x ≠ v)) →
          w ∈ run calls ∧ w ≠ v := by
        intro w hw
        simpa using hw
      refine ⟨?_, ?_, ?_⟩
      · show (v :: (run calls).filter (fun x => decide (x ≠ v))).Nodup
        refine List.nodup_cons.mpr ⟨?_, hnd.filter _⟩
        simp
      · intro a ha
        have ha' : a = v ∨ a ∈ (run calls).filter (fun x => decide (x ≠ v)) :=
          List.mem_cons.mp ha
        rcases ha' with h | h
        · rw [h]; exact ⟨_, hlast⟩
        · obtain ⟨h1, h2⟩ := hfmem a h
          rw [hother a h2]
          exact hmem a h1
      · show (v :: (run calls).filter (fun x => decide (x ≠ v))).Pairwise _
        refine List.pairwise_cons.mpr ⟨?_, ?_⟩
        · intro w hw
          obtain ⟨h1, h2⟩ := hfmem w hw
          obtain ⟨i, hi⟩ := hmem w h1
          exact ⟨calls.length, i, hlast, by rw [hother w h2]; exact hi,
            lastInsert_lt calls w i hi⟩
        · have hsub : ((run calls).filter (fun x => decide (x ≠ v))).Pairwise (Later calls) :=
            hpw.sublist (List.filter_sublist _)
          refine List.Pairwise.imp_of_mem ?_ hsub
          intro a b ha hb hab
          obtain ⟨_, ha2⟩ := hfmem a ha
          obtain ⟨_, hb2⟩ := hfmem b hb
          obtain ⟨ia, ib, h1, h2, h3⟩ := hab
          exact ⟨ia, ib, by rw [hother a ha2]; exact h1, by rw [hother b hb2]; exact h2, h3⟩
    | Erase v =>
      have hsame : ∀ w, lastInsert (calls ++ [Call.Erase v]) w = lastInsert calls w := by
        intro w
        rw [lastInsert_append, if_neg (by intro h; cases h)]
      have hsub : List.Sublist (step (run calls) (Call.Erase v)) (run calls) :=
        List.filter_sublist _
      refine ⟨hnd.sublist hsub, ?_, ?_⟩
      · intro a ha
        rw [hsame]
        exact hmem a (hsub.subset ha)
      · refine List.Pairwise.imp ?_ (hpw.sublist hsub)
        intro a b hab
        obtain ⟨ia, ib, h1, h2, h3⟩ := hab
        exact ⟨ia, ib, by rw [hsame]; exact h1, by rw [hsame]; exact h2, h3⟩
    | Victim =>
      have hsame : ∀ w, lastInsert (calls ++ [Call.Victim]) w = lastInsert calls w := by
        intro w
        rw [lastInsert_append, if_neg (by intro h; cases h)]
      have hsub : List.Sublist (step (run calls) Call.Victim) (run calls) := by
        show List.Sublist (Victim (run calls)).1 (run calls)
        unfold Victim
        cases (run calls).getLast? with
        | none => exact List.Sublist.refl _
        | some last => exact List.dropLast_sublist _
      refine ⟨hnd.sublist hsub, ?_, ?_⟩
      · intro a ha
        rw [hsame]
        exact hmem a (hsub.subset ha)
      · refine List.Pairwise.imp ?_ (hpw.sublist hsub)
        intro a b hab
        obtain ⟨ia, ib, h1, h2, h3⟩ := hab
        exact ⟨ia, ib, by rw [hsame]; exact h1, by rw [hsame]; exact h2, h3⟩

/-- C13: after every sequence of `Insert`, `Erase` and `Victim` calls on a new
replacer: `Victim` on an empty replacer returns false and changes nothing; on a
non-empty one it returns true, outputs a member whose most recent `Insert` is
no later than that of any current member, and removes exactly that member;
`Insert(v)` puts `v` at the most recent position (the position of this very
call), keeps the other members and leaves a single copy of `v`. -/
theorem C13_victim_is_least_recent (calls : List (Call T)) :
    (run calls = [] → Victim (run calls) = (run calls, none)) ∧
    (run calls ≠ [] → ∃ v r1, Victim (run calls) = (r1, some v) ∧ v ∈ run calls ∧
      (∀ w, w ∈ r1 ↔ (w ∈ run calls ∧ w ≠ v)) ∧ r1.Nodup ∧
      (∀ w, w ∈ run calls → ∃ iv iw, lastInsert calls v = some iv ∧
        lastInsert calls w = some iw ∧ iv ≤ iw)) ∧
    (∀ v, (Insert (run calls) v).head? = some v ∧ (Insert (run calls) v).count v = 1 ∧
      (∀ w, w ∈ Insert (run calls) v ↔ (w = v ∨ w ∈ run calls)) ∧
      run (calls ++ [Call.Insert v]) = Insert (run calls) v ∧
      lastInsert (calls ++ [Call.Insert v]) v = some calls.length ∧
      (∀ w i, lastInsert (calls ++ [Call.Insert v]) w = some i → i ≤ calls.length)) := by
  obtain ⟨hnd, hmem, hpw⟩ := run_sorted calls
  refine ⟨?_, ?_, ?_⟩
  · intro h
    rw [h]
    rfl
  · intro hne
    have hsplit := List.dropLast_append_getLast hne
    have hlast : (run calls).getLast? = some ((run calls).getLast hne) :=
      List.getLast?_eq_getLast _ hne
    have hv : Victim (run calls) = ((run calls).dropLast, some ((run calls).getLast hne)) := by
      unfold Victim
      rw [hlast]
    have hin : (run calls).getLast hne ∈ run calls := List.getLast_mem hne
    have hnd2 := hnd
    rw [← hsplit] at hnd2
    have hnd3 := List.nodup_append.mp hnd2
    have hpw2 := hpw
    rw [← hsplit] at hpw2
    have hpw3 := List.pairwise_append.mp hpw2
    refine ⟨(run calls).getLast hne, (run calls).dropLast, hv, hin, ?_, hnd3.1, ?_⟩
    · intro w
      constructor
      · intro hw
        refine ⟨(List.dropLast_sublist _).subset hw, ?_⟩
        intro e
        rw [e] at hw
        exact hnd3.2.2 hw (List.mem_singleton_self _)
      · rintro ⟨hw, hwne⟩
        rw [← hsplit] at hw
        rcases List.mem_append.mp hw with h | h
        · exact h
        · exact absurd (List.mem_singleton.mp h) hwne
    · intro w hw
      rw [← hsplit] at hw
      rcases List.mem_append.mp hw with h | h
      · obtain ⟨iw, iv, h1, h2, h3⟩ := hpw3.2.2 w h _ (List.mem_singleton_self _)
        exact ⟨iv, iw, h2, h1, by omega⟩
      · rw [List.mem_singleton.mp h]
        obtain ⟨i, hi⟩ := hmem _ hin
        exact ⟨i, i, hi, hi, le_refl _⟩
  · intro v
    refine ⟨rfl, ?_, ?_, run_append calls (Call.Insert v), ?_, ?_⟩
    · unfold Insert
      rw [List.count_cons_self]
      have : ((run calls).filter (fun x => decide (x ≠ v))).count v = 0 := by
        rw [List.count_eq_zero]
        simp
      rw [this]
    · intro w
      unfold Insert
      by_cases hw : w = v
      · simp [hw]
      · simp [hw]
    · rw [lastInsert_append, if_pos rfl]
    · intro w i hi
      have := lastInsert_lt _ w i hi
      rw [List.length_append, List.length_singleton] at this
      omega

/-- Witness for C13: after the seven `Insert` calls of `LRUReplacerTest.SampleTest`
the replacer is not empty and `Victim` outputs a least recently inserted member
(the test expects 2). -/
theorem C13_victim_is_least_recent_witness :
    run sampleCalls ≠ [] ∧ Victim (run sampleCalls) = ([1, 6, 5, 4, 3], some 2) ∧
    ∃ v r1, Victim (run sampleCalls) = (r1, some v) ∧ v ∈ run sampleCalls ∧
      (∀ w, w ∈ r1 ↔ (w ∈ run sampleCalls ∧ w ≠ v)) ∧ r1.Nodup ∧
      (∀ w, w ∈ run sampleCalls → ∃ iv iw, lastInsert sampleCalls v = some iv ∧
        lastInsert sampleCalls w = some iw ∧ iv ≤ iw) :=
  ⟨by decide, by decide, (C13_victim_is_least_recent sampleCalls).2.1 (by decide)⟩

end LRUReplacer

namespace LockManager

theorem tableFind_tableSet (m : List (RID × TxList)) (rid r : RID) (l : TxList) :
    tableFind (tableSet m rid l) r = if r = rid then some l else tableFind m r := by
  induction m with
  | nil =>
    by_cases h : r = rid
    · simp [tableSet, tableFind, h]
    · simp [tableSet, tableFind, h, Ne.symm h]
  | cons e m ih =>
    by_cases he : e.1 = rid
    · by_cases h : r = rid
      · simp [tableSet, tableFind, he, h]
      · simp [tableSet, tableFind, he, h, Ne.symm h]
    · by_cases h : r = rid
      · subst h
        simpa [tableSet, he, tableFind] using ih
      · simp only [tableSet, he, if_false, tableFind, ih, h]

theorem tableFind_tableErase (m : List (RID × TxList)) (rid r : RID) :
    tableFind (tableErase m rid) r = if r = rid then none else tableFind m r := by
  induction m with
  | nil => simp [tableErase, tableFind]
  | cons e m ih =>
    unfold tableErase at ih ⊢
    by_cases he : e.1 = rid
    · by_cases h : r = rid
      · simpa [List.filter, he, h] using ih
      · have h2 : ¬ rid = r := fun h1 => h h1.symm
        simpa [List.filter, he, h, tableFind, h2] using ih
    · by_cases h : r = rid
      · subst h
        simpa [List.filter, he, tableFind] using ih
      · simp only [h, if_false] at ih
        simp [List.filter, he, h, tableFind]
        simpa using congrArg (fun x => if e.1 = r then some e.2 else x) ih

theorem grantLoop_tid (l : List TxItem) (h : Bool) :
    (grantLoop l h).1.map TxItem.tid = l.map TxItem.tid := by
  induction l with
  | nil => rfl
  | cons tx rest ih =>
    unfold grantLoop
    by_cases hg : tx.granted = true
    · simp [hg]
    · by_cases hs : tx.mode = LockMode.SHARED
      · simp [hg, hs, ih]
      · by_cases hu : tx.mode = LockMode.UPGRADING
        · simp [hg, hu]
        · simp [hg, hs, hu]

theorem eraseTid_length (l : List TxItem) (tid : Int) (it : TxItem)
    (h : findTid l tid = some it) : (eraseTid l tid).length + 1 = l.length := by
  induction l with
  | nil => simp [findTid] at h
  | cons x rest ih =>
    by_cases hx : x.tid = tid
    · simp [eraseTid, hx]
    · have h1 : findTid rest tid = some it := by
        simpa [findTid, List.find?, hx] using h
      simp [eraseTid, hx, ih h1]

/-- The state after the state check of `Unlock`. -/
theorem Unlock_eq (lm : LockManager) (txn : Transaction) (rid : RID) (it : TxItem)
    (hc : ¬ (lm.strict_2PL ∧ txn.state ≠ TransactionState.COMMITTED ∧
      txn.state ≠ TransactionState.ABORTED))
    (hf : findTid (requests lm rid) txn.txn_id = some it)
    (hm : rid ∈ matchingSet txn it.mode) :
    ∃ lm1 txn1, Unlock lm txn rid = Outcome.ok (lm1, txn1, true) ∧
      requests lm1 rid = (if eraseTid (requests lm rid) txn.txn_id = [] then [] else
        (grantLoop (eraseTid (requests lm rid) txn.txn_id) (entry lm rid).hasUpgrading).1) ∧
      (∀ r, r ≠ rid → requests lm1 r = requests lm r) ∧
      matchingSet txn1 it.mode = (setErase (matchingSet txn it.mode) rid).1 ∧
      otherSet txn1 it.mode = otherSet txn it.mode ∧
      txn1.txn_id = txn.txn_id ∧
      txn1.state = (if ¬ lm.strict_2PL ∧ txn.state = TransactionState.GROWING then
        TransactionState.SHRINKING else txn.state) := by
  unfold Unlock
  rw [if_neg hc]
  generalize hq : (if ¬ lm.strict_2PL ∧ txn.state = TransactionState.GROWING then
    ({ txn with state := TransactionState.SHRINKING } : Transaction) else txn) = q
  have hq1 : q.txn_id = txn.txn_id := by rw [← hq]; split <;> rfl
  have hq2 : q.shared_lock_set = txn.shared_lock_set := by rw [← hq]; split <;> rfl
  have hq3 : q.exclusive_lock_set = txn.exclusive_lock_set := by rw [← hq]; split <;> rfl
  have hq4 : q.state = (if ¬ lm.strict_2PL ∧ txn.state = TransactionState.GROWING then
      TransactionState.SHRINKING else txn.state) := by rw [← hq]; split <;> rfl
  unfold requests at hf
  simp only [hq1, hf, hq2, hq3]
  have hm1 : rid ∈ (if decide (it.mode = LockMode.SHARED) = true then txn.shared_lock_set
      else txn.exclusive_lock_set) := by
    simpa [matchingSet] using hm
  have hcount : (setErase (if decide (it.mode = LockMode.SHARED) = true then
      txn.shared_lock_set else txn.exclusive_lock_set) rid).2 = 1 := by
    simp only [setErase, hm1, if_true]
  rw [if_pos hcount]
  by_cases he : eraseTid (entry lm rid).locks txn.txn_id = []
  · rw [if_pos he]
    refine ⟨_, _, rfl, ?_, ?_, ?_, ?_, ?_, ?_⟩
    · have he1 : eraseTid (requests lm rid) txn.txn_id = [] := he
      rw [if_pos he1]
      simp [requests, entry, tableFind_tableErase]
    · intro r hr
      simp [requests, entry, tableFind_tableErase, hr]
    · by_cases hs : it.mode = LockMode.SHARED <;> simp [matchingSet, hs, hq3]
    · by_cases hs : it.mode = LockMode.SHARED <;> simp [otherSet, hs, hq3, hq2]
    · by_cases hs : it.mode = LockMode.SHARED <;> simp [hs, hq1]
    · by_cases hs : it.mode = LockMode.SHARED <;> simp [hs, hq4]
  · rw [if_neg he]
    refine ⟨_, _, rfl, ?_, ?_, ?_, ?_, ?_, ?_⟩
    · have he1 : ¬ eraseTid (requests lm rid) txn.txn_id = [] := he
      rw [if_neg he1]
      simp [requests, entry, tableFind_tableSet]
    · intro r hr
      simp [requests, entry, tableFind_tableSet, hr]
    · by_cases hs : it.mode = LockMode.SHARED <;> simp [matchingSet, hs, hq3]
    · by_cases hs : it.mode = LockMode.SHARED <;> simp [otherSet, hs, hq3, hq2]
    · by_cases hs : it.mode = LockMode.SHARED <;> simp [hs, hq1]
    · by_cases hs : it.mode = LockMode.SHARED <;> simp [hs, hq4]

/-- `Unlock` past its state check: the held lock is released and `true` is
returned. -/
theorem Unlock_release (lm : LockManager) (txn : Transaction) (rid : RID)
    (hc : ¬ (lm.strict_2PL ∧ txn.state ≠ TransactionState.COMMITTED ∧
      txn.state ≠ TransactionState.ABORTED))
    (hh : Holds lm txn rid) :
    ∃ lm1 txn1, Unlock lm txn rid = Outcome.ok (lm1, txn1, true) ∧
      Released lm txn rid lm1 txn1 ∧
      txn1.state = (if ¬ lm.strict_2PL ∧ txn.state = TransactionState.GROWING then
        TransactionState.SHRINKING else txn.state) := by
  obtain ⟨it, hf, -, hm⟩ := hh
  obtain ⟨lm1, txn1, h1, h2, h3, h4, h5, h6, h7⟩ := Unlock_eq lm txn rid it hc hf hm
  refine ⟨lm1, txn1, h1, ⟨it, hf, ?_, ?_, h3, ?_, ?_, h5, h6⟩, h7⟩
  · rw [h2]
    split
    · next he => rw [he]
    · exact grantLoop_tid _ _
  · rw [← eraseTid_length _ _ _ hf, h2]
    split
    · next he => rw [he]
    · rw [← List.length_map (grantLoop _ _).1 TxItem.tid, grantLoop_tid, List.length_map]
  · rw [h4]; simp [setErase]
  · intro r hr
    rw [h4]; simp [setErase, hr]

end LockManager
namespace LockManager

/-- C18: `LockShared`, `LockExclusive` and `LockUpgrade` called by a transaction
whose state is not GROWING return false and change nothing but the transaction's
state, which becomes ABORTED: the lock table (every rid's request list) and both
lock sets of the transaction are as before. -/
theorem C18_lock_outside_growing_aborts (lm : LockManager) (txn : Transaction) (rid : RID)
    (h : txn.state ≠ TransactionState.GROWING) :
    LockShared lm txn rid = Outcome.ok
      (lm, { txn with state := TransactionState.ABORTED }, LockResult.returned false) ∧
    LockExclusive lm txn rid = Outcome.ok
      (lm, { txn with state := TransactionState.ABORTED }, LockResult.returned false) ∧
    LockUpgrade lm txn rid = Outcome.ok
      (lm, { txn with state := TransactionState.ABORTED }, LockResult.returned false) := by
  simp only [LockShared, LockExclusive, LockUpgrade, lockTemplate, h, ne_eq, not_false_eq_true,
    if_true, and_self]

theorem C18_lock_outside_growing_aborts_witness :
    (holder TransactionState.SHRINKING).state ≠ TransactionState.GROWING ∧
    LockShared looseHeld (holder TransactionState.SHRINKING) ⟨0, 0⟩ = Outcome.ok
      (looseHeld, holder TransactionState.ABORTED, LockResult.returned false) ∧
    LockExclusive looseHeld (holder TransactionState.SHRINKING) ⟨1, 0⟩ = Outcome.ok
      (looseHeld, holder TransactionState.ABORTED, LockResult.returned false) ∧
    LockUpgrade looseHeld (holder TransactionState.SHRINKING) ⟨0, 0⟩ = Outcome.ok
      (looseHeld, holder TransactionState.ABORTED, LockResult.returned false) :=
  ⟨by decide,
   (C18_lock_outside_growing_aborts looseHeld (holder TransactionState.SHRINKING) ⟨0, 0⟩
      (by decide)).1,
   (C18_lock_outside_growing_aborts looseHeld (holder TransactionState.SHRINKING) ⟨1, 0⟩
      (by decide)).2.1,
   (C18_lock_outside_growing_aborts looseHeld (holder TransactionState.SHRINKING) ⟨0, 0⟩
      (by decide)).2.2⟩

/-- C19: in a manager with `strict_2PL = true`, `Unlock` by a transaction that is
neither COMMITTED nor ABORTED returns false and changes nothing but the state,
which becomes ABORTED (lock table and lock sets are as before); by a COMMITTED or
ABORTED transaction that holds the lock it returns true, removes the request from
the rid's list and the rid from the matching lock set, and keeps the state. -/
theorem C19_strict_unlock (lm : LockManager) (txn : Transaction) (rid : RID)
    (hs : lm.strict_2PL = true) :
    (txn.state ≠ TransactionState.COMMITTED → txn.state ≠ TransactionState.ABORTED →
      Unlock lm txn rid
        = Outcome.ok (lm, { txn with state := TransactionState.ABORTED }, false)) ∧
    (txn.state = TransactionState.COMMITTED ∨ txn.state = TransactionState.ABORTED →
      Holds lm txn rid →
      ∃ lm1 txn1, Unlock lm txn rid = Outcome.ok (lm1, txn1, true) ∧
        Released lm txn rid lm1 txn1 ∧ txn1.state = txn.state) := by
  constructor
  · intro h1 h2
    simp only [Unlock, hs, h1, h2, ne_eq, not_false_eq_true, and_self, if_true]
  · intro h hh
    have hc : ¬ (lm.strict_2PL ∧ txn.state ≠ TransactionState.COMMITTED ∧
        txn.state ≠ TransactionState.ABORTED) := by
      rintro ⟨-, h1, h2⟩
      rcases h with h | h
      · exact h1 h
      · exact h2 h
    obtain ⟨lm1, txn1, h1, h2, h3⟩ := Unlock_release lm txn rid hc hh
    refine ⟨lm1, txn1, h1, h2, ?_⟩
    rw [h3, if_neg]
    simp [hs]

theorem C19_strict_unlock_witness :
    strictHeld.strict_2PL = true ∧
    Unlock strictHeld (holder TransactionState.GROWING) ⟨0, 0⟩
      = Outcome.ok (strictHeld, holder TransactionState.ABORTED, false) ∧
    Holds strictHeld (holder TransactionState.COMMITTED) ⟨0, 0⟩ ∧
    Unlock strictHeld (holder TransactionState.COMMITTED) ⟨0, 0⟩
      = Outcome.ok (LockManager.new true,
          { Transaction.new 0 with state := TransactionState.COMMITTED }, true) ∧
    ∃ lm1 txn1, Unlock strictHeld (holder TransactionState.COMMITTED) ⟨0, 0⟩
        = Outcome.ok (lm1, txn1, true) ∧
      Released strictHeld (holder TransactionState.COMMITTED) ⟨0, 0⟩ lm1 txn1 ∧
      txn1.state = TransactionState.COMMITTED :=
  ⟨rfl,
   (C19_strict_unlock strictHeld (holder TransactionState.GROWING) ⟨0, 0⟩ rfl).1
      (by decide) (by decide),
   ⟨⟨0, LockMode.SHARED, true⟩, by decide, rfl, by decide⟩,
   by decide,
   (C19_strict_unlock strictHeld (holder TransactionState.COMMITTED) ⟨0, 0⟩ rfl).2
      (Or.inl rfl) ⟨⟨0, LockMode.SHARED, true⟩, by decide, rfl, by decide⟩⟩

/-- C20: in a manager with `strict_2PL = false`, `Unlock` of a lock the
transaction holds returns true, removes the transaction's request from the rid's
list and the rid from the matching lock set; the state goes from GROWING to
SHRINKING, and any other state is left as it is. -/
theorem C20_loose_unlock (lm : LockManager) (txn : Transaction) (rid : RID)
    (hs : lm.strict_2PL = false) (hh : Holds lm txn rid) :
    ∃ lm1 txn1, Unlock lm txn rid = Outcome.ok (lm1, txn1, true) ∧
      Released lm txn rid lm1 txn1 ∧
      (txn.state = TransactionState.GROWING → txn1.state = TransactionState.SHRINKING) ∧
      (txn.state ≠ TransactionState.GROWING → txn1.state = txn.state) := by
  have hc : ¬ (lm.strict_2PL ∧ txn.state ≠ TransactionState.COMMITTED ∧
      txn.state ≠ TransactionState.ABORTED) := by
    simp [hs]
  obtain ⟨lm1, txn1, h1, h2, h3⟩ := Unlock_release lm txn rid hc hh
  refine ⟨lm1, txn1, h1, h2, ?_, ?_⟩
  · intro hg
    rw [h3, if_pos]
    simp [hs, hg]
  · intro hg
    rw [h3, if_neg]
    simp [hg]

theorem C20_loose_unlock_witness :
    looseHeld.strict_2PL = false ∧
    Holds looseHeld (holder TransactionState.GROWING) ⟨0, 0⟩ ∧
    Unlock looseHeld (holder TransactionState.GROWING) ⟨0, 0⟩
      = Outcome.ok
          ({ strict_2PL := false,
             lockTable := [(⟨0, 0⟩, ⟨[⟨1, LockMode.SHARED, true⟩,
               ⟨2, LockMode.EXCLUSIVE, false⟩], false⟩)] },
           { Transaction.new 0 with state := TransactionState.SHRINKING }, true) ∧
    ∃ lm1 txn1, Unlock looseHeld (holder TransactionState.GROWING) ⟨0, 0⟩
        = Outcome.ok (lm1, txn1, true) ∧
      Released looseHeld (holder TransactionState.GROWING) ⟨0, 0⟩ lm1 txn1 ∧
      ((holder TransactionState.GROWING).state = TransactionState.GROWING →
        txn1.state = TransactionState.SHRINKING) ∧
      ((holder TransactionState.GROWING).state ≠ TransactionState.GROWING →
        txn1.state = (holder TransactionState.GROWING).state) :=
  ⟨rfl,
   ⟨⟨0, LockMode.SHARED, true⟩, by decide, rfl, by decide⟩,
   by decide,
   C20_loose_unlock looseHeld (holder TransactionState.GROWING) ⟨0, 0⟩ rfl
     ⟨⟨0, LockMode.SHARED, true⟩, by decide, rfl, by decide⟩⟩

end LockManager

namespace BPlusTree

/-- C15: after `Remove(1)` on the tree holding keys 1 and 2, `GetValue(1)` called
with an empty vector returns false but leaves one entry in the vector (the
value-initialised slot that `result.resize(1)` makes before the lookup), while
key 2 is still found with its value. -/
theorem C15_missing_key_leaves_one_result :
    InsertAll smallCfg 4 (new smallCfg) [(1, (⟨0, 1⟩ : RID)), (2, ⟨0, 2⟩)]
      = Outcome.ok tree12 ∧
    ∃ t1 : BPlusTree RID, Remove smallCfg 4 tree12 1 = Outcome.ok t1 ∧
      (∀ dflt : RID, GetValue smallCfg 4 t1 1 [] dflt = Outcome.ok (false, [dflt])) ∧
      (∀ dflt : RID, GetValue smallCfg 4 t1 2 [] dflt = Outcome.ok (true, [⟨0, 2⟩])) ∧
      IsEmpty smallCfg t1 = false := by
  have h1 : FindLeafPage smallCfg 4
      (⟨1, [(1, TreePage.leaf ⟨3, -1, 1, -1, [(2, ⟨0, 2⟩)]⟩)], 2⟩ : BPlusTree RID) 1 false
      = Outcome.ok (some 1) := by decide
  have h2 : FindLeafPage smallCfg 4
      (⟨1, [(1, TreePage.leaf ⟨3, -1, 1, -1, [(2, ⟨0, 2⟩)]⟩)], 2⟩ : BPlusTree RID) 2 false
      = Outcome.ok (some 1) := by decide
  have h3 : (⟨1, [(1, TreePage.leaf ⟨3, -1, 1, -1, [(2, ⟨0, 2⟩)]⟩)], 2⟩ :
      BPlusTree RID).fetchLeaf 1 = Outcome.ok ⟨3, -1, 1, -1, [(2, ⟨0, 2⟩)]⟩ := by decide
  have h4 : (⟨3, -1, 1, -1, [(2, ⟨0, 2⟩)]⟩ : LeafPage RID).Lookup 1 = Outcome.ok none := by
    decide
  have h5 : (⟨3, -1, 1, -1, [(2, ⟨0, 2⟩)]⟩ : LeafPage RID).Lookup 2
      = Outcome.ok (some ⟨0, 2⟩) := by decide
  refine ⟨by decide, ⟨1, [(1, TreePage.leaf ⟨3, -1, 1, -1, [(2, ⟨0, 2⟩)]⟩)], 2⟩, by decide,
    fun _ => ?_, fun _ => ?_, by decide⟩
  · simp only [GetValue, h1, h3, h4, resize1]
  · simp only [GetValue, h2, h3, h5, resize1, List.set]

/-- C16: on the tree holding keys 1 and 2 (one leaf of size 2), `Begin(3)` gives
an iterator at slot 2 of that leaf for which `isEnd()` is false, so the loop of
the tests dereferences slot 2, which is not below the leaf's size: the assert
of `GetItem` fails. -/
theorem C16_begin_past_last_key_reads_slot_at_size :
    InsertAll smallCfg 4 (new smallCfg) [(1, (⟨0, 1⟩ : RID)), (2, ⟨0, 2⟩)]
      = Outcome.ok tree12 ∧
    Begin smallCfg 4 tree12 3 = Outcome.ok ⟨2, some 1⟩ ∧
    IndexIterator.isEnd ⟨2, some 1⟩ = false ∧
    (∃ leaf, tree12.fetchLeaf 1 = Outcome.ok leaf ∧ leaf.GetSize = 2) ∧
    IndexIterator.deref tree12 ⟨2, some 1⟩ = Outcome.fault Fault.assert_failed ∧
    IndexIterator.scanLoop smallCfg tree12 8 ⟨2, some 1⟩
      = Outcome.fault Fault.assert_failed ∧
    (∃ it, Begin smallCfg 4 tree12 1 = Outcome.ok it ∧
      IndexIterator.scanLoop smallCfg tree12 8 it
        = Outcome.ok [(1, ⟨0, 1⟩), (2, ⟨0, 2⟩)]) := by
  refine ⟨by decide, by decide, by decide, ⟨_, rfl, by decide⟩, by decide, by decide,
    ⟨_, rfl, by decide⟩⟩

/-- C17: with leaves of max size 3, inserting keys 1, 2, 3, 4 and removing key 1
leaves page 1 as a leaf that is not the root and has size 1, below
ceil(3/2) = 2: `GetMinSize` is `max_size / 2 = 1`, so `Remove` does not
rebalance. -/
theorem C17_leaf_below_half_after_remove :
    InsertAll smallCfg 4 (new smallCfg)
      [(1, (⟨0, 1⟩ : RID)), (2, ⟨0, 2⟩), (3, ⟨0, 3⟩), (4, ⟨0, 4⟩)] = Outcome.ok tree1234 ∧
    ∃ (t : BPlusTree RID) (p : LeafPage RID),
      Remove smallCfg 4 tree1234 1 = Outcome.ok t ∧
      t.fetchLeaf 1 = Outcome.ok p ∧
      (TreePage.leaf p).IsRootPage smallCfg = false ∧
      (TreePage.leaf p).GetMinSize smallCfg = 1 ∧
      p.max_size = 3 ∧ p.GetSize = 1 ∧ p.GetSize < (p.max_size + 1) / 2 := by
  refine ⟨by decide, ⟨3, [(1, TreePage.leaf ⟨3, 3, 1, 2, [(2, ⟨0, 2⟩)]⟩),
    (2, TreePage.leaf ⟨3, 3, 2, -1, [(3, ⟨0, 3⟩), (4, ⟨0, 4⟩)]⟩),
    (3, TreePage.internal ⟨3, -1, 3, [(0, 1), (3, 2)]⟩)], 4⟩,
    ⟨3, 3, 1, 2, [(2, ⟨0, 2⟩)]⟩, by decide, by decide, by decide, by decide, by decide,
    by decide, by decide⟩

end BPlusTree

namespace LockManager

theorem requests_tableSet_entry (lm : LockManager) (rid r : RID) :
    requests { lm with lockTable := tableSet lm.lockTable rid (entry lm rid) } r
      = requests lm r := by
  unfold requests entry
  simp only [tableFind_tableSet]
  by_cases h : r = rid
  · subst h; simp
  · simp [h]

theorem findTid_mem (l : List TxItem) (tid : Int) (it : TxItem)
    (h : findTid l tid = some it) : it ∈ l ∧ it.tid = tid := by
  unfold findTid at h
  exact ⟨List.mem_of_find?_eq_some h, by simpa using List.find?_some h⟩

/-- The loop of `Unlock` turns every UPGRADING request it grants into an
EXCLUSIVE one: no granted request is left in mode UPGRADING unless it was
granted in that mode before. -/
theorem grantLoop_upgrading (l : List TxItem) (h : Bool) (i : Nat) (x y : TxItem)
    (hx : l.get? i = some x) (hy : (grantLoop l h).1.get? i = some y)
    (hw : x.granted = false) (hg : y.granted = true) (hm : x.mode = LockMode.UPGRADING) :
    y.mode = LockMode.EXCLUSIVE ∧ y.tid = x.tid := by
  induction l generalizing i with
  | nil => simp at hx
  | cons tx rest ih =>
    unfold grantLoop at hy
    by_cases hgr : tx.granted = true
    · simp only [hgr, if_true] at hy
      rw [hx] at hy
      cases hy
      rw [hw] at hg
      cases hg
    · by_cases hs : tx.mode = LockMode.SHARED
      · rw [if_neg hgr, if_pos hs] at hy
        cases i with
        | zero =>
          simp only [List.get?_cons_zero, Option.some.injEq] at hx hy
          subst hx
          rw [hs] at hm
          cases hm
        | succ j =>
          simp only [List.get?_cons_succ] at hx hy
          exact ih j hx hy
      · by_cases hu : tx.mode = LockMode.UPGRADING
        · rw [if_neg hgr, if_neg hs, if_pos hu] at hy
          cases i with
          | zero =>
            simp only [List.get?_cons_zero, Option.some.injEq] at hx hy
            subst hx
            subst hy
            exact ⟨rfl, rfl⟩
          | succ j =>
            simp only [List.get?_cons_succ] at hx hy
            rw [hx] at hy
            cases hy
            rw [hw] at hg
            cases hg
        · rw [if_neg hgr, if_neg hs, if_neg hu] at hy
          cases i with
          | zero =>
            simp only [List.get?_cons_zero, Option.some.injEq] at hx hy
            subst hx
            exact absurd hm hu
          | succ j =>
            simp only [List.get?_cons_succ] at hx hy
            rw [hx] at hy
            cases hy
            rw [hw] at hg
            cases hg

end LockManager
namespace LockManager

theorem requests_tableSet (lm : LockManager) (rid r : RID) (l : TxList) :
    requests { lm with lockTable := tableSet lm.lockTable rid l } r
      = if r = rid then l.locks else requests lm r := by
  unfold requests entry
  simp only [tableFind_tableSet]
  by_cases h : r = rid
  · simp [h]
  · simp [h]

theorem requests_mk (s : Bool) (m : List (RID × TxList)) (rid r : RID) (l : TxList) :
    requests ⟨s, tableSet m rid l⟩ r = if r = rid then l.locks else requests ⟨s, m⟩ r := by
  unfold requests entry
  simp only [tableFind_tableSet]
  by_cases h : r = rid
  · simp [h]
  · simp [h]

theorem entry_mk (s : Bool) (m : List (RID × TxList)) (rid : RID) (l : TxList) :
    entry ⟨s, tableSet m rid l⟩ rid = l := by
  unfold entry
  simp [tableFind_tableSet]

theorem setErase_mem (s : List RID) (rid r : RID) :
    r ∈ (setErase s rid).1 ↔ r ∈ s ∧ r ≠ rid := by
  simp [setErase]

theorem setErase_count (s : List RID) (rid : RID) (h : rid ∈ s) : (setErase s rid).2 = 1 := by
  simp [setErase, h]

theorem setInsert_mem (s : List RID) (rid r : RID) :
    r ∈ setInsert s rid ↔ r = rid ∨ r ∈ s := by
  unfold setInsert
  by_cases h : rid ∈ s
  · rw [if_pos h]
    constructor
    · intro h1; exact Or.inr h1
    · rintro (h1 | h1)
      · rw [h1]; exact h
      · exact h1
  · rw [if_neg h]
    simp

/-- The failing exits of `LockUpgrade` for a GROWING transaction. -/
theorem LockUpgrade_fail (lm : LockManager) (txn : Transaction) (rid : RID)
    (hg : txn.state = TransactionState.GROWING)
    (h : (entry lm rid).hasUpgrading = true ∨
      ∀ it ∈ requests lm rid, it.tid = txn.txn_id →
        ¬ (it.mode = LockMode.SHARED ∧ it.granted = true)) :
    LockUpgrade lm txn rid = Outcome.ok
      ({ lm with lockTable := tableSet lm.lockTable rid (entry lm rid) },
        { txn with state := TransactionState.ABORTED }, LockResult.returned false) := by
  unfold LockUpgrade lockTemplate
  rw [if_neg (by simp [hg])]
  simp only [if_true]
  by_cases hu : (entry lm rid).hasUpgrading = true
  · rw [if_pos hu]
  · rw [if_neg hu]
    rcases h with h | h
    · exact absurd h hu
    · cases hf : findTid (entry lm rid).locks txn.txn_id with
      | none => rfl
      | some it =>
        obtain ⟨h1, h2⟩ := findTid_mem _ _ _ hf
        have h3 := h it h1 h2
        simp only
        rw [if_pos]
        by_cases hm : it.mode = LockMode.SHARED
        · right
          cases hgr : it.granted with
          | false => rfl
          | true => exact absurd ⟨hm, hgr⟩ h3
        · left; exact hm

/-- The exit of `LockUpgrade` for a GROWING transaction that holds a granted
SHARED request while no other upgrade is pending. -/
theorem LockUpgrade_ok (lm : LockManager) (txn : Transaction) (rid : RID)
    (hg : txn.state = TransactionState.GROWING)
    (hu : (entry lm rid).hasUpgrading = false) (it : TxItem)
    (hf : findTid (requests lm rid) txn.txn_id = some it) (hm : it.mode = LockMode.SHARED)
    (hgr : it.granted = true) (hs : rid ∈ txn.shared_lock_set) :
    LockUpgrade lm txn rid = Outcome.ok
      (if eraseTid (requests lm rid) txn.txn_id = [] then
        ({ lm with lockTable := (tableSet (tableSet lm.lockTable rid (entry lm rid)) rid
            ⟨[⟨txn.txn_id, LockMode.EXCLUSIVE, true⟩], false⟩) },
          { txn with shared_lock_set := (setErase txn.shared_lock_set rid).1,
                     exclusive_lock_set := setInsert txn.exclusive_lock_set rid },
          LockResult.returned true)
      else
        ({ lm with lockTable := (tableSet (tableSet lm.lockTable rid (entry lm rid)) rid
            ⟨eraseTid (requests lm rid) txn.txn_id ++ [⟨txn.txn_id, LockMode.UPGRADING, false⟩],
              true⟩) },
          { txn with shared_lock_set := (setErase txn.shared_lock_set rid).1 },
          LockResult.waiting)) := by
  unfold requests at hf ⊢
  unfold LockUpgrade lockTemplate
  rw [if_neg (by simp [hg])]
  simp only [if_true, hu, hf, Bool.false_eq_true, if_false]
  rw [if_neg (by simp [hm, hgr]), if_pos (setErase_count _ _ hs)]
  by_cases he : eraseTid (entry lm rid).locks txn.txn_id = []
  · simp [he, insert, checkCanGrant, enterLockSet]
  · rw [if_neg he]
    have hl : (eraseTid (entry lm rid).locks txn.txn_id).getLast? ≠ none := by
      simpa using he
    cases hlast : (eraseTid (entry lm rid).locks txn.txn_id).getLast? with
    | none => exact absurd hlast hl
    | some last => simp [insert, checkCanGrant, hlast]

end LockManager
namespace LockManager

/-- C21: `LockUpgrade(txn, rid)` by a GROWING transaction returns false and sets
the transaction ABORTED when an upgrade is already pending on the rid or when no
request of the transaction on the rid is a granted SHARED one, and every rid's
request list is then as before.  When no upgrade is pending and the transaction
holds a granted SHARED request (with the rid in its shared lock set), that request
is removed, the rid leaves the shared lock set and a new request of the
transaction is put at the end of the list: on an otherwise empty list it is
granted at once as EXCLUSIVE, the call returns true and the rid is in the
exclusive lock set; otherwise it waits in mode UPGRADING with the upgrade flag
set, any grant of it by the loop of `Unlock` makes it EXCLUSIVE, and the call then
resumes by putting the rid in the exclusive lock set and returns true. -/
theorem C21_lock_upgrade (lm : LockManager) (txn : Transaction) (rid : RID)
    (hg : txn.state = TransactionState.GROWING) :
    (((entry lm rid).hasUpgrading = true ∨
        ∀ it ∈ requests lm rid, it.tid = txn.txn_id →
          ¬ (it.mode = LockMode.SHARED ∧ it.granted = true)) →
      ∃ lm1, LockUpgrade lm txn rid = Outcome.ok
          (lm1, { txn with state := TransactionState.ABORTED }, LockResult.returned false) ∧
        ∀ r, requests lm1 r = requests lm r) ∧
    ((entry lm rid).hasUpgrading = false →
      ∀ it, findTid (requests lm rid) txn.txn_id = some it → it.mode = LockMode.SHARED →
        it.granted = true → rid ∈ txn.shared_lock_set →
      ∃ lm1 txn1 res req, LockUpgrade lm txn rid = Outcome.ok (lm1, txn1, res) ∧
        requests lm1 rid = eraseTid (requests lm rid) txn.txn_id ++ [req] ∧
        (∀ r, r ≠ rid → requests lm1 r = requests lm r) ∧
        req.tid = txn.txn_id ∧ txn1.state = TransactionState.GROWING ∧
        rid ∉ txn1.shared_lock_set ∧
        (∀ r, r ≠ rid → (r ∈ txn1.shared_lock_set ↔ r ∈ txn.shared_lock_set)) ∧
        ((eraseTid (requests lm rid) txn.txn_id = [] ∧ res = LockResult.returned true ∧
            req.mode = LockMode.EXCLUSIVE ∧ req.granted = true ∧
            rid ∈ txn1.exclusive_lock_set ∧
            (∀ r, r ≠ rid → (r ∈ txn1.exclusive_lock_set ↔ r ∈ txn.exclusive_lock_set))) ∨
         (eraseTid (requests lm rid) txn.txn_id ≠ [] ∧ res = LockResult.waiting ∧
            req.mode = LockMode.UPGRADING ∧ req.granted = false ∧
            (entry lm1 rid).hasUpgrading = true ∧
            txn1.exclusive_lock_set = txn.exclusive_lock_set ∧
            (∀ (l : List TxItem) (h : Bool) (i : Nat) (y : TxItem), l.get? i = some req →
              (grantLoop l h).1.get? i = some y → y.granted = true →
              y.mode = LockMode.EXCLUSIVE ∧ y.tid = txn.txn_id) ∧
            (resume txn1 rid LockMode.UPGRADING).2 = LockResult.returned true ∧
            rid ∈ (resume txn1 rid LockMode.UPGRADING).1.exclusive_lock_set ∧
            rid ∉ (resume txn1 rid LockMode.UPGRADING).1.shared_lock_set ∧
            (∀ r, r ≠ rid → (r ∈ (resume txn1 rid LockMode.UPGRADING).1.exclusive_lock_set
              ↔ r ∈ txn.exclusive_lock_set))))) := by
  constructor
  · intro h
    refine ⟨_, LockUpgrade_fail lm txn rid hg h, ?_⟩
    intro r
    exact requests_tableSet_entry lm rid r
  · intro hu it hf hm hgr hs
    have hok := LockUpgrade_ok lm txn rid hg hu it hf hm hgr hs
    have hse : rid ∉ (setErase txn.shared_lock_set rid).1 := by
      rw [setErase_mem]; simp
    have hso : ∀ r, r ≠ rid →
        (r ∈ (setErase txn.shared_lock_set rid).1 ↔ r ∈ txn.shared_lock_set) := by
      intro r hr
      rw [setErase_mem]
      simp [hr]
    by_cases he : eraseTid (requests lm rid) txn.txn_id = []
    · rw [if_pos he] at hok
      refine ⟨_, _, _, ⟨txn.txn_id, LockMode.EXCLUSIVE, true⟩, hok, ?_, ?_, rfl, hg, hse, hso,
        Or.inl ⟨he, rfl, rfl, rfl, ?_, ?_⟩⟩
      · rw [requests_mk, if_pos rfl, he]
        rfl
      · intro r hr
        rw [requests_mk, if_neg hr]
        exact requests_tableSet_entry lm rid r
      · show rid ∈ setInsert txn.exclusive_lock_set rid
        rw [setInsert_mem]; left; rfl
      · intro r hr
        show r ∈ setInsert txn.exclusive_lock_set rid ↔ _
        rw [setInsert_mem]
        simp [hr]
    · rw [if_neg he] at hok
      refine ⟨_, _, _, ⟨txn.txn_id, LockMode.UPGRADING, false⟩, hok, ?_, ?_, rfl, hg, hse, hso,
        Or.inr ⟨he, rfl, rfl, rfl, ?_, rfl, ?_, rfl, ?_, ?_, ?_⟩⟩
      · rw [requests_mk, if_pos rfl]
      · intro r hr
        rw [requests_mk, if_neg hr]
        exact requests_tableSet_entry lm rid r
      · rw [entry_mk]
      · intro l h i y hx hy hgy
        exact grantLoop_upgrading l h i _ y hx hy rfl hgy rfl
      · show rid ∈ setInsert txn.exclusive_lock_set rid
        rw [setInsert_mem]; left; rfl
      · exact hse
      · intro r hr
        show r ∈ setInsert txn.exclusive_lock_set rid ↔ _
        rw [setInsert_mem]
        simp [hr]

theorem C21_lock_upgrade_witness :
    (holder TransactionState.GROWING).state = TransactionState.GROWING ∧
    (∃ lm1, LockUpgrade looseHeld (Transaction.new 5) ⟨0, 0⟩ = Outcome.ok
        (lm1, { Transaction.new 5 with state := TransactionState.ABORTED },
          LockResult.returned false) ∧
      ∀ r, requests lm1 r = requests looseHeld r) ∧
    LockUpgrade strictHeld (holder TransactionState.GROWING) ⟨0, 0⟩ = Outcome.ok
      ({ strict_2PL := true,
         lockTable := [(⟨0, 0⟩, ⟨[⟨0, LockMode.EXCLUSIVE, true⟩], false⟩)] },
       { txn_id := 0, state := TransactionState.GROWING, shared_lock_set := [],
         exclusive_lock_set := [⟨0, 0⟩] }, LockResult.returned true) ∧
    LockUpgrade looseHeld (holder TransactionState.GROWING) ⟨0, 0⟩ = Outcome.ok
      ({ strict_2PL := false,
         lockTable := [(⟨0, 0⟩, ⟨[⟨1, LockMode.SHARED, true⟩, ⟨2, LockMode.EXCLUSIVE, false⟩,
           ⟨0, LockMode.UPGRADING, false⟩], true⟩)] },
       { txn_id := 0, state := TransactionState.GROWING, shared_lock_set := [],
         exclusive_lock_set := [] }, LockResult.waiting) ∧
    ∃ lm1 txn1 res req, LockUpgrade looseHeld (holder TransactionState.GROWING) ⟨0, 0⟩
        = Outcome.ok (lm1, txn1, res) ∧
      requests lm1 ⟨0, 0⟩ = eraseTid (requests looseHeld ⟨0, 0⟩) 0 ++ [req] ∧
      res = LockResult.waiting ∧ req.mode = LockMode.UPGRADING :=
  ⟨rfl,
   (C21_lock_upgrade looseHeld (Transaction.new 5) ⟨0, 0⟩ rfl).1 (Or.inr (by decide)),
   by decide, by decide,
   by
     obtain ⟨lm1, txn1, res, req, h1, h2, -, -, -, -, -, h3⟩ :=
       (C21_lock_upgrade looseHeld (holder TransactionState.GROWING) ⟨0, 0⟩ rfl).2 rfl
         ⟨0, LockMode.SHARED, true⟩ (by decide) rfl rfl (by decide)
     rcases h3 with ⟨h4, -⟩ | ⟨-, h5, h6, -⟩
     · exact absurd h4 (by decide)
     · exact ⟨lm1, txn1, res, req, h1, h2, h5, h6⟩⟩

end LockManager
namespace LockManager

theorem findTid_of_mine (lm : LockManager) (txn : Transaction) (rid : RID) (it : TxItem)
    (rest : List TxItem) (h : mine lm txn rid = it :: rest) :
    findTid (requests lm rid) txn.txn_id = some it := by
  unfold mine at h
  unfold findTid
  generalize requests lm rid = l at h
  induction l with
  | nil => simp at h
  | cons x xs ih =>
    by_cases hx : x.tid = txn.txn_id
    · simp only [List.filter, hx, decide_True, List.cons.injEq] at h
      obtain ⟨h1, -⟩ := h
      subst h1
      simp [List.find?, hx]
    · simp only [List.filter, hx, decide_False] at h
      simp [List.find?, hx, ih h]

theorem filter_eraseTid (l : List TxItem) (tid : Int) :
    (eraseTid l tid).filter (fun it => decide (it.tid = tid))
      = (l.filter (fun it => decide (it.tid = tid))).tail := by
  induction l with
  | nil => rfl
  | cons x rest ih =>
    by_cases hx : x.tid = tid
    · simp [eraseTid, hx, List.filter]
    · simp [eraseTid, hx, List.filter, ih]

theorem filter_tid_congr (l1 l2 : List TxItem) (tid : Int)
    (h : l1.map TxItem.tid = l2.map TxItem.tid)
    (h2 : l2.filter (fun it => decide (it.tid = tid)) = []) :
    l1.filter (fun it => decide (it.tid = tid)) = [] := by
  rw [List.filter_eq_nil_iff] at h2 ⊢
  intro a ha
  have : a.tid ∈ l2.map TxItem.tid := by
    rw [← h]; exact List.mem_map_of_mem TxItem.tid ha
  obtain ⟨b, hb, hab⟩ := List.mem_map.1 this
  have := h2 b hb
  simp only [decide_eq_true_eq] at this ⊢
  rw [← hab]
  exact this

/-- A COMMITTED transaction whose requests are all granted can unlock any rid of
its lock sets: the rid leaves the lock sets and the requests left are still all
granted. -/
theorem Unlock_allGranted (lm : LockManager) (txn : Transaction) (rid : RID)
    (hst : txn.state = TransactionState.COMMITTED) (h : AllGranted lm txn)
    (hr : rid ∈ txn.shared_lock_set ∨ rid ∈ txn.exclusive_lock_set) :
    ∃ lm1 txn1, Unlock lm txn rid = Outcome.ok (lm1, txn1, true) ∧ AllGranted lm1 txn1 ∧
      txn1.state = TransactionState.COMMITTED ∧ txn1.txn_id = txn.txn_id ∧
      (∀ r, r ∈ txn1.shared_lock_set ↔ r ∈ txn.shared_lock_set ∧ r ≠ rid) ∧
      (∀ r, r ∈ txn1.exclusive_lock_set ↔ r ∈ txn.exclusive_lock_set ∧ r ≠ rid) := by
  have hc : ¬ (lm.strict_2PL ∧ txn.state ≠ TransactionState.COMMITTED ∧
      txn.state ≠ TransactionState.ABORTED) := by
    simp [hst]
  rcases h rid with ⟨-, h1, h2⟩ | ⟨it, hm, hg, hmode⟩
  · rcases hr with hr | hr
    · exact absurd hr h1
    · exact absurd hr h2
  · have hf := findTid_of_mine lm txn rid it [] hm
    have hms : rid ∈ matchingSet txn it.mode := by
      unfold matchingSet
      rcases hmode with ⟨a, b, -⟩ | ⟨a, b, -⟩
      · rw [if_pos a]; exact b
      · rw [if_neg a]; exact b
    obtain ⟨lm1, txn1, e1, e2, e3, e4, e5, e6, e7⟩ := Unlock_eq lm txn rid it hc hf hms
    have hsets : (∀ r, r ∈ txn1.shared_lock_set ↔ r ∈ txn.shared_lock_set ∧ r ≠ rid) ∧
        (∀ r, r ∈ txn1.exclusive_lock_set ↔ r ∈ txn.exclusive_lock_set ∧ r ≠ rid) := by
      unfold matchingSet at e4
      unfold otherSet at e5
      rcases hmode with ⟨a, b, c⟩ | ⟨a, b, c⟩
      · rw [if_pos a, if_pos a] at e4
        rw [if_pos a, if_pos a] at e5
        constructor
        · intro r; rw [e4, setErase_mem]
        · intro r; rw [e5]
          constructor
          · intro hr1
            exact ⟨hr1, fun hh => c (hh ▸ hr1)⟩
          · intro hr1; exact hr1.1
      · rw [if_neg a, if_neg a] at e4
        rw [if_neg a, if_neg a] at e5
        constructor
        · intro r; rw [e5]
          constructor
          · intro hr1
            exact ⟨hr1, fun hh => c (hh ▸ hr1)⟩
          · intro hr1; exact hr1.1
        · intro r; rw [e4, setErase_mem]
    have hstate : txn1.state = TransactionState.COMMITTED := by
      rw [e7, if_neg (by simp [hst])]
      exact hst
    refine ⟨lm1, txn1, e1, ?_, hstate, e6, hsets.1, hsets.2⟩
    intro r
    by_cases hrr : r = rid
    · subst hrr
      left
      refine ⟨?_, fun hh => ((hsets.1 r).1 hh).2 rfl, fun hh => ((hsets.2 r).1 hh).2 rfl⟩
      unfold mine
      rw [e2, e6]
      have hnil : (eraseTid (requests lm r) txn.txn_id).filter
          (fun it => decide (it.tid = txn.txn_id)) = [] := by
        rw [filter_eraseTid]
        unfold mine at hm
        rw [hm]
        rfl
      by_cases he : eraseTid (requests lm r) txn.txn_id = []
      · rw [if_pos he]; rfl
      · rw [if_neg he]
        exact filter_tid_congr _ _ _ (grantLoop_tid _ _) hnil
    · have hmine : mine lm1 txn1 r = mine lm txn r := by
        unfold mine
        rw [e3 r hrr, e6]
      have hsh : r ∈ txn1.shared_lock_set ↔ r ∈ txn.shared_lock_set := by
        rw [hsets.1]; simp [hrr]
      have hex : r ∈ txn1.exclusive_lock_set ↔ r ∈ txn.exclusive_lock_set := by
        rw [hsets.2]; simp [hrr]
      rw [hmine, hsh, hex]
      exact h r

end LockManager

namespace TransactionManager

open LockManager

theorem foldl_setInsert (l : List RID) :
    ∀ acc : List RID, acc.Nodup →
      (l.foldl setInsert acc).Nodup ∧ ∀ r, r ∈ l.foldl setInsert acc ↔ r ∈ acc ∨ r ∈ l := by
  induction l with
  | nil => intro acc h; exact ⟨h, by simp⟩
  | cons x rest ih =>
    intro acc h
    have hn : (setInsert acc x).Nodup := by
      unfold setInsert
      by_cases hx : x ∈ acc
      · rw [if_pos hx]; exact h
      · rw [if_neg hx]; exact List.nodup_cons.2 ⟨hx, h⟩
    obtain ⟨h1, h2⟩ := ih (setInsert acc x) hn
    refine ⟨h1, ?_⟩
    intro r
    rw [List.foldl_cons, h2, setInsert_mem, List.mem_cons]
    tauto

theorem lockSetOf_spec (txn : Transaction) :
    (lockSetOf txn).Nodup ∧
      ∀ r, r ∈ lockSetOf txn ↔ r ∈ txn.shared_lock_set ∨ r ∈ txn.exclusive_lock_set := by
  obtain ⟨h1, h2⟩ := foldl_setInsert (txn.shared_lock_set ++ txn.exclusive_lock_set) []
    List.nodup_nil
  refine ⟨h1, ?_⟩
  intro r
  unfold lockSetOf
  rw [h2, List.mem_append]
  simp

/-- The release loop of `Commit` returns and takes the rids it is given out of the
lock sets. -/
theorem releaseAll_spec :
    ∀ (rs : List RID) (lm : LockManager) (txn : Transaction),
      txn.state = TransactionState.COMMITTED → AllGranted lm txn → rs.Nodup →
      (∀ r ∈ rs, r ∈ txn.shared_lock_set ∨ r ∈ txn.exclusive_lock_set) →
      ∃ lm1 txn1, releaseAll lm txn rs = Outcome.ok (lm1, txn1) ∧ AllGranted lm1 txn1 ∧
        txn1.state = TransactionState.COMMITTED ∧ txn1.txn_id = txn.txn_id ∧
        (∀ r, r ∈ txn1.shared_lock_set ↔ r ∈ txn.shared_lock_set ∧ r ∉ rs) ∧
        (∀ r, r ∈ txn1.exclusive_lock_set ↔ r ∈ txn.exclusive_lock_set ∧ r ∉ rs) := by
  intro rs
  induction rs with
  | nil =>
    intro lm txn hst h _ _
    exact ⟨lm, txn, rfl, h, hst, rfl, by simp, by simp⟩
  | cons x rest ih =>
    intro lm txn hst h hnd hmem
    obtain ⟨lm1, txn1, e1, e2, e3, e4, e5, e6⟩ :=
      Unlock_allGranted lm txn x hst h (hmem x (List.mem_cons_self _ _))
    have hnd1 := List.nodup_cons.1 hnd
    obtain ⟨lm2, txn2, f1, f2, f3, f4, f5, f6⟩ := ih lm1 txn1 e3 e2 hnd1.2 (by
      intro r hr
      have hrx : r ≠ x := fun hh => hnd1.1 (hh ▸ hr)
      rcases hmem r (List.mem_cons_of_mem _ hr) with hh | hh
      · left; exact (e5 r).2 ⟨hh, hrx⟩
      · right; exact (e6 r).2 ⟨hh, hrx⟩)
    refine ⟨lm2, txn2, ?_, f2, f3, f4.trans e4, ?_, ?_⟩
    · simp only [releaseAll, e1]
      exact f1
    · intro r
      rw [f5, e5, List.mem_cons]
      tauto
    · intro r
      rw [f6, e6, List.mem_cons]
      tauto

end TransactionManager
namespace LockManager

/-- C22: `Unlock` grants an EXCLUSIVE waiter that follows a SHARED waiter granted
in the same call.  Transaction 1 holds the exclusive lock on rid (0, 0),
transaction 2 waits for a shared lock and transaction 3 for an exclusive one;
after `Unlock` by transaction 1 the shared request of 2 and the exclusive request
of 3 are both granted. -/
theorem C22_exclusive_waiter_granted_behind_shared :
    Unlock writerThenWaiters writer ⟨0, 0⟩ = Outcome.ok
      ({ strict_2PL := false,
         lockTable := [(⟨0, 0⟩, ⟨[⟨2, LockMode.SHARED, true⟩,
           ⟨3, LockMode.EXCLUSIVE, true⟩], false⟩)] },
       { txn_id := 1, state := TransactionState.SHRINKING, shared_lock_set := [],
         exclusive_lock_set := [] }, true) ∧
    grantLoop [⟨2, LockMode.SHARED, false⟩, ⟨3, LockMode.EXCLUSIVE, false⟩] false
      = ([⟨2, LockMode.SHARED, true⟩, ⟨3, LockMode.EXCLUSIVE, true⟩], false) := by
  constructor <;> decide

end LockManager

namespace TransactionManager

open LockManager

/-- C23: with logging disabled, `Commit` of a transaction returns with both lock
sets of the transaction empty and no request of the transaction left in any rid's
list, in strict and in non-strict mode, whenever the requests of the transaction
are all granted once the write set has been worked off (for an empty write set:
when `Commit` is called). -/
theorem C23_commit_releases_all_locks
    (applyDelete : LockManager → Transaction → RID → Outcome (LockManager × Transaction))
    (lm : LockManager) (txn : Transaction) (write_set : List WriteRecord)
    (hw : ∃ lm1 txn1, commitWrites applyDelete lm
        { txn with state := TransactionState.COMMITTED } write_set.reverse
          = Outcome.ok (lm1, txn1) ∧
      AllGranted lm1 txn1 ∧ txn1.state = TransactionState.COMMITTED ∧
      txn1.txn_id = txn.txn_id) :
    ∃ lm2 txn2, Commit applyDelete lm txn write_set = Outcome.ok (lm2, txn2) ∧
      txn2.shared_lock_set = [] ∧ txn2.exclusive_lock_set = [] ∧
      txn2.state = TransactionState.COMMITTED ∧
      ∀ rid, ∀ it ∈ requests lm2 rid, it.tid ≠ txn.txn_id := by
  obtain ⟨lm1, txn1, h1, h2, h3, h4⟩ := hw
  obtain ⟨hnd, hmem⟩ := lockSetOf_spec txn1
  obtain ⟨lm2, txn2, f1, f2, f3, f4, f5, f6⟩ := releaseAll_spec (lockSetOf txn1) lm1 txn1 h3 h2
    hnd (fun r hr => (hmem r).1 hr)
  have hs : txn2.shared_lock_set = [] := by
    apply List.eq_nil_iff_forall_not_mem.2
    intro r hr
    have := (f5 r).1 hr
    exact this.2 ((hmem r).2 (Or.inl this.1))
  have he : txn2.exclusive_lock_set = [] := by
    apply List.eq_nil_iff_forall_not_mem.2
    intro r hr
    have := (f6 r).1 hr
    exact this.2 ((hmem r).2 (Or.inr this.1))
  refine ⟨lm2, txn2, ?_, hs, he, f3, ?_⟩
  · simp only [Commit, h1]
    exact f1
  · intro rid it hit htid
    rcases f2 rid with ⟨g1, -, -⟩ | ⟨it1, -, -, g2⟩
    · unfold mine at g1
      rw [List.filter_eq_nil_iff] at g1
      have := g1 it hit
      simp only [decide_eq_true_eq] at this
      exact this (htid.trans (f4.trans h4).symm)
    · rcases g2 with ⟨-, g3, -⟩ | ⟨-, g3, -⟩
      · rw [hs] at g3; cases g3
      · rw [he] at g3; cases g3

end TransactionManager
namespace TransactionManager

open LockManager

theorem C23_commit_releases_all_locks_witness :
    (∃ lm1 txn1, commitWrites heapApplyDelete twoLocks
        { twoLocksTxn with state := TransactionState.COMMITTED }
        [(⟨⟨0, 1⟩, WType.DELETE⟩ : WriteRecord)].reverse = Outcome.ok (lm1, txn1) ∧
      AllGranted lm1 txn1 ∧ txn1.state = TransactionState.COMMITTED ∧
      txn1.txn_id = twoLocksTxn.txn_id) ∧
    Commit heapApplyDelete twoLocks twoLocksTxn [⟨⟨0, 1⟩, WType.DELETE⟩] = Outcome.ok
      ({ strict_2PL := true,
         lockTable := [(⟨0, 0⟩, ⟨[⟨1, LockMode.SHARED, true⟩], false⟩),
           (⟨0, 1⟩, ⟨[⟨1, LockMode.SHARED, true⟩], false⟩)] },
       { txn_id := 0, state := TransactionState.COMMITTED, shared_lock_set := [],
         exclusive_lock_set := [] }) ∧
    ∃ lm2 txn2, Commit heapApplyDelete twoLocks twoLocksTxn [⟨⟨0, 1⟩, WType.DELETE⟩]
        = Outcome.ok (lm2, txn2) ∧
      txn2.shared_lock_set = [] ∧ txn2.exclusive_lock_set = [] ∧
      txn2.state = TransactionState.COMMITTED ∧
      ∀ rid, ∀ it ∈ requests lm2 rid, it.tid ≠ twoLocksTxn.txn_id :=
  have hw : ∃ lm1 txn1, commitWrites heapApplyDelete twoLocks
        { twoLocksTxn with state := TransactionState.COMMITTED }
        [(⟨⟨0, 1⟩, WType.DELETE⟩ : WriteRecord)].reverse = Outcome.ok (lm1, txn1) ∧
      AllGranted lm1 txn1 ∧ txn1.state = TransactionState.COMMITTED ∧
      txn1.txn_id = twoLocksTxn.txn_id :=
    ⟨{ strict_2PL := true,
       lockTable := [(⟨0, 0⟩, ⟨[⟨0, LockMode.SHARED, true⟩, ⟨1, LockMode.SHARED, true⟩],
         false⟩), (⟨0, 1⟩, ⟨[⟨1, LockMode.SHARED, true⟩], false⟩)] },
     { txn_id := 0, state := TransactionState.COMMITTED, shared_lock_set := [⟨0, 0⟩],
       exclusive_lock_set := [] },
     by decide,
     by
       intro rid
       by_cases h0 : rid = ⟨0, 0⟩
       · subst h0
         exact Or.inr ⟨⟨0, LockMode.SHARED, true⟩, by decide, rfl,
           Or.inl ⟨rfl, by decide, by decide⟩⟩
       · by_cases h1 : rid = ⟨0, 1⟩
         · subst h1
           exact Or.inl ⟨by decide, by decide, by decide⟩
         · refine Or.inl ⟨?_, by simp [h0], by simp⟩
           have e0 : ¬ ((⟨0, 0⟩ : RID) = rid) := fun h => h0 h.symm
           have e1 : ¬ ((⟨0, 1⟩ : RID) = rid) := fun h => h1 h.symm
           simp [mine, requests, entry, tableFind, e0, e1],
     rfl, rfl⟩
  ⟨hw, by decide,
   C23_commit_releases_all_locks heapApplyDelete twoLocks twoLocksTxn
     [⟨⟨0, 1⟩, WType.DELETE⟩] hw⟩

end TransactionManager

theorem wrap32_of_isInt32 (v : Int) (h : isInt32 v) : wrap32 v = v := by
  unfold isInt32 at h
  unfold wrap32 toInt32
  have h1 : ((v % 4294967296).toNat : Int) = v % 4294967296 :=
    Int.toNat_of_nonneg (Int.emod_nonneg _ (by norm_num))
  have h2 : (v % 4294967296).toNat % 2 ^ 32 = (v % 4294967296).toNat := by
    apply Nat.mod_eq_of_lt
    have := Int.emod_lt_of_pos v (show (0 : Int) < 4294967296 by norm_num)
    omega
  rw [h2]
  split
  · rename_i h3
    omega
  · rename_i h3
    push_cast
    omega

theorem wrap32_isInt32 (v : Int) : isInt32 (wrap32 v) := by
  unfold isInt32 wrap32 toInt32
  have : (v % 4294967296).toNat % 2 ^ 32 < 2 ^ 32 := Nat.mod_lt _ (by norm_num)
  split <;> omega

theorem length_wrBytes (d : List Nat) (a : Int) (s : List Nat) :
    (wrBytes d a s).length = d.length := by
  unfold wrBytes
  split
  · rename_i h
    simp only [List.length_append, List.length_take, List.length_drop]
    omega
  · rfl

theorem length_wr32 (d : List Nat) (a : Int) (v : Int) : (wr32 d a v).length = d.length :=
  length_wrBytes d a _

theorem length_enc32 (v : Int) : (enc32 v).length = 4 := rfl

theorem length_rdBytes (d : List Nat) (a n : Int) : (rdBytes d a n).length = n.toNat := by
  simp [rdBytes]

theorem getByte_wrBytes_fit (d : List Nat) (a : Int) (s : List Nat) (h0 : 0 ≤ a)
    (h1 : a + s.length ≤ d.length) (x : Int) :
    getByte (wrBytes d a s) x =
      if a ≤ x ∧ x < a + s.length then s.getD (x - a).toNat 0 else getByte d x := by
  have hw : wrBytes d a s = d.take a.toNat ++ s ++ d.drop (a.toNat + s.length) := by
    unfold wrBytes
    rw [if_pos ⟨h0, h1⟩]
  rw [hw]
  unfold getByte
  by_cases hx : 0 ≤ x
  · rw [if_pos hx, if_pos hx]
    clear hw
    lift a to ℕ using h0 with k
    lift x to ℕ using hx with m
    simp only [Int.toNat_ofNat]
    have hk : k + s.length ≤ d.length := by omega
    by_cases c1 : m < k
    · rw [if_neg (by omega)]
      rw [List.getD_eq_getElem?_getD, List.getD_eq_getElem?_getD, List.append_assoc,
        List.getElem?_append_left (by simp; omega), List.getElem?_take_of_lt c1]
    · by_cases c2 : m < k + s.length
      · rw [if_pos (by omega)]
        have e : ((m : Int) - (k : Int)).toNat = m - k := by omega
        rw [e, List.getD_eq_getElem?_getD, List.getD_eq_getElem?_getD, List.append_assoc,
          List.getElem?_append_right (by simp; omega),
          List.getElem?_append_left (by simp; omega)]
        simp only [List.length_take]
        congr 2
        omega
      · rw [if_neg (by omega)]
        rw [List.getD_eq_getElem?_getD, List.getD_eq_getElem?_getD,
          List.getElem?_append_right (by simp; omega), List.getElem?_drop]
        simp only [List.length_append, List.length_take]
        congr 2
        omega
  · rw [if_neg hx, if_neg hx, if_neg (by omega)]

theorem getByte_wrBytes_outside (d : List Nat) (a : Int) (s : List Nat) (x : Int)
    (h : x < a ∨ a + s.length ≤ x) : getByte (wrBytes d a s) x = getByte d x := by
  by_cases hf : 0 ≤ a ∧ a + s.length ≤ d.length
  · rw [getByte_wrBytes_fit d a s hf.1 hf.2, if_neg (by omega)]
  · unfold wrBytes
    rw [if_neg hf]

theorem getByte_rdBytes (d : List Nat) (a n i : Int) (h0 : 0 ≤ i) (h1 : i < n) :
    getByte (rdBytes d a n) i = getByte d (a + i) := by
  lift i to ℕ using h0 with k
  unfold rdBytes
  conv_lhs => unfold getByte
  rw [if_pos (by omega)]
  simp only [Int.toNat_ofNat]
  rw [List.getD_eq_getElem?_getD, List.getElem?_map, List.getElem?_range (by omega)]
  rfl

theorem rdBytes_ext (d1 d2 : List Nat) (a b n : Int)
    (h : ∀ i, 0 ≤ i → i < n → getByte d1 (a + i) = getByte d2 (b + i)) :
    rdBytes d1 a n = rdBytes d2 b n := by
  unfold rdBytes
  apply List.map_congr_left
  intro i hi
  rw [List.mem_range] at hi
  exact h i (by omega) (by omega)

theorem rd32_ext (d1 d2 : List Nat) (a b : Int)
    (h : ∀ i, 0 ≤ i → i < 4 → getByte d1 (a + i) = getByte d2 (b + i)) :
    rd32 d1 a = rd32 d2 b := by
  unfold rd32
  have h0 := h 0 (by norm_num) (by norm_num)
  have h1 := h 1 (by norm_num) (by norm_num)
  have h2 := h 2 (by norm_num) (by norm_num)
  have h3 := h 3 (by norm_num) (by norm_num)
  simp only [add_zero] at h0
  rw [h0, h1, h2, h3]

theorem dec_enc32 (v : Int) :
    toInt32 ((enc32 v).getD 0 0 + 256 * (enc32 v).getD 1 0 + 65536 * (enc32 v).getD 2 0
      + 16777216 * (enc32 v).getD 3 0) = wrap32 v := by
  unfold wrap32 enc32
  simp only [List.getD_cons_zero, List.getD_cons_succ]
  congr 1
  have : (v % 4294967296).toNat < 4294967296 := by
    have := Int.emod_lt_of_pos v (show (0 : Int) < 4294967296 by norm_num)
    have := Int.emod_nonneg v (show (4294967296 : Int) ≠ 0 by norm_num)
    omega
  omega

theorem rd32_wr32_same (d : List Nat) (a v : Int) (h0 : 0 ≤ a) (h1 : a + 4 ≤ d.length) :
    rd32 (wr32 d a v) a = wrap32 v := by
  unfold rd32 wr32
  have hf : a + ((enc32 v).length : Int) ≤ d.length := by
    rw [length_enc32]; exact_mod_cast h1
  rw [getByte_wrBytes_fit d a _ h0 hf, getByte_wrBytes_fit d a _ h0 hf,
    getByte_wrBytes_fit d a _ h0 hf, getByte_wrBytes_fit d a _ h0 hf]
  rw [length_enc32]
  rw [if_pos (by omega), if_pos (by omega), if_pos (by omega), if_pos (by omega)]
  have e0 : (a - a).toNat = 0 := by omega
  have e1 : (a + 1 - a).toNat = 1 := by omega
  have e2 : (a + 2 - a).toNat = 2 := by omega
  have e3 : (a + 3 - a).toNat = 3 := by omega
  rw [e0, e1, e2, e3]
  exact dec_enc32 v

theorem rdBytes_wrBytes_other (d : List Nat) (a : Int) (s : List Nat) (b n : Int)
    (h : b + n ≤ a ∨ a + s.length ≤ b) : rdBytes (wrBytes d a s) b n = rdBytes d b n := by
  apply rdBytes_ext
  intro i hi0 hi1
  exact getByte_wrBytes_outside d a s _ (by omega)

theorem rdBytes_wr32_other (d : List Nat) (a v b n : Int) (h : b + n ≤ a ∨ a + 4 ≤ b) :
    rdBytes (wr32 d a v) b n = rdBytes d b n := by
  unfold wr32
  apply rdBytes_wrBytes_other
  rw [length_enc32]
  omega

theorem rdBytes_self (s : List Nat) : rdBytes s 0 s.length = s := by
  unfold rdBytes
  apply List.ext_getElem
  · simp
  · intro i h1 h2
    simp only [List.getElem_map, List.getElem_range, zero_add]
    unfold getByte
    rw [if_pos (by omega)]
    simp only [Int.toNat_ofNat]
    rw [List.getD_eq_getElem?_getD, List.getElem?_eq_getElem h2]
    rfl

theorem rdBytes_wrBytes_same (d : List Nat) (a : Int) (s : List Nat) (h0 : 0 ≤ a)
    (h1 : a + s.length ≤ d.length) : rdBytes (wrBytes d a s) a s.length = s := by
  conv_rhs => rw [← rdBytes_self s]
  apply rdBytes_ext
  intro i hi0 hi1
  rw [getByte_wrBytes_fit d a s h0 h1, if_pos (by omega)]
  unfold getByte
  rw [if_pos (by omega)]
  congr 1
  omega

theorem getByte_of_length_le (d : List Nat) (x : Int) (h : (d.length : Int) ≤ x) :
    getByte d x = 0 := by
  unfold getByte
  split
  · rw [List.getD_eq_getElem?_getD, List.getElem?_eq_none (by omega)]
    rfl
  · rfl

theorem eq_of_getByte (d1 d2 : List Nat) (hl : d1.length = d2.length)
    (h : ∀ x, 0 ≤ x → x < d1.length → getByte d1 x = getByte d2 x) : d1 = d2 := by
  apply List.ext_getElem hl
  intro i h1 h2
  have := h i (by omega) (by omega)
  unfold getByte at this
  rw [if_pos (by omega), if_pos (by omega)] at this
  simp only [Int.toNat_ofNat] at this
  rw [List.getD_eq_getElem?_getD, List.getD_eq_getElem?_getD, List.getElem?_eq_getElem h1,
    List.getElem?_eq_getElem h2] at this
  exact this
namespace TablePage

theorem rd32_isInt32 (d : List Nat) (a : Int) : isInt32 (rd32 d a) := by
  unfold isInt32 rd32 toInt32
  generalize getByte d a + 256 * getByte d (a + 1) + 65536 * getByte d (a + 2)
    + 16777216 * getByte d (a + 3) = n
  have : n % 2 ^ 32 < 2 ^ 32 := Nat.mod_lt _ (by norm_num)
  split <;> omega

theorem wrap32_rd32 (d : List Nat) (a : Int) : wrap32 (rd32 d a) = rd32 d a :=
  wrap32_of_isInt32 _ (rd32_isInt32 d a)

theorem wrap32_small (v : Int) (h0 : -2147483648 ≤ v) (h1 : v < 2147483648) : wrap32 v = v :=
  wrap32_of_isInt32 v ⟨h0, h1⟩

/-- A copy of bytes onto themselves changes nothing. -/
theorem wrBytes_rdBytes_self (d : List Nat) (a n : Int) :
    wrBytes d a (rdBytes d a n) = d := by
  by_cases hf : 0 ≤ a ∧ a + ((rdBytes d a n).length : Int) ≤ d.length
  · apply eq_of_getByte
    · exact length_wrBytes _ _ _
    · intro x hx0 hx1
      rw [getByte_wrBytes_fit d a _ hf.1 hf.2]
      split
      · rename_i h
        rw [length_rdBytes] at h
        have e : ((rdBytes d a n).getD (x - a).toNat 0) = getByte (rdBytes d a n) (x - a) := by
          unfold getByte
          rw [if_pos (by omega)]
        rw [e, getByte_rdBytes d a n (x - a) (by omega) (by omega)]
        congr 1
        omega
      · rfl
  · unfold wrBytes
    rw [if_neg hf]

/-- The bytes after `memmove(data + a + delta, data + a, n)`. -/
theorem getByte_move (d : List Nat) (a n delta : Int) (h0 : 0 ≤ a + delta) (hn : 0 ≤ n)
    (h1 : a + delta + n ≤ d.length) (x : Int) :
    getByte (wrBytes d (a + delta) (rdBytes d a n)) x =
      if a + delta ≤ x ∧ x < a + delta + n then getByte d (x - delta) else getByte d x := by
  have hl : ((rdBytes d a n).length : Int) = n := by
    rw [length_rdBytes]; omega
  rw [getByte_wrBytes_fit d (a + delta) _ h0 (by rw [hl]; exact h1), hl]
  split
  · rename_i h
    have e : ((rdBytes d a n).getD (x - (a + delta)).toNat 0)
        = getByte (rdBytes d a n) (x - (a + delta)) := by
      unfold getByte
      rw [if_pos (by omega)]
    rw [e, getByte_rdBytes d a n _ (by omega) (by omega)]
    congr 1
    omega
  · rfl

end TablePage
namespace TablePage

theorem rd32_congr (d1 d2 : List Nat) (a : Int)
    (h : ∀ x, a ≤ x → x < a + 4 → getByte d1 x = getByte d2 x) : rd32 d1 a = rd32 d2 a := by
  apply rd32_ext
  intro i h0 h1
  exact h _ (by omega) (by omega)

theorem rdBytes_congr (d1 d2 : List Nat) (a n : Int)
    (h : ∀ x, a ≤ x → x < a + n → getByte d1 x = getByte d2 x) :
    rdBytes d1 a n = rdBytes d2 a n := by
  apply rdBytes_ext
  intro i h0 h1
  exact h _ (by omega) (by omega)

theorem getByte_wr32_outside (d : List Nat) (a v x : Int) (h : x < a ∨ a + 4 ≤ x) :
    getByte (wr32 d a v) x = getByte d x := by
  unfold wr32
  apply getByte_wrBytes_outside
  rw [length_enc32]
  omega

/-- The loop over the slots changes only the offset fields of the slots it
visits: the offset of a slot in use that is below `limit` grows by `delta`. -/
theorem shiftLoop_spec (limit delta : Int) :
    ∀ (n : Nat) (i0 : Int) (p : TablePage), 0 ≤ i0 →
      24 + 8 * (i0 + n) ≤ p.data.length →
      (shiftLoop limit delta n i0 p).data.length = p.data.length ∧
      (∀ x, (x < 24 + 8 * i0 ∨ 24 + 8 * (i0 + n) ≤ x) →
        getByte (shiftLoop limit delta n i0 p).data x = getByte p.data x) ∧
      (∀ i, i0 ≤ i → i < i0 + n →
        (shiftLoop limit delta n i0 p).GetTupleSize i = p.GetTupleSize i ∧
        (shiftLoop limit delta n i0 p).GetTupleOffset i =
          if p.GetTupleSize i ≠ 0 ∧ p.GetTupleOffset i < limit then
            wrap32 (p.GetTupleOffset i + delta)
          else p.GetTupleOffset i) := by
  intro n
  induction n with
  | zero =>
    intro i0 p _ _
    refine ⟨rfl, fun _ _ => rfl, ?_⟩
    intro i h1 h2
    simp only [Nat.cast_zero, add_zero] at h2
    omega
  | succ n ih =>
    intro i0 p h0 hb
    obtain ⟨p1, hp1⟩ : ∃ p1 : TablePage, p1 =
        (if p.GetTupleSize i0 ≠ 0 ∧ p.GetTupleOffset i0 < limit then
          p.SetTupleOffset i0 (p.GetTupleOffset i0 + delta) else p) := ⟨_, rfl⟩
    have hs : shiftLoop limit delta (n + 1) i0 p = shiftLoop limit delta n (i0 + 1) p1 := by
      rw [hp1]; rfl
    have hlen : p1.data.length = p.data.length := by
      rw [hp1]
      split
      · exact length_wr32 _ _ _
      · rfl
    have hout : ∀ x, (x < 24 + 8 * i0 ∨ 28 + 8 * i0 ≤ x) →
        getByte p1.data x = getByte p.data x := by
      intro x hx
      rw [hp1]
      split
      · exact getByte_wr32_outside _ _ _ _ (by omega)
      · rfl
    have hoff : p1.GetTupleOffset i0 =
        if p.GetTupleSize i0 ≠ 0 ∧ p.GetTupleOffset i0 < limit then
          wrap32 (p.GetTupleOffset i0 + delta) else p.GetTupleOffset i0 := by
      rw [hp1]
      split
      · exact rd32_wr32_same _ _ _ (by omega) (by push_cast at hb; omega)
      · rfl
    push_cast at hb
    obtain ⟨g1, g2, g3⟩ := ih (i0 + 1) p1 (by omega) (by rw [hlen]; omega)
    rw [hs]
    refine ⟨g1.trans hlen, ?_, ?_⟩
    · intro x hx
      push_cast at hx
      rw [g2 x (by omega), hout x (by omega)]
    · intro i h1 h2
      push_cast at h2
      by_cases hi : i = i0
      · subst hi
        constructor
        · unfold GetTupleSize
          apply rd32_congr
          intro x hx1 hx2
          rw [g2 x (by omega), hout x (by omega)]
        · rw [← hoff]
          unfold GetTupleOffset
          apply rd32_congr
          intro x hx1 hx2
          rw [g2 x (by omega)]
      · obtain ⟨e1, e2⟩ := g3 i (by omega) (by omega)
        have f1 : p1.GetTupleSize i = p.GetTupleSize i := by
          unfold GetTupleSize
          apply rd32_congr
          intro x hx1 hx2
          exact hout x (by omega)
        have f2 : p1.GetTupleOffset i = p.GetTupleOffset i := by
          unfold GetTupleOffset
          apply rd32_congr
          intro x hx1 hx2
          exact hout x (by omega)
        rw [e1, e2, f1, f2]
        exact ⟨rfl, rfl⟩

end TablePage
namespace TablePage

theorem freeSlotLoop_spec (p : TablePage) :
    ∀ (n : Nat) (i0 : Int),
      i0 ≤ freeSlotLoop p n i0 ∧ freeSlotLoop p n i0 ≤ i0 + n ∧
      (freeSlotLoop p n i0 < i0 + n → p.GetTupleSize (freeSlotLoop p n i0) = 0) ∧
      ∀ j, i0 ≤ j → j < freeSlotLoop p n i0 → p.GetTupleSize j ≠ 0 := by
  intro n
  induction n with
  | zero =>
    intro i0
    simp only [freeSlotLoop, Nat.cast_zero, add_zero, le_refl, lt_self_iff_false,
      false_implies, true_and]
    intro j h1 h2
    omega
  | succ n ih =>
    intro i0
    unfold freeSlotLoop
    by_cases h : p.GetTupleSize i0 = 0
    · rw [if_pos h]
      refine ⟨le_refl _, by push_cast; omega, fun _ => h, ?_⟩
      intro j h1 h2
      omega
    · rw [if_neg h]
      obtain ⟨a, b, c, d⟩ := ih (i0 + 1)
      refine ⟨by omega, by push_cast; omega, ?_, ?_⟩
      · intro hlt
        exact c (by push_cast at hlt; omega)
      · intro j h1 h2
        by_cases hj : j = i0
        · rw [hj]; exact h
        · exact d j (by omega) h2

theorem GetFSP_SetFSP (p : TablePage) (v : Int) (h : (20 : Int) ≤ p.data.length) :
    (p.SetFreeSpacePointer v).GetFreeSpacePointer = wrap32 v :=
  rd32_wr32_same _ _ _ (by norm_num) (by omega)

theorem GetTupleCount_SetTupleCount (p : TablePage) (v : Int)
    (h : (24 : Int) ≤ p.data.length) : (p.SetTupleCount v).GetTupleCount = wrap32 v :=
  rd32_wr32_same _ _ _ (by norm_num) (by omega)

theorem GetTupleOffset_SetTupleOffset (p : TablePage) (i v : Int) (h0 : 0 ≤ i)
    (h : 28 + 8 * i ≤ p.data.length) : (p.SetTupleOffset i v).GetTupleOffset i = wrap32 v :=
  rd32_wr32_same _ _ _ (by omega) (by omega)

theorem GetTupleSize_SetTupleSize (p : TablePage) (i v : Int) (h0 : 0 ≤ i)
    (h : 32 + 8 * i ≤ p.data.length) : (p.SetTupleSize i v).GetTupleSize i = wrap32 v :=
  rd32_wr32_same _ _ _ (by omega) (by omega)

/-- The result of `InsertTuple` on a well-formed page. -/
theorem InsertTuple_spec (cfg : Config) (hP : cfg.PAGE_SIZE < 2147483648) (p : TablePage)
    (inv : TInv cfg p) (tuple : Tuple) (rid : RID) (hs : 0 < tuple.size) :
    (∃ rid1, InsertTuple p tuple rid = Outcome.ok (p, rid1, false)) ∨
    ∃ p1 i, InsertTuple p tuple rid = Outcome.ok (p1, ⟨p.GetPageId, i⟩, true) ∧
      0 ≤ i ∧ i ≤ p.GetTupleCount ∧ (i < p.GetTupleCount → p.GetTupleSize i = 0) ∧
      (∀ j, 0 ≤ j → j < i → p.GetTupleSize j ≠ 0) ∧
      p1.data.length = p.data.length ∧
      p1.GetTupleCount = (if i = p.GetTupleCount then p.GetTupleCount + 1
        else p.GetTupleCount) ∧
      p1.GetFreeSpacePointer = p.GetFreeSpacePointer - tuple.size ∧
      24 + 8 * p1.GetTupleCount ≤ p1.GetFreeSpacePointer ∧
      p1.GetTupleSize i = tuple.size ∧
      p1.GetTupleOffset i = p.GetFreeSpacePointer - tuple.size ∧
      (∀ j, 0 ≤ j → j < p.GetTupleCount → j ≠ i →
        p1.GetTupleSize j = p.GetTupleSize j ∧ p1.GetTupleOffset j = p.GetTupleOffset j) ∧
      rdBytes p1.data (p.GetFreeSpacePointer - tuple.size) tuple.size = tuple.data ∧
      (∀ x, p.GetFreeSpacePointer ≤ x → getByte p1.data x = getByte p.data x) ∧
      (∀ x, 0 ≤ x → x < 16 → getByte p1.data x = getByte p.data x) := by
  have hlen := inv.len
  have hc0 := inv.count_nonneg
  have hfit := inv.slots_fit
  have hfsp := inv.fsp_le
  unfold InsertTuple
  rw [if_pos hs]
  by_cases h1 : p.GetFreeSpaceSize < tuple.size
  · rw [if_pos h1]
    exact Or.inl ⟨_, rfl⟩
  · rw [if_neg h1]
    obtain ⟨i, hi⟩ : ∃ i, i = freeSlotLoop p p.GetTupleCount.toNat 0 := ⟨_, rfl⟩
    obtain ⟨a0, a1, a2, a3⟩ := freeSlotLoop_spec p p.GetTupleCount.toNat 0
    rw [← hi] at a0 a1 a2 a3 ⊢
    have hcn : ((p.GetTupleCount.toNat : Nat) : Int) = p.GetTupleCount :=
      Int.toNat_of_nonneg hc0
    rw [hcn, zero_add] at a1 a2
    simp only
    by_cases h2 : i = p.GetTupleCount ∧ p.GetFreeSpaceSize < tuple.size + 8
    · rw [if_pos h2]
      exact Or.inl ⟨_, rfl⟩
    · rw [if_neg h2]
      right
      unfold GetFreeSpaceSize at h1 h2
      -- the pages written one after the other
      obtain ⟨q1, hq1⟩ : ∃ q1, q1 = p.SetFreeSpacePointer (p.GetFreeSpacePointer - tuple.size) :=
        ⟨_, rfl⟩
      obtain ⟨q2, hq2⟩ : ∃ q2 : TablePage, q2 = ⟨wrBytes q1.data q1.GetFreeSpacePointer
        tuple.data⟩ := ⟨_, rfl⟩
      obtain ⟨q3, hq3⟩ : ∃ q3, q3 = q2.SetTupleOffset i q2.GetFreeSpacePointer := ⟨_, rfl⟩
      obtain ⟨q4, hq4⟩ : ∃ q4, q4 = q3.SetTupleSize i tuple.size := ⟨_, rfl⟩
      rw [← hq1, ← hq2, ← hq3, ← hq4]
      have hsz : (tuple.data.length : Int) = tuple.size := rfl
      have hl1 : q1.data.length = p.data.length := by rw [hq1]; exact length_wr32 _ _ _
      have hl2 : q2.data.length = p.data.length := by
        rw [hq2]; exact (length_wrBytes _ _ _).trans hl1
      have hl3 : q3.data.length = p.data.length := by
        rw [hq3]; exact (length_wr32 _ _ _).trans hl2
      have hl4 : q4.data.length = p.data.length := by
        rw [hq4]; exact (length_wr32 _ _ _).trans hl3
      have hnew : p.GetFreeSpacePointer - tuple.size ≥ 24 + 8 * p.GetTupleCount ∧
          (i = p.GetTupleCount →
            p.GetFreeSpacePointer - tuple.size ≥ 24 + 8 * (p.GetTupleCount + 1)) := by
        constructor
        · omega
        · intro hic
          have : ¬ (p.GetFreeSpacePointer - 24 - p.GetTupleCount * 8 < tuple.size + 8) :=
            fun hh => h2 ⟨hic, hh⟩
          omega
      have hf1 : q1.GetFreeSpacePointer = p.GetFreeSpacePointer - tuple.size := by
        rw [hq1, GetFSP_SetFSP _ _ (by omega)]
        exact wrap32_small _ (by omega) (by omega)
      have hb1 : ∀ x, (x < 16 ∨ 20 ≤ x) → getByte q1.data x = getByte p.data x := by
        intro x hx
        rw [hq1]
        exact getByte_wr32_outside _ _ _ _ (by omega)
      have hfitw : (0 : Int) ≤ q1.GetFreeSpacePointer ∧
          q1.GetFreeSpacePointer + (tuple.data.length : Int) ≤ q1.data.length := by
        rw [hf1, hsz, hl1]
        omega
      have hb2 : ∀ x, (x < p.GetFreeSpacePointer - tuple.size ∨ p.GetFreeSpacePointer ≤ x) →
          getByte q2.data x = getByte q1.data x := by
        intro x hx
        rw [hq2]
        exact getByte_wrBytes_outside _ _ _ _ (by rw [hf1, hsz]; omega)
      have hd2 : rdBytes q2.data (p.GetFreeSpacePointer - tuple.size) tuple.size
          = tuple.data := by
        rw [hq2, ← hf1, ← hsz]
        exact rdBytes_wrBytes_same _ _ _ hfitw.1 hfitw.2
      have hf2 : q2.GetFreeSpacePointer = p.GetFreeSpacePointer - tuple.size := by
        rw [← hf1]
        unfold GetFreeSpacePointer
        apply rd32_congr
        intro x hx1 hx2
        exact hb2 x (by omega)
      have hb3 : ∀ x, (x < 24 + 8 * i ∨ 28 + 8 * i ≤ x) →
          getByte q3.data x = getByte q2.data x := by
        intro x hx
        rw [hq3]
        exact getByte_wr32_outside _ _ _ _ (by omega)
      have hb4 : ∀ x, (x < 28 + 8 * i ∨ 32 + 8 * i ≤ x) →
          getByte q4.data x = getByte q3.data x := by
        intro x hx
        rw [hq4]
        exact getByte_wr32_outside _ _ _ _ (by omega)
      have hislot : 32 + 8 * i ≤ p.GetFreeSpacePointer - tuple.size := by
        by_cases hic : i = p.GetTupleCount
        · have := hnew.2 hic
          omega
        · omega
      have ho3 : q3.GetTupleOffset i = p.GetFreeSpacePointer - tuple.size := by
        rw [hq3, GetTupleOffset_SetTupleOffset _ _ _ (by omega) (by omega), hf2]
        exact wrap32_small _ (by omega) (by omega)
      have ho4 : q4.GetTupleOffset i = p.GetFreeSpacePointer - tuple.size := by
        rw [← ho3]
        unfold GetTupleOffset
        apply rd32_congr
        intro x hx1 hx2
        exact hb4 x (by omega)
      have hs4 : q4.GetTupleSize i = tuple.size := by
        rw [hq4, GetTupleSize_SetTupleSize _ _ _ (by omega) (by omega)]
        exact wrap32_small _ (by omega) (by omega)
      -- bytes of q4 outside the places written
      have hb : ∀ x, (x < 16 ∨ 20 ≤ x) → (x < 24 + 8 * i ∨ 32 + 8 * i ≤ x) →
          (x < p.GetFreeSpacePointer - tuple.size ∨ p.GetFreeSpacePointer ≤ x) →
          getByte q4.data x = getByte p.data x := by
        intro x c1 c2 c3
        rw [hb4 x (by omega), hb3 x (by omega), hb2 x c3, hb1 x c1]
      have hc4 : q4.GetTupleCount = p.GetTupleCount := by
        unfold GetTupleCount
        apply rd32_congr
        intro x hx1 hx2
        exact hb x (by omega) (by omega) (by omega)
      have hf4 : q4.GetFreeSpacePointer = p.GetFreeSpacePointer - tuple.size := by
        rw [← hf2]
        unfold GetFreeSpacePointer
        apply rd32_congr
        intro x hx1 hx2
        rw [hb4 x (by omega), hb3 x (by omega)]
      have hd4 : rdBytes q4.data (p.GetFreeSpacePointer - tuple.size) tuple.size
          = tuple.data := by
        rw [← hd2]
        apply rdBytes_congr
        intro x hx1 hx2
        rw [hb4 x (by omega), hb3 x (by omega)]
      have hpid4 : q4.GetPageId = p.GetPageId := by
        unfold GetPageId
        apply rd32_congr
        intro x hx1 hx2
        exact hb x (by omega) (by omega) (by omega)
      have hother4 : ∀ j, 0 ≤ j → j < p.GetTupleCount → j ≠ i →
          q4.GetTupleSize j = p.GetTupleSize j ∧ q4.GetTupleOffset j = p.GetTupleOffset j := by
        intro j hj0 hj1 hji
        constructor
        · unfold GetTupleSize
          apply rd32_congr
          intro x hx1 hx2
          exact hb x (by omega) (by omega) (by omega)
        · unfold GetTupleOffset
          apply rd32_congr
          intro x hx1 hx2
          exact hb x (by omega) (by omega) (by omega)
      by_cases hic : i = q4.GetTupleCount
      · rw [if_pos hic, hpid4]
        have hic1 : i = p.GetTupleCount := hic.trans hc4
        have hnew2 := hnew.2 hic1
        have hb5 : ∀ x, (x < 20 ∨ 24 ≤ x) →
            getByte (q4.SetTupleCount (q4.GetTupleCount + 1)).data x = getByte q4.data x := by
          intro x hx
          exact getByte_wr32_outside _ _ _ _ (by omega)
        refine ⟨_, i, rfl, a0, a1, a2, a3, ?_, ?_, ?_, ?_, ?_, ?_, ?_, ?_, ?_, ?_⟩
        · exact (length_wr32 _ _ _).trans hl4
        · rw [if_pos hic1]
          rw [GetTupleCount_SetTupleCount _ _ (by omega), hc4]
          exact wrap32_small _ (by omega) (by omega)
        · rw [← hf4]
          unfold GetFreeSpacePointer
          apply rd32_congr
          intro x hx1 hx2
          exact hb5 x (by omega)
        · have e1 : (q4.SetTupleCount (q4.GetTupleCount + 1)).GetTupleCount
              = p.GetTupleCount + 1 := by
            rw [GetTupleCount_SetTupleCount _ _ (by omega), hc4]
            exact wrap32_small _ (by omega) (by omega)
          have e2 : (q4.SetTupleCount (q4.GetTupleCount + 1)).GetFreeSpacePointer
              = p.GetFreeSpacePointer - tuple.size := by
            rw [← hf4]
            unfold GetFreeSpacePointer
            apply rd32_congr
            intro x hx1 hx2
            exact hb5 x (by omega)
          rw [e1, e2]
          omega
        · rw [← hs4]
          unfold GetTupleSize
          apply rd32_congr
          intro x hx1 hx2
          exact hb5 x (by omega)
        · rw [← ho4]
          unfold GetTupleOffset
          apply rd32_congr
          intro x hx1 hx2
          exact hb5 x (by omega)
        · intro j hj0 hj1 hji
          obtain ⟨e1, e2⟩ := hother4 j hj0 hj1 hji
          rw [← e1, ← e2]
          constructor
          · unfold GetTupleSize
            apply rd32_congr
            intro x hx1 hx2
            exact hb5 x (by omega)
          · unfold GetTupleOffset
            apply rd32_congr
            intro x hx1 hx2
            exact hb5 x (by omega)
        · rw [← hd4]
          apply rdBytes_congr
          intro x hx1 hx2
          exact hb5 x (by omega)
        · intro x hx
          rw [hb5 x (by omega)]
          exact hb x (by omega) (by omega) (by omega)
        · intro x hx0 hx1
          rw [hb5 x (by omega)]
          exact hb x (by omega) (by omega) (by omega)
      · rw [if_neg hic]
        have hic1 : i ≠ p.GetTupleCount := fun hh => hic (hh.trans hc4.symm)
        have hrid : (if p.GetTupleCount ≤ 0 then rid
            else if i = p.GetTupleCount then (⟨p.GetPageId, i - 1⟩ : RID)
            else ⟨p.GetPageId, i⟩) = ⟨p.GetPageId, i⟩ := by
          rw [if_neg (by omega), if_neg hic1]
        rw [hrid]
        refine ⟨q4, i, rfl, a0, a1, a2, a3, hl4, ?_, hf4, ?_, hs4, ho4, hother4, hd4, ?_, ?_⟩
        · rw [if_neg hic1]; exact hc4
        · rw [hc4, hf4]; omega
        · intro x hx
          exact hb x (by omega) (by omega) (by omega)
        · intro x hx0 hx1
          exact hb x (by omega) (by omega) (by omega)

end TablePage
namespace TablePage

/-- The shape of a page depends only on its length, free space pointer, tuple
count and slots. -/
theorem TInv_of_fields (cfg : Config) (p q : TablePage) (inv : TInv cfg p)
    (hl : q.data.length = p.data.length) (hc : q.GetTupleCount = p.GetTupleCount)
    (hf : q.GetFreeSpacePointer = p.GetFreeSpacePointer)
    (hs : ∀ i, 0 ≤ i → i < p.GetTupleCount →
      q.GetTupleSize i = p.GetTupleSize i ∧
      (p.GetTupleSize i ≠ 0 → q.GetTupleOffset i = p.GetTupleOffset i)) : TInv cfg q := by
  refine ⟨hl.trans inv.len, by rw [hc]; exact inv.count_nonneg, by rw [hc, hf]; exact inv.slots_fit,
    by rw [hf]; exact inv.fsp_le, ?_, ?_⟩
  · intro i h0 h1 h2
    rw [hc] at h1
    obtain ⟨e1, e2⟩ := hs i h0 h1
    rw [e1] at h2
    rw [e1, e2 h2, hf]
    exact inv.slot_in i h0 h1 h2
  · intro i j hi0 hi1 hj0 hj1 hij hsi hsj
    rw [hc] at hi1 hj1
    obtain ⟨e1, e2⟩ := hs i hi0 hi1
    obtain ⟨f1, f2⟩ := hs j hj0 hj1
    rw [e1] at hsi
    rw [f1] at hsj
    rw [e1, e2 hsi, f1, f2 hsj]
    exact inv.disjoint i j hi0 hi1 hj0 hj1 hij hsi hsj

/-- A page whose bytes from offset 16 on are those of a well-formed page is well
formed. -/
theorem TInv_of_bytes (cfg : Config) (p q : TablePage) (inv : TInv cfg p)
    (hl : q.data.length = p.data.length)
    (hb : ∀ x, 16 ≤ x → getByte q.data x = getByte p.data x) : TInv cfg q := by
  apply TInv_of_fields cfg p q inv hl
  · unfold GetTupleCount
    exact rd32_congr _ _ _ (fun x h1 _ => hb x (by omega))
  · unfold GetFreeSpacePointer
    exact rd32_congr _ _ _ (fun x h1 _ => hb x (by omega))
  · intro i h0 h1
    constructor
    · unfold GetTupleSize
      exact rd32_congr _ _ _ (fun x h1 _ => hb x (by omega))
    · intro _
      unfold GetTupleOffset
      exact rd32_congr _ _ _ (fun x h1 _ => hb x (by omega))

theorem TInv_SetLSN (cfg : Config) (p : TablePage) (inv : TInv cfg p) (lsn : Int) :
    TInv cfg (p.SetLSN lsn) :=
  TInv_of_bytes cfg p _ inv (length_wr32 _ _ _)
    (fun x hx => getByte_wr32_outside _ _ _ _ (by omega))

theorem TInv_SetPrevPageId (cfg : Config) (p : TablePage) (inv : TInv cfg p) (v : Int) :
    TInv cfg (p.SetPrevPageId v) :=
  TInv_of_bytes cfg p _ inv (length_wr32 _ _ _)
    (fun x hx => getByte_wr32_outside _ _ _ _ (by omega))

theorem TInv_SetNextPageId (cfg : Config) (p : TablePage) (inv : TInv cfg p) (v : Int) :
    TInv cfg (p.SetNextPageId v) :=
  TInv_of_bytes cfg p _ inv (length_wr32 _ _ _)
    (fun x hx => getByte_wr32_outside _ _ _ _ (by omega))

theorem TInv_Init (cfg : Config) (h24 : 24 ≤ cfg.PAGE_SIZE) (hP : cfg.PAGE_SIZE < 2147483648)
    (p : TablePage) (hl : p.data.length = cfg.PAGE_SIZE) (page_id prev_page_id : Int) :
    TInv cfg (Init cfg p page_id cfg.PAGE_SIZE prev_page_id) := by
  unfold Init
  simp only
  obtain ⟨q, hq⟩ : ∃ q : TablePage, q = (((⟨wr32 p.data 0 page_id⟩ : TablePage).SetPrevPageId
    prev_page_id).SetNextPageId cfg.INVALID_PAGE_ID).SetFreeSpacePointer cfg.PAGE_SIZE :=
    ⟨_, rfl⟩
  rw [← hq]
  have hlq : q.data.length = cfg.PAGE_SIZE := by
    rw [hq]
    unfold SetFreeSpacePointer SetNextPageId SetPrevPageId
    simp only [length_wr32]
    exact hl
  have hfq : q.GetFreeSpacePointer = cfg.PAGE_SIZE := by
    rw [hq, GetFSP_SetFSP]
    · exact wrap32_small _ (by omega) (by omega)
    · unfold SetNextPageId SetPrevPageId
      simp only [length_wr32]
      omega
  have hc : (q.SetTupleCount 0).GetTupleCount = 0 := by
    rw [GetTupleCount_SetTupleCount _ _ (by omega)]
    rfl
  have hf : (q.SetTupleCount 0).GetFreeSpacePointer = cfg.PAGE_SIZE := by
    rw [← hfq]
    unfold GetFreeSpacePointer
    apply rd32_congr
    intro x h1 h2
    exact getByte_wr32_outside _ _ _ _ (by omega)
  refine ⟨(length_wr32 _ _ _).trans hlq, by rw [hc], by rw [hc, hf]; omega, by rw [hf], ?_, ?_⟩
  · intro i h0 h1
    rw [hc] at h1
    omega
  · intro i j h0 h1
    rw [hc] at h1
    omega

theorem TInv_InsertTuple (cfg : Config) (hP : cfg.PAGE_SIZE < 2147483648) (p : TablePage)
    (inv : TInv cfg p) (tuple : Tuple) (rid : RID) (p1 : TablePage) (rid1 : RID) (b : Bool)
    (h : InsertTuple p tuple rid = Outcome.ok (p1, rid1, b)) : TInv cfg p1 := by
  by_cases hs : 0 < tuple.size
  · rcases InsertTuple_spec cfg hP p inv tuple rid hs with ⟨r, h1⟩ | ⟨q, i, h1, a0, a1, a2, a3,
      hl, hc, hf, hfit, hsz, hoff, hoth, hd, hb1, hb2⟩
    · rw [h1] at h
      cases h
      exact inv
    · rw [h1] at h
      cases h
      have hfsp := inv.fsp_le
      have hlen := inv.len
      have hcount : p.GetTupleCount ≤ p1.GetTupleCount ∧
          p1.GetTupleCount ≤ p.GetTupleCount + 1 ∧
          (∀ j, 0 ≤ j → j < p1.GetTupleCount → j ≠ i → j < p.GetTupleCount) := by
        rw [hc]
        split
        · rename_i hi
          refine ⟨by omega, by omega, ?_⟩
          intro j h0 h1 h2
          omega
        · exact ⟨le_refl _, by omega, fun j _ h1 _ => h1⟩
      refine ⟨hl.trans inv.len, by have := inv.count_nonneg; omega, hfit, by rw [hf]; omega,
        ?_, ?_⟩
      · intro j h0 h1 h2
        by_cases hj : j = i
        · subst hj
          rw [hf, hoff, hsz]
          omega
        · have hjc := hcount.2.2 j h0 h1 hj
          obtain ⟨e1, e2⟩ := hoth j h0 hjc hj
          rw [e1] at h2
          have := inv.slot_in j h0 hjc h2
          rw [e1, e2, hf]
          omega
      · intro j k hj0 hj1 hk0 hk1 hjk hsj hsk
        by_cases hj : j = i
        · subst hj
          have hkc := hcount.2.2 k hk0 hk1 (fun hh => hjk hh.symm)
          obtain ⟨e1, e2⟩ := hoth k hk0 hkc (fun hh => hjk hh.symm)
          rw [e1] at hsk
          have := inv.slot_in k hk0 hkc hsk
          rw [hoff, hsz, e1, e2]
          left
          omega
        · have hjc := hcount.2.2 j hj0 hj1 hj
          obtain ⟨e1, e2⟩ := hoth j hj0 hjc hj
          rw [e1] at hsj
          by_cases hk : k = i
          · subst hk
            have := inv.slot_in j hj0 hjc hsj
            rw [hoff, hsz, e1, e2]
            right
            omega
          · have hkc := hcount.2.2 k hk0 hk1 hk
            obtain ⟨f1, f2⟩ := hoth k hk0 hkc hk
            rw [f1] at hsk
            rw [e1, e2, f1, f2]
            exact inv.disjoint j k hj0 hjc hk0 hkc hjk hsj hsk
  · unfold InsertTuple at h
    rw [if_neg hs] at h
    cases h

/-- The change of sign of the size of a slot in use keeps the shape. -/
theorem TInv_flip (cfg : Config) (hP : cfg.PAGE_SIZE < 2147483648) (p : TablePage)
    (inv : TInv cfg p) (s : Int) (h0 : 0 ≤ s) (hc : s < p.GetTupleCount)
    (hne : p.GetTupleSize s ≠ 0) : TInv cfg (p.SetTupleSize s (-p.GetTupleSize s)) := by
  have hfit := inv.slots_fit
  have hfsp := inv.fsp_le
  have hlen := inv.len
  have hin := inv.slot_in s h0 hc hne
  have hb : ∀ x, (x < 28 + 8 * s ∨ 32 + 8 * s ≤ x) →
      getByte (p.SetTupleSize s (-p.GetTupleSize s)).data x = getByte p.data x :=
    fun x hx => getByte_wr32_outside _ _ _ _ (by omega)
  have hsz : (p.SetTupleSize s (-p.GetTupleSize s)).GetTupleSize s = -p.GetTupleSize s := by
    rw [GetTupleSize_SetTupleSize _ _ _ h0 (by omega)]
    exact wrap32_small _ (by omega) (by omega)
  have hoff : ∀ j, 0 ≤ j →
      (p.SetTupleSize s (-p.GetTupleSize s)).GetTupleOffset j = p.GetTupleOffset j := by
    intro j hj
    unfold GetTupleOffset
    exact rd32_congr _ _ _ (fun x h1 h2 => hb x (by omega))
  have hsize : ∀ j, 0 ≤ j → j ≠ s →
      (p.SetTupleSize s (-p.GetTupleSize s)).GetTupleSize j = p.GetTupleSize j := by
    intro j hj hne
    unfold GetTupleSize
    exact rd32_congr _ _ _ (fun x h1 h2 => hb x (by omega))
  have hcnt : (p.SetTupleSize s (-p.GetTupleSize s)).GetTupleCount = p.GetTupleCount := by
    unfold GetTupleCount
    exact rd32_congr _ _ _ (fun x h1 h2 => hb x (by omega))
  have hf : (p.SetTupleSize s (-p.GetTupleSize s)).GetFreeSpacePointer
      = p.GetFreeSpacePointer := by
    unfold GetFreeSpacePointer
    exact rd32_congr _ _ _ (fun x h1 h2 => hb x (by omega))
  refine ⟨(length_wr32 _ _ _).trans inv.len, by rw [hcnt]; exact inv.count_nonneg,
    by rw [hcnt, hf]; exact hfit, by rw [hf]; exact hfsp, ?_, ?_⟩
  · intro j hj0 hj1 hj2
    rw [hcnt] at hj1
    rw [hf, hoff j hj0]
    by_cases hj : j = s
    · subst hj
      rw [hsz]
      omega
    · rw [hsize j hj0 hj] at hj2 ⊢
      exact inv.slot_in j hj0 hj1 hj2
  · intro j k hj0 hj1 hk0 hk1 hjk hsj hsk
    rw [hcnt] at hj1 hk1
    rw [hoff j hj0, hoff k hk0]
    by_cases hj : j = s
    · subst hj
      have hk : k ≠ j := fun hh => hjk hh.symm
      rw [hsize k hk0 hk] at hsk ⊢
      rw [hsz]
      have := inv.disjoint j k hj0 hj1 hk0 hk1 hjk hne hsk
      omega
    · rw [hsize j hj0 hj] at hsj ⊢
      by_cases hk : k = s
      · subst hk
        rw [hsz]
        have := inv.disjoint j k hj0 hj1 hk0 hk1 hjk hsj hne
        omega
      · rw [hsize k hk0 hk] at hsk ⊢
        exact inv.disjoint j k hj0 hj1 hk0 hk1 hjk hsj hsk

theorem TInv_MarkDelete (cfg : Config) (hP : cfg.PAGE_SIZE < 2147483648) (p : TablePage)
    (inv : TInv cfg p) (rid : RID) (h0 : 0 ≤ rid.slot_num) : TInv cfg (MarkDelete p rid).1 := by
  unfold MarkDelete
  simp only
  split
  · exact inv
  · rename_i hc
    split
    · exact inv
    · rename_i hn
      split
      · rename_i hpos
        exact TInv_flip cfg hP p inv _ h0 (by omega) (by omega)
      · exact inv

theorem TInv_RollbackDelete (cfg : Config) (hP : cfg.PAGE_SIZE < 2147483648) (p : TablePage)
    (inv : TInv cfg p) (rid : RID) (h0 : 0 ≤ rid.slot_num) (p1 : TablePage)
    (h : RollbackDelete p rid = Outcome.ok p1) : TInv cfg p1 := by
  unfold RollbackDelete at h
  simp only at h
  split at h
  · rename_i hc
    split at h
    · rename_i hn
      cases h
      exact TInv_flip cfg hP p inv _ h0 hc (by omega)
    · cases h
      exact inv
  · cases h

end TablePage
namespace TablePage

/-- The result of `ApplyDelete` on a well-formed page, for a slot whose offset is
not below the free space pointer: `z` is the size of the tuple deleted. -/
theorem ApplyDelete_spec (cfg : Config) (hP : cfg.PAGE_SIZE < 2147483648) (p : TablePage)
    (inv : TInv cfg p) (rid : RID) (h0 : 0 ≤ rid.slot_num)
    (hc : rid.slot_num < p.GetTupleCount)
    (hfo : p.GetFreeSpacePointer ≤ p.GetTupleOffset rid.slot_num) (z : Int)
    (hz : z = if p.GetTupleSize rid.slot_num < 0 then -p.GetTupleSize rid.slot_num
      else p.GetTupleSize rid.slot_num) :
    ∃ p1, ApplyDelete p rid = Outcome.ok p1 ∧ p1.data.length = p.data.length ∧
      p1.GetTupleCount = p.GetTupleCount ∧
      p1.GetFreeSpacePointer = p.GetFreeSpacePointer + z ∧
      p1.GetTupleSize rid.slot_num = 0 ∧
      (∀ j, 0 ≤ j → j < p.GetTupleCount → j ≠ rid.slot_num →
        p1.GetTupleSize j = p.GetTupleSize j ∧
        p1.GetTupleOffset j =
          if p.GetTupleSize j ≠ 0 ∧ p.GetTupleOffset j < p.GetTupleOffset rid.slot_num then
            wrap32 (p.GetTupleOffset j + z)
          else p.GetTupleOffset j) ∧
      (∀ x, 0 ≤ x → x < 16 → getByte p1.data x = getByte p.data x) ∧
      (∀ x, p.GetFreeSpacePointer ≤ x →
        (x < p.GetTupleOffset rid.slot_num → getByte p1.data (x + z) = getByte p.data x) ∧
        (p.GetTupleOffset rid.slot_num + z ≤ x → getByte p1.data x = getByte p.data x)) := by
  have hlen := inv.len
  have hc0 := inv.count_nonneg
  have hfit := inv.slots_fit
  have hfsp := inv.fsp_le
  obtain ⟨s, hs⟩ : ∃ s, s = rid.slot_num := ⟨_, rfl⟩
  rw [← hs] at h0 hc hfo hz ⊢
  obtain ⟨o, ho⟩ : ∃ o, o = p.GetTupleOffset s := ⟨_, rfl⟩
  obtain ⟨f, hf⟩ : ∃ f, f = p.GetFreeSpacePointer := ⟨_, rfl⟩
  rw [← ho, ← hf] at hfo
  have hz0 : 0 ≤ z := by
    rw [hz]; split <;> omega
  have hzne : p.GetTupleSize s ≠ 0 → z ≠ 0 ∧ o + z ≤ cfg.PAGE_SIZE := by
    intro hne
    have := inv.slot_in s h0 hc hne
    rw [← ho] at this
    rw [hz]
    split <;> omega
  have hzz : p.GetTupleSize s = 0 → z = 0 := by
    intro h
    rw [hz, h]
    rfl
  unfold ApplyDelete
  simp only
  rw [← hs, if_pos hc, ← hz, ← ho, ← hf, if_pos hfo]
  obtain ⟨q1, hq1⟩ : ∃ q1 : TablePage,
      q1 = ⟨wrBytes p.data (f + z) (rdBytes p.data f (o - f))⟩ := ⟨_, rfl⟩
  obtain ⟨q2, hq2⟩ : ∃ q2, q2 = q1.SetFreeSpacePointer (f + z) := ⟨_, rfl⟩
  obtain ⟨q3, hq3⟩ : ∃ q3, q3 = q2.SetTupleSize s 0 := ⟨_, rfl⟩
  obtain ⟨q4, hq4⟩ : ∃ q4, q4 = q3.SetTupleOffset s 0 := ⟨_, rfl⟩
  rw [← hq1, ← hq2, ← hq3, ← hq4]
  have hl1 : q1.data.length = p.data.length := by rw [hq1]; exact length_wrBytes _ _ _
  have hl2 : q2.data.length = p.data.length := by
    rw [hq2]; exact (length_wr32 _ _ _).trans hl1
  have hl3 : q3.data.length = p.data.length := by
    rw [hq3]; exact (length_wr32 _ _ _).trans hl2
  have hl4 : q4.data.length = p.data.length := by
    rw [hq4]; exact (length_wr32 _ _ _).trans hl3
  -- the bytes after the move
  have hb1 : ∀ x, getByte q1.data x =
      if z ≠ 0 ∧ f + z ≤ x ∧ x < o + z then getByte p.data (x - z) else getByte p.data x := by
    intro x
    by_cases hsz : p.GetTupleSize s = 0
    · have hz1 := hzz hsz
      rw [if_neg (by omega), hq1, hz1, add_zero]
      rw [wrBytes_rdBytes_self]
    · obtain ⟨hz1, hz2⟩ := hzne hsz
      rw [hq1, getByte_move p.data f (o - f) z (by omega) (by omega) (by omega)]
      by_cases hx : f + z ≤ x ∧ x < o + z
      · rw [if_pos (by omega), if_pos ⟨hz1, hx⟩]
      · rw [if_neg (by omega), if_neg (by tauto)]
  have hb2 : ∀ x, (x < 16 ∨ 20 ≤ x) → getByte q2.data x = getByte q1.data x := by
    intro x hx
    rw [hq2]
    exact getByte_wr32_outside _ _ _ _ (by omega)
  have hb3 : ∀ x, (x < 28 + 8 * s ∨ 32 + 8 * s ≤ x) →
      getByte q3.data x = getByte q2.data x := by
    intro x hx
    rw [hq3]
    exact getByte_wr32_outside _ _ _ _ (by omega)
  have hb4 : ∀ x, (x < 24 + 8 * s ∨ 28 + 8 * s ≤ x) →
      getByte q4.data x = getByte q3.data x := by
    intro x hx
    rw [hq4]
    exact getByte_wr32_outside _ _ _ _ (by omega)
  -- below the free space pointer, outside the fields written, nothing changes
  have hlow : ∀ x, x < f → (x < 16 ∨ 20 ≤ x) → (x < 24 + 8 * s ∨ 32 + 8 * s ≤ x) →
      getByte q4.data x = getByte p.data x := by
    intro x h1 h2 h3
    rw [hb4 x (by omega), hb3 x (by omega), hb2 x h2, hb1 x, if_neg (by omega)]
  have hhigh : ∀ x, 24 + 8 * p.GetTupleCount ≤ x → getByte q4.data x = getByte q1.data x := by
    intro x h1
    rw [hb4 x (by omega), hb3 x (by omega), hb2 x (by omega)]
  have hc4 : q4.GetTupleCount = p.GetTupleCount := by
    unfold GetTupleCount
    exact rd32_congr _ _ _ (fun x h1 h2 => hlow x (by omega) (by omega) (by omega))
  have hf2 : q2.GetFreeSpacePointer = f + z := by
    rw [hq2, GetFSP_SetFSP _ _ (by omega)]
    by_cases hsz : p.GetTupleSize s = 0
    · rw [hzz hsz, add_zero, hf]
      exact wrap32_rd32 _ _
    · have := hzne hsz
      exact wrap32_small _ (by omega) (by omega)
  have hf4 : q4.GetFreeSpacePointer = f + z := by
    rw [← hf2]
    unfold GetFreeSpacePointer
    apply rd32_congr
    intro x h1 h2
    rw [hb4 x (by omega), hb3 x (by omega)]
  have hs3 : q3.GetTupleSize s = 0 := by
    rw [hq3, GetTupleSize_SetTupleSize _ _ _ h0 (by omega)]
    rfl
  have hs4 : q4.GetTupleSize s = 0 := by
    rw [← hs3]
    unfold GetTupleSize
    exact rd32_congr _ _ _ (fun x h1 h2 => hb4 x (by omega))
  have hoth4 : ∀ j, 0 ≤ j → j < p.GetTupleCount → j ≠ s →
      q4.GetTupleSize j = p.GetTupleSize j ∧ q4.GetTupleOffset j = p.GetTupleOffset j := by
    intro j hj0 hj1 hjs
    constructor
    · unfold GetTupleSize
      exact rd32_congr _ _ _ (fun x h1 h2 => hlow x (by omega) (by omega) (by omega))
    · unfold GetTupleOffset
      exact rd32_congr _ _ _ (fun x h1 h2 => hlow x (by omega) (by omega) (by omega))
  have hcn : ((p.GetTupleCount.toNat : Nat) : Int) = p.GetTupleCount :=
    Int.toNat_of_nonneg hc0
  obtain ⟨g1, g2, g3⟩ := shiftLoop_spec o z q4.GetTupleCount.toNat 0 q4 (le_refl _) (by
    rw [hc4, hcn, hl4]; omega)
  rw [hc4, hcn, zero_add] at g2 g3
  rw [hc4] at g1 ⊢
  refine ⟨_, rfl, g1.trans hl4, ?_, ?_, ?_, ?_, ?_, ?_⟩
  · refine Eq.trans ?_ hc4
    unfold GetTupleCount
    exact rd32_congr _ _ _ (fun x h1 h2 => g2 x (by omega))
  · refine Eq.trans ?_ hf4
    unfold GetFreeSpacePointer
    exact rd32_congr _ _ _ (fun x h1 h2 => g2 x (by omega))
  · rw [(g3 s h0 hc).1]
    exact hs4
  · intro j hj0 hj1 hjs
    obtain ⟨e1, e2⟩ := g3 j hj0 hj1
    obtain ⟨f1, f2⟩ := hoth4 j hj0 hj1 hjs
    rw [e1, e2, f1, f2]
    exact ⟨rfl, rfl⟩
  · intro x hx0 hx1
    rw [g2 x (by omega)]
    exact hlow x (by omega) (by omega) (by omega)
  · intro x hx
    constructor
    · intro hxo
      rw [g2 (x + z) (by omega), hhigh (x + z) (by omega), hb1]
      by_cases hz1 : z = 0
      · rw [if_neg (by omega), hz1, add_zero]
      · rw [if_pos ⟨hz1, by omega, by omega⟩]
        congr 1
        omega
    · intro hxo
      rw [g2 x (by omega), hhigh x (by omega), hb1, if_neg (by omega)]

end TablePage
namespace TablePage

theorem TInv_ApplyDelete (cfg : Config) (hP : cfg.PAGE_SIZE < 2147483648) (p : TablePage)
    (inv : TInv cfg p) (rid : RID) (h0 : 0 ≤ rid.slot_num) (p1 : TablePage)
    (h : ApplyDelete p rid = Outcome.ok p1) : TInv cfg p1 := by
  have hc : rid.slot_num < p.GetTupleCount := by
    by_contra hc
    unfold ApplyDelete at h
    simp only at h
    rw [if_neg hc] at h
    cases h
  have hfo : p.GetFreeSpacePointer ≤ p.GetTupleOffset rid.slot_num := by
    by_contra hfo
    unfold ApplyDelete at h
    simp only at h
    rw [if_pos hc, if_neg (by omega)] at h
    cases h
  obtain ⟨q, e1, hl, hcnt, hf, hss, hoth, -, -⟩ :=
    ApplyDelete_spec cfg hP p inv rid h0 hc hfo _ rfl
  rw [e1] at h
  cases h
  have hfit := inv.slots_fit
  have hfsp := inv.fsp_le
  obtain ⟨z, hz⟩ : ∃ z, z = (if p.GetTupleSize rid.slot_num < 0 then
    -p.GetTupleSize rid.slot_num else p.GetTupleSize rid.slot_num) := ⟨_, rfl⟩
  rw [← hz] at hf hoth
  have hz0 : 0 ≤ z := by
    rw [hz]; split <;> omega
  have hzs : z = p.GetTupleSize rid.slot_num ∨ z = -p.GetTupleSize rid.slot_num := by
    rw [hz]; split
    · right; rfl
    · left; rfl
  -- the new offset of a slot in use
  have key : ∀ j, 0 ≤ j → j < p.GetTupleCount → j ≠ rid.slot_num → p.GetTupleSize j ≠ 0 →
      p1.GetTupleSize j = p.GetTupleSize j ∧
      ((p.GetTupleOffset j < p.GetTupleOffset rid.slot_num ∧
          p1.GetTupleOffset j = p.GetTupleOffset j + z ∧
          (z ≠ 0 → p.GetTupleOffset j + p.GetTupleSize j ≤ p.GetTupleOffset rid.slot_num ∧
            p.GetTupleOffset j - p.GetTupleSize j ≤ p.GetTupleOffset rid.slot_num)) ∨
       (p.GetTupleOffset rid.slot_num + z ≤ p.GetTupleOffset j ∧
          p1.GetTupleOffset j = p.GetTupleOffset j)) := by
    intro j hj0 hj1 hjs hsj
    obtain ⟨f1, f2⟩ := hoth j hj0 hj1 hjs
    refine ⟨f1, ?_⟩
    have hinj := inv.slot_in j hj0 hj1 hsj
    by_cases hsz : p.GetTupleSize rid.slot_num = 0
    · have hz1 : z = 0 := by
        rw [hz, hsz]; rfl
      by_cases hlt : p.GetTupleOffset j < p.GetTupleOffset rid.slot_num
      · left
        rw [f2, if_pos ⟨hsj, hlt⟩, hz1, add_zero]
        exact ⟨hlt, wrap32_rd32 _ _, fun hh => absurd rfl hh⟩
      · right
        rw [f2, if_neg (by tauto), hz1, add_zero]
        exact ⟨by omega, rfl⟩
    · have hins := inv.slot_in rid.slot_num h0 hc hsz
      have hd := inv.disjoint rid.slot_num j h0 hc hj0 hj1 (fun hh => hjs hh.symm) hsz hsj
      by_cases hlt : p.GetTupleOffset j < p.GetTupleOffset rid.slot_num
      · left
        rw [f2, if_pos ⟨hsj, hlt⟩]
        refine ⟨hlt, wrap32_small _ (by omega) (by omega), fun _ => by omega⟩
      · right
        rw [f2, if_neg (by tauto)]
        exact ⟨by omega, rfl⟩
  have hfsp1 : p.GetFreeSpacePointer + z ≤ cfg.PAGE_SIZE := by
    by_cases hsz : p.GetTupleSize rid.slot_num = 0
    · have hz1 : z = 0 := by
        rw [hz, hsz]; rfl
      omega
    · have hins := inv.slot_in rid.slot_num h0 hc hsz
      omega
  refine ⟨hl.trans inv.len, by rw [hcnt]; exact inv.count_nonneg, by rw [hcnt, hf]; omega,
    by rw [hf]; exact hfsp1, ?_, ?_⟩
  · intro j hj0 hj1 hj2
    rw [hcnt] at hj1
    have hjs : j ≠ rid.slot_num := by
      intro hh
      rw [hh, hss] at hj2
      exact hj2 rfl
    have hsj : p.GetTupleSize j ≠ 0 := by
      rw [← (hoth j hj0 hj1 hjs).1]; exact hj2
    obtain ⟨f1, f2⟩ := key j hj0 hj1 hjs hsj
    have hinj := inv.slot_in j hj0 hj1 hsj
    rw [f1, hf]
    by_cases hsz : p.GetTupleSize rid.slot_num = 0
    · have hz1 : z = 0 := by
        rw [hz, hsz]; rfl
      rcases f2 with ⟨a, b, -⟩ | ⟨a, b⟩ <;> rw [b] <;> omega
    · have hins := inv.slot_in rid.slot_num h0 hc hsz
      have hz1 : z ≠ 0 := by omega
      rcases f2 with ⟨a, b, c⟩ | ⟨a, b⟩
      · have := c hz1
        rw [b]
        omega
      · rw [b]
        omega
  · intro j k hj0 hj1 hk0 hk1 hjk hj2 hk2
    rw [hcnt] at hj1 hk1
    have hjs : j ≠ rid.slot_num := by
      intro hh
      rw [hh, hss] at hj2
      exact hj2 rfl
    have hks : k ≠ rid.slot_num := by
      intro hh
      rw [hh, hss] at hk2
      exact hk2 rfl
    have hsj : p.GetTupleSize j ≠ 0 := by
      rw [← (hoth j hj0 hj1 hjs).1]; exact hj2
    have hsk : p.GetTupleSize k ≠ 0 := by
      rw [← (hoth k hk0 hk1 hks).1]; exact hk2
    obtain ⟨f1, f2⟩ := key j hj0 hj1 hjs hsj
    obtain ⟨g1, g2⟩ := key k hk0 hk1 hks hsk
    have hd := inv.disjoint j k hj0 hj1 hk0 hk1 hjk hsj hsk
    rw [f1, g1]
    by_cases hz1 : z = 0
    · rcases f2 with ⟨a, b, -⟩ | ⟨a, b⟩ <;> rcases g2 with ⟨a1, b1, -⟩ | ⟨a1, b1⟩ <;>
        rw [b, b1] <;> omega
    · rcases f2 with ⟨a, b, c⟩ | ⟨a, b⟩ <;> rcases g2 with ⟨a1, b1, c1⟩ | ⟨a1, b1⟩
      · rw [b, b1]; omega
      · have := c hz1
        rw [b, b1]; omega
      · have := c1 hz1
        rw [b, b1]; omega
      · rw [b, b1]; omega

end TablePage
namespace TablePage

/-- The header and slot fields after an `UpdateTuple` that goes through. -/
theorem UpdateTuple_spec (cfg : Config) (hP : cfg.PAGE_SIZE < 2147483648) (p : TablePage)
    (inv : TInv cfg p) (new_tuple old_tuple : Tuple) (rid : RID) (h0 : 0 ≤ rid.slot_num)
    (hc : rid.slot_num < p.GetTupleCount) (hts : 0 < p.GetTupleSize rid.slot_num)
    (hfree : new_tuple.size - p.GetTupleSize rid.slot_num ≤ p.GetFreeSpaceSize) :
    ∃ p1 old1, UpdateTuple p new_tuple old_tuple rid = Outcome.ok (p1, old1, true) ∧
      p1.data.length = p.data.length ∧
      p1.GetTupleCount = p.GetTupleCount ∧
      p1.GetFreeSpacePointer =
        p.GetFreeSpacePointer + p.GetTupleSize rid.slot_num - new_tuple.size ∧
      p1.GetTupleSize rid.slot_num = new_tuple.size ∧
      p1.GetTupleOffset rid.slot_num =
        (if new_tuple.size ≠ 0 then
          p.GetTupleOffset rid.slot_num + p.GetTupleSize rid.slot_num - new_tuple.size
        else p.GetTupleOffset rid.slot_num) ∧
      (∀ j, 0 ≤ j → j < p.GetTupleCount → j ≠ rid.slot_num →
        p1.GetTupleSize j = p.GetTupleSize j ∧
        p1.GetTupleOffset j =
          if p.GetTupleSize j ≠ 0 ∧
              p.GetTupleOffset j < p.GetTupleOffset rid.slot_num + p.GetTupleSize rid.slot_num then
            wrap32 (p.GetTupleOffset j + (p.GetTupleSize rid.slot_num - new_tuple.size))
          else p.GetTupleOffset j) := by
  have hlen := inv.len
  have hc0 := inv.count_nonneg
  have hfit := inv.slots_fit
  have hfsp := inv.fsp_le
  have hin := inv.slot_in rid.slot_num h0 hc (by omega)
  obtain ⟨s, hs⟩ : ∃ s, s = rid.slot_num := ⟨_, rfl⟩
  rw [← hs] at h0 hc hts hfree hin ⊢
  obtain ⟨o, ho⟩ : ∃ o, o = p.GetTupleOffset s := ⟨_, rfl⟩
  obtain ⟨f, hf⟩ : ∃ f, f = p.GetFreeSpacePointer := ⟨_, rfl⟩
  obtain ⟨ts, hts1⟩ : ∃ ts, ts = p.GetTupleSize s := ⟨_, rfl⟩
  obtain ⟨ns, hns⟩ : ∃ ns, ns = new_tuple.size := ⟨_, rfl⟩
  have hns0 : 0 ≤ ns := by
    rw [hns]; unfold Tuple.size; omega
  have hfree1 : ns - ts ≤ f - 24 - p.GetTupleCount * 8 := by
    rw [hns, hts1, hf]; exact hfree
  rw [← ho, ← hf, ← hts1] at hin
  rw [← hts1] at hts
  unfold UpdateTuple
  simp only
  rw [← hs, if_neg (by omega), ← hts1, if_neg (by omega), ← hns, if_neg (by omega),
    ← ho, ← hf, if_pos (by omega)]
  obtain ⟨q1, hq1⟩ : ∃ q1 : TablePage,
      q1 = ⟨wrBytes p.data (f + ts - ns) (rdBytes p.data f (o - f))⟩ := ⟨_, rfl⟩
  obtain ⟨q2, hq2⟩ : ∃ q2, q2 = q1.SetFreeSpacePointer (f + ts - ns) := ⟨_, rfl⟩
  obtain ⟨q3, hq3⟩ : ∃ q3 : TablePage,
      q3 = ⟨wrBytes q2.data (o + ts - ns) new_tuple.data⟩ := ⟨_, rfl⟩
  obtain ⟨q4, hq4⟩ : ∃ q4, q4 = q3.SetTupleSize s ns := ⟨_, rfl⟩
  rw [← hq1, ← hq2, ← hq3, ← hq4]
  have hl1 : q1.data.length = p.data.length := by rw [hq1]; exact length_wrBytes _ _ _
  have hl2 : q2.data.length = p.data.length := by
    rw [hq2]; exact (length_wr32 _ _ _).trans hl1
  have hl3 : q3.data.length = p.data.length := by
    rw [hq3]; exact (length_wrBytes _ _ _).trans hl2
  have hl4 : q4.data.length = p.data.length := by
    rw [hq4]; exact (length_wr32 _ _ _).trans hl3
  have hb1 : ∀ x, x < f + ts - ns → getByte q1.data x = getByte p.data x := by
    intro x hx
    rw [hq1]
    exact getByte_wrBytes_outside _ _ _ _ (Or.inl hx)
  have hb2 : ∀ x, (x < 16 ∨ 20 ≤ x) → getByte q2.data x = getByte q1.data x := by
    intro x hx
    rw [hq2]
    exact getByte_wr32_outside _ _ _ _ (by omega)
  have hb3 : ∀ x, x < o + ts - ns → getByte q3.data x = getByte q2.data x := by
    intro x hx
    rw [hq3]
    exact getByte_wrBytes_outside _ _ _ _ (Or.inl hx)
  have hb4 : ∀ x, (x < 28 + 8 * s ∨ 32 + 8 * s ≤ x) →
      getByte q4.data x = getByte q3.data x := by
    intro x hx
    rw [hq4]
    exact getByte_wr32_outside _ _ _ _ (by omega)
  have hlow : ∀ x, x < 24 + 8 * p.GetTupleCount → (x < 16 ∨ 20 ≤ x) →
      (x < 28 + 8 * s ∨ 32 + 8 * s ≤ x) → getByte q4.data x = getByte p.data x := by
    intro x h1 h2 h3
    rw [hb4 x h3, hb3 x (by omega), hb2 x h2, hb1 x (by omega)]
  have hc4 : q4.GetTupleCount = p.GetTupleCount := by
    unfold GetTupleCount
    exact rd32_congr _ _ _ (fun x h1 h2 => hlow x (by omega) (by omega) (by omega))
  have hf2 : q2.GetFreeSpacePointer = f + ts - ns := by
    rw [hq2, GetFSP_SetFSP _ _ (by omega)]
    exact wrap32_small _ (by omega) (by omega)
  have hf4 : q4.GetFreeSpacePointer = f + ts - ns := by
    rw [← hf2]
    unfold GetFreeSpacePointer
    apply rd32_congr
    intro x h1 h2
    rw [hb4 x (by omega), hb3 x (by omega)]
  have hs4 : q4.GetTupleSize s = ns := by
    rw [hq4, GetTupleSize_SetTupleSize _ _ _ h0 (by omega)]
    exact wrap32_small _ (by omega) (by omega)
  have ho4 : q4.GetTupleOffset s = o := by
    rw [ho]
    unfold GetTupleOffset
    exact rd32_congr _ _ _ (fun x h1 h2 => hlow x (by omega) (by omega) (by omega))
  have hoth4 : ∀ j, 0 ≤ j → j < p.GetTupleCount → j ≠ s →
      q4.GetTupleSize j = p.GetTupleSize j ∧ q4.GetTupleOffset j = p.GetTupleOffset j := by
    intro j hj0 hj1 hjs
    constructor
    · unfold GetTupleSize
      exact rd32_congr _ _ _ (fun x h1 h2 => hlow x (by omega) (by omega) (by omega))
    · unfold GetTupleOffset
      exact rd32_congr _ _ _ (fun x h1 h2 => hlow x (by omega) (by omega) (by omega))
  have hcn : ((p.GetTupleCount.toNat : Nat) : Int) = p.GetTupleCount :=
    Int.toNat_of_nonneg hc0
  obtain ⟨g1, g2, g3⟩ := shiftLoop_spec (o + ts) (ts - ns) q4.GetTupleCount.toNat 0 q4
    (le_refl _) (by rw [hc4, hcn, hl4]; omega)
  rw [hc4, hcn, zero_add] at g2 g3
  rw [hc4] at g1 ⊢
  refine ⟨_, _, rfl, g1.trans hl4, ?_, ?_, ?_, ?_, ?_⟩
  · refine Eq.trans ?_ hc4
    unfold GetTupleCount
    exact rd32_congr _ _ _ (fun x h1 h2 => g2 x (by omega))
  · refine Eq.trans ?_ hf4
    unfold GetFreeSpacePointer
    exact rd32_congr _ _ _ (fun x h1 h2 => g2 x (by omega))
  · rw [(g3 s h0 hc).1]
    exact hs4
  · rw [(g3 s h0 hc).2, hs4, ho4]
    by_cases hz : ns = 0
    · rw [if_neg (by tauto), if_neg (by tauto)]
    · rw [if_pos ⟨hz, by omega⟩, if_pos hz, wrap32_small _ (by omega) (by omega)]
      omega
  · intro j hj0 hj1 hjs
    obtain ⟨e1, e2⟩ := g3 j hj0 hj1
    obtain ⟨f1, f2⟩ := hoth4 j hj0 hj1 hjs
    rw [e1, e2, f1, f2]
    exact ⟨rfl, rfl⟩

end TablePage
namespace TablePage

theorem TInv_UpdateTuple (cfg : Config) (hP : cfg.PAGE_SIZE < 2147483648) (p : TablePage)
    (inv : TInv cfg p) (new_tuple old_tuple : Tuple) (rid : RID) (h0 : 0 ≤ rid.slot_num)
    (p1 : TablePage) (old1 : Tuple) (b : Bool)
    (h : UpdateTuple p new_tuple old_tuple rid = Outcome.ok (p1, old1, b)) : TInv cfg p1 := by
  by_cases hc : rid.slot_num < p.GetTupleCount
  swap
  · unfold UpdateTuple at h
    simp only at h
    rw [if_pos (by omega)] at h
    cases h
    exact inv
  by_cases hts : 0 < p.GetTupleSize rid.slot_num
  swap
  · unfold UpdateTuple at h
    simp only at h
    rw [if_neg (by omega), if_pos (by omega)] at h
    cases h
    exact inv
  by_cases hfree : new_tuple.size - p.GetTupleSize rid.slot_num ≤ p.GetFreeSpaceSize
  swap
  · unfold UpdateTuple at h
    simp only at h
    rw [if_neg (by omega), if_neg (by omega), if_pos (by omega)] at h
    cases h
    exact inv
  obtain ⟨q, o1, e1, hl, hcnt, hf, hss, hso, hoth⟩ :=
    UpdateTuple_spec cfg hP p inv new_tuple old_tuple rid h0 hc hts hfree
  rw [e1] at h
  cases h
  have hfit := inv.slots_fit
  have hfsp := inv.fsp_le
  have hins := inv.slot_in rid.slot_num h0 hc (by omega)
  obtain ⟨ns, hns⟩ : ∃ ns, ns = new_tuple.size := ⟨_, rfl⟩
  have hns0 : 0 ≤ ns := by
    rw [hns]; unfold Tuple.size; omega
  have hfree1 : ns - p.GetTupleSize rid.slot_num ≤
      p.GetFreeSpacePointer - 24 - p.GetTupleCount * 8 := by
    rw [hns]; exact hfree
  rw [← hns] at hf hss hso hoth
  -- the new offset of another slot in use
  have key : ∀ j, 0 ≤ j → j < p.GetTupleCount → j ≠ rid.slot_num → p.GetTupleSize j ≠ 0 →
      p1.GetTupleSize j = p.GetTupleSize j ∧
      ((p.GetTupleOffset j + p.GetTupleSize j ≤ p.GetTupleOffset rid.slot_num ∧
          p.GetTupleOffset j - p.GetTupleSize j ≤ p.GetTupleOffset rid.slot_num ∧
          p1.GetTupleOffset j =
            p.GetTupleOffset j + (p.GetTupleSize rid.slot_num - ns)) ∨
       (p.GetTupleOffset rid.slot_num + p.GetTupleSize rid.slot_num ≤ p.GetTupleOffset j ∧
          p1.GetTupleOffset j = p.GetTupleOffset j)) := by
    intro j hj0 hj1 hjs hsj
    obtain ⟨f1, f2⟩ := hoth j hj0 hj1 hjs
    refine ⟨f1, ?_⟩
    have hinj := inv.slot_in j hj0 hj1 hsj
    have hd := inv.disjoint rid.slot_num j h0 hc hj0 hj1 (fun hh => hjs hh.symm)
      (by omega) hsj
    by_cases hlt : p.GetTupleOffset j <
        p.GetTupleOffset rid.slot_num + p.GetTupleSize rid.slot_num
    · left
      rw [f2, if_pos ⟨hsj, hlt⟩]
      refine ⟨by omega, by omega, wrap32_small _ (by omega) (by omega)⟩
    · right
      rw [f2, if_neg (by tauto)]
      exact ⟨by omega, rfl⟩
  refine ⟨hl.trans inv.len, by rw [hcnt]; exact inv.count_nonneg, by rw [hcnt, hf]; omega,
    by rw [hf]; omega, ?_, ?_⟩
  · intro j hj0 hj1 hj2
    rw [hcnt] at hj1
    by_cases hjs : j = rid.slot_num
    · rw [hjs] at hj2 ⊢
      rw [hss] at hj2
      rw [hss, hso, if_pos hj2, hf]
      omega
    · have hsj : p.GetTupleSize j ≠ 0 := by
        rw [← (hoth j hj0 hj1 hjs).1]; exact hj2
      obtain ⟨f1, f2⟩ := key j hj0 hj1 hjs hsj
      have hinj := inv.slot_in j hj0 hj1 hsj
      rw [f1, hf]
      rcases f2 with ⟨a, a1, b⟩ | ⟨a, b⟩ <;> rw [b] <;> omega
  · intro j k hj0 hj1 hk0 hk1 hjk hj2 hk2
    rw [hcnt] at hj1 hk1
    by_cases hjs : j = rid.slot_num
    · have hks : k ≠ rid.slot_num := fun hh => hjk (hjs.trans hh.symm)
      have hsk : p.GetTupleSize k ≠ 0 := by
        rw [← (hoth k hk0 hk1 hks).1]; exact hk2
      obtain ⟨g1, g2⟩ := key k hk0 hk1 hks hsk
      rw [hjs] at hj2 ⊢
      rw [hss] at hj2
      rw [hss, hso, if_pos hj2, g1]
      rcases g2 with ⟨a, a1, b⟩ | ⟨a, b⟩ <;> rw [b] <;> omega
    · have hsj : p.GetTupleSize j ≠ 0 := by
        rw [← (hoth j hj0 hj1 hjs).1]; exact hj2
      obtain ⟨f1, f2⟩ := key j hj0 hj1 hjs hsj
      by_cases hks : k = rid.slot_num
      · rw [hks] at hk2 ⊢
        rw [hss] at hk2
        rw [hss, hso, if_pos hk2, f1]
        rcases f2 with ⟨a, a1, b⟩ | ⟨a, b⟩ <;> rw [b] <;> omega
      · have hsk : p.GetTupleSize k ≠ 0 := by
          rw [← (hoth k hk0 hk1 hks).1]; exact hk2
        obtain ⟨g1, g2⟩ := key k hk0 hk1 hks hsk
        have hd := inv.disjoint j k hj0 hj1 hk0 hk1 hjk hsj hsk
        rw [f1, g1]
        rcases f2 with ⟨a, a1, b⟩ | ⟨a, b⟩ <;> rcases g2 with ⟨c, c1, d⟩ | ⟨c, d⟩ <;>
          rw [b, d] <;> omega

/-- Every table page reached from `Init` is well formed. -/
theorem TPReachable_TInv (cfg : Config) (h24 : 24 ≤ cfg.PAGE_SIZE)
    (hP : cfg.PAGE_SIZE < 2147483648) (p : TablePage) (h : TPReachable cfg p) :
    TInv cfg p := by
  induction h with
  | init p page_id prev_page_id hl => exact TInv_Init cfg h24 hP p hl page_id prev_page_id
  | insert p tuple rid p1 rid1 b _ h ih => exact TInv_InsertTuple cfg hP p ih tuple rid p1 rid1 b h
  | markDelete p rid _ h0 ih => exact TInv_MarkDelete cfg hP p ih rid h0
  | update p new_tuple old_tuple rid p1 old1 b _ h0 h ih =>
    exact TInv_UpdateTuple cfg hP p ih new_tuple old_tuple rid h0 p1 old1 b h
  | applyDelete p rid p1 _ h0 h ih => exact TInv_ApplyDelete cfg hP p ih rid h0 p1 h
  | rollbackDelete p rid p1 _ h0 h ih => exact TInv_RollbackDelete cfg hP p ih rid h0 p1 h
  | setLSN p lsn _ ih => exact TInv_SetLSN cfg p ih lsn
  | setPrevPageId p id _ ih => exact TInv_SetPrevPageId cfg p ih id
  | setNextPageId p id _ ih => exact TInv_SetNextPageId cfg p ih id

end TablePage
namespace TablePage

/-- C29: with logging disabled, on a table page reached from `Init` by table page
calls (page of `PAGE_SIZE` bytes, 24 ≤ `PAGE_SIZE` < 2^31): if `InsertTuple`
returns true, then `GetTuple` of the rid it stored returns true with the bytes of
the inserted tuple, and `GetTuple` of every other slot of the page (record ids
name slots, numbered from 0) returns what it returned before; if `InsertTuple`
returns false the page is unchanged. -/
theorem C29_insert_tuple_then_get_tuple (cfg : Config) (h24 : 24 ≤ cfg.PAGE_SIZE)
    (hP : cfg.PAGE_SIZE < 2147483648) (p : TablePage) (hr : TPReachable cfg p)
    (tuple : Tuple) (rid : RID) (p1 : TablePage) (rid1 : RID) (b : Bool)
    (h : InsertTuple p tuple rid = Outcome.ok (p1, rid1, b)) :
    (b = true →
      (∀ t, GetTuple p1 rid1 t = (⟨tuple.data, rid1, true⟩, true)) ∧
      (∀ r t, 0 ≤ r.slot_num → r.slot_num ≠ rid1.slot_num →
        GetTuple p1 r t = GetTuple p r t)) ∧
    (b = false → p1 = p) := by
  have inv := TPReachable_TInv cfg h24 hP p hr
  have hs : 0 < tuple.size := by
    by_contra hs
    unfold InsertTuple at h
    rw [if_neg hs] at h
    cases h
  rcases InsertTuple_spec cfg hP p inv tuple rid hs with ⟨r, h1⟩ | ⟨q, i, h1, a0, a1, a2, a3,
    hl, hc, hf, hfit, hsz, hoff, hoth, hd, hb1, hb2⟩
  · rw [h1] at h
    cases h
    constructor
    · intro hh
      cases hh
    · intro _
      rfl
  · rw [h1] at h
    cases h
    refine ⟨fun _ => ⟨?_, ?_⟩, fun hh => by cases hh⟩
    · intro t
      have c1 : ¬ i ≥ p1.GetTupleCount := by
        rw [hc]; split <;> omega
      have c2 : ¬ p1.GetTupleSize i ≤ 0 := by
        rw [hsz]; omega
      unfold GetTuple
      simp only
      rw [if_neg c1, if_neg c2, hsz, hoff, hd]
    · intro r t hr0 hri
      simp only at hri
      by_cases hrc : r.slot_num < p.GetTupleCount
      · obtain ⟨e1, e2⟩ := hoth r.slot_num hr0 hrc hri
        have c1 : ¬ r.slot_num ≥ p1.GetTupleCount := by
          rw [hc]; split <;> omega
        have c2 : ¬ r.slot_num ≥ p.GetTupleCount := by omega
        unfold GetTuple
        simp only
        rw [if_neg c1, if_neg c2, e1, e2]
        by_cases hpos : p.GetTupleSize r.slot_num ≤ 0
        · simp only [if_pos hpos]
        · simp only [if_neg hpos]
          have hin := inv.slot_in r.slot_num hr0 hrc (by omega)
          rw [rdBytes_congr p1.data p.data _ _ (fun x h1 _ => hb1 x (by omega))]
      · have c1 : r.slot_num ≥ p1.GetTupleCount := by
          rw [hc]; split <;> omega
        have c2 : r.slot_num ≥ p.GetTupleCount := by omega
        unfold GetTuple
        simp only
        rw [if_pos c1, if_pos c2]

/-- C30: with logging disabled, on a table page reached from `Init` by table page
calls (page of `PAGE_SIZE` bytes, 24 ≤ `PAGE_SIZE` < 2^31), for a slot that holds
a tuple or a tuple marked as deleted (size not 0): `ApplyDelete` returns, after it
the slot has size 0 and `GetTuple` of it returns false, the free space pointer has
grown by the size of the deleted tuple, the tuple count is the same, and
`GetTuple` of every other slot returns what it returned before. -/
theorem C30_apply_delete_frees_slot (cfg : Config) (h24 : 24 ≤ cfg.PAGE_SIZE)
    (hP : cfg.PAGE_SIZE < 2147483648) (p : TablePage) (hr : TPReachable cfg p) (rid : RID)
    (h0 : 0 ≤ rid.slot_num) (hc : rid.slot_num < p.GetTupleCount)
    (hsz : p.GetTupleSize rid.slot_num ≠ 0) :
    ∃ p1, ApplyDelete p rid = Outcome.ok p1 ∧
      p1.GetTupleSize rid.slot_num = 0 ∧
      (∀ t, GetTuple p1 rid t = (t, false)) ∧
      p1.GetFreeSpacePointer = p.GetFreeSpacePointer + |p.GetTupleSize rid.slot_num| ∧
      p1.GetTupleCount = p.GetTupleCount ∧
      ∀ r t, 0 ≤ r.slot_num → r.slot_num ≠ rid.slot_num →
        GetTuple p1 r t = GetTuple p r t := by
  have inv := TPReachable_TInv cfg h24 hP p hr
  have hins := inv.slot_in rid.slot_num h0 hc hsz
  obtain ⟨z, hz⟩ : ∃ z, z = (if p.GetTupleSize rid.slot_num < 0 then
    -p.GetTupleSize rid.slot_num else p.GetTupleSize rid.slot_num) := ⟨_, rfl⟩
  have hza : |p.GetTupleSize rid.slot_num| = z := by
    rw [hz]
    split
    · exact abs_of_neg (by assumption)
    · exact abs_of_nonneg (by omega)
  have hzs : (z = p.GetTupleSize rid.slot_num ∨ z = -p.GetTupleSize rid.slot_num) ∧ 0 < z := by
    rw [hz]; split <;> omega
  obtain ⟨q, e1, hl, hcnt, hf, hss, hoth, -, hb⟩ :=
    ApplyDelete_spec cfg hP p inv rid h0 hc hins.1 z hz
  have hfit := inv.slots_fit
  have hc0 := inv.count_nonneg
  refine ⟨q, e1, hss, ?_, by rw [hf, hza], hcnt, ?_⟩
  · intro t
    unfold GetTuple
    simp only
    rw [hss]
    split
    · rfl
    · rfl
  · intro r t hr0 hrs
    clear hza
    unfold GetTuple
    simp only
    rw [hcnt]
    by_cases hrc : r.slot_num < p.GetTupleCount
    · obtain ⟨f1, f2⟩ := hoth r.slot_num hr0 hrc hrs
      have c2 : ¬ r.slot_num ≥ p.GetTupleCount := by omega
      simp only [if_neg c2]
      rw [f1]
      by_cases hpos : p.GetTupleSize r.slot_num ≤ 0
      · simp only [if_pos hpos]
      · simp only [if_neg hpos]
        have hin := inv.slot_in r.slot_num hr0 hrc (by omega)
        have hd := inv.disjoint rid.slot_num r.slot_num h0 hc hr0 hrc (fun hh => hrs hh.symm)
          hsz (by omega)
        by_cases hlt : p.GetTupleOffset r.slot_num < p.GetTupleOffset rid.slot_num
        · rw [f2, if_pos ⟨by omega, hlt⟩, wrap32_small _ (by omega) (by omega)]
          have e : rdBytes q.data (p.GetTupleOffset r.slot_num + z) (p.GetTupleSize r.slot_num)
              = rdBytes p.data (p.GetTupleOffset r.slot_num) (p.GetTupleSize r.slot_num) := by
            apply rdBytes_ext
            intro i hi0 hi1
            have := (hb (p.GetTupleOffset r.slot_num + i) (by omega)).1 (by omega)
            rw [← this]
            congr 1
            omega
          rw [e]
        · rw [f2, if_neg (fun hh => hlt hh.2)]
          have e : rdBytes q.data (p.GetTupleOffset r.slot_num) (p.GetTupleSize r.slot_num)
              = rdBytes p.data (p.GetTupleOffset r.slot_num) (p.GetTupleSize r.slot_num) := by
            apply rdBytes_congr
            intro x h1 _
            exact (hb x (by omega)).2 (by omega)
          rw [e]
    · have c2 : r.slot_num ≥ p.GetTupleCount := by omega
      simp only [if_pos c2]

end TablePage
namespace TablePage

theorem demoTablePage_reachable : TPReachable demoPageConfig demoTablePage :=
  TPReachable.init _ 7 (-1) rfl

theorem demoTablePage_insert :
    InsertTuple demoTablePage ⟨[1, 2, 3], ⟨0, 0⟩, false⟩ ⟨0, 0⟩ =
      Outcome.ok (demoTablePage1, ⟨7, 0⟩, true) := by decide

theorem demoTablePage1_reachable : TPReachable demoPageConfig demoTablePage1 :=
  TPReachable.insert _ _ _ _ _ _ demoTablePage_reachable demoTablePage_insert

theorem C29_insert_tuple_then_get_tuple_witness :
    (TPReachable demoPageConfig demoTablePage ∧
      InsertTuple demoTablePage ⟨[1, 2, 3], ⟨0, 0⟩, false⟩ ⟨0, 0⟩ =
        Outcome.ok (demoTablePage1, ⟨7, 0⟩, true)) ∧
    ((true = true →
      (∀ t, GetTuple demoTablePage1 ⟨7, 0⟩ t = (⟨[1, 2, 3], ⟨7, 0⟩, true⟩, true)) ∧
      (∀ r t, 0 ≤ r.slot_num → r.slot_num ≠ (⟨7, 0⟩ : RID).slot_num →
        GetTuple demoTablePage1 r t = GetTuple demoTablePage r t)) ∧
    (true = false → demoTablePage1 = demoTablePage)) :=
  ⟨⟨demoTablePage_reachable, demoTablePage_insert⟩,
    C29_insert_tuple_then_get_tuple demoPageConfig (by decide) (by decide) demoTablePage
      demoTablePage_reachable ⟨[1, 2, 3], ⟨0, 0⟩, false⟩ ⟨0, 0⟩ demoTablePage1 ⟨7, 0⟩ true
      demoTablePage_insert⟩

theorem C30_apply_delete_frees_slot_witness :
    (TPReachable demoPageConfig demoTablePage1 ∧ (0 : Int) ≤ (⟨7, 0⟩ : RID).slot_num ∧
      (⟨7, 0⟩ : RID).slot_num < demoTablePage1.GetTupleCount ∧
      demoTablePage1.GetTupleSize (⟨7, 0⟩ : RID).slot_num ≠ 0) ∧
    ∃ p1, ApplyDelete demoTablePage1 ⟨7, 0⟩ = Outcome.ok p1 ∧
      p1.GetTupleSize (⟨7, 0⟩ : RID).slot_num = 0 ∧
      (∀ t, GetTuple p1 ⟨7, 0⟩ t = (t, false)) ∧
      p1.GetFreeSpacePointer = demoTablePage1.GetFreeSpacePointer +
        |demoTablePage1.GetTupleSize (⟨7, 0⟩ : RID).slot_num| ∧
      p1.GetTupleCount = demoTablePage1.GetTupleCount ∧
      ∀ r t, 0 ≤ r.slot_num → r.slot_num ≠ (⟨7, 0⟩ : RID).slot_num →
        GetTuple p1 r t = GetTuple demoTablePage1 r t :=
  ⟨⟨demoTablePage1_reachable, by decide, by decide, by decide⟩,
    C30_apply_delete_frees_slot demoPageConfig (by decide) (by decide) demoTablePage1
      demoTablePage1_reachable ⟨7, 0⟩ (by decide) (by decide) (by decide)⟩

end TablePage

theorem getD_append_int (xs ys : List Nat) (i : Nat) :
    (xs ++ ys).getD i 0 = if i < xs.length then xs.getD i 0 else ys.getD (i - xs.length) 0 := by
  rw [List.getD_eq_getElem?_getD, List.getD_eq_getElem?_getD, List.getD_eq_getElem?_getD]
  split
  · rename_i h
    rw [List.getElem?_append_left h]
  · rename_i h
    rw [List.getElem?_append_right (by omega)]

/-- Two adjacent writes are one write of the concatenation. -/
theorem wrBytes_wrBytes (d : List Nat) (a : Int) (xs : List Nat) (b : Int) (ys : List Nat)
    (h0 : 0 ≤ a) (hb : b = a + xs.length) (h1 : b + ys.length ≤ d.length) :
    wrBytes (wrBytes d a xs) b ys = wrBytes d a (xs ++ ys) := by
  apply eq_of_getByte
  · rw [length_wrBytes, length_wrBytes, length_wrBytes]
  · intro x hx0 hx1
    rw [getByte_wrBytes_fit (wrBytes d a xs) b ys (by omega) (by rw [length_wrBytes]; exact h1),
      getByte_wrBytes_fit d a xs h0 (by omega),
      getByte_wrBytes_fit d a (xs ++ ys) h0 (by rw [List.length_append]; push_cast; omega)]
    rw [List.length_append, getD_append_int]
    push_cast
    by_cases c1 : b ≤ x ∧ x < b + ys.length
    · rw [if_pos c1, if_pos (by omega), if_neg (by omega)]
      congr 1
      omega
    · rw [if_neg c1]
      by_cases c2 : a ≤ x ∧ x < a + xs.length
      · rw [if_pos c2, if_pos (by omega), if_pos (by omega)]
      · rw [if_neg c2, if_neg (by omega)]

theorem rdBytes_add (d : List Nat) (a : Int) (m n : Nat) :
    rdBytes d a ((m + n : Nat) : Int) = rdBytes d a m ++ rdBytes d (a + m) n := by
  unfold rdBytes
  simp only [Int.toNat_ofNat]
  rw [List.range_add, List.map_append, List.map_map]
  congr 1
  apply List.map_congr_left
  intro i _
  simp only [Function.comp]
  congr 1
  push_cast
  omega

/-- A read of a concatenation splits into the reads of its parts. -/
theorem rdBytes_append_inv (d : List Nat) (a : Int) (xs ys : List Nat)
    (h : rdBytes d a ((xs ++ ys).length : Nat) = xs ++ ys) :
    rdBytes d a (xs.length : Nat) = xs ∧ rdBytes d (a + xs.length) (ys.length : Nat) = ys := by
  rw [List.length_append, rdBytes_add] at h
  exact List.append_inj h (by rw [length_rdBytes]; simp)

theorem rd32_of_rdBytes (d : List Nat) (a v : Int) (h : rdBytes d a (4 : Nat) = enc32 v) :
    rd32 d a = wrap32 v := by
  rw [← dec_enc32 v, ← h]
  unfold rd32
  have e : ∀ i : Nat, i < 4 → (rdBytes d a (4 : Nat)).getD i 0 = getByte d (a + i) := by
    intro i hi
    have := getByte_rdBytes d a (4 : Nat) i (by omega) (by push_cast; omega)
    rw [← this]
    unfold getByte
    rw [if_pos (by omega)]
    simp
  rw [e 0 (by norm_num), e 1 (by norm_num), e 2 (by norm_num), e 3 (by norm_num)]
  simp

theorem rdBytes_enc32_rd32 (d : List Nat) (a v : Int) (hv : isInt32 v)
    (h : rdBytes d a ((enc32 v).length : Nat) = enc32 v) : rd32 d a = v := by
  rw [rd32_of_rdBytes d a v h, wrap32_of_isInt32 v hv]
namespace LogRecord

theorem length_headerBytes (r : LogRecord) : r.headerBytes.length = 20 := rfl

theorem length_rid_bytes (rid : RID) : rid.bytes.length = 8 := rfl

theorem length_tuple_bytes (t : Tuple) : t.bytes.length = 4 + t.data.length := by
  unfold Tuple.bytes
  rw [List.length_append, length_enc32]

/-- The header as `writeHeader` lays it out. -/
theorem writeHeader_eq (r : LogRecord) (buf : List Nat) (pos : Int) (h0 : 0 ≤ pos)
    (h1 : pos + 20 ≤ buf.length) :
    r.writeHeader buf pos = wrBytes buf pos r.headerBytes := by
  unfold writeHeader headerBytes wr32
  rw [wrBytes_wrBytes _ _ _ _ _ h0 (by rw [length_enc32]; norm_num)
      (by rw [length_enc32]; push_cast; omega),
    wrBytes_wrBytes _ _ _ _ _ h0 (by simp only [List.length_append, length_enc32]; push_cast; omega)
      (by rw [length_enc32]; push_cast; omega),
    wrBytes_wrBytes _ _ _ _ _ h0 (by simp only [List.length_append, length_enc32]; push_cast; omega)
      (by rw [length_enc32]; push_cast; omega),
    wrBytes_wrBytes _ _ _ _ _ h0 (by simp only [List.length_append, length_enc32]; push_cast; omega)
      (by rw [length_enc32]; push_cast; omega)]

/-- A rid written after `xs`. -/
theorem write_rid_eq (buf : List Nat) (a : Int) (xs : List Nat) (pos : Int) (rid : RID)
    (h0 : 0 ≤ a) (hp : pos = a + xs.length) (h1 : pos + 8 ≤ buf.length) :
    RID.write (wrBytes buf a xs) pos rid = wrBytes buf a (xs ++ rid.bytes) := by
  unfold RID.write RID.bytes wr32
  rw [wrBytes_wrBytes _ _ _ _ _ h0 hp (by rw [length_enc32]; push_cast; omega),
    wrBytes_wrBytes _ _ _ _ _ h0 (by simp only [List.length_append, length_enc32]; push_cast; omega)
      (by rw [length_enc32]; push_cast; omega), List.append_assoc]

/-- A tuple serialized after `xs`. -/
theorem serialize_eq (buf : List Nat) (a : Int) (xs : List Nat) (pos : Int) (t : Tuple)
    (h0 : 0 ≤ a) (hp : pos = a + xs.length) (h1 : pos + 4 + t.data.length ≤ buf.length) :
    t.SerializeTo (wrBytes buf a xs) pos = wrBytes buf a (xs ++ t.bytes) := by
  unfold Tuple.SerializeTo Tuple.bytes wr32
  rw [wrBytes_wrBytes _ _ _ _ _ h0 hp (by rw [length_enc32]; push_cast; omega),
    wrBytes_wrBytes _ _ _ _ _ h0 (by simp only [List.length_append, length_enc32]; push_cast; omega)
      (by omega), List.append_assoc]

end LogRecord

namespace LogManager

/-- The bytes that `AppendLogRecord` writes are the layout of the stamped record,
written at the old offset. -/
theorem appendBody_buffer (l : LogManager) (r : LogRecord) (h0 : 0 ≤ l.logBufferOffset)
    (h1 : l.logBufferOffset + ({ r with lsn := l.next_lsn } : LogRecord).bytes.length ≤
      l.log_buffer.length) :
    (appendBody l r).1.log_buffer =
      wrBytes l.log_buffer l.logBufferOffset ({ r with lsn := l.next_lsn } : LogRecord).bytes := by
  obtain ⟨r1, hr1⟩ : ∃ r1 : LogRecord, r1 = { r with lsn := l.next_lsn } := ⟨_, rfl⟩
  rw [← hr1] at h1 ⊢
  have hb : (appendBody l r).1.log_buffer =
      (if r1.log_record_type = LogRecordType.INSERT then
        r1.insert_tuple.SerializeTo
          (RID.write (r1.writeHeader l.log_buffer l.logBufferOffset)
            (l.logBufferOffset + LogRecord.HEADER_SIZE) r1.insert_rid)
          (l.logBufferOffset + LogRecord.HEADER_SIZE + 8)
      else if r1.log_record_type = LogRecordType.MARKDELETE ∨
          r1.log_record_type = LogRecordType.APPLYDELETE ∨
          r1.log_record_type = LogRecordType.ROLLBACKDELETE then
        r1.delete_tuple.SerializeTo
          (RID.write (r1.writeHeader l.log_buffer l.logBufferOffset)
            (l.logBufferOffset + LogRecord.HEADER_SIZE) r1.delete_rid)
          (l.logBufferOffset + LogRecord.HEADER_SIZE + 8)
      else if r1.log_record_type = LogRecordType.UPDATE then
        r1.new_tuple.SerializeTo
          (r1.old_tuple.SerializeTo
            (RID.write (r1.writeHeader l.log_buffer l.logBufferOffset)
              (l.logBufferOffset + LogRecord.HEADER_SIZE) r1.update_rid)
            (l.logBufferOffset + LogRecord.HEADER_SIZE + 8))
          (l.logBufferOffset + LogRecord.HEADER_SIZE + 8 + (r1.old_tuple.size + 4))
      else if r1.log_record_type = LogRecordType.NEWPAGE then
        wr32 (wr32 (r1.writeHeader l.log_buffer l.logBufferOffset)
          (l.logBufferOffset + LogRecord.HEADER_SIZE) r1.prev_page_id)
          (l.logBufferOffset + LogRecord.HEADER_SIZE + 4) r1.page_id
      else r1.writeHeader l.log_buffer l.logBufferOffset) := by
    rw [hr1]; rfl
  rw [hb]
  have hlen : r1.bytes.length = 20 + r1.payloadBytes.length := by
    unfold LogRecord.bytes
    rw [List.length_append, LogRecord.length_headerBytes]
  rw [hlen] at h1
  push_cast at h1
  have hh := LogRecord.writeHeader_eq r1 l.log_buffer l.logBufferOffset h0 (by omega)
  have hH : LogRecord.HEADER_SIZE = 20 := rfl
  rw [hh, hH]
  unfold LogRecord.bytes
  unfold LogRecord.payloadBytes at h1 ⊢
  by_cases c1 : r1.log_record_type = LogRecordType.INSERT
  · rw [if_pos c1] at h1 ⊢
    rw [if_pos c1]
    rw [List.length_append, LogRecord.length_rid_bytes, LogRecord.length_tuple_bytes] at h1
    push_cast at h1
    rw [LogRecord.write_rid_eq _ _ _ _ _ h0 (by rw [LogRecord.length_headerBytes]; norm_num)
        (by omega),
      LogRecord.serialize_eq _ _ _ _ _ h0
        (by rw [List.length_append, LogRecord.length_headerBytes, LogRecord.length_rid_bytes]
            push_cast; omega) (by omega), List.append_assoc]
  · rw [if_neg c1] at h1 ⊢
    rw [if_neg c1]
    by_cases c2 : r1.log_record_type = LogRecordType.MARKDELETE ∨
        r1.log_record_type = LogRecordType.APPLYDELETE ∨
        r1.log_record_type = LogRecordType.ROLLBACKDELETE
    · rw [if_pos c2] at h1 ⊢
      rw [if_pos c2]
      rw [List.length_append, LogRecord.length_rid_bytes, LogRecord.length_tuple_bytes] at h1
      push_cast at h1
      rw [LogRecord.write_rid_eq _ _ _ _ _ h0 (by rw [LogRecord.length_headerBytes]; norm_num)
          (by omega),
        LogRecord.serialize_eq _ _ _ _ _ h0
          (by rw [List.length_append, LogRecord.length_headerBytes, LogRecord.length_rid_bytes]
              push_cast; omega) (by omega), List.append_assoc]
    · rw [if_neg c2] at h1 ⊢
      rw [if_neg c2]
      by_cases c3 : r1.log_record_type = LogRecordType.UPDATE
      · rw [if_pos c3] at h1 ⊢
        rw [if_pos c3]
        rw [List.length_append, List.length_append, LogRecord.length_rid_bytes,
          LogRecord.length_tuple_bytes, LogRecord.length_tuple_bytes] at h1
        push_cast at h1
        have hsz : r1.old_tuple.size = r1.old_tuple.data.length := rfl
        rw [LogRecord.write_rid_eq _ _ _ _ _ h0 (by rw [LogRecord.length_headerBytes]; norm_num)
            (by omega),
          LogRecord.serialize_eq _ _ _ _ _ h0
            (by rw [List.length_append, LogRecord.length_headerBytes, LogRecord.length_rid_bytes]
                push_cast; omega) (by omega),
          LogRecord.serialize_eq _ _ _ _ _ h0
            (by rw [List.length_append, List.length_append, LogRecord.length_headerBytes,
                  LogRecord.length_rid_bytes, LogRecord.length_tuple_bytes]
                unfold Tuple.size
                push_cast; omega) (by omega)]
        simp only [List.append_assoc]
      · rw [if_neg c3] at h1 ⊢
        rw [if_neg c3]
        by_cases c4 : r1.log_record_type = LogRecordType.NEWPAGE
        · rw [if_pos c4] at h1 ⊢
          rw [if_pos c4]
          rw [List.length_append, length_enc32, length_enc32] at h1
          push_cast at h1
          unfold wr32
          rw [wrBytes_wrBytes _ _ _ _ _ h0 (by rw [LogRecord.length_headerBytes]; norm_num)
              (by rw [length_enc32]; push_cast; omega),
            wrBytes_wrBytes _ _ _ _ _ h0
              (by rw [List.length_append, LogRecord.length_headerBytes, length_enc32]
                  push_cast; omega)
              (by rw [length_enc32]; push_cast; omega), List.append_assoc]
        · rw [if_neg c4] at h1 ⊢
          rw [if_neg c4, List.append_nil]

end LogManager
/-- A read of a concatenation gives its middle part. -/
theorem rdBytes_mid (d : List Nat) (a : Int) (xs zs ys : List Nat) (b : Int)
    (hb : b = a + xs.length)
    (h : rdBytes d a ((xs ++ zs ++ ys).length : Nat) = xs ++ zs ++ ys) :
    rdBytes d b (zs.length : Nat) = zs := by
  have h1 := (rdBytes_append_inv d a (xs ++ zs) ys h).1
  have h2 := (rdBytes_append_inv d a xs zs h1).2
  rw [hb]
  exact h2

theorem rd32_mid (d : List Nat) (a : Int) (xs : List Nat) (v : Int) (ys : List Nat) (b : Int)
    (hb : b = a + xs.length) (hv : isInt32 v)
    (h : rdBytes d a ((xs ++ enc32 v ++ ys).length : Nat) = xs ++ enc32 v ++ ys) :
    rd32 d b = v :=
  rdBytes_enc32_rd32 d b v hv (rdBytes_mid d a xs (enc32 v) ys b hb h)

theorem rid_mid (d : List Nat) (a : Int) (xs : List Nat) (rid : RID) (ys : List Nat) (b : Int)
    (hb : b = a + xs.length) (hv : isInt32 rid.page_id ∧ isInt32 rid.slot_num)
    (h : rdBytes d a ((xs ++ rid.bytes ++ ys).length : Nat) = xs ++ rid.bytes ++ ys) :
    RID.read d b = rid := by
  unfold RID.bytes at h
  have h1 : rd32 d b = rid.page_id := by
    apply rd32_mid d a xs rid.page_id (enc32 rid.slot_num ++ ys) b hb hv.1
    simp only [List.append_assoc] at h ⊢
    exact h
  have h2 : rd32 d (b + 4) = rid.slot_num := by
    apply rd32_mid d a (xs ++ enc32 rid.page_id) rid.slot_num ys (b + 4)
      (by rw [List.length_append, length_enc32]; push_cast; omega) hv.2
    simp only [List.append_assoc] at h ⊢
    exact h
  unfold RID.read
  rw [h1, h2]

theorem tuple_mid (d : List Nat) (a : Int) (xs : List Nat) (t t0 : Tuple) (ys : List Nat)
    (b : Int) (hb : b = a + xs.length) (hv : isInt32 t.size)
    (h : rdBytes d a ((xs ++ t.bytes ++ ys).length : Nat) = xs ++ t.bytes ++ ys) :
    (t0.DeserializeFrom d b).data = t.data := by
  unfold Tuple.bytes at h
  have h1 : rd32 d b = t.size := by
    apply rd32_mid d a xs t.size (t.data ++ ys) b hb hv
    simp only [List.append_assoc] at h ⊢
    exact h
  have h2 : rdBytes d (b + 4) (t.data.length : Nat) = t.data := by
    apply rdBytes_mid d a (xs ++ enc32 t.size) t.data ys (b + 4)
      (by rw [List.length_append, length_enc32]; push_cast; omega)
    simp only [List.append_assoc] at h ⊢
    exact h
  unfold Tuple.DeserializeFrom
  simp only
  rw [h1]
  exact h2

/-- What `DeserializeLogRecord` makes of the layout of a record. -/
theorem Deserialize_bytes (LOG_BUFFER_SIZE : Int) (buf : List Nat) (data : Int)
    (r r0 : LogRecord) (hsize : r.size = r.bytes.length)
    (hfit : data + r.size ≤ LOG_BUFFER_SIZE) (hint : r.IsInt)
    (hty : LogRecord.ValidType r.log_record_type)
    (hread : rdBytes buf data (r.bytes.length : Nat) = r.bytes) :
    ∃ r2, DeserializeLogRecord LOG_BUFFER_SIZE buf data r0 = Outcome.ok (r2, true) ∧
      LogRecord.Reproduces r r2 := by
  have hlen : r.bytes.length = 20 + r.payloadBytes.length := by
    unfold LogRecord.bytes
    rw [List.length_append, LogRecord.length_headerBytes]
  have hH : LogRecord.HEADER_SIZE = 20 := rfl
  have hrd : ∀ xs ys v b, r.bytes = xs ++ enc32 v ++ ys → b = data + xs.length → isInt32 v →
      rd32 buf b = v := by
    intro xs ys v b e hb hv
    rw [e] at hread
    exact rd32_mid buf data xs v ys b hb hv hread
  have e1 : rd32 buf data = r.size :=
    hrd [] (enc32 r.lsn ++ enc32 r.txn_id ++ enc32 r.prev_lsn ++ enc32 r.log_record_type.val
      ++ r.payloadBytes) r.size data
      (by simp [LogRecord.bytes, LogRecord.headerBytes]) (by simp) hint.size
  have e2 : rd32 buf (data + 4) = r.lsn :=
    hrd (enc32 r.size) (enc32 r.txn_id ++ enc32 r.prev_lsn ++ enc32 r.log_record_type.val
      ++ r.payloadBytes) r.lsn _
      (by simp [LogRecord.bytes, LogRecord.headerBytes]) (by simp [length_enc32]) hint.lsn
  have e3 : rd32 buf (data + 8) = r.txn_id :=
    hrd (enc32 r.size ++ enc32 r.lsn) (enc32 r.prev_lsn ++ enc32 r.log_record_type.val
      ++ r.payloadBytes) r.txn_id _
      (by simp [LogRecord.bytes, LogRecord.headerBytes]) (by simp [length_enc32]) hint.txn_id
  have e4 : rd32 buf (data + 12) = r.prev_lsn :=
    hrd (enc32 r.size ++ enc32 r.lsn ++ enc32 r.txn_id) (enc32 r.log_record_type.val
      ++ r.payloadBytes) r.prev_lsn _
      (by simp [LogRecord.bytes, LogRecord.headerBytes]) (by simp [length_enc32]) hint.prev_lsn
  have e5 : rd32 buf (data + 16) = r.log_record_type.val :=
    hrd (enc32 r.size ++ enc32 r.lsn ++ enc32 r.txn_id ++ enc32 r.prev_lsn) r.payloadBytes
      r.log_record_type.val _
      (by simp [LogRecord.bytes, LogRecord.headerBytes]) (by simp [length_enc32]) hint.type
  have hr : r0.readHeader buf data =
      { r0 with size := r.size, lsn := r.lsn, txn_id := r.txn_id, prev_lsn := r.prev_lsn,
                log_record_type := r.log_record_type } := by
    unfold LogRecord.readHeader
    rw [e1, e2, e3, e4, e5]
  have hpos : 0 < r.size := by
    rw [hsize, hlen]; push_cast; omega
  unfold DeserializeLogRecord
  rw [if_neg (by rw [hH]; rw [hsize, hlen] at hfit; push_cast at hfit; omega), hr]
  simp only
  rw [if_neg (by omega), hH]
  -- the payload
  have hpay : ∀ p, r.payloadBytes = p →
      rdBytes buf data ((r.headerBytes ++ p).length : Nat) = r.headerBytes ++ p := by
    intro p hp
    rw [← hp]
    exact hread
  by_cases c1 : r.log_record_type = LogRecordType.INSERT
  · rw [if_pos c1]
    have hp := hpay _ (by unfold LogRecord.payloadBytes; rw [if_pos c1])
    refine ⟨_, rfl, rfl, rfl, rfl, rfl, rfl, ?_, ?_, ?_, ?_⟩
    · intro _
      refine ⟨rid_mid buf data r.headerBytes r.insert_rid r.insert_tuple.bytes _
          (by rw [LogRecord.length_headerBytes]; norm_num) hint.insert_rid
          (by simp only [List.append_assoc] at hp ⊢; exact hp), ?_⟩
      exact tuple_mid buf data (r.headerBytes ++ r.insert_rid.bytes) r.insert_tuple _ [] _
        (by rw [List.length_append, LogRecord.length_headerBytes, LogRecord.length_rid_bytes]
            push_cast; omega) hint.insert_tuple
        (by simp only [List.append_assoc, List.append_nil] at hp ⊢; exact hp)
    · intro h; rw [c1] at h; exact absurd h (by decide)
    · intro h; rw [c1] at h; exact absurd h (by decide)
    · intro h; rw [c1] at h; exact absurd h (by decide)
  · rw [if_neg c1]
    by_cases c2 : r.log_record_type = LogRecordType.MARKDELETE ∨
        r.log_record_type = LogRecordType.APPLYDELETE ∨
        r.log_record_type = LogRecordType.ROLLBACKDELETE
    · rw [if_pos c2]
      have hp := hpay _ (by unfold LogRecord.payloadBytes; rw [if_neg c1, if_pos c2])
      refine ⟨_, rfl, rfl, rfl, rfl, rfl, rfl, ?_, ?_, ?_, ?_⟩
      · intro h; exact absurd h c1
      · intro _
        refine ⟨rid_mid buf data r.headerBytes r.delete_rid r.delete_tuple.bytes _
            (by rw [LogRecord.length_headerBytes]; norm_num) hint.delete_rid
            (by simp only [List.append_assoc] at hp ⊢; exact hp), ?_⟩
        exact tuple_mid buf data (r.headerBytes ++ r.delete_rid.bytes) r.delete_tuple _ [] _
          (by rw [List.length_append, LogRecord.length_headerBytes, LogRecord.length_rid_bytes]
              push_cast; omega) hint.delete_tuple
          (by simp only [List.append_assoc, List.append_nil] at hp ⊢; exact hp)
      · intro h; rw [h] at c2; exact absurd c2 (by decide)
      · intro h; rw [h] at c2; exact absurd c2 (by decide)
    · rw [if_neg c2]
      by_cases c3 : r.log_record_type = LogRecordType.UPDATE
      · rw [if_pos c3]
        have hp := hpay _ (by unfold LogRecord.payloadBytes; rw [if_neg c1, if_neg c2, if_pos c3])
        have hold : ∀ t0 : Tuple, (t0.DeserializeFrom buf (data + 20 + 8)).data
            = r.old_tuple.data := by
          intro t0
          exact tuple_mid buf data (r.headerBytes ++ r.update_rid.bytes) r.old_tuple _
            r.new_tuple.bytes _
            (by rw [List.length_append, LogRecord.length_headerBytes, LogRecord.length_rid_bytes]
                push_cast; omega) hint.old_tuple
            (by simp only [List.append_assoc] at hp ⊢; exact hp)
        refine ⟨_, rfl, rfl, rfl, rfl, rfl, rfl, ?_, ?_, ?_, ?_⟩
        · intro h; exact absurd h c1
        · intro h; exact absurd h c2
        · intro _
          refine ⟨rid_mid buf data r.headerBytes r.update_rid
              (r.old_tuple.bytes ++ r.new_tuple.bytes) _
              (by rw [LogRecord.length_headerBytes]; norm_num) hint.update_rid
              (by simp only [List.append_assoc] at hp ⊢; exact hp), hold _, ?_⟩
          simp only
          apply tuple_mid buf data (r.headerBytes ++ r.update_rid.bytes ++ r.old_tuple.bytes)
            r.new_tuple _ [] _ _ hint.new_tuple
            (by simp only [List.append_assoc, List.append_nil] at hp ⊢; exact hp)
          rw [List.length_append, List.length_append, LogRecord.length_headerBytes,
            LogRecord.length_rid_bytes, LogRecord.length_tuple_bytes]
          unfold Tuple.size
          rw [hold]
          push_cast
          omega
        · intro h; rw [c3] at h; exact absurd h (by decide)
      · rw [if_neg c3]
        by_cases c4 : r.log_record_type = LogRecordType.BEGIN ∨
            r.log_record_type = LogRecordType.COMMIT ∨ r.log_record_type = LogRecordType.ABORT
        · rw [if_pos c4]
          refine ⟨_, rfl, rfl, rfl, rfl, rfl, rfl, ?_, ?_, ?_, ?_⟩
          · intro h; exact absurd h c1
          · intro h; exact absurd h c2
          · intro h; exact absurd h c3
          · intro h; rw [h] at c4; exact absurd c4 (by decide)
        · rw [if_neg c4]
          have c5 : r.log_record_type = LogRecordType.NEWPAGE := by
            unfold LogRecord.ValidType at hty
            rcases hty with h | h | h | h | h | h | h | h | h
            · exact absurd h c1
            · exact absurd (Or.inl h) c2
            · exact absurd (Or.inr (Or.inl h)) c2
            · exact absurd (Or.inr (Or.inr h)) c2
            · exact absurd h c3
            · exact absurd (Or.inl h) c4
            · exact absurd (Or.inr (Or.inl h)) c4
            · exact absurd (Or.inr (Or.inr h)) c4
            · exact h
          rw [if_pos c5]
          have hp := hpay _ (by
            unfold LogRecord.payloadBytes; rw [if_neg c1, if_neg c2, if_neg c3, if_pos c5])
          refine ⟨_, rfl, rfl, rfl, rfl, rfl, rfl, ?_, ?_, ?_, ?_⟩
          · intro h; exact absurd h c1
          · intro h; exact absurd h c2
          · intro h; exact absurd h c3
          · intro _
            constructor
            · exact rd32_mid buf data r.headerBytes r.prev_page_id (enc32 r.page_id) _
                (by rw [LogRecord.length_headerBytes]; norm_num) hint.prev_page_id
                (by simp only [List.append_assoc] at hp ⊢; exact hp)
            · exact rd32_mid buf data (r.headerBytes ++ enc32 r.prev_page_id) r.page_id [] _
                (by rw [List.length_append, LogRecord.length_headerBytes, length_enc32]
                    push_cast; omega) hint.page_id
                (by simp only [List.append_assoc, List.append_nil] at hp ⊢; exact hp)
namespace LogRecord

theorem isInt32_small (v : Int) (h0 : 0 ≤ v) (h1 : v < 2147483648) : isInt32 v := ⟨by omega, h1⟩

theorem length_bytes (r : LogRecord) : r.bytes.length = 20 + r.payloadBytes.length := by
  unfold LogRecord.bytes
  rw [List.length_append, LogRecord.length_headerBytes]

theorem payload_insert (r : LogRecord) (h : r.log_record_type = LogRecordType.INSERT) :
    r.payloadBytes.length = 12 + r.insert_tuple.data.length := by
  unfold payloadBytes
  rw [if_pos h, List.length_append, length_rid_bytes, length_tuple_bytes]
  omega

theorem payload_delete (r : LogRecord)
    (h : r.log_record_type = LogRecordType.MARKDELETE ∨
      r.log_record_type = LogRecordType.APPLYDELETE ∨
      r.log_record_type = LogRecordType.ROLLBACKDELETE) :
    r.payloadBytes.length = 12 + r.delete_tuple.data.length := by
  have c1 : r.log_record_type ≠ LogRecordType.INSERT := by
    rcases h with h | h | h <;> rw [h] <;> decide
  unfold payloadBytes
  rw [if_neg c1, if_pos h, List.length_append, length_rid_bytes, length_tuple_bytes]
  omega

theorem payload_update (r : LogRecord) (h : r.log_record_type = LogRecordType.UPDATE) :
    r.payloadBytes.length = 16 + r.old_tuple.data.length + r.new_tuple.data.length := by
  unfold payloadBytes
  rw [h, if_neg (by decide), if_neg (by decide), if_pos rfl, List.length_append,
    List.length_append, length_rid_bytes, length_tuple_bytes, length_tuple_bytes]
  omega

theorem payload_txn (r : LogRecord)
    (h : r.log_record_type = LogRecordType.BEGIN ∨ r.log_record_type = LogRecordType.COMMIT ∨
      r.log_record_type = LogRecordType.ABORT) :
    r.payloadBytes.length = 0 := by
  unfold payloadBytes
  rcases h with h | h | h <;>
    rw [h, if_neg (by decide), if_neg (by decide), if_neg (by decide), if_neg (by decide)] <;> rfl

theorem valid_types : ValidType LogRecordType.INSERT ∧ ValidType LogRecordType.MARKDELETE ∧
    ValidType LogRecordType.APPLYDELETE ∧ ValidType LogRecordType.ROLLBACKDELETE ∧
    ValidType LogRecordType.UPDATE ∧ ValidType LogRecordType.BEGIN ∧
    ValidType LogRecordType.COMMIT ∧ ValidType LogRecordType.ABORT ∧
    ValidType LogRecordType.NEWPAGE :=
  ⟨Or.inl rfl, Or.inr (Or.inl rfl), Or.inr (Or.inr (Or.inl rfl)),
    Or.inr (Or.inr (Or.inr (Or.inl rfl))), Or.inr (Or.inr (Or.inr (Or.inr (Or.inl rfl)))),
    Or.inr (Or.inr (Or.inr (Or.inr (Or.inr (Or.inl rfl))))),
    Or.inr (Or.inr (Or.inr (Or.inr (Or.inr (Or.inr (Or.inl rfl)))))),
    Or.inr (Or.inr (Or.inr (Or.inr (Or.inr (Or.inr (Or.inr (Or.inl rfl))))))),
    Or.inr (Or.inr (Or.inr (Or.inr (Or.inr (Or.inr (Or.inr (Or.inr rfl)))))))⟩

/-- A record with `int` fields whose size is the length of its layout, after it
was stamped with an lsn. -/
theorem stamped_of_fields (r : LogRecord) (lsn : Int) (hlsn : isInt32 lsn)
    (hsize : r.size = r.bytes.length) (hsmall : (r.bytes.length : Int) < 2147483648)
    (h2 : isInt32 r.txn_id) (h3 : isInt32 r.prev_lsn) (h4 : isInt32 r.log_record_type.val)
    (h5 : isInt32 r.delete_rid.page_id ∧ isInt32 r.delete_rid.slot_num)
    (h6 : isInt32 r.insert_rid.page_id ∧ isInt32 r.insert_rid.slot_num)
    (h7 : isInt32 r.update_rid.page_id ∧ isInt32 r.update_rid.slot_num)
    (h8 : isInt32 r.delete_tuple.size) (h9 : isInt32 r.insert_tuple.size)
    (h10 : isInt32 r.old_tuple.size) (h11 : isInt32 r.new_tuple.size)
    (h12 : isInt32 r.prev_page_id) (h13 : isInt32 r.page_id) :
    ({ r with lsn := lsn } : LogRecord).IsInt ∧
    ({ r with lsn := lsn } : LogRecord).bytes.length = r.bytes.length := by
  refine ⟨⟨?_, hlsn, h2, h3, h4, h5, h6, h7, h8, h9, h10, h11, h12, h13⟩, ?_⟩
  · show isInt32 r.size
    rw [hsize]
    exact isInt32_small _ (by omega) hsmall
  · rw [length_bytes, length_bytes]
    rfl

/-- The stamped record of a record built by a constructor, when its layout is
shorter than 2^31 bytes. -/
theorem Built_stamped (cfg : Config) (INVALID_TXN_ID : Int) (r : LogRecord)
    (hb : Built cfg INVALID_TXN_ID r) (hI : isInt32 cfg.INVALID_PAGE_ID) (lsn : Int)
    (hlsn : isInt32 lsn) (hsmall : (r.bytes.length : Int) < 2147483648) :
    ({ r with lsn := lsn } : LogRecord).IsInt ∧ ValidType r.log_record_type ∧
    r.size = r.bytes.length ∧
    ({ r with lsn := lsn } : LogRecord).bytes.length = r.bytes.length := by
  have hm1 : isInt32 (-1) := by decide
  have h0 : isInt32 (0 : Int) := by decide
  have hH : HEADER_SIZE = 20 := rfl
  have key : ValidType r.log_record_type ∧ r.size = r.bytes.length ∧
      isInt32 r.txn_id ∧ isInt32 r.prev_lsn ∧ isInt32 r.log_record_type.val ∧
      (isInt32 r.delete_rid.page_id ∧ isInt32 r.delete_rid.slot_num) ∧
      (isInt32 r.insert_rid.page_id ∧ isInt32 r.insert_rid.slot_num) ∧
      (isInt32 r.update_rid.page_id ∧ isInt32 r.update_rid.slot_num) ∧
      isInt32 r.delete_tuple.size ∧ isInt32 r.insert_tuple.size ∧
      isInt32 r.old_tuple.size ∧ isInt32 r.new_tuple.size ∧
      isInt32 r.prev_page_id ∧ isInt32 r.page_id := by
    rw [length_bytes] at hsmall ⊢
    cases hb with
    | txn txn_id prev_lsn t h1 h2 ht =>
      have ht1 : (ofTxn cfg INVALID_TXN_ID txn_id prev_lsn t).log_record_type = t := rfl
      have e := payload_txn (ofTxn cfg INVALID_TXN_ID txn_id prev_lsn t) ht
      rw [e]
      refine ⟨?_, rfl, h1, h2, ?_, ⟨hI, hm1⟩, ⟨hI, hm1⟩, ⟨hI, hm1⟩, h0, h0, h0, h0, hI, hI⟩
      · rw [ht1]
        rcases ht with h | h | h <;> rw [h]
        · exact valid_types.2.2.2.2.2.1
        · exact valid_types.2.2.2.2.2.2.1
        · exact valid_types.2.2.2.2.2.2.2.1
      · rw [ht1]
        rcases ht with h | h | h <;> rw [h]
        · exact (by decide : isInt32 (6 : Int))
        · exact (by decide : isInt32 (7 : Int))
        · exact (by decide : isInt32 (8 : Int))
    | tuple txn_id prev_lsn t rid tuple r1 h1 h2 h3 h4 h =>
      unfold ofTuple at h
      simp only at h
      have hts : tuple.size = tuple.data.length := rfl
      by_cases c1 : t = LogRecordType.INSERT
      · rw [if_pos c1] at h
        injection h with h
        have ht1 : r.log_record_type = t := by rw [← h]
        have hs1 : r.size = wrap32 (HEADER_SIZE + 8 + 4 + tuple.size) := by rw [← h]
        have hi1 : r.insert_tuple = tuple := by rw [← h]
        have hi2 : r.insert_rid = rid := by rw [← h]
        have hd1 : r.delete_rid = ⟨cfg.INVALID_PAGE_ID, -1⟩ := by rw [← h]; rfl
        have hu1 : r.update_rid = ⟨cfg.INVALID_PAGE_ID, -1⟩ := by rw [← h]; rfl
        have hd2 : r.delete_tuple.size = 0 := by rw [← h]; rfl
        have ho2 : r.old_tuple.size = 0 := by rw [← h]; rfl
        have hn2 : r.new_tuple.size = 0 := by rw [← h]; rfl
        have hp1 : r.prev_page_id = cfg.INVALID_PAGE_ID := by rw [← h]; rfl
        have hp2 : r.page_id = cfg.INVALID_PAGE_ID := by rw [← h]; rfl
        have htx : r.txn_id = txn_id := by rw [← h]
        have hpl : r.prev_lsn = prev_lsn := by rw [← h]
        have e := payload_insert r (ht1.trans c1)
        rw [e, hi1] at hsmall
        rw [e, hi1, hs1, hH, ht1, c1, hi2, hd1, hu1, hd2, ho2, hn2, hp1, hp2, htx, hpl]
        push_cast at hsmall ⊢
        refine ⟨valid_types.1, ?_, h1, h2, (by decide : isInt32 (1 : Int)),
          ⟨hI, hm1⟩, ⟨h3, h4⟩,
          ⟨hI, hm1⟩, h0, isInt32_small _ (by omega) (by omega), h0, h0, hI, hI⟩
        rw [TablePage.wrap32_small _ (by omega) (by omega)]
        omega
      · rw [if_neg c1] at h
        by_cases c2 : t = LogRecordType.APPLYDELETE ∨ t = LogRecordType.MARKDELETE ∨
            t = LogRecordType.ROLLBACKDELETE
        · rw [if_pos c2] at h
          injection h with h
          have c2b : t = LogRecordType.MARKDELETE ∨ t = LogRecordType.APPLYDELETE ∨
              t = LogRecordType.ROLLBACKDELETE := by
            rcases c2 with h | h | h
            · exact Or.inr (Or.inl h)
            · exact Or.inl h
            · exact Or.inr (Or.inr h)
          have ht1 : r.log_record_type = t := by rw [← h]
          have hs1 : r.size = wrap32 (HEADER_SIZE + 8 + 4 + tuple.size) := by rw [← h]
          have hi1 : r.delete_tuple = tuple := by rw [← h]
          have hi2 : r.delete_rid = rid := by rw [← h]
          have hd1 : r.insert_rid = ⟨cfg.INVALID_PAGE_ID, -1⟩ := by rw [← h]; rfl
          have hu1 : r.update_rid = ⟨cfg.INVALID_PAGE_ID, -1⟩ := by rw [← h]; rfl
          have hd2 : r.insert_tuple.size = 0 := by rw [← h]; rfl
          have ho2 : r.old_tuple.size = 0 := by rw [← h]; rfl
          have hn2 : r.new_tuple.size = 0 := by rw [← h]; rfl
          have hp1 : r.prev_page_id = cfg.INVALID_PAGE_ID := by rw [← h]; rfl
          have hp2 : r.page_id = cfg.INVALID_PAGE_ID := by rw [← h]; rfl
          have htx : r.txn_id = txn_id := by rw [← h]
          have hpl : r.prev_lsn = prev_lsn := by rw [← h]
          have e := payload_delete r (by rw [ht1]; exact c2b)
          rw [e, hi1] at hsmall
          rw [e, hi1, hs1, hH, ht1, hi2, hd1, hu1, hd2, ho2, hn2, hp1, hp2, htx, hpl]
          push_cast at hsmall ⊢
          refine ⟨?_, ?_, h1, h2, ?_, ⟨h3, h4⟩, ⟨hI, hm1⟩,
            ⟨hI, hm1⟩, isInt32_small _ (by omega) (by omega), h0, h0, h0, hI, hI⟩
          · rcases c2 with h | h | h <;> rw [h]
            · exact valid_types.2.2.1
            · exact valid_types.2.1
            · exact valid_types.2.2.2.1
          · rw [TablePage.wrap32_small _ (by omega) (by omega)]
            omega
          · rcases c2 with h | h | h <;> rw [h]
            · exact (by decide : isInt32 (3 : Int))
            · exact (by decide : isInt32 (2 : Int))
            · exact (by decide : isInt32 (4 : Int))
        · rw [if_neg c2] at h
          cases h
    | update txn_id prev_lsn rid old_tuple new_tuple h1 h2 h3 h4 =>
      have hts : old_tuple.size = old_tuple.data.length := rfl
      have hts1 : new_tuple.size = new_tuple.data.length := rfl
      have e : (ofUpdate cfg INVALID_TXN_ID txn_id prev_lsn LogRecordType.UPDATE rid old_tuple
          new_tuple).payloadBytes.length = 16 + old_tuple.data.length + new_tuple.data.length :=
        payload_update _ rfl
      rw [e] at hsmall ⊢
      push_cast at hsmall ⊢
      refine ⟨valid_types.2.2.2.2.1, ?_, h1, h2, (by decide : isInt32 (5 : Int)),
        ⟨hI, hm1⟩, ⟨hI, hm1⟩, ⟨h3, h4⟩, h0, h0, isInt32_small old_tuple.size (by omega) (by omega),
        isInt32_small new_tuple.size (by omega) (by omega), hI, hI⟩
      show wrap32 (HEADER_SIZE + 8 + old_tuple.size + new_tuple.size + 2 * 4) = _
      rw [hH, TablePage.wrap32_small _ (by omega) (by omega)]
      omega
    | newPage txn_id prev_lsn prev_page_id page_id h1 h2 h3 h4 =>
      exact ⟨valid_types.2.2.2.2.2.2.2.2, rfl, h1, h2, (by decide : isInt32 (9 : Int)),
        ⟨hI, hm1⟩, ⟨hI, hm1⟩, ⟨hI, hm1⟩, h0, h0, h0, h0, h3, h4⟩
  obtain ⟨k1, k2, k3, k4, k5, k6, k7, k8, k9, k10, k11, k12, k13, k14⟩ := key
  obtain ⟨a, b⟩ := stamped_of_fields r lsn hlsn k2 hsmall k3 k4 k5 k6 k7 k8 k9 k10 k11 k12 k13 k14
  exact ⟨a, k1, k2, b⟩

end LogRecord
namespace LogManager

/-- C25: for a record built by a `LogRecord` constructor (BEGIN/COMMIT/ABORT,
INSERT, MARKDELETE/APPLYDELETE/ROLLBACKDELETE, UPDATE, NEWPAGE) whose layout
fits the log buffer: `AppendLogRecord` writes at the old offset the 20-byte
header `(size, lsn, txn_id, prev_lsn, type)` followed by the payload of the type
and nothing else, these bytes are exactly `size_` bytes, and
`DeserializeLogRecord` applied to these bytes, wherever they lie in a buffer that
holds them, returns true and reproduces the header fields and the payload. -/
theorem C25_log_record_round_trip (cfg : Config) (INVALID_TXN_ID LOG_BUFFER_SIZE : Int)
    (l : LogManager) (r : LogRecord) (hb : LogRecord.Built cfg INVALID_TXN_ID r)
    (hI : isInt32 cfg.INVALID_PAGE_ID) (hlen : (l.log_buffer.length : Int) = LOG_BUFFER_SIZE)
    (hB : LOG_BUFFER_SIZE ≤ 2147483648) (hoff : 0 ≤ l.logBufferOffset)
    (hlsn : isInt32 l.next_lsn)
    (hroom : l.logBufferOffset + r.bytes.length < LOG_BUFFER_SIZE) :
    ∃ l1 r1, AppendLogRecord LOG_BUFFER_SIZE l r = AppendResult.done l1 r1 l.next_lsn ∧
      r1 = { r with lsn := l.next_lsn } ∧
      l1.log_buffer =
        wrBytes l.log_buffer l.logBufferOffset (r1.headerBytes ++ r1.payloadBytes) ∧
      r1.headerBytes.length = 20 ∧
      ((r1.headerBytes ++ r1.payloadBytes).length : Int) = r1.size ∧
      rdBytes l1.log_buffer l.logBufferOffset r1.size = r1.headerBytes ++ r1.payloadBytes ∧
      ∀ (B : Int) (buf : List Nat) (data : Int) (r0 : LogRecord),
        data + r1.size ≤ B →
        rdBytes buf data r1.size = r1.headerBytes ++ r1.payloadBytes →
        ∃ r2, DeserializeLogRecord B buf data r0 = Outcome.ok (r2, true) ∧
          r1.Reproduces r2 := by
  obtain ⟨hint, hty, hsize, hl1⟩ :=
    LogRecord.Built_stamped cfg INVALID_TXN_ID r hb hI l.next_lsn hlsn (by omega)
  obtain ⟨r1, hr1⟩ : ∃ r1 : LogRecord, r1 = { r with lsn := l.next_lsn } := ⟨_, rfl⟩
  rw [← hr1] at hint hl1
  have hs1 : r1.size = r.size := by rw [hr1]
  have ht1 : r1.log_record_type = r.log_record_type := by rw [hr1]
  have hsz1 : r1.size = r1.bytes.length := by rw [hs1, hsize, hl1]
  have hbuf := appendBody_buffer l r hoff (by rw [← hr1, hl1]; omega)
  rw [← hr1] at hbuf
  have hbytes : r1.bytes = r1.headerBytes ++ r1.payloadBytes := rfl
  refine ⟨(appendBody l r).1, r1, ?_, hr1, ?_, rfl, ?_, ?_, ?_⟩
  · unfold AppendLogRecord
    rw [if_neg (by omega), hr1]
    rfl
  · rw [hbuf, hbytes]
  · rw [← hbytes, hsz1]
  · rw [hbuf, ← hbytes, hsz1]
    exact rdBytes_wrBytes_same _ _ _ hoff (by rw [hl1]; omega)
  · intro B buf data r0 hfit hread
    rw [← hbytes, hsz1] at hread
    exact Deserialize_bytes B buf data r1 r0 hsz1 hfit hint (by rw [ht1]; exact hty) hread

theorem C25_log_record_round_trip_witness :
    (LogRecord.Built TablePage.demoPageConfig (-1) demoBegin ∧
      isInt32 TablePage.demoPageConfig.INVALID_PAGE_ID ∧
      (demoLog64.log_buffer.length : Int) = 64 ∧ (64 : Int) ≤ 2147483648 ∧
      0 ≤ demoLog64.logBufferOffset ∧ isInt32 demoLog64.next_lsn ∧
      demoLog64.logBufferOffset + demoBegin.bytes.length < 64) ∧
    ∃ l1 r1, AppendLogRecord 64 demoLog64 demoBegin = AppendResult.done l1 r1 demoLog64.next_lsn ∧
      r1 = { demoBegin with lsn := demoLog64.next_lsn } ∧
      l1.log_buffer =
        wrBytes demoLog64.log_buffer demoLog64.logBufferOffset
          (r1.headerBytes ++ r1.payloadBytes) ∧
      r1.headerBytes.length = 20 ∧
      ((r1.headerBytes ++ r1.payloadBytes).length : Int) = r1.size ∧
      rdBytes l1.log_buffer demoLog64.logBufferOffset r1.size =
        r1.headerBytes ++ r1.payloadBytes ∧
      ∀ (B : Int) (buf : List Nat) (data : Int) (r0 : LogRecord),
        data + r1.size ≤ B →
        rdBytes buf data r1.size = r1.headerBytes ++ r1.payloadBytes →
        ∃ r2, DeserializeLogRecord B buf data r0 = Outcome.ok (r2, true) ∧
          r1.Reproduces r2 :=
  ⟨⟨LogRecord.Built.txn 1 (-1) LogRecordType.BEGIN (by decide) (by decide) (Or.inl rfl),
      by decide, by decide, by decide, by decide, by decide, by decide⟩,
    C25_log_record_round_trip TablePage.demoPageConfig (-1) 64 demoLog64 demoBegin
      (LogRecord.Built.txn 1 (-1) LogRecordType.BEGIN (by decide) (by decide) (Or.inl rfl))
      (by decide) (by decide) (by decide) (by decide) (by decide) (by decide)⟩

/-- C24, what fails: when `next_lsn_` is the greatest `int`, the append returns
that lsn and the next append returns the least `int`, so the second lsn is not
greater than the first and `next_lsn_` did not grow by one. -/
theorem C24_lsn_wraps_at_int_max :
    ∃ l1 r1 l2 r2, AppendLogRecord 64 demoLogMax demoBegin =
        AppendResult.done l1 r1 2147483647 ∧
      AppendLogRecord 64 l1 demoBegin = AppendResult.done l2 r2 (-2147483648) ∧
      l1.next_lsn ≠ demoLogMax.next_lsn + 1 ∧ ¬ ((2147483647 : Int) < -2147483648) :=
  ⟨_, _, _, _, rfl, rfl, by decide, by decide⟩

/-- C24, amended: when the record fits the log buffer, `AppendLogRecord` (also
when it is resumed after a wait) stamps the record with the current `next_lsn_`,
sets `next_lsn_` to the next 32-bit value (`next_lsn_ + 1` below the greatest
`int`), returns the lsn, keeps it as `lastLsn_` and advances the offset by the
size; a second append that fits then returns the next lsn, and for records whose
size is the length of their layout it writes its record where the first one ends
and leaves the bytes of the first as they are.  When the record does not fit, the
call sets `needFlush_` and waits. -/
theorem C24_append_log_record (LOG_BUFFER_SIZE : Int) (l : LogManager) (r : LogRecord)
    (hroom : l.logBufferOffset + r.size < LOG_BUFFER_SIZE) :
    ∃ l1, AppendLogRecord LOG_BUFFER_SIZE l r =
        AppendResult.done l1 { r with lsn := l.next_lsn } l.next_lsn ∧
      resumeAppend LOG_BUFFER_SIZE l r =
        AppendResult.done l1 { r with lsn := l.next_lsn } l.next_lsn ∧
      l1.next_lsn = wrap32 (l.next_lsn + 1) ∧
      (isInt32 l.next_lsn → l.next_lsn < 2147483647 → l1.next_lsn = l.next_lsn + 1) ∧
      l1.lastLsn = l.next_lsn ∧
      l1.logBufferOffset = l.logBufferOffset + r.size ∧
      (∀ r', LOG_BUFFER_SIZE ≤ l1.logBufferOffset + r'.size →
        AppendLogRecord LOG_BUFFER_SIZE l1 r' =
          AppendResult.waiting { l1 with needFlush := true }) ∧
      ∀ r', l1.logBufferOffset + r'.size < LOG_BUFFER_SIZE →
        ∃ l2, AppendLogRecord LOG_BUFFER_SIZE l1 r' =
            AppendResult.done l2 { r' with lsn := l1.next_lsn } l1.next_lsn ∧
          (isInt32 l.next_lsn → l.next_lsn < 2147483647 →
            l.next_lsn < l1.next_lsn ∧ l1.next_lsn = l.next_lsn + 1) ∧
          ((l.log_buffer.length : Int) = LOG_BUFFER_SIZE → 0 ≤ l.logBufferOffset →
            r.size = r.bytes.length → r'.size = r'.bytes.length →
            l1.log_buffer = wrBytes l.log_buffer l.logBufferOffset
              ({ r with lsn := l.next_lsn } : LogRecord).bytes ∧
            l2.log_buffer = wrBytes l1.log_buffer (l.logBufferOffset + r.size)
              ({ r' with lsn := l1.next_lsn } : LogRecord).bytes ∧
            rdBytes l2.log_buffer l.logBufferOffset r.size =
              ({ r with lsn := l.next_lsn } : LogRecord).bytes) := by
  have hlb : ∀ (x : LogRecord) (n : Int),
      ({ x with lsn := n } : LogRecord).bytes.length = x.bytes.length := by
    intro x n
    rw [LogRecord.length_bytes, LogRecord.length_bytes]
    rfl
  have hmono : isInt32 l.next_lsn → l.next_lsn < 2147483647 →
      wrap32 (l.next_lsn + 1) = l.next_lsn + 1 := by
    intro h1 h2
    exact wrap32_of_isInt32 _ ⟨by have := h1.1; omega, by omega⟩
  have hoff1 : (appendBody l r).1.logBufferOffset = l.logBufferOffset + r.size := rfl
  have hnext1 : (appendBody l r).1.next_lsn = wrap32 (l.next_lsn + 1) := rfl
  have hlen1 : (appendBody l r).1.log_buffer.length = l.log_buffer.length := by
    have : (appendBody l r).1.log_buffer.length = l.log_buffer.length := by
      unfold appendBody
      simp only
      unfold LogRecord.writeHeader RID.write Tuple.SerializeTo
      split_ifs <;> simp only [length_wr32, length_wrBytes]
    exact this
  refine ⟨(appendBody l r).1, ?_, ?_, rfl, ?_, rfl, rfl, ?_, ?_⟩
  · unfold AppendLogRecord
    rw [if_neg (by omega)]
    rfl
  · unfold resumeAppend
    rw [if_pos hroom]
    rfl
  · intro h1 h2
    rw [hnext1]
    exact hmono h1 h2
  · intro r' h
    unfold AppendLogRecord
    rw [if_pos (by omega)]
  · intro r' hroom2
    refine ⟨(appendBody (appendBody l r).1 r').1, ?_, ?_, ?_⟩
    · unfold AppendLogRecord
      rw [if_neg (by omega)]
      rfl
    · intro h1 h2
      rw [hnext1, hmono h1 h2]
      omega
    · intro hlen hoff hs hs'
      rw [hoff1] at hroom2
      have hb1 := appendBody_buffer l r hoff (by rw [hlb]; omega)
      have hb2 := appendBody_buffer (appendBody l r).1 r' (by rw [hoff1]; omega)
        (by rw [hlb, hoff1, hlen1]; omega)
      rw [hoff1] at hb2
      refine ⟨hb1, hb2, ?_⟩
      rw [hb2, rdBytes_wrBytes_other _ _ _ _ _ (Or.inl (le_refl _)), hb1]
      obtain ⟨r1, hr1⟩ : ∃ r1 : LogRecord, r1 = { r with lsn := l.next_lsn } := ⟨_, rfl⟩
      have hl1 : r1.bytes.length = r.bytes.length := by rw [hr1]; exact hlb r _
      rw [← hr1]
      have e : r.size = (r1.bytes.length : Nat) := by rw [hl1]; exact hs
      rw [e]
      exact rdBytes_wrBytes_same _ _ _ hoff (by rw [hl1]; omega)

theorem C24_append_log_record_witness :
    demoLog64.logBufferOffset + demoBegin.size < 64 ∧
    ∃ l1, AppendLogRecord 64 demoLog64 demoBegin =
        AppendResult.done l1 { demoBegin with lsn := demoLog64.next_lsn } demoLog64.next_lsn ∧
      resumeAppend 64 demoLog64 demoBegin =
        AppendResult.done l1 { demoBegin with lsn := demoLog64.next_lsn } demoLog64.next_lsn ∧
      l1.next_lsn = wrap32 (demoLog64.next_lsn + 1) ∧
      (isInt32 demoLog64.next_lsn → demoLog64.next_lsn < 2147483647 →
        l1.next_lsn = demoLog64.next_lsn + 1) ∧
      l1.lastLsn = demoLog64.next_lsn ∧
      l1.logBufferOffset = demoLog64.logBufferOffset + demoBegin.size ∧
      (∀ r', 64 ≤ l1.logBufferOffset + r'.size →
        AppendLogRecord 64 l1 r' = AppendResult.waiting { l1 with needFlush := true }) ∧
      ∀ r', l1.logBufferOffset + r'.size < 64 →
        ∃ l2, AppendLogRecord 64 l1 r' =
            AppendResult.done l2 { r' with lsn := l1.next_lsn } l1.next_lsn ∧
          (isInt32 demoLog64.next_lsn → demoLog64.next_lsn < 2147483647 →
            demoLog64.next_lsn < l1.next_lsn ∧ l1.next_lsn = demoLog64.next_lsn + 1) ∧
          ((demoLog64.log_buffer.length : Int) = 64 → 0 ≤ demoLog64.logBufferOffset →
            demoBegin.size = demoBegin.bytes.length → r'.size = r'.bytes.length →
            l1.log_buffer = wrBytes demoLog64.log_buffer demoLog64.logBufferOffset
              ({ demoBegin with lsn := demoLog64.next_lsn } : LogRecord).bytes ∧
            l2.log_buffer = wrBytes l1.log_buffer (demoLog64.logBufferOffset + demoBegin.size)
              ({ r' with lsn := l1.next_lsn } : LogRecord).bytes ∧
            rdBytes l2.log_buffer demoLog64.logBufferOffset demoBegin.size =
              ({ demoBegin with lsn := demoLog64.next_lsn } : LogRecord).bytes) :=
  ⟨by decide, C24_append_log_record 64 demoLog64 demoBegin (by decide)⟩

end LogManager

namespace LogRecovery

open BufferPoolManager

theorem pageAt_setPage_data (s : BufferPoolManager) (tar : Nat) (p : Page)
    (h : p.data = (pageAt s tar).data) (t : Nat) :
    (pageAt (setPage s tar p) t).data = (pageAt s t).data := by
  by_cases ht : t = tar
  · subst ht
    by_cases hl : t < s.pages.length
    · rw [pageAt_setPage_self s t p hl, h]
    · have : setPage s t p = s := by
        unfold setPage
        rw [List.set_eq_of_length_le (by omega)]
      rw [this]
  · rw [pageAt_setPage_other s tar t p ht]

/-- `UnpinPage` changes no byte of a frame and leaves the page table as it is. -/
theorem UnpinPage_frames (s : BufferPoolManager) (pid : Int) (d : Bool) :
    (UnpinPage s pid d).1.page_table = s.page_table ∧
    (UnpinPage s pid d).1.pages.length = s.pages.length ∧
    ∀ t, (pageAt (UnpinPage s pid d).1 t).data = (pageAt s t).data := by
  unfold UnpinPage
  cases hf : s.page_table.Find pid with
  | none => exact ⟨rfl, rfl, fun _ => rfl⟩
  | some tar =>
    simp only
    have h1 : ∀ t, (pageAt (setPage s tar { pageAt s tar with is_dirty := d }) t).data =
        (pageAt s t).data := pageAt_setPage_data s tar { pageAt s tar with is_dirty := d } rfl
    have hl1 : (setPage s tar { pageAt s tar with is_dirty := d }).pages.length =
        s.pages.length := by
      unfold setPage
      simp
    split
    · exact ⟨rfl, hl1, h1⟩
    · obtain ⟨s1, hs1⟩ : ∃ s1, s1 = setPage s tar { pageAt s tar with is_dirty := d } := ⟨_, rfl⟩
      rw [← hs1] at h1 hl1 ⊢
      have h2 : ∀ t, (pageAt (setPage s1 tar
          { pageAt s1 tar with pin_count := (pageAt s1 tar).pin_count - 1 }) t).data =
          (pageAt s t).data := by
        intro t
        exact (pageAt_setPage_data s1 tar
          { pageAt s1 tar with pin_count := (pageAt s1 tar).pin_count - 1 } rfl t).trans (h1 t)
      have hl2 : (setPage s1 tar
          { pageAt s1 tar with pin_count := (pageAt s1 tar).pin_count - 1 }).pages.length =
          s.pages.length := by
        rw [← hl1]
        unfold setPage
        simp
      have hp2 : (setPage s1 tar
          { pageAt s1 tar with pin_count := (pageAt s1 tar).pin_count - 1 }).page_table =
          s.page_table := by
        rw [hs1]; rfl
      split
      · exact ⟨hp2, hl2, h2⟩
      · exact ⟨hp2, hl2, h2⟩

end LogRecovery
namespace LogRecovery

open BufferPoolManager

/-- The frame that `FetchPage` returns in a well-formed pool holds the page. -/
theorem FetchPage_resident (cfg : Config) (fuel : Nat) (s s1 : BufferPoolManager) (pid : Int)
    (tar : Nat) (hs : BInv cfg s) (hpid : isInt32 pid)
    (h : FetchPage cfg fuel s pid = Outcome.ok (s1, some tar)) :
    Resident s1 pid tar (frame s1 tar) := by
  cases hf : s.page_table.Find pid with
  | some t =>
    rw [FetchPage_hit cfg fuel s pid t hf] at h
    simp only [Outcome.ok.injEq, Prod.mk.injEq, Option.some.injEq] at h
    obtain ⟨h1, h2⟩ := h
    subst h2
    obtain ⟨m1, _, _⟩ := hs.mapped pid t hf
    refine ⟨by rw [← h1]; exact hf, ?_, rfl⟩
    rw [← h1]
    show t < (setPage s t _).pages.length
    unfold setPage
    simp only [List.length_set]
    rw [hs.pages_len]
    exact m1
  | none =>
    cases hv : GetVictimPage cfg s with
    | fault e => rw [FetchPage_miss_fault cfg fuel s pid hf e hv] at h; simp at h
    | ok res =>
      obtain ⟨s2, o⟩ := res
      cases o with
      | none => rw [FetchPage_miss_null cfg fuel s s2 pid hf hv] at h; simp at h
      | some t =>
        cases hins : (s2.page_table.Remove (pageAt s2 t).page_id).1.Insert fuel pid t with
        | none => rw [FetchPage_miss_fuel cfg fuel s s2 pid t hf hv hins] at h; simp at h
        | some pt1 =>
          rw [FetchPage_miss_ok cfg fuel s s2 pid t pt1 hf hv hins] at h
          simp only [Outcome.ok.injEq, Prod.mk.injEq, Option.some.injEq] at h
          obtain ⟨h1, h2⟩ := h
          subst h2
          obtain ⟨_, hcase⟩ := GetVictimPage_some hv
          have hpt : s2.page_table = s.page_table ∧ s2.pages = s.pages ∧ t < s.pool_size := by
            rcases hcase with ⟨rest, e1, e2, _⟩ | ⟨r, e1, e2, e3⟩
            · rw [e2]
              exact ⟨rfl, rfl, (hs.in_free t (by rw [e1]; simp)).1⟩
            · rw [e3]
              exact ⟨rfl, rfl, (hs.in_replacer t (by rw [e2]; simp)).1⟩
          have hinv : (s2.page_table.Remove (pageAt s2 t).page_id).1.HInv :=
            ExtendibleHash.Remove_HInv _ (by rw [hpt.1]; exact hs.table) _
          obtain ⟨_, hfind, _⟩ := ExtendibleHash.Insert_spec fuel _ _ hinv pid hpid t hins
          refine ⟨?_, ?_, rfl⟩
          · rw [← h1]
            show pt1.Find pid = some t
            rw [hfind pid, if_pos rfl]
          · rw [← h1]
            show t < (s2.pages.set t _).length
            rw [List.length_set, hpt.2.1, hs.pages_len]
            exact hpt.2.2

end LogRecovery
namespace LogRecovery

open BufferPoolManager

theorem rdBytes_file_mid (pre b post : List Nat) :
    rdBytes (pre ++ b ++ post) pre.length (b.length : Nat) = b := by
  have h := rdBytes_self (pre ++ b ++ post)
  have := rdBytes_mid (pre ++ b ++ post) 0 pre b post pre.length (by omega) h
  exact this

theorem rd32_zero (d : List Nat) (a : Int)
    (h : ∀ x, a ≤ x → x < a + 4 → getByte d x = 0) : rd32 d a = 0 := by
  unfold rd32
  rw [h a (by omega) (by omega), h (a + 1) (by omega) (by omega),
    h (a + 2) (by omega) (by omega), h (a + 3) (by omega) (by omega)]
  decide

theorem redoLoop_end (cfg : Config) (LOG_BUFFER_SIZE : Int) (fuel : Nat) (bufferStart : Int)
    (n : Nat) (rc : LogRecovery) (bo : Int) (log0 log : LogRecord)
    (h : DeserializeLogRecord LOG_BUFFER_SIZE rc.log_buffer bo log0 = Outcome.ok (log, false)) :
    redoLoop cfg LOG_BUFFER_SIZE fuel bufferStart (n + 1) rc bo log0 = Outcome.ok (rc, bo) := by
  rw [redoLoop, h]

theorem kmapFind_kmapSet_self {V : Type} (m : List (Int × V)) (k : Int) (v : V) :
    kmapFind (kmapSet m k v) k = some v := by
  induction m with
  | nil => simp [kmapSet, kmapFind]
  | cons e m ih =>
    unfold kmapSet
    split
    · simp [kmapFind]
    · rename_i hne
      unfold kmapFind
      rw [if_neg hne]
      exact ih

end LogRecovery
namespace TablePage

theorem shiftLoop_length (limit delta : Int) :
    ∀ (n : Nat) (i : Int) (p : TablePage),
      (shiftLoop limit delta n i p).data.length = p.data.length := by
  intro n
  induction n with
  | zero => intro i p; rfl
  | succ n ih =>
    intro i p
    rw [shiftLoop, ih]
    split
    · exact length_wr32 _ _ _
    · rfl

theorem InsertTuple_length (p : TablePage) (tuple : Tuple) (rid : RID) (p1 : TablePage)
    (rid1 : RID) (b : Bool) (h : InsertTuple p tuple rid = Outcome.ok (p1, rid1, b)) :
    p1.data.length = p.data.length := by
  unfold InsertTuple at h
  split at h
  · split at h
    · cases h; rfl
    · simp only at h
      split at h
      · cases h; rfl
      · split at h
        · cases h
          simp only [SetTupleCount, SetTupleSize, SetTupleOffset, SetFreeSpacePointer,
            length_wr32, length_wrBytes]
        · cases h
          simp only [SetTupleSize, SetTupleOffset, SetFreeSpacePointer,
            length_wr32, length_wrBytes]
  · cases h

theorem UpdateTuple_length (p : TablePage) (new_tuple old_tuple : Tuple) (rid : RID)
    (p1 : TablePage) (old1 : Tuple) (b : Bool)
    (h : UpdateTuple p new_tuple old_tuple rid = Outcome.ok (p1, old1, b)) :
    p1.data.length = p.data.length := by
  unfold UpdateTuple at h
  simp only at h
  split at h
  · cases h; rfl
  · split at h
    · cases h; rfl
    · split at h
      · cases h; rfl
      · split at h
        · cases h
          rw [shiftLoop_length]
          simp only [SetTupleSize, SetFreeSpacePointer, length_wr32, length_wrBytes]
        · cases h

theorem MarkDelete_length (p : TablePage) (rid : RID) :
    (MarkDelete p rid).1.data.length = p.data.length := by
  unfold MarkDelete
  simp only
  split
  · rfl
  · split
    · rfl
    · split
      · exact length_wr32 _ _ _
      · rfl

theorem ApplyDelete_length (p : TablePage) (rid : RID) (p1 : TablePage)
    (h : ApplyDelete p rid = Outcome.ok p1) : p1.data.length = p.data.length := by
  unfold ApplyDelete at h
  simp only at h
  split at h
  · split at h
    · cases h
      rw [shiftLoop_length]
      simp only [SetTupleSize, SetTupleOffset, SetFreeSpacePointer, length_wr32, length_wrBytes]
    · cases h
  · cases h

theorem RollbackDelete_length (p : TablePage) (rid : RID) (p1 : TablePage)
    (h : RollbackDelete p rid = Outcome.ok p1) : p1.data.length = p.data.length := by
  unfold RollbackDelete at h
  simp only at h
  split at h
  · split at h
    · cases h
      exact length_wr32 _ _ _
    · cases h; rfl
  · cases h

theorem GetLSN_SetLSN (p : TablePage) (lsn : Int) (h : (8 : Int) ≤ p.data.length)
    (hl : isInt32 lsn) : (p.SetLSN lsn).GetLSN = lsn := by
  unfold GetLSN SetLSN
  rw [rd32_wr32_same _ _ _ (by norm_num) (by omega)]
  exact wrap32_of_isInt32 _ hl

end TablePage

namespace LogRecovery

open BufferPoolManager

theorem replay_length (page : TablePage) (log : LogRecord) (page1 : TablePage)
    (h : replay page log = Outcome.ok page1) : page1.data.length = page.data.length := by
  unfold replay at h
  split at h
  · cases hi : page.InsertTuple log.insert_tuple (ridOf log) with
    | fault f => rw [hi] at h; cases h
    | ok res =>
      obtain ⟨p, r, b⟩ := res
      rw [hi] at h
      cases h
      exact TablePage.InsertTuple_length _ _ _ _ _ _ hi
  · split at h
    · cases hi : page.UpdateTuple log.new_tuple log.old_tuple (ridOf log) with
      | fault f => rw [hi] at h; cases h
      | ok res =>
        obtain ⟨p, r, b⟩ := res
        rw [hi] at h
        cases h
        exact TablePage.UpdateTuple_length _ _ _ _ _ _ _ hi
    · split at h
      · cases h
        exact TablePage.MarkDelete_length _ _
      · split at h
        · exact TablePage.ApplyDelete_length _ _ _ h
        · split at h
          · exact TablePage.RollbackDelete_length _ _ _ h
          · cases h

theorem frame_write (s : BufferPoolManager) (tar : Nat) (h : tar < s.pages.length)
    (q : TablePage) :
    frame (WriteData s tar q.data) tar = q ∧
    ∀ t, t ≠ tar → frame (WriteData s tar q.data) t = frame s t := by
  constructor
  · unfold frame WriteData
    rw [pageAt_setPage_self s tar _ h]
  · intro t ht
    unfold frame WriteData
    rw [pageAt_setPage_other s tar t _ ht]

theorem frame_unpin (s : BufferPoolManager) (pid : Int) (d : Bool) (t : Nat) :
    frame (UnpinPage s pid d).1 t = frame s t := by
  unfold frame
  rw [(UnpinPage_frames s pid d).2.2 t]

end LogRecovery
namespace LogRecovery

open BufferPoolManager

/-- The branch of `Redo` for a tuple record (INSERT, UPDATE, MARKDELETE,
APPLYDELETE, ROLLBACKDELETE) whose target page the pool returns in frame `tar`:
when the lsn of the record is greater than the lsn of the page, the record is
replayed on the page and the lsn of the page is set to the lsn of the record (an
`assert` that fails in the replay ends `Redo`); when it is not greater, the bytes
of every frame stay as they are; in both cases the lsn of the page in its frame
does not decrease and no other frame changes. -/
theorem redoTuple_replays_above_page_lsn (cfg : Config) (fuel : Nat)
    (s s1 : BufferPoolManager) (log : LogRecord) (tar : Nat) (hs : BInv cfg s)
    (hpid : isInt32 (ridOf log).page_id) (hlsn : isInt32 log.lsn)
    (hlen : (8 : Int) ≤ (frame s1 tar).data.length)
    (hf : FetchPage cfg fuel s (ridOf log).page_id = Outcome.ok (s1, some tar)) :
    (log.lsn > (frame s1 tar).GetLSN →
      (∀ page1, replay (frame s1 tar) log = Outcome.ok page1 →
        ∃ s2, redoTuple cfg fuel s log = Outcome.ok s2 ∧
          frame s2 tar = page1.SetLSN log.lsn ∧ (frame s2 tar).GetLSN = log.lsn) ∧
      (∀ f, replay (frame s1 tar) log = Outcome.fault f →
        redoTuple cfg fuel s log = Outcome.fault f)) ∧
    (log.lsn ≤ (frame s1 tar).GetLSN →
      ∃ s2, redoTuple cfg fuel s log = Outcome.ok s2 ∧ ∀ t, frame s2 t = frame s1 t) ∧
    (∀ s2, redoTuple cfg fuel s log = Outcome.ok s2 →
      (frame s1 tar).GetLSN ≤ (frame s2 tar).GetLSN ∧
      ∀ t, t ≠ tar → frame s2 t = frame s1 t) := by
  have hres := FetchPage_resident cfg fuel s s1 (ridOf log).page_id tar hs hpid hf
  have hredo : redoTuple cfg fuel s log =
      (if log.lsn > (frame s1 tar).GetLSN then
        match replay (frame s1 tar) log with
        | Outcome.fault f => Outcome.fault f
        | Outcome.ok page1 =>
          Outcome.ok (UnpinPage (WriteData s1 tar (page1.SetLSN log.lsn).data)
            (page1.SetLSN log.lsn).GetPageId true).1
      else Outcome.ok (UnpinPage s1 (frame s1 tar).GetPageId false).1) := by
    unfold redoTuple
    rw [hf]
    try rfl
  have hok : ∀ page1, replay (frame s1 tar) log = Outcome.ok page1 →
      frame (UnpinPage (WriteData s1 tar (page1.SetLSN log.lsn).data)
        (page1.SetLSN log.lsn).GetPageId true).1 tar = page1.SetLSN log.lsn ∧
      (page1.SetLSN log.lsn).GetLSN = log.lsn ∧
      ∀ t, t ≠ tar → frame (UnpinPage (WriteData s1 tar (page1.SetLSN log.lsn).data)
        (page1.SetLSN log.lsn).GetPageId true).1 t = frame s1 t := by
    intro page1 hp
    have hl1 := replay_length _ _ _ hp
    obtain ⟨w1, w2⟩ := frame_write s1 tar hres.lt (page1.SetLSN log.lsn)
    refine ⟨by rw [frame_unpin]; exact w1,
      TablePage.GetLSN_SetLSN page1 log.lsn (by rw [hl1]; exact hlen) hlsn, ?_⟩
    intro t ht
    rw [frame_unpin]
    exact w2 t ht
  refine ⟨?_, ?_, ?_⟩
  · intro hgt
    constructor
    · intro page1 hp
      obtain ⟨a, b, _⟩ := hok page1 hp
      refine ⟨_, by rw [hredo, if_pos hgt, hp], a, by rw [a]; exact b⟩
    · intro f hp
      rw [hredo, if_pos hgt, hp]
  · intro hle
    refine ⟨_, by rw [hredo, if_neg (by omega)], ?_⟩
    intro t
    exact frame_unpin _ _ _ _
  · intro s2 h2
    rw [hredo] at h2
    by_cases hgt : log.lsn > (frame s1 tar).GetLSN
    · rw [if_pos hgt] at h2
      cases hp : replay (frame s1 tar) log with
      | fault f => rw [hp] at h2; cases h2
      | ok page1 =>
        rw [hp] at h2
        simp only [Outcome.ok.injEq] at h2
        obtain ⟨a, b, c⟩ := hok page1 hp
        rw [← h2, a, b]
        exact ⟨by omega, c⟩
    · rw [if_neg hgt] at h2
      simp only [Outcome.ok.injEq] at h2
      rw [← h2]
      exact ⟨by rw [frame_unpin], fun t _ => frame_unpin _ _ _ _⟩

end LogRecovery
namespace TablePage

end TablePage

namespace LogRecovery

/-- A record built by a constructor and stamped is read back from a buffer that
holds its layout. -/
theorem stamped_deserialize (cfg : Config) (INVALID_TXN_ID LOG_BUFFER_SIZE : Int)
    (r : LogRecord) (hb : LogRecord.Built cfg INVALID_TXN_ID r)
    (hI : isInt32 cfg.INVALID_PAGE_ID) (lsn : Int) (hlsn : isInt32 lsn)
    (hsmall : (r.bytes.length : Int) < 2147483648) (buf : List Nat) (data : Int)
    (hfit : data + r.bytes.length ≤ LOG_BUFFER_SIZE)
    (hread : rdBytes buf data (({ r with lsn := lsn } : LogRecord).bytes.length : Nat) =
      ({ r with lsn := lsn } : LogRecord).bytes) (log0 : LogRecord) :
    ∃ r2, DeserializeLogRecord LOG_BUFFER_SIZE buf data log0 = Outcome.ok (r2, true) ∧
      LogRecord.Reproduces { r with lsn := lsn } r2 := by
  obtain ⟨hint, hty, hsize, hl1⟩ :=
    LogRecord.Built_stamped cfg INVALID_TXN_ID r hb hI lsn hlsn hsmall
  obtain ⟨r1, hr1⟩ : ∃ r1 : LogRecord, r1 = { r with lsn := lsn } := ⟨_, rfl⟩
  rw [← hr1] at hint hl1 hread ⊢
  have hs1 : r1.size = r.size := by rw [hr1]
  have ht1 : r1.log_record_type = r.log_record_type := by rw [hr1]
  exact Deserialize_bytes LOG_BUFFER_SIZE buf data r1 log0 (by rw [hs1, hsize, hl1])
    (by rw [hs1, hsize]; exact hfit) hint (by rw [ht1]; exact hty) hread

end LogRecovery
namespace LogRecovery

open BufferPoolManager TablePage

theorem stamp_length (r : LogRecord) (lsn : Int) : (r.stamp lsn).bytes.length = r.bytes.length := by
  rw [LogRecord.length_bytes, LogRecord.length_bytes]
  rfl

end LogRecovery
namespace LogRecovery

open BufferPoolManager TablePage

end LogRecovery
namespace LogRecovery

open BufferPoolManager TablePage

end LogRecovery
namespace LogRecovery

open BufferPoolManager TablePage

theorem redoChunks_stop (cfg : Config) (LOG_BUFFER_SIZE INVALID_TXN_ID : Int)
    (fuel fuelLoop n : Nat) (rc : LogRecovery) (bo : Int)
    (h : DiskManager.ReadLog rc.log_file (LOG_BUFFER_SIZE - bo) rc.offset = none) :
    redoChunks cfg LOG_BUFFER_SIZE INVALID_TXN_ID fuel fuelLoop (n + 1) rc bo = Outcome.ok rc := by
  rw [redoChunks, h]

theorem redoChunks_step (cfg : Config) (LOG_BUFFER_SIZE INVALID_TXN_ID : Int)
    (fuel fuelLoop n : Nat) (rc : LogRecovery) (bo : Int) (bytes : List Nat)
    (rc2 : LogRecovery) (bo2 : Int)
    (h : DiskManager.ReadLog rc.log_file (LOG_BUFFER_SIZE - bo) rc.offset = some bytes)
    (hl : redoLoop cfg LOG_BUFFER_SIZE fuel rc.offset fuelLoop
      { rc with log_buffer := wrBytes rc.log_buffer bo bytes,
                offset := rc.offset + (LOG_BUFFER_SIZE - bo) } 0
      (LogRecord.new cfg INVALID_TXN_ID) = Outcome.ok (rc2, bo2)) :
    redoChunks cfg LOG_BUFFER_SIZE INVALID_TXN_ID fuel fuelLoop (n + 1) rc bo =
      redoChunks cfg LOG_BUFFER_SIZE INVALID_TXN_ID fuel fuelLoop n
        { rc2 with log_buffer := (wrBytes rc2.log_buffer 0
            (rdBytes rc2.log_buffer bo2 (LOG_BUFFER_SIZE - bo2))) }
        (LOG_BUFFER_SIZE - bo2) := by
  rw [redoChunks, h]
  simp only
  rw [hl]

end LogRecovery
namespace LogRecovery

open BufferPoolManager TablePage

end LogRecovery
namespace LogRecovery

open BufferPoolManager TablePage

end LogRecovery
namespace LogRecovery

open BufferPoolManager TablePage

theorem demoTablePage4_reachable : TPReachable demoPageConfig demoTablePage4 := by
  have h2 : TPReachable demoPageConfig demoTablePage2 :=
    TPReachable.insert demoTablePage1 ⟨[9, 8], ⟨0, 0⟩, false⟩ ⟨0, 0⟩ demoTablePage2 ⟨7, 1⟩
      true demoTablePage1_reachable (by decide)
  have h3 : TPReachable demoPageConfig demoTablePage3 :=
    TPReachable.applyDelete demoTablePage2 ⟨7, 0⟩ demoTablePage3 h2 (by decide) (by decide)
  have h4 : TPReachable demoPageConfig (demoTablePage4.SetLSN 0) :=
    TPReachable.applyDelete demoTablePage3 ⟨7, 1⟩ _ h3 (by decide) (by decide)
  have h5 : demoTablePage4 = (demoTablePage4.SetLSN 0).SetLSN 5 := by decide
  rw [h5]
  exact TPReachable.setLSN _ 5 h4

set_option maxRecDepth 100000 in
/-- C27: the table page 7 on disk is `demoTablePage4`, in which the tuples of slot 0
and slot 1 were deleted by `ApplyDelete` (page lsn 5), and the log ends after the
BEGIN record and the APPLYDELETE record (lsn 5, rid `(7, 1)`, tuple `[9, 8]`) of
the uncommitted transaction 1.  `Redo` and then `Undo` return, and on the page
fetched afterwards `GetTuple` at the record's rid `(7, 1)` returns false, while
`GetTuple` at rid `(7, 0)` returns true with the bytes `[9, 8]`: `Undo` stored the
logged tuple in the first empty slot, not at the rid of the record. -/
theorem C27_undo_apply_delete_takes_first_empty_slot :
    TPReachable demoPageConfig demoTablePage4 ∧
    demoDeleteRecord.delete_rid = ⟨7, 1⟩ ∧ demoDeleteRecord.delete_tuple.data = [9, 8] ∧
    ∃ rc1 rc2 s3 tar,
      Redo demoPageConfig 128 (-1) 33 8 4 (demoRecovery demoLogDelete demoTablePage4.data) =
        Outcome.ok rc1 ∧
      Undo demoPageConfig 128 (-1) 33 8 rc1 = Outcome.ok rc2 ∧
      FetchPage demoPageConfig 33 rc2.buffer_pool_manager 7 = Outcome.ok (s3, some tar) ∧
      GetTuple (frame s3 tar) ⟨7, 1⟩ (Tuple.empty (-1)) = (Tuple.empty (-1), false) ∧
      GetTuple (frame s3 tar) ⟨7, 0⟩ (Tuple.empty (-1)) = (⟨[9, 8], ⟨7, 0⟩, true⟩, true) :=
  ⟨demoTablePage4_reachable, rfl, rfl, _, _, _, _, rfl, rfl, rfl, rfl, rfl⟩

end LogRecovery

namespace BufferPoolManager

/-- C31: in every pool reachable from construction by `FetchPage`, `NewPage`,
`UnpinPage`, `FlushPage` and `DeletePage`, every frame is in exactly one of three
situations: on the free list, in the replacer, or with a pin count above 0. -/
theorem C31_frame_in_exactly_one_place (cfg : Config) (s : BufferPoolManager)
    (h : Reachable cfg s) (tar : Nat) (ht : tar < s.pool_size) :
    (tar ∈ s.free_list ∧ tar ∉ s.replacer ∧ ¬ 0 < (pageAt s tar).pin_count) ∨
    (tar ∉ s.free_list ∧ tar ∈ s.replacer ∧ ¬ 0 < (pageAt s tar).pin_count) ∨
    (tar ∉ s.free_list ∧ tar ∉ s.replacer ∧ 0 < (pageAt s tar).pin_count) := by
  have inv := Reachable_BInv h
  by_cases hf : tar ∈ s.free_list
  · left
    exact ⟨hf, inv.disjoint tar hf, by rw [(inv.in_free tar hf).2]; decide⟩
  · right
    by_cases hr : tar ∈ s.replacer
    · left
      exact ⟨hf, hr, by rw [(inv.in_replacer tar hr).2]; decide⟩
    · right
      refine ⟨hf, hr, ?_⟩
      have h0 := inv.pin_nonneg tar
      by_contra hn
      have hz : (pageAt s tar).pin_count = 0 := by omega
      rcases inv.unpinned tar ht hz with h1 | h1
      · exact hf h1
      · exact hr h1

theorem C31_frame_in_exactly_one_place_witness :
    (Reachable demoCfg demo2 ∧ 0 < demo2.pool_size) ∧
    ((0 ∈ demo2.free_list ∧ 0 ∉ demo2.replacer ∧ ¬ 0 < (pageAt demo2 0).pin_count) ∨
    (0 ∉ demo2.free_list ∧ 0 ∈ demo2.replacer ∧ ¬ 0 < (pageAt demo2 0).pin_count) ∨
    (0 ∉ demo2.free_list ∧ 0 ∉ demo2.replacer ∧ 0 < (pageAt demo2 0).pin_count)) :=
  ⟨⟨demo2_reachable, by decide⟩,
    C31_frame_in_exactly_one_place demoCfg demo2 demo2_reachable 0 (by decide)⟩

/-- C39: on a pool of one frame, `NewPage` (page 0), `UnpinPage(0, false)` and
`DeletePage(0)` return, and `DeletePage` puts frame 0 on the free list with its
page id still 0, not `INVALID_PAGE_ID`; the next `GetVictimPage` takes that frame
from the free list and its assertion on the page id fails, so the next `NewPage`
and the next `FetchPage` of a page that is not resident end in a failed
assertion. -/
theorem C39_victim_assert_fails_after_delete :
    Reachable demoCfg demoDeleted ∧
    (UnpinPage demo1 0 false).2 = true ∧
    (DeletePage demoCfg (UnpinPage demo1 0 false).1 0).2 = true ∧
    demoDeleted.free_list = [0] ∧ (pageAt demoDeleted 0).pin_count = 0 ∧
    (pageAt demoDeleted 0).page_id = 0 ∧ demoCfg.INVALID_PAGE_ID = -1 ∧
    GetVictimPage demoCfg demoDeleted = Outcome.fault Fault.assert_failed ∧
    NewPage demoCfg 33 demoDeleted = Outcome.fault Fault.assert_failed ∧
    FetchPage demoCfg 33 demoDeleted 5 = Outcome.fault Fault.assert_failed :=
  ⟨Reachable.delete 0 (Reachable.unpin 0 false demo1_reachable), by decide, by decide,
    by decide, by decide, by decide, by decide, by decide, by decide, by decide⟩

end BufferPoolManager
namespace LockManager

theorem checkCanGrant_iff (l : TxList) (mode : LockMode) :
    checkCanGrant l mode = true ↔
      (l.locks = [] ∨ (mode = LockMode.SHARED ∧ ∃ last, l.locks.getLast? = some last ∧
        last.granted = true ∧ last.mode = LockMode.SHARED)) := by
  unfold checkCanGrant
  cases hlast : l.locks.getLast? with
  | none =>
    simp only [true_iff]
    left
    exact List.getLast?_eq_none_iff.mp hlast
  | some last =>
    have hne : l.locks ≠ [] := by
      intro h
      rw [h] at hlast
      simp at hlast
    by_cases hm : mode = LockMode.SHARED
    · simp [hm, hne]
    · simp [hm, hne]

theorem finish_requests (b : Bool) (txn : Transaction) (rid : RID) (mode : LockMode)
    (l : TxList) (m : List (RID × TxList)) :
    (checkCanGrant l mode = true →
      (insert l txn rid mode (checkCanGrant l mode)).2.2 = LockResult.returned true ∧
      requests ⟨b, tableSet m rid (insert l txn rid mode (checkCanGrant l mode)).1⟩ rid =
        l.locks ++ [⟨txn.txn_id,
          if mode = LockMode.UPGRADING then LockMode.EXCLUSIVE else mode, true⟩]) ∧
    (checkCanGrant l mode = false →
      (insert l txn rid mode (checkCanGrant l mode)).2.2 = LockResult.waiting ∧
      requests ⟨b, tableSet m rid (insert l txn rid mode (checkCanGrant l mode)).1⟩ rid =
        l.locks ++ [⟨txn.txn_id, mode, false⟩]) := by
  constructor
  · intro hc
    rw [hc]
    unfold insert requests entry
    simp only [tableFind_tableSet]
    cases mode <;> simp
  · intro hc
    rw [hc]
    unfold insert requests entry
    simp only [tableFind_tableSet]
    cases mode <;> simp

/-- C32: a SHARED or EXCLUSIVE request of a GROWING transaction on the list `l`
of the rid, or an UPGRADING request that passed its checks on the list `l` left
after the removal of the caller's SHARED entry, is appended to `l`; it is appended
granted and the call returns true when `l` is empty or the request is SHARED and
the last request of `l` is a granted SHARED request, and it is appended ungranted
and the caller waits in every other case. -/
theorem C32_granted_iff_compatible (lm : LockManager) (txn : Transaction) (rid : RID)
    (mode : LockMode) (l : List TxItem) (hg : txn.state = TransactionState.GROWING)
    (hl : (mode ≠ LockMode.UPGRADING ∧ l = requests lm rid) ∨
      (mode = LockMode.UPGRADING ∧ (entry lm rid).hasUpgrading = false ∧
        (∃ it, findTid (requests lm rid) txn.txn_id = some it ∧ it.mode = LockMode.SHARED ∧
          it.granted = true) ∧
        rid ∈ txn.shared_lock_set ∧ l = eraseTid (requests lm rid) txn.txn_id)) :
    ∃ lm1 txn1 res, lockTemplate lm txn rid mode = Outcome.ok (lm1, txn1, res) ∧
      ((l = [] ∨ (mode = LockMode.SHARED ∧ ∃ last, l.getLast? = some last ∧
          last.granted = true ∧ last.mode = LockMode.SHARED)) →
        res = LockResult.returned true ∧
        requests lm1 rid = l ++ [⟨txn.txn_id,
          if mode = LockMode.UPGRADING then LockMode.EXCLUSIVE else mode, true⟩]) ∧
      (¬ (l = [] ∨ (mode = LockMode.SHARED ∧ ∃ last, l.getLast? = some last ∧
          last.granted = true ∧ last.mode = LockMode.SHARED)) →
        res = LockResult.waiting ∧ requests lm1 rid = l ++ [⟨txn.txn_id, mode, false⟩]) := by
  rcases hl with ⟨hm, hl⟩ | ⟨hm, hu, ⟨it, hf, him, hig⟩, hs, hl⟩
  · have hfin := finish_requests lm.strict_2PL txn rid mode
      (entry lm rid) (tableSet lm.lockTable rid (entry lm rid))
    have hll : (entry lm rid).locks = l := hl.symm
    rw [hll] at hfin
    have hiff := checkCanGrant_iff (entry lm rid) mode
    rw [hll] at hiff
    have heq : lockTemplate lm txn rid mode = Outcome.ok
        (⟨lm.strict_2PL, tableSet (tableSet lm.lockTable rid (entry lm rid)) rid
            (insert (entry lm rid) txn rid mode (checkCanGrant (entry lm rid) mode)).1⟩,
          (insert (entry lm rid) txn rid mode (checkCanGrant (entry lm rid) mode)).2.1,
          (insert (entry lm rid) txn rid mode (checkCanGrant (entry lm rid) mode)).2.2) := by
      unfold lockTemplate
      rw [if_neg (by simp [hg]), if_neg hm]
    refine ⟨_, _, _, heq, ?_, ?_⟩
    · intro hc
      exact hfin.1 (hiff.mpr hc)
    · intro hc
      have : checkCanGrant (entry lm rid) mode = false := by
        cases h : checkCanGrant (entry lm rid) mode
        · rfl
        · exact absurd (hiff.mp h) hc
      exact hfin.2 this
  · subst hm
    have hfin := finish_requests lm.strict_2PL
      { txn with shared_lock_set := (setErase txn.shared_lock_set rid).1 } rid
      LockMode.UPGRADING
      { entry lm rid with locks := eraseTid (entry lm rid).locks txn.txn_id }
      (tableSet lm.lockTable rid (entry lm rid))
    have hll : eraseTid (entry lm rid).locks txn.txn_id = l := hl.symm
    have hiff := checkCanGrant_iff
      { entry lm rid with locks := eraseTid (entry lm rid).locks txn.txn_id }
      LockMode.UPGRADING
    have hfl : ({ entry lm rid with locks := eraseTid (entry lm rid).locks txn.txn_id } :
        TxList).locks = l := hll
    rw [hfl] at hfin hiff
    have hf1 : findTid (entry lm rid).locks txn.txn_id = some it := hf
    obtain ⟨l1, hl1⟩ : ∃ l1 : TxList, l1 =
        { entry lm rid with locks := eraseTid (entry lm rid).locks txn.txn_id } := ⟨_, rfl⟩
    obtain ⟨t1, ht1⟩ : ∃ t1 : Transaction, t1 =
        { txn with shared_lock_set := (setErase txn.shared_lock_set rid).1 } := ⟨_, rfl⟩
    have heq : lockTemplate lm txn rid LockMode.UPGRADING = Outcome.ok
        (⟨lm.strict_2PL, tableSet (tableSet lm.lockTable rid (entry lm rid)) rid
            (insert l1 t1 rid LockMode.UPGRADING (checkCanGrant l1 LockMode.UPGRADING)).1⟩,
          (insert l1 t1 rid LockMode.UPGRADING (checkCanGrant l1 LockMode.UPGRADING)).2.1,
          (insert l1 t1 rid LockMode.UPGRADING (checkCanGrant l1 LockMode.UPGRADING)).2.2) := by
      unfold lockTemplate
      rw [if_neg (by simp [hg]), if_pos rfl]
      simp only []
      rw [if_neg (by simp [hu]), hf1]
      simp only []
      rw [if_neg (by simp [him, hig]), if_pos (setErase_count _ _ hs), hl1, ht1]
    rw [← hl1, ← ht1] at hfin
    rw [← hl1] at hiff
    have htid : t1.txn_id = txn.txn_id := by rw [ht1]
    rw [htid] at hfin
    refine ⟨_, _, _, heq, ?_, ?_⟩
    · intro hc
      exact hfin.1 (hiff.mpr hc)
    · intro hc
      have : checkCanGrant l1 LockMode.UPGRADING = false := by
        cases h : checkCanGrant l1 LockMode.UPGRADING
        · rfl
        · exact absurd (hiff.mp h) hc
      exact hfin.2 this

theorem C32_granted_iff_compatible_witness :
    ((Transaction.new 5).state = TransactionState.GROWING ∧
      LockMode.SHARED ≠ LockMode.UPGRADING ∧
      [(⟨0, LockMode.SHARED, true⟩ : TxItem)] = requests strictHeld ⟨0, 0⟩) ∧
    ∃ lm1 txn1 res,
      lockTemplate strictHeld (Transaction.new 5) ⟨0, 0⟩ LockMode.SHARED =
        Outcome.ok (lm1, txn1, res) ∧
      (([(⟨0, LockMode.SHARED, true⟩ : TxItem)] = [] ∨
          (LockMode.SHARED = LockMode.SHARED ∧
            ∃ last, [(⟨0, LockMode.SHARED, true⟩ : TxItem)].getLast? = some last ∧
              last.granted = true ∧ last.mode = LockMode.SHARED)) →
        res = LockResult.returned true ∧
        requests lm1 ⟨0, 0⟩ = [(⟨0, LockMode.SHARED, true⟩ : TxItem)] ++
          [⟨(Transaction.new 5).txn_id,
            if LockMode.SHARED = LockMode.UPGRADING then LockMode.EXCLUSIVE
            else LockMode.SHARED, true⟩]) ∧
      (¬ ([(⟨0, LockMode.SHARED, true⟩ : TxItem)] = [] ∨
          (LockMode.SHARED = LockMode.SHARED ∧
            ∃ last, [(⟨0, LockMode.SHARED, true⟩ : TxItem)].getLast? = some last ∧
              last.granted = true ∧ last.mode = LockMode.SHARED)) →
        res = LockResult.waiting ∧
        requests lm1 ⟨0, 0⟩ = [(⟨0, LockMode.SHARED, true⟩ : TxItem)] ++
          [⟨(Transaction.new 5).txn_id, LockMode.SHARED, false⟩]) :=
  ⟨⟨rfl, by decide, by decide⟩,
    C32_granted_iff_compatible strictHeld (Transaction.new 5) ⟨0, 0⟩ LockMode.SHARED
      [⟨0, LockMode.SHARED, true⟩] rfl (Or.inl ⟨by decide, by decide⟩)⟩

end LockManager
namespace LockManager

/-- C38: on a new non-strict lock manager, `LockExclusive` by transaction 1 on
rid (0, 0) is granted, `LockShared` by transaction 2 and `LockExclusive` by
transaction 3 on the same rid wait, and `Unlock` by transaction 1 returns true;
the lock table reached holds a granted SHARED request (transaction 2) and a
granted EXCLUSIVE request (transaction 3) on rid (0, 0) at the same time. -/
theorem C38_exclusive_granted_next_to_shared :
    LockExclusive (new false) (Transaction.new 1) ⟨0, 0⟩ =
      Outcome.ok (writerOnly, writer, LockResult.returned true) ∧
    LockShared writerOnly (Transaction.new 2) ⟨0, 0⟩ =
      Outcome.ok (writerThenReader, Transaction.new 2, LockResult.waiting) ∧
    LockExclusive writerThenReader (Transaction.new 3) ⟨0, 0⟩ =
      Outcome.ok (writerThenWaiters, Transaction.new 3, LockResult.waiting) ∧
    Unlock writerThenWaiters writer ⟨0, 0⟩ =
      Outcome.ok (readerAndWriter, { writer with state := TransactionState.SHRINKING,
                                                 exclusive_lock_set := [] }, true) ∧
    Reached readerAndWriter ∧
    requests readerAndWriter ⟨0, 0⟩ =
      [⟨2, LockMode.SHARED, true⟩, ⟨3, LockMode.EXCLUSIVE, true⟩] := by
  have h1 : LockExclusive (new false) (Transaction.new 1) ⟨0, 0⟩ =
      Outcome.ok (writerOnly, writer, LockResult.returned true) := by decide
  have h2 : LockShared writerOnly (Transaction.new 2) ⟨0, 0⟩ =
      Outcome.ok (writerThenReader, Transaction.new 2, LockResult.waiting) := by decide
  have h3 : LockExclusive writerThenReader (Transaction.new 3) ⟨0, 0⟩ =
      Outcome.ok (writerThenWaiters, Transaction.new 3, LockResult.waiting) := by decide
  have h4 : Unlock writerThenWaiters writer ⟨0, 0⟩ =
      Outcome.ok (readerAndWriter, { writer with state := TransactionState.SHRINKING,
                                                 exclusive_lock_set := [] }, true) := by
    decide
  exact ⟨h1, h2, h3, h4,
    Reached.unlock _ _ _ _ _ _
      (Reached.lockExclusive _ _ _ _ _ _
        (Reached.lockShared _ _ _ _ _ _
          (Reached.lockExclusive _ _ _ _ _ _ (Reached.init false) h1) h2) h3) h4,
    by decide⟩

end LockManager
namespace LeafPage

variable {V : Type}

theorem sorted_get_le (a : List (Int × V)) (hs : (a.map Prod.fst).Pairwise (fun x y => x < y))
    (i j : Nat) (hij : i ≤ j) (ei ej : Int × V) (hi : a[i]? = some ei) (hj : a[j]? = some ej) :
    ei.1 ≤ ej.1 := by
  rcases Nat.eq_or_lt_of_le hij with h | h
  · subst h
    rw [hi] at hj
    cases hj
    exact le_refl _
  · rw [List.pairwise_map, List.pairwise_iff_getElem] at hs
    obtain ⟨h1, h1e⟩ := List.getElem?_eq_some.1 hi
    obtain ⟨h2, h2e⟩ := List.getElem?_eq_some.1 hj
    have := hs i j h1 h2 h
    rw [h1e, h2e] at this
    exact le_of_lt this

theorem KeyIndexLoop_spec (a : List (Int × V)) (key : Int)
    (hs : (a.map Prod.fst).Pairwise (fun x y => x < y)) :
    ∀ (fuel : Nat) (st ed : Int), 0 ≤ st → st ≤ ed + 1 → ed + 1 ≤ a.length →
      (ed + 1 - st).toNat < fuel →
      (∀ i : Nat, (i : Int) < st → ∀ e, a[i]? = some e → e.1 < key) →
      (∀ i : Nat, ed < (i : Int) → ∀ e, a[i]? = some e → key ≤ e.1) →
      ∃ r : Nat, KeyIndexLoop a key fuel st ed = some (r : Int) ∧ r ≤ a.length ∧
        (∀ i : Nat, i < r → ∀ e, a[i]? = some e → e.1 < key) ∧
        (∀ i : Nat, r ≤ i → ∀ e, a[i]? = some e → key ≤ e.1) := by
  intro fuel
  induction fuel with
  | zero => intro st ed _ _ _ h; omega
  | succ fuel ih =>
    intro st ed h0 h1 h2 hf hlo hhi
    unfold KeyIndexLoop
    by_cases hle : st ≤ ed
    · rw [if_pos hle]
      have hd : Int.tdiv (ed - st) 2 = (ed - st) / 2 :=
        Int.tdiv_eq_ediv (by omega) (by omega)
      simp only [hd]
      have hm1 : st ≤ (ed - st) / 2 + st := by omega
      have hm2 : (ed - st) / 2 + st ≤ ed := by omega
      obtain ⟨m, hm⟩ : ∃ m : Nat, ((ed - st) / 2 + st) = (m : Int) :=
        ⟨((ed - st) / 2 + st).toNat, (Int.toNat_of_nonneg (by omega)).symm⟩
      rw [hm] at hm1 hm2 ⊢
      have hml : m < a.length := by omega
      have hget : a.get? (m : Int).toNat = some (a.get ⟨m, hml⟩) := by
        simp [List.get?_eq_getElem?, List.getElem?_eq_getElem hml]
      rw [hget]
      have hme : a[m]? = some (a.get ⟨m, hml⟩) := by
        simp [List.getElem?_eq_getElem hml]
      simp only []
      by_cases hk : (a.get ⟨m, hml⟩).1 ≥ key
      · rw [if_pos hk]
        apply ih st ((m : Int) - 1) h0 (by omega) (by omega) (by omega) hlo
        intro i hi e he
        have : m ≤ i := by omega
        exact le_trans hk (sorted_get_le a hs m i this _ _ hme he)
      · rw [if_neg hk]
        apply ih ((m : Int) + 1) ed (by omega) (by omega) h2 (by omega) _ hhi
        intro i hi e he
        have : i ≤ m := by omega
        exact lt_of_le_of_lt (sorted_get_le a hs i m this _ _ he hme) (not_le.1 hk)
    · rw [if_neg hle]
      have hed : ed + 1 = st := by omega
      refine ⟨st.toNat, ?_, ?_, ?_, ?_⟩
      · rw [hed, Int.toNat_of_nonneg h0]
      · omega
      · intro i hi e he
        exact hlo i (by omega) e he
      · intro i hi e he
        exact hhi i (by omega) e he

/-- On a leaf with keys in strictly ascending order `KeyIndex` returns the
number of keys smaller than `key`: the entries before that index have smaller
keys and the entries from that index on have keys at least `key`. -/
theorem leaf_KeyIndex_spec (p : LeafPage V) (hs : p.Sorted) (key : Int) :
    ∃ r : Nat, p.KeyIndex key = some (r : Int) ∧ r ≤ p.array.length ∧
      (∀ e ∈ p.array.take r, e.1 < key) ∧ (∀ e ∈ p.array.drop r, key ≤ e.1) := by
  obtain ⟨r, h1, h2, h3, h4⟩ := KeyIndexLoop_spec p.array key hs (p.array.length + 1) 0
    (p.GetSize - 1) (le_refl _) (by unfold GetSize; omega) (by unfold GetSize; omega)
    (by unfold GetSize; omega) (by intro i hi; omega)
    (by
      intro i hi e he
      obtain ⟨h, -⟩ := List.getElem?_eq_some.1 he
      unfold GetSize at hi
      omega)
  refine ⟨r, h1, h2, ?_, ?_⟩
  · intro e he
    obtain ⟨i, hi, hie⟩ := List.getElem_of_mem he
    rw [List.length_take] at hi
    have : p.array[i]? = some e := by
      rw [List.getElem_take] at hie
      rw [← hie]
      exact List.getElem?_eq_getElem _
    exact h3 i (by omega) e this
  · intro e he
    obtain ⟨i, hi, hie⟩ := List.getElem_of_mem he
    rw [List.length_drop] at hi
    have : p.array[r + i]? = some e := by
      rw [List.getElem_drop] at hie
      rw [← hie]
      exact List.getElem?_eq_getElem _
    exact h4 (r + i) (by omega) e this

end LeafPage

namespace LeafPage

variable {V : Type}

theorem getElem_toNat_drop (a : List (Int × V)) (r : Nat) (h : (r : Int) < a.length) :
    ∃ e rest, a.get? (r : Int).toNat = some e ∧ a.drop r = e :: rest := by
  have hr : r < a.length := by omega
  refine ⟨a.get ⟨r, hr⟩, a.drop (r + 1), ?_, ?_⟩
  · rw [List.get?_eq_getElem?, Int.toNat_ofNat, List.getElem?_eq_getElem hr]
    rfl
  · rw [List.drop_eq_getElem_cons hr]
    rfl

/-- On a leaf with keys in strictly ascending order `Lookup` returns the value
stored under `key`, if there is one, and nothing otherwise. -/
theorem leaf_Lookup_spec (p : LeafPage V) (hs : p.Sorted) (key : Int) :
    ∃ o, p.Lookup key = Outcome.ok o ∧ ∀ v, o = some v ↔ (key, v) ∈ p.array := by
  obtain ⟨r, h1, h2, h3, h4⟩ := leaf_KeyIndex_spec p hs key
  have hsplit := List.take_append_drop r p.array
  have hmem : ∀ v, (key, v) ∈ p.array → (key, v) ∈ p.array.drop r := by
    intro v hv
    rw [← hsplit, List.mem_append] at hv
    rcases hv with hv | hv
    · exact absurd (h3 _ hv) (lt_irrefl _)
    · exact hv
  unfold Lookup
  rw [h1]
  simp only [GetSize]
  by_cases hlt : (r : Int) < p.array.length
  · rw [if_pos hlt]
    obtain ⟨e, rest, hg, hd⟩ := getElem_toNat_drop p.array r hlt
    rw [hg]
    simp only []
    have hsd : ((e :: rest).map Prod.fst).Pairwise (fun x y => x < y) := by
      rw [← hd]
      have : (p.array.drop r).Sublist p.array := List.drop_sublist _ _
      exact List.Pairwise.sublist (this.map _) hs
    by_cases hk : e.1 = key
    · rw [if_pos hk]
      refine ⟨_, rfl, fun v => ⟨fun h => ?_, fun h => ?_⟩⟩
      · cases h
        have : e ∈ p.array := by
          rw [← hsplit, hd]; simp
        rw [← hk]
        exact this
      · have hv := hmem v h
        rw [hd, List.mem_cons] at hv
        rcases hv with hv | hv
        · rw [← hv]
        · exfalso
          simp only [List.map_cons, List.pairwise_cons, List.mem_map] at hsd
          have := hsd.1 key ⟨(key, v), hv, rfl⟩
          omega
    · rw [if_neg hk]
      refine ⟨_, rfl, fun v => Iff.intro (fun h => by cases h) (fun h => ?_)⟩
      exfalso
      have hv := hmem v h
      rw [hd, List.mem_cons] at hv
      rcases hv with hv | hv
      · exact hk (by rw [← hv])
      · simp only [List.map_cons, List.pairwise_cons, List.mem_map] at hsd
        have h5 := hsd.1 key ⟨(key, v), hv, rfl⟩
        have h6 := h4 e (by rw [hd]; simp)
        omega
  · rw [if_neg hlt]
    refine ⟨_, rfl, fun v => Iff.intro (fun h => by cases h) (fun h => ?_)⟩
    exfalso
    have hv := hmem v h
    have : p.array.drop r = [] := List.drop_eq_nil_of_le (by omega)
    rw [this] at hv
    simp at hv

/-- On a leaf with keys in strictly ascending order that does not hold `key`,
`Insert` returns the old size plus one and the new page holds the old entries
and the new one, with keys still in strictly ascending order. -/
theorem leaf_Insert_spec (p : LeafPage V) (hs : p.Sorted) (key : Int) (value : V)
    (hn : ∀ v, (key, v) ∉ p.array) :
    ∃ q, p.Insert key value = Outcome.ok (q, p.GetSize + 1) ∧ q.Sorted ∧
      (∀ e, e ∈ q.array ↔ e = (key, value) ∨ e ∈ p.array) ∧
      q.array.length = p.array.length + 1 ∧
      q.max_size = p.max_size ∧ q.parent_page_id = p.parent_page_id ∧
      q.page_id = p.page_id ∧ q.next_page_id = p.next_page_id := by
  obtain ⟨r, h1, h2, h3, h4⟩ := leaf_KeyIndex_spec p hs key
  have hsplit := List.take_append_drop r p.array
  unfold Insert
  rw [h1]
  simp only [Int.toNat_ofNat, Int.ofNat_nonneg, if_true]
  refine ⟨_, rfl, ?_, ?_, ?_, rfl, rfl, rfl, rfl⟩
  · unfold Sorted at hs ⊢
    simp only [List.map_append, List.map_cons]
    rw [← hsplit] at hs
    simp only [List.map_append, List.pairwise_append] at hs
    rw [List.pairwise_append]
    refine ⟨hs.1, ?_, ?_⟩
    · rw [List.pairwise_cons]
      refine ⟨?_, hs.2.1⟩
      intro b hb
      obtain ⟨e, he, rfl⟩ := List.mem_map.1 hb
      have h5 := h4 e he
      rcases lt_or_eq_of_le h5 with h6 | h6
      · exact h6
      · exfalso
        apply hn e.2
        have : e ∈ p.array := by rw [← hsplit]; exact List.mem_append_right _ he
        rw [h6]
        exact this
    · intro a ha b hb
      rw [List.mem_cons] at hb
      obtain ⟨e, he, rfl⟩ := List.mem_map.1 ha
      rcases hb with hb | hb
      · rw [hb]; exact h3 e he
      · exact hs.2.2 _ ha _ hb
  · intro e
    simp only [List.mem_append, List.mem_cons]
    constructor
    · rintro (h | h | h)
      · right; rw [← hsplit]; exact List.mem_append_left _ h
      · left; exact h
      · right; rw [← hsplit]; exact List.mem_append_right _ h
    · rintro (h | h)
      · right; left; exact h
      · rw [← hsplit, List.mem_append] at h
        rcases h with h | h
        · left; exact h
        · right; right; exact h
  · simp only [List.length_append, List.length_cons, List.length_take, List.length_drop]
    omega

end LeafPage
namespace LeafPage

variable {V : Type}

/-- C33: on a leaf page whose keys are in strictly ascending order, `KeyIndex(key)`
returns an index `r` between 0 and the size of the leaf such that every entry
before `r` has a key smaller than `key` and every entry from `r` on has a key
at least `key`: the smallest index whose key is at least `key`, the size of the
leaf when every key is smaller, 0 on an empty leaf. -/
theorem C33_key_index_first_not_smaller (p : LeafPage V) (key : Int) (hs : p.Sorted) :
    ∃ r : Nat, p.KeyIndex key = some (r : Int) ∧ r ≤ p.array.length ∧
      (∀ i e, p.array[i]? = some e → i < r → e.1 < key) ∧
      (∀ i e, p.array[i]? = some e → r ≤ i → key ≤ e.1) ∧
      ((∀ e ∈ p.array, e.1 < key) → (r : Int) = p.GetSize) ∧
      (p.array = [] → r = 0) := by
  obtain ⟨r, h1, h2, h3, h4⟩ := KeyIndexLoop_spec p.array key hs (p.array.length + 1) 0
    (p.GetSize - 1) (le_refl _) (by unfold GetSize; omega) (by unfold GetSize; omega)
    (by unfold GetSize; omega) (by intro i hi; omega)
    (by
      intro i hi e he
      obtain ⟨h, -⟩ := List.getElem?_eq_some.1 he
      unfold GetSize at hi
      omega)
  refine ⟨r, h1, h2, fun i e he hi => h3 i hi e he, fun i e he hi => h4 i hi e he, ?_, ?_⟩
  · intro hall
    unfold GetSize
    by_contra hne
    have hlt : r < p.array.length := by omega
    have hge := h4 r (le_refl _) (p.array.get ⟨r, hlt⟩) (List.getElem?_eq_getElem hlt)
    have hsm := hall (p.array.get ⟨r, hlt⟩) (List.get_mem _ _ _)
    omega
  · intro he
    rw [he] at h2
    simpa using h2

theorem demoLeaf_sorted : demoLeaf.Sorted := by
  unfold Sorted
  decide

theorem demoLeaf2_sorted : demoLeaf2.Sorted := by
  unfold Sorted
  decide

theorem C33_key_index_first_not_smaller_witness :
    demoLeaf.Sorted ∧
    ∃ r : Nat, demoLeaf.KeyIndex 25 = some (r : Int) ∧ r ≤ demoLeaf.array.length ∧
      (∀ i e, demoLeaf.array[i]? = some e → i < r → e.1 < 25) ∧
      (∀ i e, demoLeaf.array[i]? = some e → r ≤ i → 25 ≤ e.1) ∧
      ((∀ e ∈ demoLeaf.array, e.1 < 25) → (r : Int) = demoLeaf.GetSize) ∧
      (demoLeaf.array = [] → r = 0) :=
  ⟨demoLeaf_sorted, C33_key_index_first_not_smaller demoLeaf 25 demoLeaf_sorted⟩

/-- C34: on a leaf page with keys in strictly ascending order that does not hold
`key`, `Insert(key, value)` returns the old size plus one; the entries afterwards
are the old entries and `(key, value)`, with keys in strictly ascending order;
`Lookup(key)` then returns true with `value` and `Lookup` of every other key
returns what it returned before. -/
theorem C34_leaf_insert_keeps_order (p : LeafPage V) (key : Int) (value : V) (hs : p.Sorted)
    (hn : ∀ v, (key, v) ∉ p.array) :
    ∃ q, p.Insert key value = Outcome.ok (q, p.GetSize + 1) ∧ q.Sorted ∧
      (∀ e, e ∈ q.array ↔ e = (key, value) ∨ e ∈ p.array) ∧
      q.GetSize = p.GetSize + 1 ∧
      q.Lookup key = Outcome.ok (some value) ∧
      (∀ k, k ≠ key → q.Lookup k = p.Lookup k) := by
  obtain ⟨q, hq, hqs, hmem, hlen, -⟩ := leaf_Insert_spec p hs key value hn
  refine ⟨q, hq, hqs, hmem, ?_, ?_, ?_⟩
  · unfold GetSize
    rw [hlen]
    push_cast
    rfl
  · obtain ⟨o, ho, hov⟩ := leaf_Lookup_spec q hqs key
    rw [ho]
    have h1 : o = some value := (hov value).2 ((hmem _).2 (Or.inl rfl))
    rw [h1]
  · intro k hk
    obtain ⟨o, ho, hov⟩ := leaf_Lookup_spec q hqs k
    obtain ⟨o1, ho1, hov1⟩ := leaf_Lookup_spec p hs k
    rw [ho, ho1]
    have hiff : ∀ v, o = some v ↔ o1 = some v := by
      intro v
      rw [hov v, hov1 v, hmem]
      constructor
      · rintro (h | h)
        · exact absurd (congrArg Prod.fst h) hk
        · exact h
      · intro h
        exact Or.inr h
    cases o with
    | none =>
      cases o1 with
      | none => rfl
      | some v1 => exact absurd ((hiff v1).2 rfl) (by simp)
    | some v =>
      rw [(hiff v).1 rfl]

theorem C34_leaf_insert_keeps_order_witness :
    (demoLeaf2.Sorted ∧ ∀ v, ((20 : Int), v) ∉ demoLeaf2.array) ∧
    ∃ q, demoLeaf2.Insert 20 200 = Outcome.ok (q, demoLeaf2.GetSize + 1) ∧ q.Sorted ∧
      (∀ e, e ∈ q.array ↔ e = (20, 200) ∨ e ∈ demoLeaf2.array) ∧
      q.GetSize = demoLeaf2.GetSize + 1 ∧
      q.Lookup 20 = Outcome.ok (some 200) ∧
      (∀ k, k ≠ 20 → q.Lookup k = demoLeaf2.Lookup k) :=
  ⟨⟨demoLeaf2_sorted, by intro v hv; simp [demoLeaf2] at hv⟩,
    C34_leaf_insert_keeps_order demoLeaf2 20 200 demoLeaf2_sorted
      (by intro v hv; simp [demoLeaf2] at hv)⟩

/-- C35: for a leaf that holds `maxSize + 1` entries, with `maxSize` at least 1,
`MoveHalfTo(recipient)` returns; the leaf keeps its first `(maxSize + 1) / 2`
entries and the recipient holds the remaining entries in the same order; both
sizes are at least half of `maxSize`, rounded up (twice the size is at least
`maxSize`), and at most `maxSize`; the next page id of the recipient is the old
next page id of the leaf and the next page id of the leaf is the page id of the
recipient. -/
theorem C35_move_half_to (p recipient : LeafPage V) (hm : 1 ≤ p.max_size)
    (hsz : p.GetSize = p.max_size + 1) :
    ∃ p1 r1, p.MoveHalfTo recipient = Outcome.ok (p1, r1) ∧
      p1.array = p.array.take ((p.max_size + 1) / 2).toNat ∧
      r1.array = p.array.drop ((p.max_size + 1) / 2).toNat ∧
      p1.array ++ r1.array = p.array ∧
      p1.GetSize = (p.max_size + 1) / 2 ∧
      r1.GetSize = p.max_size + 1 - (p.max_size + 1) / 2 ∧
      p.max_size ≤ 2 * p1.GetSize ∧ p1.GetSize ≤ p.max_size ∧
      p.max_size ≤ 2 * r1.GetSize ∧ r1.GetSize ≤ p.max_size ∧
      r1.next_page_id = p.next_page_id ∧ p1.next_page_id = recipient.page_id ∧
      p1.page_id = p.page_id ∧ r1.page_id = recipient.page_id ∧
      p1.max_size = p.max_size ∧ r1.max_size = recipient.max_size := by
  have hd : Int.tdiv (p.max_size + 1) 2 = (p.max_size + 1) / 2 :=
    Int.tdiv_eq_ediv (by omega) (by omega)
  unfold GetSize at hsz
  have hlen1 : ((p.array.take ((p.max_size + 1) / 2).toNat).length : Int) =
      (p.max_size + 1) / 2 := by
    rw [List.length_take]
    omega
  have hlen2 : ((p.array.drop ((p.max_size + 1) / 2).toNat).length : Int) =
      p.max_size + 1 - (p.max_size + 1) / 2 := by
    rw [List.length_drop]
    omega
  refine ⟨{ p with next_page_id := recipient.page_id,
                   array := p.array.take ((p.max_size + 1) / 2).toNat },
    { recipient with next_page_id := p.next_page_id,
                     array := p.array.drop ((p.max_size + 1) / 2).toNat }, ?_, rfl, rfl,
    List.take_append_drop _ _, hlen1, hlen2, ?_, ?_, ?_, ?_, rfl, rfl, rfl, rfl, rfl, rfl⟩
  · unfold MoveHalfTo GetSize
    simp only []
    rw [if_pos hsz, hd]
  · show p.max_size ≤ 2 * ((p.array.take ((p.max_size + 1) / 2).toNat).length : Int)
    rw [hlen1]
    omega
  · show ((p.array.take ((p.max_size + 1) / 2).toNat).length : Int) ≤ p.max_size
    rw [hlen1]
    omega
  · show p.max_size ≤ 2 * ((p.array.drop ((p.max_size + 1) / 2).toNat).length : Int)
    rw [hlen2]
    omega
  · show ((p.array.drop ((p.max_size + 1) / 2).toNat).length : Int) ≤ p.max_size
    rw [hlen2]
    omega

theorem C35_move_half_to_witness :
    ((1 : Int) ≤ demoLeaf.max_size ∧ demoLeaf.GetSize = demoLeaf.max_size + 1) ∧
    demoLeaf.MoveHalfTo demoRecipient = Outcome.ok
      ({ demoLeaf with next_page_id := 2, array := [(10, 100), (20, 200)] },
       { demoRecipient with next_page_id := 9, array := [(30, 300), (40, 400)] }) ∧
    ∃ p1 r1, demoLeaf.MoveHalfTo demoRecipient = Outcome.ok (p1, r1) ∧
      p1.array = demoLeaf.array.take ((demoLeaf.max_size + 1) / 2).toNat ∧
      r1.array = demoLeaf.array.drop ((demoLeaf.max_size + 1) / 2).toNat ∧
      p1.array ++ r1.array = demoLeaf.array ∧
      p1.GetSize = (demoLeaf.max_size + 1) / 2 ∧
      r1.GetSize = demoLeaf.max_size + 1 - (demoLeaf.max_size + 1) / 2 ∧
      demoLeaf.max_size ≤ 2 * p1.GetSize ∧ p1.GetSize ≤ demoLeaf.max_size ∧
      demoLeaf.max_size ≤ 2 * r1.GetSize ∧ r1.GetSize ≤ demoLeaf.max_size ∧
      r1.next_page_id = demoLeaf.next_page_id ∧ p1.next_page_id = demoRecipient.page_id ∧
      p1.page_id = demoLeaf.page_id ∧ r1.page_id = demoRecipient.page_id ∧
      p1.max_size = demoLeaf.max_size ∧ r1.max_size = demoRecipient.max_size :=
  ⟨⟨by decide, by decide⟩, by decide,
    C35_move_half_to demoLeaf demoRecipient (by decide) (by decide)⟩

end LeafPage

namespace LogRecovery

open BufferPoolManager TablePage

set_option maxRecDepth 100000 in
/-- C40: the log holds BEGIN and a NEWPAGE record (lsn 1) for the new page 8 with
the predecessor page 7, whose next page id on disk is -1.  `Redo` returns; in the
pool the next page id of page 7 is then 8, but the frame of page 7 was unpinned
as clean, although `Redo` changed it: the code passes
`needChange = (prevPage->GetNextPageId() == log.page_id_)`, computed before the
update, to `UnpinPage`.  When the frame is reused (`FetchPage(9)`) the change is
not written to disk, and a later `FetchPage(7)` returns page 7 with next page
id -1 again. -/
theorem C40_changed_predecessor_unpinned_clean :
    demoNewPageRecord.prev_page_id = 7 ∧ demoNewPageRecord.page_id = 8 ∧
    demoTablePage.GetNextPageId = -1 ∧
    ∃ rc1 s3 s5,
      Redo demoPageConfig 128 (-1) 33 8 4 demoRecovery2 = Outcome.ok rc1 ∧
      rc1.buffer_pool_manager.page_table.Find 7 = some 1 ∧
      (frame rc1.buffer_pool_manager 1).GetNextPageId = 8 ∧
      (pageAt rc1.buffer_pool_manager 1).is_dirty = false ∧
      FetchPage demoPageConfig 33 rc1.buffer_pool_manager 9 = Outcome.ok (s3, some 1) ∧
      FetchPage demoPageConfig 33 (UnpinPage s3 9 false).1 7 = Outcome.ok (s5, some 0) ∧
      (frame s5 0).GetNextPageId = -1 :=
  ⟨rfl, rfl, rfl, _, _, _, rfl, rfl, rfl, rfl, rfl, rfl, rfl⟩

set_option maxRecDepth 100000 in
/-- C37: with a log buffer of 48 bytes and a log file of 60 bytes that holds the
BEGIN records of the transactions 1, 2 and 3 (lsns 0, 1, 2) at the offsets 0, 20
and 40, the third record straddles the end of the first chunk.  `Redo` returns
with `lsn_mapping[2] = 48`, the file offset at which the second chunk was read,
not the offset 40 at which the record begins: `bufferStart = offset_` leaves out
the bytes carried over from the chunk before.  `ReadLog` at that offset does not
yield the record, and `Undo` ends in a failed assertion. -/
theorem C37_lsn_mapping_off_after_first_chunk :
    rdBytes demoRecovery3.log_file 40 20 = (demoBeginOf 3 2).bytes ∧
    ∃ rc1,
      Redo demoPageConfig 48 (-1) 33 8 4 demoRecovery3 = Outcome.ok rc1 ∧
      rc1.lsn_mapping = [(0, 0), (1, 20), (2, 48)] ∧
      rc1.active_txn = [(1, 0), (2, 1), (3, 2)] ∧
      DeserializeLogRecord 48 (readRecordOf demoPageConfig rc1 2).log_buffer 0
          (LogRecord.new demoPageConfig (-1)) = Outcome.fault Fault.assert_failed ∧
      Undo demoPageConfig 48 (-1) 33 8 rc1 = Outcome.fault Fault.assert_failed :=
  ⟨rfl, _, rfl, rfl, rfl, rfl, rfl⟩

end LogRecovery

namespace LogRecovery

open BufferPoolManager

theorem logBytes_append (a b : List LogRecord) : logBytes (a ++ b) = logBytes a ++ logBytes b := by
  induction a with
  | nil => rfl
  | cons r a ih =>
    show r.bytes ++ logBytes (a ++ b) = (r.bytes ++ logBytes a) ++ logBytes b
    rw [ih, List.append_assoc]

theorem logBytes_single (r : LogRecord) : logBytes [r] = r.bytes := by
  show r.bytes ++ [] = r.bytes
  rw [List.append_nil]

/-- After `ReadLog` stored the next bytes of the file behind the `rest` bytes kept
from the chunk before, the buffer holds the bytes of the file from `w` on. -/
theorem win_read (file buf : List Nat) (w n pos rest : Int) (hlen : (buf.length : Int) = n)
    (h0 : 0 ≤ rest) (h1 : rest ≤ n) (hpos : pos = w + rest)
    (hkeep : ∀ x, 0 ≤ x → x < rest → getByte buf x = getByte file (w + x)) :
    Win file (wrBytes buf rest (rdBytes file pos (n - rest))) w n := by
  intro x hx0 hx1
  have hl : ((rdBytes file pos (n - rest)).length : Int) = n - rest := by
    rw [length_rdBytes]
    omega
  rw [getByte_wrBytes_fit buf rest _ h0 (by omega)]
  by_cases hx : rest ≤ x
  · rw [if_pos ⟨hx, by omega⟩]
    have := getByte_rdBytes file pos (n - rest) (x - rest) (by omega) (by omega)
    rw [hpos] at this ⊢
    have e : w + rest + (x - rest) = w + x := by omega
    rw [e] at this
    rw [← this]
    unfold getByte
    rw [if_pos (by omega)]
  · rw [if_neg (fun h => hx h.1)]
    exact hkeep x hx0 (by omega)

/-- A part of the file that lies in the window is in the buffer. -/
theorem win_record (file buf : List Nat) (w n : Int) (hw : Win file buf w n)
    (pre b post : List Nat) (hfile : file = pre ++ b ++ post) (o : Int) (ho : 0 ≤ o)
    (hpos : w + o = pre.length) (hin : o + b.length ≤ n) :
    rdBytes buf o (b.length : Nat) = b := by
  conv_rhs => rw [← rdBytes_file_mid pre b post]
  apply rdBytes_ext
  intro i hi0 hi1
  rw [hw (o + i) (by omega) (by omega), hfile]
  congr 1
  omega

/-- The bytes kept for the next chunk by the `memmove` at the end of a chunk. -/
theorem win_move (file buf : List Nat) (w n bo : Int) (hw : Win file buf w n)
    (hlen : (buf.length : Int) = n) (h0 : 0 ≤ bo) (h1 : bo ≤ n) (x : Int) (hx0 : 0 ≤ x)
    (hx1 : x < n - bo) :
    getByte (wrBytes buf 0 (rdBytes buf bo (n - bo))) x = getByte file (w + bo + x) := by
  have hl : ((rdBytes buf bo (n - bo)).length : Int) = n - bo := by
    rw [length_rdBytes]
    omega
  rw [getByte_wrBytes_fit buf 0 _ (le_refl _) (by omega), if_pos ⟨hx0, by omega⟩]
  have := getByte_rdBytes buf bo (n - bo) x hx0 hx1
  have e : (x - 0).toNat = x.toNat := by rw [sub_zero]
  rw [e]
  have h2 : getByte (rdBytes buf bo (n - bo)) x = (rdBytes buf bo (n - bo)).getD x.toNat 0 := by
    unfold getByte
    rw [if_pos hx0]
  rw [← h2, this, hw (bo + x) (by omega) (by omega)]
  congr 1
  omega

/-- Past the end of the file the window holds zeros, so no record is read
there. -/
theorem Deserialize_past_end (LOG_BUFFER_SIZE : Int) (file buf : List Nat) (w : Int)
    (hw : Win file buf w LOG_BUFFER_SIZE) (o : Int) (ho : 0 ≤ o)
    (hpast : (file.length : Int) ≤ w + o) (log0 : LogRecord) :
    ∃ log, DeserializeLogRecord LOG_BUFFER_SIZE buf o log0 = Outcome.ok (log, false) := by
  unfold DeserializeLogRecord
  by_cases h : o + LogRecord.HEADER_SIZE > LOG_BUFFER_SIZE
  · rw [if_pos h]
    exact ⟨_, rfl⟩
  · rw [if_neg h]
    have hH : LogRecord.HEADER_SIZE = 20 := rfl
    rw [hH] at h
    have hz : rd32 buf o = 0 := by
      apply rd32_zero
      intro x h1 h2
      rw [hw x (by omega) (by omega)]
      exact getByte_of_length_le _ _ (by omega)
    have hs : (log0.readHeader buf o).size = 0 := hz
    simp only
    rw [if_pos (Or.inl (by rw [hs]))]
    exact ⟨_, rfl⟩

/-- A record that begins in the window and ends behind it is not read. -/
theorem Deserialize_cut_record (LOG_BUFFER_SIZE : Int) (file buf : List Nat) (w : Int)
    (hw : Win file buf w LOG_BUFFER_SIZE) (r : LogRecord) (hsize : r.size = r.bytes.length)
    (hint : isInt32 r.size) (pre post : List Nat) (hfile : file = pre ++ r.bytes ++ post)
    (o : Int) (ho : 0 ≤ o) (hpos : w + o = pre.length)
    (hout : LOG_BUFFER_SIZE < o + r.bytes.length) (log0 : LogRecord) :
    ∃ log, DeserializeLogRecord LOG_BUFFER_SIZE buf o log0 = Outcome.ok (log, false) := by
  unfold DeserializeLogRecord
  by_cases h : o + LogRecord.HEADER_SIZE > LOG_BUFFER_SIZE
  · rw [if_pos h]
    exact ⟨_, rfl⟩
  · rw [if_neg h]
    have hH : LogRecord.HEADER_SIZE = 20 := rfl
    rw [hH] at h
    have hhead : rdBytes buf o (r.headerBytes.length : Nat) = r.headerBytes :=
      win_record file buf w LOG_BUFFER_SIZE hw pre r.headerBytes (r.payloadBytes ++ post)
        (by rw [hfile]; unfold LogRecord.bytes; simp) o ho hpos
        (by rw [LogRecord.length_headerBytes]; push_cast; omega)
    have hz : rd32 buf o = r.size := by
      apply rd32_mid buf o [] r.size
        (enc32 r.lsn ++ enc32 r.txn_id ++ enc32 r.prev_lsn ++ enc32 r.log_record_type.val) o
        (by simp) hint
      have e : [] ++ enc32 r.size ++
          (enc32 r.lsn ++ enc32 r.txn_id ++ enc32 r.prev_lsn ++ enc32 r.log_record_type.val) =
          r.headerBytes := by
        unfold LogRecord.headerBytes
        simp
      rw [e]
      exact hhead
    have hs : (log0.readHeader buf o).size = r.size := hz
    simp only
    rw [if_pos (Or.inr (by rw [hs, hsize]; omega))]
    exact ⟨_, rfl⟩

end LogRecovery
namespace LogRecovery

open BufferPoolManager

theorem stepActive_congr (a : List (Int × Int)) (r log : LogRecord)
    (h : LogRecord.Reproduces r log) : stepActive a log = stepActive a r := by
  unfold stepActive
  rw [h.type, h.txn_id, h.lsn]

/-- One round of the record loop of `Redo`: the replay on the page ends the loop
with a fault, or the loop goes on behind the record with the table `active_txn_`
updated by `stepActive`. -/
theorem redoLoop_step (cfg : Config) (LOG_BUFFER_SIZE : Int) (fuel : Nat) (bufferStart : Int)
    (n : Nat) (rc : LogRecovery) (bo : Int) (log0 log : LogRecord)
    (h : DeserializeLogRecord LOG_BUFFER_SIZE rc.log_buffer bo log0 = Outcome.ok (log, true)) :
    (∃ f s, log.log_record_type ≠ LogRecordType.BEGIN ∧
      log.log_record_type ≠ LogRecordType.COMMIT ∧ log.log_record_type ≠ LogRecordType.ABORT ∧
      (redoNewPage cfg fuel s log = Outcome.fault f ∨
        redoTuple cfg fuel s log = Outcome.fault f) ∧
      redoLoop cfg LOG_BUFFER_SIZE fuel bufferStart (n + 1) rc bo log0 = Outcome.fault f) ∨
    (∃ rc1, redoLoop cfg LOG_BUFFER_SIZE fuel bufferStart (n + 1) rc bo log0 =
        redoLoop cfg LOG_BUFFER_SIZE fuel bufferStart n rc1 (bo + log.size) log ∧
      rc1.active_txn = stepActive rc.active_txn log ∧ rc1.log_buffer = rc.log_buffer ∧
      rc1.log_file = rc.log_file ∧ rc1.offset = rc.offset) := by
  rw [redoLoop, h]
  simp only
  by_cases hB : log.log_record_type = LogRecordType.BEGIN
  · right
    rw [if_pos hB]
    refine ⟨_, rfl, ?_, rfl, rfl, rfl⟩
    unfold stepActive
    rw [if_neg (by rw [hB]; decide)]
  · rw [if_neg hB]
    by_cases hC : log.log_record_type = LogRecordType.COMMIT ∨
        log.log_record_type = LogRecordType.ABORT
    · right
      rw [if_pos hC, kmapFind_kmapSet_self]
      refine ⟨_, rfl, ?_, rfl, rfl, rfl⟩
      unfold stepActive
      rw [if_pos hC]
    · rw [if_neg hC]
      have hC1 : log.log_record_type ≠ LogRecordType.COMMIT := fun e => hC (Or.inl e)
      have hC2 : log.log_record_type ≠ LogRecordType.ABORT := fun e => hC (Or.inr e)
      have hstep : kmapSet rc.active_txn log.txn_id log.lsn = stepActive rc.active_txn log := by
        unfold stepActive
        rw [if_neg hC]
      by_cases hN : log.log_record_type = LogRecordType.NEWPAGE
      · rw [if_pos hN]
        cases hp : redoNewPage cfg fuel rc.buffer_pool_manager log with
        | fault f =>
          left
          exact ⟨f, _, hB, hC1, hC2, Or.inl hp, rfl⟩
        | ok s =>
          right
          exact ⟨_, rfl, hstep, rfl, rfl, rfl⟩
      · rw [if_neg hN]
        cases hp : redoTuple cfg fuel rc.buffer_pool_manager log with
        | fault f =>
          left
          exact ⟨f, _, hB, hC1, hC2, Or.inr hp, rfl⟩
        | ok s =>
          right
          exact ⟨_, rfl, hstep, rfl, rfl, rfl⟩

theorem appended_facts (cfg : Config) (INVALID_TXN_ID : Int) (r : LogRecord)
    (h : LogRecord.Appended cfg INVALID_TXN_ID r) (hI : isInt32 cfg.INVALID_PAGE_ID)
    (hsmall : (r.bytes.length : Int) < 2147483648) :
    r.size = r.bytes.length ∧ isInt32 r.size ∧ (20 : Int) ≤ r.bytes.length := by
  obtain ⟨r0, lsn, hb, hlsn, hr⟩ := h
  have hl : r.bytes.length = r0.bytes.length := by rw [hr, stamp_length]
  obtain ⟨hint, -, hsize, -⟩ := LogRecord.Built_stamped cfg INVALID_TXN_ID r0 hb hI lsn hlsn
    (by rw [← hl]; exact hsmall)
  have hs : r.size = r0.size := by rw [hr]; rfl
  have h20 := LogRecord.length_bytes r
  refine ⟨by rw [hs, hsize, hl], ?_, by omega⟩
  rw [hs]
  exact hint.size

end LogRecovery
namespace LogRecovery

open BufferPoolManager

/-- The record loop of `Redo` on a window of the file that begins at a record
boundary: unless a replay on a page faults, it reads the records that lie in the
window one after the other and stops in front of the first record that does not
end in the window, or at the end of the file. -/
theorem redoLoop_records (cfg : Config) (LOG_BUFFER_SIZE INVALID_TXN_ID : Int) (fuel : Nat)
    (bufferStart : Int) (recs : List LogRecord) (w : Int)
    (hL : LOG_BUFFER_SIZE < 2147483648) (hI : isInt32 cfg.INVALID_PAGE_ID) :
    ∀ (todo done : List LogRecord), recs = done ++ todo →
    (∀ r ∈ todo, LogRecord.Appended cfg INVALID_TXN_ID r ∧
      (r.bytes.length : Int) < 2147483648) →
    ∀ (m : Nat) (rc : LogRecovery) (bo : Int) (g0 : LogRecord), todo.length < m →
      Win (logBytes recs) rc.log_buffer w LOG_BUFFER_SIZE → 0 ≤ bo → bo ≤ LOG_BUFFER_SIZE →
      w + bo = (logBytes done).length →
      (∃ f s r log, r ∈ recs ∧ LogRecord.Reproduces r log ∧
        log.log_record_type ≠ LogRecordType.BEGIN ∧
        log.log_record_type ≠ LogRecordType.COMMIT ∧
        log.log_record_type ≠ LogRecordType.ABORT ∧
        (redoNewPage cfg fuel s log = Outcome.fault f ∨
          redoTuple cfg fuel s log = Outcome.fault f) ∧
        redoLoop cfg LOG_BUFFER_SIZE fuel bufferStart m rc bo g0 = Outcome.fault f) ∨
      (∃ rc1 k, k ≤ todo.length ∧
        redoLoop cfg LOG_BUFFER_SIZE fuel bufferStart m rc bo g0 =
          Outcome.ok (rc1, bo + (logBytes (todo.take k)).length) ∧
        bo + (logBytes (todo.take k)).length ≤ LOG_BUFFER_SIZE ∧
        rc1.active_txn = foldActive rc.active_txn (todo.take k) ∧
        rc1.log_buffer = rc.log_buffer ∧ rc1.log_file = rc.log_file ∧
        rc1.offset = rc.offset ∧
        (∀ r tl, todo.drop k = r :: tl →
          LOG_BUFFER_SIZE < bo + (logBytes (todo.take k)).length + r.bytes.length)) := by
  intro todo
  induction todo with
  | nil =>
    intro done hrecs _ m rc bo g0 hm hw hbo0 hbo1 hpos
    obtain ⟨m1, rfl⟩ : ∃ m1, m = m1 + 1 := ⟨m - 1, by simp at hm; omega⟩
    right
    have hfile : ((logBytes recs).length : Int) ≤ w + bo := by
      rw [hrecs, List.append_nil, hpos]
    obtain ⟨log, hD⟩ := Deserialize_past_end LOG_BUFFER_SIZE (logBytes recs) rc.log_buffer w hw
      bo hbo0 hfile g0
    refine ⟨rc, 0, le_refl _, ?_, ?_, rfl, rfl, rfl, rfl, ?_⟩
    · rw [redoLoop_end cfg LOG_BUFFER_SIZE fuel bufferStart m1 rc bo g0 log hD]
      simp [logBytes]
    · simp [logBytes]
      exact hbo1
    · intro r tl h
      simp at h
  | cons r tl ih =>
    intro done hrecs happ m rc bo g0 hm hw hbo0 hbo1 hpos
    obtain ⟨m1, rfl⟩ : ∃ m1, m = m1 + 1 := ⟨m - 1, by simp at hm; omega⟩
    have hm1 : tl.length < m1 := by simp at hm; omega
    have hfile : logBytes recs = logBytes done ++ r.bytes ++ logBytes tl := by
      rw [hrecs, logBytes_append]
      show logBytes done ++ (r.bytes ++ logBytes tl) = _
      rw [List.append_assoc]
    obtain ⟨hr, hsmall⟩ := happ r (List.mem_cons_self _ _)
    by_cases hfit : bo + r.bytes.length ≤ LOG_BUFFER_SIZE
    · -- the record lies in the window
      obtain ⟨hsize, -, -⟩ := appended_facts cfg INVALID_TXN_ID r hr hI hsmall
      obtain ⟨r0, lsn, hb, hlsn, hr0⟩ := hr
      have hl0 : r0.bytes.length = r.bytes.length := by rw [hr0, stamp_length]
      have hread : rdBytes rc.log_buffer bo (r.bytes.length : Nat) = r.bytes :=
        win_record (logBytes recs) rc.log_buffer w LOG_BUFFER_SIZE hw (logBytes done) r.bytes
          (logBytes tl) hfile bo hbo0 hpos hfit
      obtain ⟨log, hD, hrep⟩ := stamped_deserialize cfg INVALID_TXN_ID LOG_BUFFER_SIZE r0 hb hI
        lsn hlsn (by rw [hl0]; exact hsmall) rc.log_buffer bo (by rw [hl0]; exact hfit)
        (by
          have e : ({ r0 with lsn := lsn } : LogRecord) = r := hr0.symm
          rw [e]
          exact hread) g0
      have hrep1 : LogRecord.Reproduces r log := by
        have e : ({ r0 with lsn := lsn } : LogRecord) = r := hr0.symm
        rw [e] at hrep
        exact hrep
      have hmem : r ∈ recs := by
        rw [hrecs]
        exact List.mem_append_right _ (List.mem_cons_self _ _)
      have hlsz : log.size = r.bytes.length := by rw [hrep1.size, hsize]
      rcases redoLoop_step cfg LOG_BUFFER_SIZE fuel bufferStart m1 rc bo g0 log hD with
        ⟨f, s, h1, h2, h3, h4, h5⟩ | ⟨rc1, hgo, hact, hbuf, hfl, hoff⟩
      · left
        exact ⟨f, s, r, log, hmem, hrep1, h1, h2, h3, h4, h5⟩
      · rw [hlsz] at hgo
        have hrecs1 : recs = (done ++ [r]) ++ tl := by
          rw [hrecs, List.append_assoc]
          rfl
        have hpos1 : w + (bo + r.bytes.length) = ((logBytes (done ++ [r])).length : Int) := by
          rw [logBytes_append, logBytes_single, List.length_append]
          push_cast
          omega
        rcases ih (done ++ [r]) hrecs1 (fun x hx => happ x (List.mem_cons_of_mem _ hx)) m1 rc1
            (bo + r.bytes.length) log hm1 (by rw [hbuf]; exact hw) (by omega) hfit hpos1 with
          ⟨f, s, r1, log1, h0, h1, h2, h3, h4, h5, h6⟩ |
          ⟨rc2, k, hk, hres, hle, hact2, hbuf2, hfl2, hoff2, hstop⟩
        · left
          exact ⟨f, s, r1, log1, h0, h1, h2, h3, h4, h5, by rw [hgo]; exact h6⟩
        · right
          have hlen : ((logBytes ((r :: tl).take (k + 1))).length : Int) =
              r.bytes.length + (logBytes (tl.take k)).length := by
            show ((r.bytes ++ logBytes (tl.take k)).length : Int) = _
            rw [List.length_append]
            push_cast
            rfl
          refine ⟨rc2, k + 1, by simp; omega, ?_, ?_, ?_, by rw [hbuf2, hbuf],
            by rw [hfl2, hfl], by rw [hoff2, hoff], ?_⟩
          · rw [hgo, hres, hlen]
            congr 2
            omega
          · rw [hlen]
            omega
          · rw [hact2, hact, stepActive_congr _ r log hrep1]
            rfl
          · intro r2 tl2 h
            rw [hlen]
            have := hstop r2 tl2 (by simpa using h)
            omega
    · -- the record ends behind the window
      right
      obtain ⟨hsize, hint, -⟩ := appended_facts cfg INVALID_TXN_ID r hr hI hsmall
      obtain ⟨log, hD⟩ := Deserialize_cut_record LOG_BUFFER_SIZE (logBytes recs) rc.log_buffer w hw
        r hsize hint (logBytes done) (logBytes tl) hfile bo hbo0 hpos (by omega) g0
      refine ⟨rc, 0, Nat.zero_le _, ?_, ?_, rfl, rfl, rfl, rfl, ?_⟩
      · rw [redoLoop_end cfg LOG_BUFFER_SIZE fuel bufferStart m1 rc bo g0 log hD]
        simp [logBytes]
      · simp [logBytes]
        exact hbo1
      · intro r2 tl2 h
        simp at h
        rw [← h.1]
        simp [logBytes]
        omega

end LogRecovery
namespace LogRecovery

open BufferPoolManager

theorem redoChunks_fault (cfg : Config) (LOG_BUFFER_SIZE INVALID_TXN_ID : Int)
    (fuel fuelLoop n : Nat) (rc : LogRecovery) (bo : Int) (bytes : List Nat) (f : Fault)
    (h : DiskManager.ReadLog rc.log_file (LOG_BUFFER_SIZE - bo) rc.offset = some bytes)
    (hl : redoLoop cfg LOG_BUFFER_SIZE fuel rc.offset fuelLoop
      { rc with log_buffer := wrBytes rc.log_buffer bo bytes,
                offset := rc.offset + (LOG_BUFFER_SIZE - bo) } 0
      (LogRecord.new cfg INVALID_TXN_ID) = Outcome.fault f) :
    redoChunks cfg LOG_BUFFER_SIZE INVALID_TXN_ID fuel fuelLoop (n + 1) rc bo =
      Outcome.fault f := by
  rw [redoChunks, h]
  simp only
  rw [hl]

theorem foldActive_append (a : List (Int × Int)) (xs ys : List LogRecord) :
    foldActive a (xs ++ ys) = foldActive (foldActive a xs) ys := by
  unfold foldActive
  rw [List.foldl_append]

/-- The chunk loop of `Redo` from a record boundary on: unless a replay on a page
faults, it returns with `active_txn_` updated for every record that was still to
read. -/
theorem redoChunks_records (cfg : Config) (LOG_BUFFER_SIZE INVALID_TXN_ID : Int)
    (fuel fuelLoop : Nat) (recs : List LogRecord) (hL : LOG_BUFFER_SIZE < 2147483648)
    (hI : isInt32 cfg.INVALID_PAGE_ID)
    (hrecs : ∀ r ∈ recs, LogRecord.Appended cfg INVALID_TXN_ID r ∧
      (r.bytes.length : Int) ≤ LOG_BUFFER_SIZE)
    (hfl : recs.length < fuelLoop) :
    ∀ (n : Nat) (todo done : List LogRecord), recs = done ++ todo → todo.length < n →
    ∀ (rc : LogRecovery) (rest : Int), rc.log_file = logBytes recs →
      (rc.log_buffer.length : Int) = LOG_BUFFER_SIZE → 0 ≤ rest →
      rc.offset = (logBytes done).length + rest →
      (∀ x, 0 ≤ x → x < rest →
        getByte rc.log_buffer x = getByte (logBytes recs) ((logBytes done).length + x)) →
      (∀ r tl, todo = r :: tl → rest < r.bytes.length) →
      (∃ f s r log, r ∈ recs ∧ LogRecord.Reproduces r log ∧
        log.log_record_type ≠ LogRecordType.BEGIN ∧
        log.log_record_type ≠ LogRecordType.COMMIT ∧
        log.log_record_type ≠ LogRecordType.ABORT ∧
        (redoNewPage cfg fuel s log = Outcome.fault f ∨
          redoTuple cfg fuel s log = Outcome.fault f) ∧
        redoChunks cfg LOG_BUFFER_SIZE INVALID_TXN_ID fuel fuelLoop n rc rest =
          Outcome.fault f) ∨
      (∃ rc1, redoChunks cfg LOG_BUFFER_SIZE INVALID_TXN_ID fuel fuelLoop n rc rest =
          Outcome.ok rc1 ∧
        rc1.active_txn = foldActive rc.active_txn todo) := by
  intro n
  induction n with
  | zero =>
    intro todo done _ h
    exact absurd h (Nat.not_lt_zero _)
  | succ n ih =>
    intro todo done hsplit hn rc rest hfile hbuf hrest hoff hkeep hfirst
    cases todo with
    | nil =>
      right
      refine ⟨rc, ?_, rfl⟩
      apply redoChunks_stop
      unfold DiskManager.ReadLog
      rw [if_pos]
      rw [hfile, hoff, hsplit, List.append_nil]
      omega
    | cons r tl =>
      have hr := hrecs r (by rw [hsplit]; exact List.mem_append_right _ (List.mem_cons_self _ _))
      have hrest1 := hfirst r tl rfl
      have hflen : ((logBytes recs).length : Int) =
          (logBytes done).length + (r.bytes.length + (logBytes tl).length) := by
        rw [hsplit, logBytes_append]
        show (((logBytes done) ++ (r.bytes ++ logBytes tl)).length : Int) = _
        rw [List.length_append, List.length_append]
        push_cast
        rfl
      have hread : DiskManager.ReadLog rc.log_file (LOG_BUFFER_SIZE - rest) rc.offset =
          some (rdBytes rc.log_file rc.offset (LOG_BUFFER_SIZE - rest)) := by
        unfold DiskManager.ReadLog
        rw [if_neg]
        rw [hfile, hoff, hflen]
        omega
      obtain ⟨rcA, hrcA⟩ : ∃ rcA : LogRecovery, rcA =
          { rc with log_buffer := wrBytes rc.log_buffer rest
                      (rdBytes rc.log_file rc.offset (LOG_BUFFER_SIZE - rest)),
                    offset := rc.offset + (LOG_BUFFER_SIZE - rest) } := ⟨_, rfl⟩
      have hAbuf : rcA.log_buffer = wrBytes rc.log_buffer rest
          (rdBytes rc.log_file rc.offset (LOG_BUFFER_SIZE - rest)) := by rw [hrcA]
      have hAfile : rcA.log_file = rc.log_file := by rw [hrcA]
      have hAoff : rcA.offset = rc.offset + (LOG_BUFFER_SIZE - rest) := by rw [hrcA]
      have hAact : rcA.active_txn = rc.active_txn := by rw [hrcA]
      have hwin : Win (logBytes recs) rcA.log_buffer (logBytes done).length LOG_BUFFER_SIZE := by
        rw [hAbuf, hfile]
        exact win_read (logBytes recs) rc.log_buffer _ LOG_BUFFER_SIZE rc.offset rest hbuf hrest
          (by omega) hoff hkeep
      have htodo : ∀ x ∈ r :: tl, LogRecord.Appended cfg INVALID_TXN_ID x ∧
          (x.bytes.length : Int) < 2147483648 := by
        intro x hx
        have := hrecs x (by rw [hsplit]; exact List.mem_append_right _ hx)
        exact ⟨this.1, by omega⟩
      have hlt : (r :: tl).length < fuelLoop := by
        have : (r :: tl).length ≤ recs.length := by
          rw [hsplit, List.length_append]
          omega
        omega
      rcases redoLoop_records cfg LOG_BUFFER_SIZE INVALID_TXN_ID fuel rc.offset recs
          (logBytes done).length hL hI (r :: tl) done hsplit htodo fuelLoop rcA 0
          (LogRecord.new cfg INVALID_TXN_ID) hlt hwin (le_refl _) (by omega) (by omega) with
        ⟨f, s, r1, log1, h0, h1, h2, h3, h4, h5, h6⟩ |
        ⟨rc2, k, hk, hres, hle, hact2, hbuf2, hfl2, hoff2, hstop⟩
      · left
        refine ⟨f, s, r1, log1, h0, h1, h2, h3, h4, h5, ?_⟩
        apply redoChunks_fault cfg LOG_BUFFER_SIZE INVALID_TXN_ID fuel fuelLoop n rc rest _ f hread
        rw [← hrcA]
        exact h6
      · have hk1 : 1 ≤ k := by
          by_contra hk0
          have hz : k = 0 := by omega
          subst hz
          have := hstop r tl rfl
          simp [logBytes] at this
          omega
        obtain ⟨bo2, hbo2⟩ : ∃ bo2 : Int, bo2 = 0 + ((logBytes ((r :: tl).take k)).length : Int) :=
          ⟨_, rfl⟩
        rw [← hbo2] at hres hle hstop
        have hstep := redoChunks_step cfg LOG_BUFFER_SIZE INVALID_TXN_ID fuel fuelLoop n rc rest
          _ rc2 bo2 hread (by rw [← hrcA]; exact hres)
        rw [hstep]
        have hsplit2 : recs = (done ++ (r :: tl).take k) ++ (r :: tl).drop k := by
          rw [List.append_assoc, List.take_append_drop]
          exact hsplit
        have hdone2 : ((logBytes (done ++ (r :: tl).take k)).length : Int) =
            (logBytes done).length + bo2 := by
          rw [logBytes_append, List.length_append, hbo2]
          push_cast
          omega
        have hwin2 : Win (logBytes recs) rc2.log_buffer (logBytes done).length
            LOG_BUFFER_SIZE := by
          rw [hbuf2]
          exact hwin
        have hlen2 : (rc2.log_buffer.length : Int) = LOG_BUFFER_SIZE := by
          rw [hbuf2, hAbuf, length_wrBytes]
          exact hbuf
        have hbo20 : 0 ≤ bo2 := by omega
        rcases ih ((r :: tl).drop k) (done ++ (r :: tl).take k) hsplit2
            (by rw [List.length_drop]; simp at hn ⊢; omega)
            { rc2 with log_buffer := (wrBytes rc2.log_buffer 0
                (rdBytes rc2.log_buffer bo2 (LOG_BUFFER_SIZE - bo2))) }
            (LOG_BUFFER_SIZE - bo2)
            (by show rc2.log_file = _; rw [hfl2, hAfile, hfile])
            (by
              show (((wrBytes rc2.log_buffer 0 _).length : Nat) : Int) = _
              rw [length_wrBytes]
              exact hlen2)
            (by omega)
            (by
              show rc2.offset = _
              rw [hoff2, hAoff, hoff, hdone2]
              omega)
            (by
              intro x hx0 hx1
              show getByte (wrBytes rc2.log_buffer 0 _) x = _
              rw [win_move (logBytes recs) rc2.log_buffer _ LOG_BUFFER_SIZE bo2 hwin2 hlen2 hbo20
                hle x hx0 hx1, hdone2])
            (by
              intro r2 tl2 h
              have := hstop r2 tl2 h
              omega) with
          ⟨f, s, r1, log1, h0, h1, h2, h3, h4, h5, h6⟩ | ⟨rc3, hres3, hact3⟩
        · left
          exact ⟨f, s, r1, log1, h0, h1, h2, h3, h4, h5, h6⟩
        · right
          refine ⟨rc3, hres3, ?_⟩
          rw [hact3]
          show foldActive rc2.active_txn _ = _
          rw [hact2, hAact, ← foldActive_append, List.take_append_drop]

/-- Method `Redo` on the log file that holds the records `recs`: unless a replay
on a page faults, it returns with `active_txn_` updated for every record. -/
theorem Redo_active (cfg : Config) (LOG_BUFFER_SIZE INVALID_TXN_ID : Int)
    (fuel fuelLoop fuelChunks : Nat) (recs : List LogRecord)
    (hL : LOG_BUFFER_SIZE < 2147483648) (hI : isInt32 cfg.INVALID_PAGE_ID)
    (hrecs : ∀ r ∈ recs, LogRecord.Appended cfg INVALID_TXN_ID r ∧
      (r.bytes.length : Int) ≤ LOG_BUFFER_SIZE)
    (hfl : recs.length < fuelLoop) (hfc : recs.length < fuelChunks) (rc : LogRecovery)
    (hfile : rc.log_file = logBytes recs)
    (hbuf : (rc.log_buffer.length : Int) = LOG_BUFFER_SIZE) :
    (∃ f s r log, r ∈ recs ∧ LogRecord.Reproduces r log ∧
      log.log_record_type ≠ LogRecordType.BEGIN ∧
      log.log_record_type ≠ LogRecordType.COMMIT ∧
      log.log_record_type ≠ LogRecordType.ABORT ∧
      (redoNewPage cfg fuel s log = Outcome.fault f ∨
        redoTuple cfg fuel s log = Outcome.fault f) ∧
      Redo cfg LOG_BUFFER_SIZE INVALID_TXN_ID fuel fuelLoop fuelChunks rc = Outcome.fault f) ∨
    (∃ rc1, Redo cfg LOG_BUFFER_SIZE INVALID_TXN_ID fuel fuelLoop fuelChunks rc =
        Outcome.ok rc1 ∧
      rc1.active_txn = foldActive rc.active_txn recs) := by
  unfold Redo
  apply redoChunks_records cfg LOG_BUFFER_SIZE INVALID_TXN_ID fuel fuelLoop recs hL hI hrecs hfl
    fuelChunks recs [] rfl hfc { rc with offset := 0 } 0 hfile hbuf (le_refl _)
  · show (0 : Int) = ((logBytes []).length : Int) + 0
    rfl
  · intro x h0 h1
    omega
  · intro r tl h
    have hr := hrecs r (by rw [h]; exact List.mem_cons_self _ _)
    have := appended_facts cfg INVALID_TXN_ID r hr.1 hI (by omega)
    omega

end LogRecovery
namespace LogRecovery

open BufferPoolManager

/-- The table that the statements of `stepActive` build from the empty table for a
log in which no record of a transaction follows its COMMIT or ABORT record: the
transactions with a record and without a COMMIT or ABORT record, each with the lsn
of its last record. -/
theorem foldActive_spec (recs : List LogRecord)
    (hwf : recs.Pairwise (fun r r2 =>
      (r.log_record_type = LogRecordType.COMMIT ∨ r.log_record_type = LogRecordType.ABORT) →
        r2.txn_id ≠ r.txn_id))
    (t l : Int) :
    kmapFind (foldActive [] recs) t = some l ↔
      ((∃ r, (recs.filter (fun r => decide (r.txn_id = t))).getLast? = some r ∧ r.lsn = l) ∧
        ∀ r ∈ recs, r.txn_id = t →
          r.log_record_type ≠ LogRecordType.COMMIT ∧ r.log_record_type ≠ LogRecordType.ABORT) := by
  induction recs using List.reverseRecOn generalizing l with
  | nil =>
    simp [foldActive, kmapFind]
  | append_singleton rs x ih =>
    rw [List.pairwise_append] at hwf
    obtain ⟨hrs, -, hx⟩ := hwf
    have ih1 := ih hrs
    rw [foldActive_append]
    show kmapFind (stepActive (foldActive [] rs) x) t = some l ↔ _
    by_cases ht : t = x.txn_id
    · -- the transaction of the last record
      have hfil : (rs ++ [x]).filter (fun r => decide (r.txn_id = t)) =
          rs.filter (fun r => decide (r.txn_id = t)) ++ [x] := by
        rw [List.filter_append]
        congr 1
        simp [ht]
      have hlast : (rs.filter (fun r => decide (r.txn_id = t)) ++ [x]).getLast? = some x := by
        simp
      rw [hfil, hlast]
      unfold stepActive
      by_cases hend : x.log_record_type = LogRecordType.COMMIT ∨
          x.log_record_type = LogRecordType.ABORT
      · rw [if_pos hend, kmapFind_kmapErase, if_pos ht]
        constructor
        · intro h
          cases h
        · rintro ⟨-, h⟩
          have := h x (List.mem_append_right _ (List.mem_singleton_self x)) ht.symm
          rcases hend with e | e
          · exact absurd e this.1
          · exact absurd e this.2
      · rw [if_neg hend, kmapFind_kmapSet, if_pos ht]
        constructor
        · intro h
          have hl : x.lsn = l := by
            cases h
            rfl
          refine ⟨⟨x, rfl, hl⟩, ?_⟩
          intro r hr hrt
          rw [List.mem_append, List.mem_singleton] at hr
          rcases hr with hr | hr
          · have hno := hx r hr x (List.mem_singleton_self x)
            constructor
            · intro e
              exact hno (Or.inl e) (by rw [hrt, ht])
            · intro e
              exact hno (Or.inr e) (by rw [hrt, ht])
          · rw [hr]
            exact ⟨fun e => hend (Or.inl e), fun e => hend (Or.inr e)⟩
        · rintro ⟨⟨r, hr, hl⟩, -⟩
          cases hr
          rw [hl]
    · -- another transaction
      have hfil : (rs ++ [x]).filter (fun r => decide (r.txn_id = t)) =
          rs.filter (fun r => decide (r.txn_id = t)) := by
        rw [List.filter_append]
        have : [x].filter (fun r => decide (r.txn_id = t)) = [] := by
          simp [Ne.symm ht]
        rw [this, List.append_nil]
      have hall : (∀ r ∈ rs ++ [x], r.txn_id = t →
          r.log_record_type ≠ LogRecordType.COMMIT ∧ r.log_record_type ≠ LogRecordType.ABORT) ↔
          (∀ r ∈ rs, r.txn_id = t →
            r.log_record_type ≠ LogRecordType.COMMIT ∧
              r.log_record_type ≠ LogRecordType.ABORT) := by
        constructor
        · intro h r hr
          exact h r (List.mem_append_left _ hr)
        · intro h r hr hrt
          rw [List.mem_append, List.mem_singleton] at hr
          rcases hr with hr | hr
          · exact h r hr hrt
          · rw [hr] at hrt
            exact absurd hrt.symm ht
      rw [hfil, hall, ← ih1 l]
      unfold stepActive
      by_cases hend : x.log_record_type = LogRecordType.COMMIT ∨
          x.log_record_type = LogRecordType.ABORT
      · rw [if_pos hend, kmapFind_kmapErase, if_neg ht, kmapFind_kmapSet, if_neg ht]
      · rw [if_neg hend, kmapFind_kmapSet, if_neg ht]

end LogRecovery
namespace LogRecovery

open BufferPoolManager

/-- C36: the log file holds the records `recs`, each as `AppendLogRecord` writes
it and none longer than the log buffer, and no record of a transaction follows its
COMMIT or ABORT record; `active_txn_` is empty, as after construction.  With fuel
for more rounds than there are records, `Redo` returns unless the replay of a
record on its page ends in a fault, and after `Redo` the table `active_txn_` maps
a transaction id `t` to `l` exactly when `t` has a record, has no COMMIT or ABORT
record, and `l` is the lsn of the last record of `t` in the log; this holds also
for a log longer than the log buffer. -/
theorem C36_active_txn_after_redo (cfg : Config) (LOG_BUFFER_SIZE INVALID_TXN_ID : Int)
    (fuel fuelLoop fuelChunks : Nat) (recs : List LogRecord) (rc : LogRecovery)
    (hL : LOG_BUFFER_SIZE < 2147483648) (hI : isInt32 cfg.INVALID_PAGE_ID)
    (hrecs : ∀ r ∈ recs, LogRecord.Appended cfg INVALID_TXN_ID r ∧
      (r.bytes.length : Int) ≤ LOG_BUFFER_SIZE)
    (hwf : recs.Pairwise (fun r r2 =>
      (r.log_record_type = LogRecordType.COMMIT ∨ r.log_record_type = LogRecordType.ABORT) →
        r2.txn_id ≠ r.txn_id))
    (hfile : rc.log_file = logBytes recs)
    (hbuf : (rc.log_buffer.length : Int) = LOG_BUFFER_SIZE) (hact : rc.active_txn = [])
    (hfl : recs.length < fuelLoop) (hfc : recs.length < fuelChunks) :
    (∃ rc1, Redo cfg LOG_BUFFER_SIZE INVALID_TXN_ID fuel fuelLoop fuelChunks rc =
        Outcome.ok rc1 ∧
      ∀ t l, kmapFind rc1.active_txn t = some l ↔
        ((∃ r, (recs.filter (fun r => decide (r.txn_id = t))).getLast? = some r ∧ r.lsn = l) ∧
          ∀ r ∈ recs, r.txn_id = t →
            r.log_record_type ≠ LogRecordType.COMMIT ∧
              r.log_record_type ≠ LogRecordType.ABORT)) ∨
    (∃ f s r log, r ∈ recs ∧ LogRecord.Reproduces r log ∧
      r.log_record_type ≠ LogRecordType.BEGIN ∧ r.log_record_type ≠ LogRecordType.COMMIT ∧
      r.log_record_type ≠ LogRecordType.ABORT ∧
      (redoNewPage cfg fuel s log = Outcome.fault f ∨
        redoTuple cfg fuel s log = Outcome.fault f) ∧
      Redo cfg LOG_BUFFER_SIZE INVALID_TXN_ID fuel fuelLoop fuelChunks rc = Outcome.fault f) := by
  rcases Redo_active cfg LOG_BUFFER_SIZE INVALID_TXN_ID fuel fuelLoop fuelChunks recs hL hI hrecs
      hfl hfc rc hfile hbuf with
    ⟨f, s, r, log, h0, h1, h2, h3, h4, h5, h6⟩ | ⟨rc1, hres, hact1⟩
  · right
    rw [h1.type] at h2 h3 h4
    exact ⟨f, s, r, log, h0, h1, h2, h3, h4, h5, h6⟩
  · left
    refine ⟨rc1, hres, ?_⟩
    intro t l
    rw [hact1, hact]
    exact foldActive_spec recs hwf t l

theorem demoRecords4_appended : ∀ r ∈ demoRecords4,
    LogRecord.Appended TablePage.demoPageConfig (-1) r ∧ (r.bytes.length : Int) ≤ 48 := by
  intro r hr
  unfold demoRecords4 at hr
  simp only [List.mem_cons, List.mem_singleton, List.not_mem_nil, or_false] at hr
  rcases hr with h | h | h | h
  · rw [h]
    exact ⟨⟨_, 0, LogRecord.Built.txn 1 (-1) LogRecordType.BEGIN (by decide) (by decide)
      (Or.inl rfl), by decide, rfl⟩, by decide⟩
  · rw [h]
    exact ⟨⟨_, 1, LogRecord.Built.txn 2 (-1) LogRecordType.BEGIN (by decide) (by decide)
      (Or.inl rfl), by decide, rfl⟩, by decide⟩
  · rw [h]
    exact ⟨⟨_, 2, LogRecord.Built.txn 3 (-1) LogRecordType.BEGIN (by decide) (by decide)
      (Or.inl rfl), by decide, rfl⟩, by decide⟩
  · rw [h]
    exact ⟨⟨_, 3, LogRecord.Built.txn 2 1 LogRecordType.COMMIT (by decide) (by decide)
      (Or.inr (Or.inl rfl)), by decide, rfl⟩, by decide⟩

set_option maxRecDepth 100000 in
theorem C36_active_txn_after_redo_witness :
    ((∀ r ∈ demoRecords4,
        LogRecord.Appended TablePage.demoPageConfig (-1) r ∧ (r.bytes.length : Int) ≤ 48) ∧
      demoRecords4.Pairwise (fun r r2 =>
        (r.log_record_type = LogRecordType.COMMIT ∨ r.log_record_type = LogRecordType.ABORT) →
          r2.txn_id ≠ r.txn_id) ∧
      demoRecovery4.log_file = logBytes demoRecords4 ∧ demoRecovery4.log_file.length = 80 ∧
      (demoRecovery4.log_buffer.length : Int) = 48 ∧ demoRecovery4.active_txn = []) ∧
    (∃ rc1, Redo TablePage.demoPageConfig 48 (-1) 33 5 5 demoRecovery4 = Outcome.ok rc1 ∧
      rc1.active_txn = [(1, 0), (3, 2)]) ∧
    ((∃ rc1, Redo TablePage.demoPageConfig 48 (-1) 33 5 5 demoRecovery4 = Outcome.ok rc1 ∧
      ∀ t l, kmapFind rc1.active_txn t = some l ↔
        ((∃ r, (demoRecords4.filter (fun r => decide (r.txn_id = t))).getLast? = some r ∧
            r.lsn = l) ∧
          ∀ r ∈ demoRecords4, r.txn_id = t →
            r.log_record_type ≠ LogRecordType.COMMIT ∧
              r.log_record_type ≠ LogRecordType.ABORT)) ∨
    (∃ f s r log, r ∈ demoRecords4 ∧ LogRecord.Reproduces r log ∧
      r.log_record_type ≠ LogRecordType.BEGIN ∧ r.log_record_type ≠ LogRecordType.COMMIT ∧
      r.log_record_type ≠ LogRecordType.ABORT ∧
      (redoNewPage TablePage.demoPageConfig 33 s log = Outcome.fault f ∨
        redoTuple TablePage.demoPageConfig 33 s log = Outcome.fault f) ∧
      Redo TablePage.demoPageConfig 48 (-1) 33 5 5 demoRecovery4 = Outcome.fault f)) :=
  ⟨⟨demoRecords4_appended, by decide, rfl, by decide, by decide, rfl⟩,
    ⟨_, rfl, rfl⟩,
    C36_active_txn_after_redo TablePage.demoPageConfig 48 (-1) 33 5 5 demoRecords4 demoRecovery4
      (by decide) (by decide) demoRecords4_appended (by decide) rfl (by decide) rfl (by decide)
      (by decide)⟩

end LogRecovery

namespace LeafPage

variable {V : Type}

end LeafPage

namespace BPlusTree

variable {V : Type}

end BPlusTree

namespace TreePage

variable {V : Type}

end TreePage

namespace BPlusTree

variable {V : Type}

theorem Chain_mono {R S : Option Int → Int → Option Int → Prop}
    (h : ∀ lo c hi, R lo c hi → S lo c hi) :
    ∀ (rest : List (Int × Int)) (lo : Option Int) (c : Int) (hi : Option Int),
      Chain R lo c rest hi → Chain S lo c rest hi := by
  intro rest
  induction rest with
  | nil => intro lo c hi hc; exact h _ _ _ hc
  | cons e rest ih =>
    intro lo c hi hc
    exact ⟨h _ _ _ hc.1, ih _ _ _ hc.2⟩

end BPlusTree

namespace BPlusTree

variable {V : Type}

end BPlusTree

namespace BPlusTree

variable {V : Type}

end BPlusTree

namespace BPlusTree

variable {V : Type}

end BPlusTree

namespace BPlusTree

variable {V : Type}

end BPlusTree

namespace BPlusTree

variable {V : Type}

end BPlusTree

namespace BPlusTree

variable {V : Type}

end BPlusTree

namespace BPlusTree

variable {V : Type}

end BPlusTree

namespace BPlusTree

variable {V : Type}

end BPlusTree

namespace BPlusTree

variable {V : Type}

end BPlusTree

namespace BPlusTree

variable {V : Type}

end BPlusTree

namespace BPlusTree

variable {V : Type}

end BPlusTree

namespace BPlusTree

variable {V : Type}

end BPlusTree

namespace BPlusTree

variable {V : Type}

end BPlusTree

namespace BPlusTree

variable {V : Type}

end BPlusTree

namespace BPlusTree

variable {V : Type}

end BPlusTree

namespace BPlusTree

variable {V : Type}

end BPlusTree

namespace BPlusTree

variable {V : Type}

end BPlusTree

namespace BPlusTree

variable {V : Type}

end BPlusTree

namespace BPlusTree

variable {V : Type}

end BPlusTree

namespace BPlusTree

variable {V : Type}

end BPlusTree

namespace BPlusTree

variable {V : Type}

end BPlusTree

namespace BPlusTree

variable {V : Type}

end BPlusTree

namespace BPlusTree

variable {V : Type}

end BPlusTree

namespace BPlusTree

variable {V : Type}

end BPlusTree

namespace BPlusTree

variable {V : Type}

end BPlusTree

namespace BPlusTree

variable {V : Type}

end BPlusTree

namespace BPlusTree

variable {V : Type}

end BPlusTree

namespace BPlusTree

variable {V : Type}

end BPlusTree

namespace BPlusTree

variable {V : Type}

end BPlusTree

namespace BPlusTree

variable {V : Type}

end BPlusTree

namespace BPlusTree

variable {V : Type}

end BPlusTree

namespace BPlusTree

variable {V : Type}

end BPlusTree

namespace BPlusTree

variable {V : Type}

end BPlusTree

namespace BPlusTree

variable {V : Type}

end BPlusTree

namespace BPlusTree

variable {V : Type}

end BPlusTree

namespace LogRecovery
open BufferPoolManager TablePage

end LogRecovery
namespace LogRecovery
open BufferPoolManager TablePage

set_option maxRecDepth 100000 in
/-- C28: a pool of two frames over a disk on which page 7 has lsn 0, and the log of
transaction 1 that inserts `demoTuple` at slot 0 of page 7 (INSERT, lsn 1) and
then allocates the pages 8 and 9 behind it (NEWPAGE, lsn 2 and lsn 3).  After the
INSERT record `Redo` holds page 7 in frame 0 with lsn 1, dirty.  The NEWPAGE
record of page 8 fetches page 7 as the predecessor and unpins it with
`is_dirty = false`, and `UnpinPage` assigns the flag: page 7 keeps lsn 1 in the
pool but counts as clean.  The NEWPAGE record of page 9 takes frame 0 for page 9
without writing page 7 back.  At the end of `Redo` page 7 is the page on disk
again: a fetch returns it with lsn 0 and without the tuple.  The lsn of page 7
went from 1 back to 0 during `Redo`. -/
theorem C28_page_lsn_falls_back_during_redo :
    demoTablePage.GetLSN = 0 ∧
    ∃ rcA rcB rcC s,
      Redo demoPageConfig 128 (-1) 33 8 4
        (demoRecoveryOf [demoBeginOf 1 0, demoInsertRecord.stamp 1]) = Outcome.ok rcA ∧
      rcA.buffer_pool_manager.page_table.Find 7 = some 0 ∧
      (frame rcA.buffer_pool_manager 0).GetLSN = 1 ∧
      (pageAt rcA.buffer_pool_manager 0).is_dirty = true ∧
      Redo demoPageConfig 128 (-1) 33 8 4
        (demoRecoveryOf [demoBeginOf 1 0, demoInsertRecord.stamp 1, demoNewPage8]) =
          Outcome.ok rcB ∧
      rcB.buffer_pool_manager.page_table.Find 7 = some 0 ∧
      (frame rcB.buffer_pool_manager 0).GetLSN = 1 ∧
      (pageAt rcB.buffer_pool_manager 0).is_dirty = false ∧
      Redo demoPageConfig 128 (-1) 33 8 4
        (demoRecoveryOf [demoBeginOf 1 0, demoInsertRecord.stamp 1, demoNewPage8,
          demoNewPage9]) = Outcome.ok rcC ∧
      rcC.buffer_pool_manager.page_table.Find 7 = none ∧
      rcC.buffer_pool_manager.disk_manager.pages = [(7, demoTablePage.data)] ∧
      FetchPage demoPageConfig 33 rcC.buffer_pool_manager 7 = Outcome.ok (s, some 1) ∧
      (frame s 1).GetLSN = 0 ∧
      ∀ t0, GetTuple (frame s 1) ⟨7, 0⟩ t0 = (t0, false) :=
  ⟨rfl, _, _, _, _, rfl, rfl, rfl, rfl, rfl, rfl, rfl, rfl, rfl, rfl, rfl, rfl, rfl,
    fun _ => rfl⟩

end LogRecovery

end cmudb
